import Mathlib

/-!
# GPGPU-Sim shader core

A shallow embedding of `src/gpgpu-sim/scoreboard.cc` and of parts of
`src/gpgpu-sim/shader.cc` (the barrier set, the warp schedulers, the operand
collector with its bank arbiter, the result buses, the bookkeeping of fragment
heights, the writeback of the load/store unit and the translation of local-memory
addresses), followed by theorems about them.

Conventions of the embedding:

* a `std::bitset<N>` is a natural number below `2 ^ N`; bit `i` is
  `Nat.testBit _ i`.  `&` and `|` are `&&&` and `|||`, `~` is `bs_not N`;
* operations that may terminate the simulation return `Except Fault _`:
  `Fault.abort` for `abort()`, a failed `assert`, `exit(1)` or an uncaught
  `std::out_of_range`; `Fault.undefined` for behaviour the C++ standard leaves
  undefined (indexing a vector out of range, dereferencing `end()`);
* a `std::deque` is a `List` in iteration order; a `std::set<unsigned>` is a
  sorted duplicate-free `List Nat`; a `std::map` is a key-sorted association
  list.
-/

namespace GpgpuSim

/-! ## Faults -/

/-- The two ways an operation can fail to return. -/
inductive Fault where
  | abort
  | undefined
  deriving DecidableEq, Repr

deriving instance DecidableEq for Except

/-! ## Bit sets -/

/-- The member `any()` of `std::bitset`. -/
def bs_any (a : Nat) : Bool := a != 0

/-- The member `none()` of `std::bitset`. -/
def bs_none (a : Nat) : Bool := a == 0

/-- The operator `~` of `std::bitset<N>`: every one of the `N` bits flipped. -/
def bs_not (N a : Nat) : Nat := (2 ^ N - 1) ^^^ a

/-- The member `set(pos)` of `std::bitset`, for a position in range. -/
def bs_set (a pos : Nat) : Nat := a ||| 2 ^ pos

/-- The member `reset(pos)` of `std::bitset<N>`, for a position in range. -/
def bs_reset (N a pos : Nat) : Nat := a &&& bs_not N (2 ^ pos)

/-- Insertion into a `std::set<unsigned>`, kept as a sorted duplicate-free list. -/
def set_insert (x : Nat) (s : List Nat) : List Nat :=
  if x ∈ s then s else List.orderedInsert (fun a b => a ≤ b) x s

/-- The member `erase(key)` of `std::set<unsigned>`. -/
def set_erase (x : Nat) (s : List Nat) : List Nat := s.filter (fun y => y != x)

/-! ## Instructions (the part of `inst_t` / `warp_inst_t` the scoreboard reads) -/

/-- The enumeration `_memory_space_t` behind `memory_space_t::get_type()`. -/
inductive _memory_space_t where
  | undefined_space
  | reg_space
  | local_space
  | shared_space
  | param_space_unclassified
  | param_space_kernel
  | param_space_local
  | const_space
  | tex_space
  | surf_space
  | global_space
  | generic_space
  | instruction_space
  deriving DecidableEq, Repr

/-- The fields of `inst_t` used by the scoreboard.  `out` and `in` are
`unsigned [4]`; `pred`, `ar1` and `ar2` are signed in the simulator's headers, so
they are integers here (an unsigned field is the special case of a non-negative
value).  `is_load` is the value of the member function `is_load()`. -/
structure inst_t where
  out : Fin 4 → Nat
  in_ : Fin 4 → Nat
  pred : Int
  ar1 : Int
  ar2 : Int
  is_load : Bool
  space : _memory_space_t

/-- A `warp_inst_t`: an `inst_t` with the issuing warp and its active mask. -/
structure warp_inst_t extends inst_t where
  m_warp_id : Nat
  m_warp_active_mask : Nat

/-- The four-element array `{a, b, c, d}`. -/
def regs4 (a b c d : Nat) : Fin 4 → Nat := fun k =>
  match k.val with
  | 0 => a
  | 1 => b
  | 2 => c
  | _ => d

/-! ## Scoreboard -/

/-- One hazard entry (`struct reg_and_mask`). -/
structure reg_and_mask where
  reg : Nat
  active_mask : Nat
  deriving DecidableEq, Repr

/-- The state of a `Scoreboard`: `reg_table` and `longopregs`, one slot per warp. -/
structure Scoreboard where
  reg_table : List (List reg_and_mask)
  longopregs : List (List Nat)
  deriving DecidableEq, Repr

/-- The constructor `Scoreboard::Scoreboard(sid, n_warps)`. -/
def Scoreboard.init (n_warps : Nat) : Scoreboard :=
  { reg_table := List.replicate n_warps [], longopregs := List.replicate n_warps [] }

/-- The loop of `reserveRegister` over one warp's deque.  `none` is `abort()`;
otherwise the deque after the loop and the final value of `reserved`. -/
def reserveLoop (regnum active_mask : Nat) :
    List reg_and_mask → Nat → Option (List reg_and_mask × Nat)
  | [], reserved => some ([], reserved)
  | it :: rest, reserved =>
    if it.reg = regnum then
      if bs_any (it.active_mask &&& active_mask) then none
      else
        (reserveLoop regnum active_mask rest 1).map fun p =>
          ({ it with active_mask := it.active_mask ||| active_mask } :: p.1, p.2)
    else
      (reserveLoop regnum active_mask rest reserved).map fun p => (it :: p.1, p.2)

/-- Member `Scoreboard::reserveRegister(wid, regnum, active_mask)`. -/
def Scoreboard.reserveRegister (s : Scoreboard) (wid regnum active_mask : Nat) :
    Except Fault Scoreboard :=
  if h : wid < s.reg_table.length then
    match reserveLoop regnum active_mask s.reg_table[wid] 0 with
    | none => .error .abort
    | some (tbl, reserved) =>
      let new_entry : reg_and_mask := { reg := regnum, active_mask := active_mask }
      let tbl := if reserved = 0 then tbl ++ [new_entry] else tbl
      .ok { s with reg_table := s.reg_table.set wid tbl }
  else .error .undefined

/-- The sanity check of `releaseRegister`: some lane `i < W` is set in the mask
to release and clear in the entry. -/
def releaseSanityFails (W active_mask entry_mask : Nat) : Bool :=
  (List.range W).any fun i => active_mask.testBit i && !entry_mask.testBit i

/-- The loop of `releaseRegister` over one warp's deque (it stops at the first
entry of the register).  `none` is `abort()`. -/
def releaseLoop (W regnum active_mask : Nat) : List reg_and_mask → Option (List reg_and_mask)
  | [] => some []
  | it :: rest =>
    if it.reg = regnum then
      if releaseSanityFails W active_mask it.active_mask then none
      else
        let m := it.active_mask &&& bs_not W active_mask
        if bs_none m then some rest
        else some ({ it with active_mask := m } :: rest)
    else
      (releaseLoop W regnum active_mask rest).map fun tl => it :: tl

/-- Member `Scoreboard::releaseRegister(wid, regnum, active_mask)`; `W` is the
width of `active_mask_t`. -/
def Scoreboard.releaseRegister (W : Nat) (s : Scoreboard) (wid regnum active_mask : Nat) :
    Except Fault Scoreboard :=
  if h : wid < s.reg_table.length then
    if s.reg_table[wid].length = 0 then .ok s
    else
      match releaseLoop W regnum active_mask s.reg_table[wid] with
      | none => .error .abort
      | some tbl => .ok { s with reg_table := s.reg_table.set wid tbl }
  else .error .undefined

/-- Member `Scoreboard::islongop(warp_id, regnum)`. -/
def Scoreboard.islongop (s : Scoreboard) (warp_id regnum : Nat) : Except Fault Bool :=
  if h : warp_id < s.longopregs.length then .ok (decide (regnum ∈ s.longopregs[warp_id]))
  else .error .undefined

/-- The memory spaces whose loads `reserveRegisters` records as long operations. -/
def is_longop_space (t : _memory_space_t) : Bool :=
  t = .global_space || t = .local_space || t = .param_space_kernel ||
  t = .param_space_local || t = .param_space_unclassified || t = .tex_space

/-- Member `Scoreboard::reserveRegisters(inst)`. -/
def Scoreboard.reserveRegisters (s : Scoreboard) (inst : warp_inst_t) :
    Except Fault Scoreboard := do
  let s ← [(0 : Fin 4), 1, 2, 3].foldlM (fun (s : Scoreboard) r =>
    if inst.out r > 0 then
      s.reserveRegister inst.m_warp_id (inst.out r) inst.m_warp_active_mask
    else pure s) s
  if inst.is_load && is_longop_space inst.space then
    [(0 : Fin 4), 1, 2, 3].foldlM (fun (s : Scoreboard) r =>
      if inst.out r > 0 then
        if h : inst.m_warp_id < s.longopregs.length then
          pure { s with longopregs :=
            s.longopregs.set inst.m_warp_id (set_insert (inst.out r) s.longopregs[inst.m_warp_id]) }
        else throw Fault.undefined
      else pure s) s
  else pure s

/-- Member `Scoreboard::releaseRegisters(inst)`. -/
def Scoreboard.releaseRegisters (W : Nat) (s : Scoreboard) (inst : warp_inst_t) :
    Except Fault Scoreboard :=
  [(0 : Fin 4), 1, 2, 3].foldlM (fun (s : Scoreboard) r =>
    if inst.out r > 0 then do
      let s ← s.releaseRegister W inst.m_warp_id (inst.out r) inst.m_warp_active_mask
      if h : inst.m_warp_id < s.longopregs.length then
        pure { s with longopregs :=
          s.longopregs.set inst.m_warp_id (set_erase (inst.out r) s.longopregs[inst.m_warp_id]) }
      else throw Fault.undefined
    else pure s) s

/-- The set `inst_regs` built at the start of `checkCollision`. -/
def inst_regs (inst : inst_t) : List Nat :=
  let s : List Nat := []
  let s := if inst.out 0 > 0 then set_insert (inst.out 0) s else s
  let s := if inst.out 1 > 0 then set_insert (inst.out 1) s else s
  let s := if inst.out 2 > 0 then set_insert (inst.out 2) s else s
  let s := if inst.out 3 > 0 then set_insert (inst.out 3) s else s
  let s := if inst.in_ 0 > 0 then set_insert (inst.in_ 0) s else s
  let s := if inst.in_ 1 > 0 then set_insert (inst.in_ 1) s else s
  let s := if inst.in_ 2 > 0 then set_insert (inst.in_ 2) s else s
  let s := if inst.in_ 3 > 0 then set_insert (inst.in_ 3) s else s
  let s := if inst.pred > 0 then set_insert inst.pred.toNat s else s
  let s := if inst.ar1 > 0 then set_insert inst.ar1.toNat s else s
  let s := if inst.ar2 > 0 then set_insert inst.ar2.toNat s else s
  s

/-- Member `Scoreboard::checkCollision(wid, inst, active_mask)`. -/
def Scoreboard.checkCollision (s : Scoreboard) (wid : Nat) (inst : inst_t) (active_mask : Nat) :
    Except Fault Bool :=
  if h : wid < s.reg_table.length then
    .ok ((inst_regs inst).any fun it2 =>
      s.reg_table[wid].any fun it =>
        decide (it.reg = it2) && bs_any (it.active_mask &&& active_mask))
  else .error .undefined

/-- The deque `reg_table[wid]` of warp `wid` (empty for a warp that has no slot). -/
def Scoreboard.entries (s : Scoreboard) (wid : Nat) : List reg_and_mask :=
  s.reg_table.getD wid []

/-- Lane `i` of register `regnum` is reserved for warp `wid`: some entry of the
warp for that register has bit `i` set. -/
def Scoreboard.lane_reserved (s : Scoreboard) (wid regnum i : Nat) : Prop :=
  ∃ e ∈ s.entries wid, e.reg = regnum ∧ e.active_mask.testBit i = true

/-- Member `Scoreboard::pendingWrites(wid)`. -/
def Scoreboard.pendingWrites (s : Scoreboard) (wid : Nat) : Except Fault Bool :=
  if h : wid < s.reg_table.length then .ok (!s.reg_table[wid].isEmpty)
  else .error .undefined

/-- A load from global memory issued by warp `wid` with active mask `mask`, whose
only destination register is `r` (every other register field is 0). -/
def global_load (wid r mask : Nat) : warp_inst_t :=
  { out := regs4 r 0 0 0, in_ := regs4 0 0 0 0, pred := 0, ar1 := 0, ar2 := 0,
    is_load := true, space := .global_space, m_warp_id := wid, m_warp_active_mask := mask }

/-! ## Sequences of scoreboard calls -/

/-- One call of `reserveRegister` or `releaseRegister`. -/
inductive ScoreboardCall where
  | reserve (wid regnum active_mask : Nat)
  | release (wid regnum active_mask : Nat)
  deriving DecidableEq, Repr

/-- A `reserve` call with an empty lane mask. -/
def ScoreboardCall.reserves_nothing : ScoreboardCall → Bool
  | .reserve _ _ active_mask => active_mask == 0
  | .release _ _ _ => false

/-- The effect of one call on the scoreboard. -/
def Scoreboard.call (W : Nat) (s : Scoreboard) : ScoreboardCall → Except Fault Scoreboard
  | .reserve wid regnum active_mask => s.reserveRegister wid regnum active_mask
  | .release wid regnum active_mask => s.releaseRegister W wid regnum active_mask

/-- The calls of a list made one after the other; the first fault ends the run. -/
def Scoreboard.run (W : Nat) : Scoreboard → List ScoreboardCall → Except Fault Scoreboard
  | s, [] => .ok s
  | s, c :: cs =>
    match s.call W c with
    | .ok s' => Scoreboard.run W s' cs
    | .error e => .error e

/-! ## Barrier set -/

/-- Lookup in a `std::map<unsigned, warp_set_t>` (`find`), kept as an association list. -/
def map_find (m : List (Nat × Nat)) (k : Nat) : Option Nat :=
  (m.find? fun p => p.1 == k).map fun p => p.2

/-- The assignment `m[k] = v` on a `std::map`, the list being kept sorted by key. -/
def map_assign (k v : Nat) : List (Nat × Nat) → List (Nat × Nat)
  | [] => [(k, v)]
  | p :: rest =>
    if k < p.1 then (k, v) :: p :: rest
    else if k = p.1 then (k, v) :: rest
    else p :: map_assign k v rest

/-- The member `erase` of `std::map` for the element with key `k`. -/
def map_erase (k : Nat) (m : List (Nat × Nat)) : List (Nat × Nat) :=
  m.filter fun p => p.1 != k

/-- The state of a `barrier_set_t`.  Warp sets are `std::bitset<WARP_PER_CTA_MAX>`. -/
structure barrier_set_t where
  m_max_warps_per_core : Nat
  m_max_cta_per_core : Nat
  m_cta_to_warps : List (Nat × Nat)
  m_warp_active : Nat
  m_warp_at_barrier : Nat
  deriving DecidableEq, Repr

/-- The constructor `barrier_set_t::barrier_set_t`; `N` is `WARP_PER_CTA_MAX`. -/
def barrier_set_t.init (N max_warps_per_core max_cta_per_core : Nat) :
    Except Fault barrier_set_t :=
  if max_warps_per_core > N then .error .abort
  else .ok
    { m_max_warps_per_core := max_warps_per_core
      m_max_cta_per_core := max_cta_per_core
      m_cta_to_warps := []
      m_warp_active := 0
      m_warp_at_barrier := 0 }

/-- Member `barrier_set_t::allocate_barrier(cta_id, warps)`; each `assert` that
fails is an abort. -/
def barrier_set_t.allocate_barrier (N : Nat) (b : barrier_set_t) (cta_id warps : Nat) :
    Except Fault barrier_set_t :=
  if ¬ cta_id < b.m_max_cta_per_core then .error .abort
  else if (map_find b.m_cta_to_warps cta_id).isSome then .error .abort
  else
    let m := map_assign cta_id warps b.m_cta_to_warps
    if ¬ m.length ≤ b.m_max_cta_per_core then .error .abort
    else .ok
      { b with
        m_cta_to_warps := m
        m_warp_active := b.m_warp_active ||| warps
        m_warp_at_barrier := b.m_warp_at_barrier &&& bs_not N warps }

/-- Member `barrier_set_t::deallocate_barrier(cta_id)`. -/
def barrier_set_t.deallocate_barrier (N : Nat) (b : barrier_set_t) (cta_id : Nat) :
    Except Fault barrier_set_t :=
  match map_find b.m_cta_to_warps cta_id with
  | none => .ok b
  | some warps =>
    let at_barrier := warps &&& b.m_warp_at_barrier
    if bs_any at_barrier then .error .abort
    else
      let active := warps &&& b.m_warp_active
      if bs_any active then .error .abort
      else .ok
        { b with
          m_warp_active := b.m_warp_active &&& bs_not N warps
          m_warp_at_barrier := b.m_warp_at_barrier &&& bs_not N warps
          m_cta_to_warps := map_erase cta_id b.m_cta_to_warps }

/-- Member `barrier_set_t::warp_reaches_barrier(cta_id, warp_id)`.  `test` on a
position outside the bitset throws, which ends the simulation. -/
def barrier_set_t.warp_reaches_barrier (N : Nat) (b : barrier_set_t) (cta_id warp_id : Nat) :
    Except Fault barrier_set_t :=
  match map_find b.m_cta_to_warps cta_id with
  | none => .error .abort
  | some warps_in_cta =>
    if ¬ warp_id < N then .error .abort
    else if ¬ warps_in_cta.testBit warp_id = true then .error .abort
    else
      let m_warp_at_barrier := bs_set b.m_warp_at_barrier warp_id
      let at_barrier := warps_in_cta &&& m_warp_at_barrier
      let active := warps_in_cta &&& b.m_warp_active
      if at_barrier = active then
        .ok { b with m_warp_at_barrier := m_warp_at_barrier &&& bs_not N at_barrier }
      else .ok { b with m_warp_at_barrier := m_warp_at_barrier }

/-- Member `barrier_set_t::available_for_fetch(warp_id)`, for a position in range. -/
def barrier_set_t.available_for_fetch (b : barrier_set_t) (warp_id : Nat) : Bool :=
  b.m_warp_active.testBit warp_id && b.m_warp_at_barrier.testBit warp_id

/-- Member `barrier_set_t::warp_exit(warp_id)`.  `reset` on a position outside the
bitset throws; when no CTA contains the warp the loop ends at `end()`, which is
then dereferenced. -/
def barrier_set_t.warp_exit (N : Nat) (b : barrier_set_t) (warp_id : Nat) :
    Except Fault barrier_set_t :=
  if ¬ warp_id < N then .error .abort
  else
    let m_warp_active := bs_reset N b.m_warp_active warp_id
    match b.m_cta_to_warps.find? fun p => p.2.testBit warp_id with
    | none => .error .undefined
    | some w =>
      let warps_in_cta := w.2
      let at_barrier := warps_in_cta &&& b.m_warp_at_barrier
      let active := warps_in_cta &&& m_warp_active
      if at_barrier = active then
        .ok { b with
              m_warp_active := m_warp_active
              m_warp_at_barrier := b.m_warp_at_barrier &&& bs_not N at_barrier }
      else .ok { b with m_warp_active := m_warp_active }

/-- Member `barrier_set_t::warp_waiting_at_barrier(warp_id)`, for a position in range. -/
def barrier_set_t.warp_waiting_at_barrier (b : barrier_set_t) (warp_id : Nat) : Bool :=
  b.m_warp_at_barrier.testBit warp_id

/-! ## Sequences of barrier-set calls -/

/-- One call of a mutator of `barrier_set_t`. -/
inductive BarrierCall where
  | allocate (cta_id warps : Nat)
  | deallocate (cta_id : Nat)
  | reaches (cta_id warp_id : Nat)
  | warp_exit (warp_id : Nat)
  deriving DecidableEq, Repr

/-- The effect of one call on the barrier set. -/
def barrier_set_t.call (N : Nat) (b : barrier_set_t) : BarrierCall → Except Fault barrier_set_t
  | .allocate cta_id warps => b.allocate_barrier N cta_id warps
  | .deallocate cta_id => b.deallocate_barrier N cta_id
  | .reaches cta_id warp_id => b.warp_reaches_barrier N cta_id warp_id
  | .warp_exit warp_id => b.warp_exit N warp_id

/-- The calls of a list made one after the other; the first fault ends the run. -/
def barrier_set_t.run (N : Nat) : barrier_set_t → List BarrierCall → Except Fault barrier_set_t
  | b, [] => .ok b
  | b, c :: cs =>
    match b.call N c with
    | .ok b' => barrier_set_t.run N b' cs
    | .error e => .error e

/-- The caller's side of one call in state `b`.  Always: an allocated warp set fits
the bitset and shares no warp with a CTA already allocated.  With `disciplined`,
moreover: a warp that reaches a barrier is active, and a warp that exits is not
waiting at a barrier. -/
def barrier_set_t.admits (N : Nat) (disciplined : Bool) (b : barrier_set_t) :
    BarrierCall → Bool
  | .allocate _ warps =>
    decide (warps < 2 ^ N) && b.m_cta_to_warps.all fun p => p.2 &&& warps == 0
  | .deallocate _ => true
  | .reaches _ warp_id => !disciplined || b.m_warp_active.testBit warp_id
  | .warp_exit warp_id => !disciplined || !b.m_warp_at_barrier.testBit warp_id

/-- Every call of the list is admitted in the state in which it is made. -/
def barrier_set_t.admits_all (N : Nat) (disciplined : Bool) :
    barrier_set_t → List BarrierCall → Bool
  | _, [] => true
  | b, c :: cs =>
    b.admits N disciplined c &&
      match b.call N c with
      | .ok b' => barrier_set_t.admits_all N disciplined b' cs
      | .error _ => true

/-- The representation invariant of a barrier set over `N`-bit warp sets whose CTAs
share no warp: both bitsets and every allocated warp set are below `2 ^ N`, and
the allocated warp sets are pairwise disjoint. -/
def barrier_set_t.wf (N : Nat) (b : barrier_set_t) : Prop :=
  b.m_warp_at_barrier < 2 ^ N ∧ b.m_warp_active < 2 ^ N ∧
  (∀ p ∈ b.m_cta_to_warps, p.2 < 2 ^ N) ∧
  b.m_cta_to_warps.Pairwise fun p q => p.2 &&& q.2 = 0

/-- The CTA with warp set `ws` is due for release: at least one of its warps is at
the barrier, and its warps at the barrier are exactly its active warps. -/
def barrier_set_t.release_due (b : barrier_set_t) (ws : Nat) : Prop :=
  (∃ y, ws.testBit y = true ∧ b.m_warp_at_barrier.testBit y = true) ∧
  ∀ y, ws.testBit y = true →
    (b.m_warp_at_barrier.testBit y = true ↔ b.m_warp_active.testBit y = true)

/-! ## Register banks -/

/-- The function `register_bank(regnum, wid, num_banks, bank_warp_shift)` with 32-bit
`int` and `unsigned`.  Signed overflow of `bank += wid` and a zero `num_banks` are
undefined.  In `bank % num_banks` the `int` is converted to `unsigned`, and the
`unsigned` remainder is converted back to `int` by the `return`. -/
def register_bank (regnum wid : Int) (num_banks bank_warp_shift : Nat) : Except Fault Int :=
  let bank : Int := regnum
  let bank' : Except Fault Int :=
    if bank_warp_shift ≠ 0 then
      if -(2 ^ 31) ≤ bank + wid ∧ bank + wid < 2 ^ 31 then .ok (bank + wid)
      else .error .undefined
    else .ok bank
  match bank' with
  | .error e => .error e
  | .ok bank =>
    if num_banks = 0 then .error .undefined
    else
      let r : Nat := (bank % 2 ^ 32).toNat % num_banks
      .ok (if r < 2 ^ 31 then (r : Int) else (r : Int) - 2 ^ 32)

/-! ## Warp ordering -/

/-- The loop of `order_lrr`: `count` elements are still to be pushed and `iter` is
the position of the iterator in `input_list` (`input_list.length` is `end()`). -/
def order_lrr_loop {T : Type} (input_list : List T) : Nat → Nat → List T → Except Fault (List T)
  | 0, _, result_list => .ok result_list
  | count + 1, iter, result_list =>
    let iter := if iter = input_list.length then 0 else iter
    match input_list[iter]? with
    | none => .error .undefined
    | some x => order_lrr_loop input_list count (iter + 1) (result_list ++ [x])

/-- The template `scheduler_unit::order_lrr(result_list, input_list,
last_issued_from_input, num_warps_to_add)`; iterators are positions, and the returned
list is `result_list`. -/
def order_lrr {T : Type} (input_list : List T) (last_issued_from_input num_warps_to_add : Nat) :
    Except Fault (List T) :=
  if ¬ num_warps_to_add ≤ input_list.length then .error .abort
  else
    let iter :=
      if last_issued_from_input = input_list.length then 0 else last_issued_from_input + 1
    order_lrr_loop input_list num_warps_to_add iter []

/-! ## Operand collector: the bank arbiter -/

/-- The fields of `opndcoll_rfu_t::op_t` read through `get_oc_id()`, `get_bank()`,
`get_reg()`, `get_wid()` and `get_operand()`. -/
structure op_t where
  m_oc_id : Nat
  m_bank : Nat
  m_register : Nat
  m_wid : Nat
  m_operand : Nat
  deriving DecidableEq, Repr

/-- The value of `int oc_id = op.get_oc_id()`: the 32-bit `unsigned` id read as `int`. -/
def op_t.oc_id (op : op_t) : Int :=
  if op.m_oc_id < 2 ^ 31 then (op.m_oc_id : Int) else (op.m_oc_id : Int) - 2 ^ 32

/-- The states of an `allocation_t`. -/
inductive alloc_t where
  | NO_ALLOC
  | READ_ALLOC
  | WRITE_ALLOC
  deriving DecidableEq, Repr

/-- Member `allocation_t::is_write()`. -/
def alloc_t.is_write (t : alloc_t) : Bool := t = .WRITE_ALLOC

/-- The state of an `opndcoll_rfu_t::arbiter_t`.  The C arrays are functions on
indices; every queue element is represented by its `op`.  `_inmatch`, `_outmatch`
and `_request` are the scratch arrays of the wavefront allocator. -/
structure arbiter_t where
  m_num_banks : Nat
  m_num_collectors : Nat
  m_queue : Nat → List op_t
  m_allocated_bank : Nat → alloc_t
  m_last_cu : Nat
  _inmatch : Nat → Int
  _outmatch : Nat → Int
  _request : Nat → Nat → Int

/-- The loops `for (i < n) arr[i] = -1` that clear a matching array. -/
def clear_matching (n : Nat) (arr : Nat → Int) : Nat → Int :=
  (List.range n).foldl (fun arr i => Function.update arr i (-1)) arr

/-- The body of the loop over banks that fills `_request` and pre-matches the banks
allocated for a write.  The state is `(_inmatch, _request)`. -/
def request_step (a : arbiter_t) (st : (Nat → Int) × (Nat → Nat → Int)) (i : Nat) :
    Except Fault ((Nat → Int) × (Nat → Nat → Int)) :=
  let _outputs : Int := a.m_num_collectors
  let row : Nat → Int :=
    (List.range a.m_num_collectors).foldl (fun row j => Function.update row j 0) (st.2 i)
  let row' : Except Fault (Nat → Int) :=
    match a.m_queue i with
    | [] => .ok row
    | op :: _ =>
      let oc_id := op.oc_id
      if ¬ oc_id < _outputs then .error .abort
      else if oc_id < 0 then .error .undefined
      else .ok (Function.update row oc_id.toNat 1)
  match row' with
  | .error e => .error e
  | .ok row =>
    let inmatch :=
      if (a.m_allocated_bank i).is_write then Function.update st.1 i 0 else st.1
    .ok (inmatch, Function.update st.2 i row)

/-- One step along a diagonal of the request matrix.  The state is
`(_inmatch, _outmatch, output)`. -/
def diagonal_step (_inputs _outputs _square : Nat) (_request : Nat → Nat → Int)
    (st : (Nat → Int) × (Nat → Int) × Nat) (input : Nat) :
    Except Fault ((Nat → Int) × (Nat → Int) × Nat) :=
  let (inmatch, outmatch, output) := st
  if ¬ input < _inputs then .error .abort
  else if ¬ output < _outputs then .error .abort
  else
    let granted : Bool :=
      decide (output < _outputs) && decide (inmatch input = -1) &&
        decide (outmatch output = -1) && decide (_request input output ≠ 0)
    let inmatch := if granted then Function.update inmatch input (output : Int) else inmatch
    let outmatch := if granted then Function.update outmatch output (input : Int) else outmatch
    .ok (inmatch, outmatch, (output + 1) % _square)

/-- The wavefront allocator: the loop over the diagonals `p` of the request matrix.
The state is `(_inmatch, _outmatch)`. -/
def wavefront (_inputs _outputs _square _pri : Nat) (_request : Nat → Nat → Int)
    (st : (Nat → Int) × (Nat → Int)) : Except Fault ((Nat → Int) × (Nat → Int)) :=
  (List.range _square).foldlM (fun (st : (Nat → Int) × (Nat → Int)) p =>
    match (List.range _inputs).foldlM (diagonal_step _inputs _outputs _square _request)
        (st.1, st.2, (_pri + p) % _square) with
    | .error e => .error e
    | .ok st' => .ok (st'.1, st'.2.1)) st

/-- The body of the final loop over banks, which moves the granted reads to the
result.  The state is `(result, m_queue)`; `front()` of an empty queue is undefined. -/
def collect_step (a : arbiter_t) (inmatch : Nat → Int)
    (st : List op_t × (Nat → List op_t)) (i : Nat) :
    Except Fault (List op_t × (Nat → List op_t)) :=
  if inmatch i ≠ -1 then
    if ¬ (a.m_allocated_bank i).is_write = true then
      match st.2 i with
      | [] => .error .undefined
      | op :: rest => .ok (st.1 ++ [op], Function.update st.2 i rest)
    else .ok st
  else .ok st

/-- Member `opndcoll_rfu_t::arbiter_t::allocate_reads()`: the returned list and the
state of the arbiter afterwards. -/
def arbiter_t.allocate_reads (a : arbiter_t) : Except Fault (List op_t × arbiter_t) :=
  let _inputs := a.m_num_banks
  let _outputs := a.m_num_collectors
  let _square := if _inputs > _outputs then _inputs else _outputs
  if ¬ _square > 0 then .error .abort
  else
    let _pri := a.m_last_cu
    let inmatch := clear_matching _inputs a._inmatch
    let outmatch := clear_matching _outputs a._outmatch
    match (List.range a.m_num_banks).foldlM (request_step a) (inmatch, a._request) with
    | .error e => .error e
    | .ok (inmatch, request) =>
      match wavefront _inputs _outputs _square _pri request (inmatch, outmatch) with
      | .error e => .error e
      | .ok (inmatch, outmatch) =>
        let _pri := (_pri + 1) % _square
        match (List.range a.m_num_banks).foldlM (collect_step a inmatch) ([], a.m_queue) with
        | .error e => .error e
        | .ok (result, queue) =>
          .ok (result,
            { a with
              m_queue := queue
              m_last_cu := _pri
              _inmatch := inmatch
              _outmatch := outmatch
              _request := request })

/-- A partial matching is consistent for arbiter `a` and request matrix `request`:
every matched bank that is not allocated for a write is matched to a collector unit
below `m_num_collectors` that it requested and that is matched back to it. -/
def matching_ok (a : arbiter_t) (request : Nat → Nat → Int) (inmatch outmatch : Nat → Int) :
    Prop :=
  ∀ i, i < a.m_num_banks → inmatch i ≠ -1 → (a.m_allocated_bank i).is_write = false →
    ∃ o, o < a.m_num_collectors ∧ inmatch i = (o : Int) ∧ outmatch o = (i : Int) ∧
      request i o ≠ 0

/-- Bank `i` was granted a read: it is matched and not allocated for a write. -/
def read_granted (a : arbiter_t) (inmatch : Nat → Int) (i : Nat) : Bool :=
  decide (inmatch i ≠ -1) && !(a.m_allocated_bank i).is_write

/-- An arbiter with four banks and four collector units: banks 0 and 1 both ask for
collector unit 1, bank 2 (allocated for a write) asks for unit 3, bank 3 is idle. -/
def example_arbiter : arbiter_t :=
  { m_num_banks := 4
    m_num_collectors := 4
    m_queue := fun i =>
      if i = 0 then [⟨1, 0, 8, 0, 0⟩, ⟨2, 0, 4, 0, 1⟩]
      else if i = 1 then [⟨1, 1, 9, 0, 1⟩]
      else if i = 2 then [⟨3, 2, 6, 0, 0⟩]
      else []
    m_allocated_bank := fun i => if i = 2 then .WRITE_ALLOC else .NO_ALLOC
    m_last_cu := 0
    _inmatch := fun _ => 0
    _outmatch := fun _ => 0
    _request := fun _ _ => 0 }

/-! ## Warp scheduler -/

/-- The enumeration `uarch_op_t` of opcode classes. -/
inductive uarch_op_t where
  | NO_OP
  | ALU_OP
  | SFU_OP
  | ALU_SFU_OP
  | LOAD_OP
  | STORE_OP
  | BRANCH_OP
  | BARRIER_OP
  | MEMORY_BARRIER_OP
  | CALL_OPS
  | RET_OPS
  deriving DecidableEq, Repr

/-- The three pipeline-register stages a scheduler issues into: `m_sp_out`,
`m_sfu_out` and `m_mem_out`. -/
inductive pipe_t where
  | sp_out
  | sfu_out
  | mem_out
  deriving DecidableEq, Repr

/-- Member `scheduler_unit::check_issue(pipeline, max, warp_id, issue_time)`, given
the deque `pipeline->get_uniq_warps()` of `(warp_id, issue_cycle)` pairs. -/
def check_issue (uniq_warp_cycles : List (Nat × Nat)) (max warp_id issue_time : Nat) :
    Except Fault Nat :=
  if ¬ uniq_warp_cycles.length ≤ max then .error .abort
  else if uniq_warp_cycles.length < max then .ok 1
  else
    .ok (if uniq_warp_cycles.any fun it => it.1 == warp_id && it.2 == issue_time then 1 else 0)

/-- What `scheduler_unit::cycle` uses but `shader.cc` does not define: the
configuration, the clock, and the member functions of `shd_warp_t`, of the
divergence stack, of the scoreboard and of `register_set`, as functions of the state
`σ` of the core; `ι` is the type of buffered instructions.  A warp pointer is the
index of the warp it points to.  Calls through `warp(warp_id)` take a warp id, calls
through `*iter` take a pointer.  `waiting` returns the state as well because
`shd_warp_t::waiting()` may clear a memory barrier. -/
structure sched_env (σ ι : Type) where
  MAX_WARP_FRAGMENTS : Nat
  gpgpu_max_insn_issue_per_warp : Nat
  gpgpu_operand_collector_num_in_ports_sp : Nat
  gpgpu_operand_collector_num_in_ports_sfu : Nat
  gpgpu_operand_collector_num_in_ports_mem : Nat
  gpgpu_imiss_check : Bool
  gpgpu_frag_scoreboard_check : Bool
  now : Nat
  m_supervised_warps : List (Option Nat)
  order_warps : σ → Nat → Except Fault (σ × List (Option Nat))
  done_exit : σ → Nat → Bool
  get_warp_id : σ → Nat → Nat
  imiss_pending : σ → Nat → Bool
  waiting : σ → Nat → Bool × σ
  ibuffer_reset_frag : σ → Nat → σ
  ibuffer_frag_empty : σ → Nat → Bool
  ibuffer_next_valid : σ → Nat → Bool
  ibuffer_next_frag : σ → Nat → σ
  ibuffer_next_inst : σ → Nat → Option ι
  ibuffer_get_height : σ → Nat → Nat
  ibuffer_flush : σ → Nat → σ
  set_next_pc : σ → Nat → Nat → σ
  inst_in_pipeline : σ → Nat → Bool
  iter_get_pdom_stack : σ → Nat → Nat → Bool × Nat × Nat
  iter_get_active_mask : σ → Nat → Nat → Nat
  checkCollision : σ → Nat → ι → Nat → Bool
  pc : ι → Nat
  op : ι → uarch_op_t
  get_uniq_warps : σ → pipe_t → List (Nat × Nat)
  has_free : σ → pipe_t → Bool
  issue_warp : σ → Nat → pipe_t → ι → Nat → Nat → Except Fault (σ × Nat)
  do_on_warp_issued : σ → Nat → Nat → Nat → Except Fault σ

/-- One call `m_shader->issue_warp(height, pipe, pI, active_mask, warp_id,
active_lane_count)`, with the value that the call stores in `active_lane_count`. -/
structure issue_call where
  height : Nat
  pipe : pipe_t
  warp_id : Nat
  active_mask : Nat
  active_lane_count : Nat
  deriving DecidableEq, Repr

/-- The variables of `scheduler_unit::cycle` that live across the scan of one warp:
the state of the core, the three flags, the counters `checked`, `issued` and
`lanes_active`, and the calls of `issue_warp` made so far. -/
structure warp_scan (σ : Type) where
  core : σ
  valid_inst : Bool
  ready_inst : Bool
  issued_inst : Bool
  checked : Nat
  issued : Nat
  lanes_active : Nat
  calls : List issue_call

/-- The statements executed when an instruction is issued into `pipe`: the call of
`issue_warp` and the updates of `issued`, `issued_inst` and `lanes_active`. -/
def issue_into {σ ι : Type} (env : sched_env σ ι) (st : warp_scan σ) (pipe : pipe_t)
    (height : Nat) (pI : ι) (active_mask warp_id : Nat) : Except Fault (warp_scan σ) :=
  match env.issue_warp st.core height pipe pI active_mask warp_id with
  | .error e => .error e
  | .ok (core, active_lane_count) =>
    .ok { st with
          core := core
          issued := st.issued + 1
          issued_inst := true
          lanes_active := st.lanes_active + active_lane_count
          calls := st.calls ++ [⟨height, pipe, warp_id, active_mask, active_lane_count⟩] }

/-- The choice of the pipeline for an instruction that passed the scoreboard; the
Boolean is `warp_inst_issued`. -/
def try_issue {σ ι : Type} (env : sched_env σ ι) (st : warp_scan σ)
    (height : Nat) (pI : ι) (active_mask warp_id : Nat) : Except Fault (warp_scan σ × Bool) :=
  let max_sp := env.gpgpu_operand_collector_num_in_ports_sp / env.MAX_WARP_FRAGMENTS
  let max_sfu := env.gpgpu_operand_collector_num_in_ports_sfu / env.MAX_WARP_FRAGMENTS
  let max_mem := env.gpgpu_operand_collector_num_in_ports_mem / env.MAX_WARP_FRAGMENTS
  if env.op pI = .LOAD_OP ∨ env.op pI = .STORE_OP ∨ env.op pI = .MEMORY_BARRIER_OP then
    match check_issue (env.get_uniq_warps st.core .mem_out) max_mem warp_id env.now with
    | .error e => .error e
    | .ok issue_allowed =>
      if issue_allowed ≠ 0 ∧ env.has_free st.core .mem_out = true then
        match issue_into env st .mem_out height pI active_mask warp_id with
        | .error e => .error e
        | .ok st => .ok (st, true)
      else .ok (st, false)
  else
    match check_issue (env.get_uniq_warps st.core .sp_out) max_sp warp_id env.now with
    | .error e => .error e
    | .ok issue_allowed_sp =>
      match check_issue (env.get_uniq_warps st.core .sfu_out) max_sfu warp_id env.now with
      | .error e => .error e
      | .ok issue_allowed_sfu =>
        let sp_pipe_avail := env.has_free st.core .sp_out
        let sfu_pipe_avail := env.has_free st.core .sfu_out
        if issue_allowed_sp ≠ 0 ∧ sp_pipe_avail = true ∧ env.op pI ≠ .SFU_OP then
          match issue_into env st .sp_out height pI active_mask warp_id with
          | .error e => .error e
          | .ok st => .ok (st, true)
        else if env.op pI = .SFU_OP ∨ env.op pI = .ALU_SFU_OP then
          if issue_allowed_sfu ≠ 0 ∧ sfu_pipe_avail = true then
            match issue_into env st .sfu_out height pI active_mask warp_id with
            | .error e => .error e
            | .ok st => .ok (st, true)
          else .ok (st, false)
        else .ok (st, false)

/-- The body of the `while` loop of `scheduler_unit::cycle`: one entry of the
instruction buffer of warp `warp_id` is examined; `iter` is the position of the warp
in the prioritized list. -/
def examine_entry {σ ι : Type} (env : sched_env σ ι) (warp_id iter : Nat)
    (st : warp_scan σ) : Except Fault (warp_scan σ) :=
  let st := { st with checked := st.checked + 1 }
  let valid := env.ibuffer_next_valid st.core warp_id
  if valid = false then
    .ok { st with core := env.ibuffer_next_frag st.core warp_id }
  else
    let pI := env.ibuffer_next_inst st.core warp_id
    let height := env.ibuffer_get_height st.core warp_id
    let stack := env.iter_get_pdom_stack st.core warp_id height
    let valid_stack_entry := stack.1
    let pc := stack.2.1
    match pI with
    | some inst =>
      if ¬ (valid_stack_entry && valid) = true then .error .abort
      else if pc ≠ env.pc inst then
        let core := env.ibuffer_flush (env.set_next_pc st.core warp_id pc) warp_id
        .ok { st with core := env.ibuffer_next_frag core warp_id }
      else
        let st := { st with valid_inst := true }
        let active_mask := env.iter_get_active_mask st.core warp_id height
        if env.checkCollision st.core warp_id inst active_mask = false then
          let st := { st with ready_inst := true }
          if ¬ env.inst_in_pipeline st.core warp_id = true then .error .abort
          else
            match try_issue env st height inst active_mask warp_id with
            | .error e => .error e
            | .ok (st, warp_inst_issued) =>
              if warp_inst_issued = true then
                match env.do_on_warp_issued st.core warp_id st.issued iter with
                | .error e => .error e
                | .ok core => .ok { st with core := env.ibuffer_next_frag core warp_id }
              else .ok { st with core := env.ibuffer_next_frag st.core warp_id }
        else .ok { st with core := env.ibuffer_next_frag st.core warp_id }
    | none =>
      let core := env.ibuffer_flush (env.set_next_pc st.core warp_id pc) warp_id
      .ok { st with core := env.ibuffer_next_frag core warp_id }

/-- The `while` loop of `scheduler_unit::cycle` over the instruction buffer of one
warp.  The condition is evaluated at most `MAX_WARP_FRAGMENTS + 1` times, which is
the fuel to start with. -/
def scan_warp {σ ι : Type} (env : sched_env σ ι) (warp_id iter : Nat) :
    Nat → warp_scan σ → Except Fault (warp_scan σ)
  | 0, st => .ok st
  | fuel + 1, st =>
    let w := env.waiting st.core warp_id
    let st := { st with core := w.2 }
    if w.1 = false ∧ env.ibuffer_frag_empty st.core warp_id = false ∧
        st.checked < env.MAX_WARP_FRAGMENTS then
      match examine_entry env warp_id iter st with
      | .error e => .error e
      | .ok st => scan_warp env warp_id iter fuel st
    else .ok st

/-- The body of the `while` loop of `warp_frag_scoreboard_conflict`; the state is
`(core, valid_inst, checked)` and `some r` stands for `return r`. -/
def conflict_entry {σ ι : Type} (env : sched_env σ ι) (warp_id : Nat)
    (st : σ × Bool × Nat) : Except Fault ((σ × Bool × Nat) × Option Nat) :=
  let core := st.1
  let valid_inst := st.2.1
  let checked := st.2.2 + 1
  let valid := env.ibuffer_next_valid core warp_id
  if valid = false then .ok ((env.ibuffer_next_frag core warp_id, valid_inst, checked), none)
  else
    let pI := env.ibuffer_next_inst core warp_id
    let height := env.ibuffer_get_height core warp_id
    let stack := env.iter_get_pdom_stack core warp_id height
    match pI with
    | some inst =>
      if ¬ (stack.1 && valid) = true then .error .abort
      else if stack.2.1 ≠ env.pc inst then
        .ok ((env.ibuffer_next_frag core warp_id, valid_inst, checked), none)
      else
        let active_mask := env.iter_get_active_mask core warp_id height
        if env.checkCollision core warp_id inst active_mask = true then
          .ok ((core, true, checked), some 1)
        else .ok ((env.ibuffer_next_frag core warp_id, true, checked), none)
    | none => .ok ((env.ibuffer_next_frag core warp_id, valid_inst, checked), none)

/-- The `while` loop of `warp_frag_scoreboard_conflict`, with fuel as in `scan_warp`. -/
def conflict_loop {σ ι : Type} (env : sched_env σ ι) (warp_id : Nat) :
    Nat → σ × Bool × Nat → Except Fault ((σ × Bool) × Nat)
  | 0, st => .ok ((st.1, st.2.1), 0)
  | fuel + 1, st =>
    let w := env.waiting st.1 warp_id
    let st : σ × Bool × Nat := (w.2, st.2.1, st.2.2)
    if w.1 = false ∧ env.ibuffer_frag_empty st.1 warp_id = false ∧
        st.2.2 < env.MAX_WARP_FRAGMENTS then
      match conflict_entry env warp_id st with
      | .error e => .error e
      | .ok (st, some r) => .ok ((st.1, st.2.1), r)
      | .ok (st, none) => conflict_loop env warp_id fuel st
    else .ok ((st.1, st.2.1), 0)

/-- Member `scheduler_unit::warp_frag_scoreboard_conflict(warp_id, valid_inst)`: the
state of the core and the flag `valid_inst` afterwards, and the value returned. -/
def warp_frag_scoreboard_conflict {σ ι : Type} (env : sched_env σ ι) (warp_id : Nat)
    (core : σ) (valid_inst : Bool) : Except Fault ((σ × Bool) × Nat) :=
  conflict_loop env warp_id (env.MAX_WARP_FRAGMENTS + 1)
    (env.ibuffer_reset_frag core warp_id, valid_inst, 0)

/-- The state of a `scheduler_unit` around one call of `cycle`: the state of the
core, the two statistics arrays that `cycle` increments, the position
`m_last_supervised_issued`, and the three flags and `issued_warps` of the call. -/
structure sched_state (σ : Type) where
  core : σ
  shader_cycle_distro : Nat → Nat
  num_fragment_issued : Nat → Nat
  m_last_supervised_issued : Nat
  valid_inst : Bool
  ready_inst : Bool
  issued_inst : Bool
  issued_warps : Nat

/-- The loop that records the supervised position of the warp that issued: the
last position of `m_supervised_warps` holding the pointer `p`. -/
def find_supervised (supervised : List (Option Nat)) (p : Nat) (last : Nat) : Nat :=
  (List.range supervised.length).foldl
    (fun last k => if supervised[k]? = some (some p) then k else last) last

/-- The `for` loop of `scheduler_unit::cycle` over the prioritized warps, from
position `iter` on; the second component lists the calls of `issue_warp`. -/
def cycle_loop {σ ι : Type} (env : sched_env σ ι) :
    List (Option Nat) → Nat → sched_state σ → Except Fault (sched_state σ × List issue_call)
  | [], _, s => .ok (s, [])
  | none :: rest, iter, s => cycle_loop env rest (iter + 1) s
  | some p :: rest, iter, s =>
    if env.done_exit s.core p = true then cycle_loop env rest (iter + 1) s
    else if s.issued_warps = env.gpgpu_max_insn_issue_per_warp then .ok (s, [])
    else
      let warp_id := env.get_warp_id s.core p
      if env.gpgpu_imiss_check = true ∧ env.imiss_pending s.core p = true then
        cycle_loop env rest (iter + 1) s
      else
        let checkd : Except Fault ((σ × Bool) × Nat) :=
          if env.gpgpu_frag_scoreboard_check = true then
            warp_frag_scoreboard_conflict env warp_id s.core s.valid_inst
          else .ok ((s.core, s.valid_inst), 0)
        match checkd with
        | .error e => .error e
        | .ok ((core, valid_inst), conflict) =>
          let s := { s with core := core, valid_inst := valid_inst }
          if conflict ≠ 0 then cycle_loop env rest (iter + 1) s
          else
            let st : warp_scan σ :=
              { core := env.ibuffer_reset_frag s.core warp_id
                valid_inst := s.valid_inst
                ready_inst := s.ready_inst
                issued_inst := s.issued_inst
                checked := 0
                issued := 0
                lanes_active := 0
                calls := [] }
            match scan_warp env warp_id iter (env.MAX_WARP_FRAGMENTS + 1) st with
            | .error e => .error e
            | .ok st =>
              let s := { s with
                         core := st.core
                         valid_inst := st.valid_inst
                         ready_inst := st.ready_inst
                         issued_inst := st.issued_inst }
              if st.issued ≠ 0 then
                .ok ({ s with
                       num_fragment_issued :=
                         Function.update s.num_fragment_issued (st.issued - 1)
                           (s.num_fragment_issued (st.issued - 1) + 1)
                       issued_warps := s.issued_warps + 1
                       shader_cycle_distro :=
                         Function.update s.shader_cycle_distro (2 + st.lanes_active)
                           (s.shader_cycle_distro (2 + st.lanes_active) + 1)
                       m_last_supervised_issued :=
                         find_supervised env.m_supervised_warps p s.m_last_supervised_issued },
                  st.calls)
              else
                match cycle_loop env rest (iter + 1) s with
                | .error e => .error e
                | .ok (s, calls) => .ok (s, st.calls ++ calls)

/-- Member `scheduler_unit::cycle()`: the state afterwards and the calls of
`issue_warp` made, in order. -/
def scheduler_cycle {σ ι : Type} (env : sched_env σ ι) (s : sched_state σ) :
    Except Fault (sched_state σ × List issue_call) :=
  let s := { s with valid_inst := false, ready_inst := false, issued_inst := false,
                    issued_warps := 0 }
  match env.order_warps s.core s.m_last_supervised_issued with
  | .error e => .error e
  | .ok (core, m_next_cycle_prioritized_warps) =>
    match cycle_loop env m_next_cycle_prioritized_warps 0 { s with core := core } with
    | .error e => .error e
    | .ok (s, calls) =>
      let distro := s.shader_cycle_distro
      let distro :=
        if s.valid_inst = false then Function.update distro 0 (distro 0 + 1)
        else if s.ready_inst = false then Function.update distro 1 (distro 1 + 1)
        else if s.issued_inst = false then Function.update distro 2 (distro 2 + 1)
        else distro
      .ok ({ s with shader_cycle_distro := distro }, calls)

/-- A small core for examples: every warp has the same buffer of two instructions, the
one at fragment `k` with PC `10 + k`, and a divergence stack that reports the PC
`stack_pc + height`. -/
structure example_core where
  frag : Nat
  stack_pc : Nat
  next_pc : Nat
  flushed : Bool
  issued : Nat
  deriving DecidableEq, Repr

/-- An environment over `example_core` with two warps, two fragments per warp, free
pipelines and an empty scoreboard; an instruction is its PC. -/
def example_env : sched_env example_core Nat where
  MAX_WARP_FRAGMENTS := 2
  gpgpu_max_insn_issue_per_warp := 1
  gpgpu_operand_collector_num_in_ports_sp := 2
  gpgpu_operand_collector_num_in_ports_sfu := 2
  gpgpu_operand_collector_num_in_ports_mem := 2
  gpgpu_imiss_check := false
  gpgpu_frag_scoreboard_check := true
  now := 0
  m_supervised_warps := [some 0, some 1]
  order_warps := fun c _ => .ok (c, [some 0, some 1])
  done_exit := fun _ _ => false
  get_warp_id := fun _ p => p
  imiss_pending := fun _ _ => false
  waiting := fun c _ => (false, c)
  ibuffer_reset_frag := fun c _ => { c with frag := 0 }
  ibuffer_frag_empty := fun c _ => decide (2 ≤ c.frag)
  ibuffer_next_valid := fun _ _ => true
  ibuffer_next_frag := fun c _ => { c with frag := c.frag + 1 }
  ibuffer_next_inst := fun c _ => some (10 + c.frag)
  ibuffer_get_height := fun c _ => c.frag
  ibuffer_flush := fun c _ => { c with flushed := true }
  set_next_pc := fun c _ pc => { c with next_pc := pc }
  inst_in_pipeline := fun _ _ => true
  iter_get_pdom_stack := fun c _ height => (true, c.stack_pc + height, 0)
  iter_get_active_mask := fun _ _ _ => 1
  checkCollision := fun _ _ _ _ => false
  pc := fun i => i
  op := fun _ => .ALU_OP
  get_uniq_warps := fun _ _ => []
  has_free := fun _ _ => true
  issue_warp := fun c _ _ _ _ _ => .ok ({ c with issued := c.issued + 1 }, 1)
  do_on_warp_issued := fun c _ _ _ => .ok c

/-- A scheduler over `example_core` whose divergence stack agrees with the buffers. -/
def example_sched : sched_state example_core where
  core := ⟨0, 10, 0, false, 0⟩
  shader_cycle_distro := fun _ => 0
  num_fragment_issued := fun _ => 0
  m_last_supervised_issued := 0
  valid_inst := false
  ready_inst := false
  issued_inst := false
  issued_warps := 0

/-- A scan of a warp of `example_env` whose divergence stack reports the PC 20 where
the buffered instruction has the PC 10. -/
def example_scan : warp_scan example_core where
  core := ⟨0, 20, 0, false, 0⟩
  valid_inst := false
  ready_inst := false
  issued_inst := false
  checked := 0
  issued := 0
  lanes_active := 0
  calls := []

/-- What a step of the scan of warp `w` may do to the list of calls: nothing, or one
more call for `w`, counted in `issued`. -/
def scan_step_ok {σ : Type} (w : Nat) (st st' : warp_scan σ) : Prop :=
  (st'.calls = st.calls ∧ st'.issued = st.issued) ∨
    ∃ c : issue_call, c.warp_id = w ∧ st'.calls = st.calls ++ [c] ∧ st'.issued = st.issued + 1

/-- The invariant of the scan of warp `w`: `issued` counts the calls made, and all of
them are for `w`. -/
def scan_inv {σ : Type} (w : Nat) (st : warp_scan σ) : Prop :=
  st.calls.length = st.issued ∧ ∀ c ∈ st.calls, c.warp_id = w

/-! ## Scheduling policies -/

/-- Member `lrr_scheduler::order_warps()`: the value given to
`m_next_cycle_prioritized_warps`. -/
def lrr_order_warps {T : Type} (m_supervised_warps : List T) (m_last_supervised_issued : Nat) :
    Except Fault (List T) :=
  order_lrr m_supervised_warps m_last_supervised_issued m_supervised_warps.length

/-- A call of `scheduler_unit::cycle` of a `lrr_scheduler` over the warps `ws` (none of
the pointers is `NULL`) in which the first warp of the order issues: the warp that
issues, and the position that the loop over `m_supervised_warps` at the end of the
scan stores in `m_last_supervised_issued`.  `none` when there is no warp at all. -/
def lrr_issue_first (ws : List Nat) (m_last_supervised_issued : Nat) :
    Except Fault (Option (Nat × Nat)) :=
  match lrr_order_warps ws m_last_supervised_issued with
  | .error e => .error e
  | .ok m_next_cycle_prioritized_warps =>
    match m_next_cycle_prioritized_warps.head? with
    | none => .ok none
    | some p => .ok (some (p, find_supervised (ws.map some) p m_last_supervised_issued))

/-- The warps that issue in `k` successive calls of `lrr_issue_first`, in order. -/
def lrr_issues (ws : List Nat) : Nat → Nat → Except Fault (List Nat)
  | 0, _ => .ok []
  | k + 1, m_last_supervised_issued =>
    match lrr_issue_first ws m_last_supervised_issued with
    | .error e => .error e
    | .ok none => .ok []
    | .ok (some (p, last)) =>
      match lrr_issues ws k last with
      | .error e => .error e
      | .ok ps => .ok (p :: ps)

/-- The position that issues after `last`: the next one, cyclically, and the first
one when `last` is the end position. -/
def lrr_next (n last : Nat) : Nat := if last = n then 0 else (last + 1) % n

/-- The enumeration `OrderingType`; `other` stands for any value that is neither of
the two that `order_by_priority` knows. -/
inductive OrderingType where
  | ORDERING_GREEDY_THEN_PRIORITY_FUNC
  | ORDERED_PRIORITY_FUNC_ONLY
  | other
  deriving DecidableEq, Repr

/-- The loops of `order_by_priority`: `count` elements of the sorted vector, from the
iterator on, are still to be visited; an element is pushed unless it is `skip`.
Stepping over the end of the vector is undefined. -/
def priority_loop {T : Type} [DecidableEq T] (skip : Option T) :
    Nat → List T → List T → Except Fault (List T)
  | 0, _, result_list => .ok result_list
  | _ + 1, [], _ => .error .undefined
  | count + 1, x :: iter, result_list =>
    priority_loop skip count iter (if skip = some x then result_list else result_list ++ [x])

/-- The template `scheduler_unit::order_by_priority(result_list, input_list,
last_issued_from_input, num_warps_to_add, ordering, priority_func)`.  `sort` stands for
`std::sort`, of which the C++ standard fixes the result only up to the order of
equivalent elements. -/
def order_by_priority {T : Type} [DecidableEq T] (sort : (T → T → Bool) → List T → List T)
    (input_list : List T) (last_issued_from_input num_warps_to_add : Nat)
    (ordering : OrderingType) (priority_func : T → T → Bool) : Except Fault (List T) :=
  if ¬ num_warps_to_add ≤ input_list.length then .error .abort
  else
    match ordering with
    | .ORDERING_GREEDY_THEN_PRIORITY_FUNC =>
      match input_list[last_issued_from_input]? with
      | none => .error .undefined
      | some greedy_value =>
        priority_loop (some greedy_value) num_warps_to_add (sort priority_func input_list)
          [greedy_value]
    | .ORDERED_PRIORITY_FUNC_ONLY =>
      priority_loop none num_warps_to_add (sort priority_func input_list) []
    | .other => .error .abort

/-- What the C++ standard promises of `std::sort(first, last, comp)`: the result is a
rearrangement of the input in which no element is `comp`-less than an earlier one. -/
def is_std_sort {T : Type} (comp : T → T → Bool) (input output : List T) : Prop :=
  output.Perm input ∧ output.Pairwise fun a b => comp b a = false

/-- Member `scheduler_unit::sort_warps_by_oldest_dynamic_id(lhs, rhs)`.  A pointer is
`none` for `NULL` and the index of its warp otherwise, so `lhs < rhs` with a `NULL`
among the two holds exactly when `lhs` is `NULL` and `rhs` is not; `done_exit`,
`waiting` and `get_dynamic_warp_id` are the member functions of the warps (a call of
`waiting()` never changes the value that a later call returns). -/
def sort_warps_by_oldest_dynamic_id (done_exit waiting : Nat → Bool)
    (get_dynamic_warp_id : Nat → Nat) (lhs rhs : Option Nat) : Bool :=
  match lhs, rhs with
  | some l, some r =>
    if done_exit l = true ∨ waiting l = true then false
    else if done_exit r = true ∨ waiting r = true then true
    else decide (get_dynamic_warp_id l < get_dynamic_warp_id r)
  | none, some _ => true
  | _, none => false

/-- Member `gto_scheduler::order_warps()`: the value given to
`m_next_cycle_prioritized_warps`. -/
def gto_order_warps (sort : (Option Nat → Option Nat → Bool) → List (Option Nat) → List (Option Nat))
    (done_exit waiting : Nat → Bool) (get_dynamic_warp_id : Nat → Nat)
    (m_supervised_warps : List (Option Nat)) (m_last_supervised_issued : Nat) :
    Except Fault (List (Option Nat)) :=
  order_by_priority sort m_supervised_warps m_last_supervised_issued m_supervised_warps.length
    .ORDERING_GREEDY_THEN_PRIORITY_FUNC
    (sort_warps_by_oldest_dynamic_id done_exit waiting get_dynamic_warp_id)

/-- Member `swl_scheduler::order_warps()` for the prioritization
`SCHEDULER_PRIORITIZATION_GTO`, the only one the constructor accepts. -/
def swl_order_warps (sort : (Option Nat → Option Nat → Bool) → List (Option Nat) → List (Option Nat))
    (done_exit waiting : Nat → Bool) (get_dynamic_warp_id : Nat → Nat)
    (m_num_warps_to_limit : Nat)
    (m_supervised_warps : List (Option Nat)) (m_last_supervised_issued : Nat) :
    Except Fault (List (Option Nat)) :=
  order_by_priority sort m_supervised_warps m_last_supervised_issued
    (min m_num_warps_to_limit m_supervised_warps.length)
    .ORDERING_GREEDY_THEN_PRIORITY_FUNC
    (sort_warps_by_oldest_dynamic_id done_exit waiting get_dynamic_warp_id)

/-- A sorting function for examples: insertion sort. -/
def example_sort {T : Type} (comp : T → T → Bool) (l : List T) : List T :=
  l.insertionSort fun a b => comp b a = false

/-- Whether a warp is exited or waiting. -/
def warp_blocked (done_exit waiting : Nat → Bool) (w : Nat) : Bool :=
  done_exit w || waiting w

/-! ## Heights of fragments -/

/-- The fields `height` and `pc` of `simt_stack::fragment_entry`. -/
structure fragment_entry where
  height : Nat
  pc : Nat
  deriving DecidableEq, Repr

/-- The part of a `shd_warp_t` that `fix_heights` works on.  Modelled from the spec:
the instruction buffer has `MAX_WARP_FRAGMENTS` fragment slots, each with the height
it was fetched at, and a current slot `m_frag`; by the comment in `fix_heights`,
`MAX_WARP_FRAGMENTS` calls of `ibuffer_next_frag` lead back to the current slot. -/
structure ibuffer_t where
  m_frag : Nat
  m_height : List Nat
  deriving DecidableEq, Repr

/-- Member `shd_warp_t::ibuffer_next_frag()`. -/
def ibuffer_t.ibuffer_next_frag (MAX_WARP_FRAGMENTS : Nat) (b : ibuffer_t) : ibuffer_t :=
  { b with m_frag := (b.m_frag + 1) % MAX_WARP_FRAGMENTS }

/-- Member `shd_warp_t::ibuffer_get_height()`. -/
def ibuffer_t.ibuffer_get_height (b : ibuffer_t) : Except Fault Nat :=
  match b.m_height[b.m_frag]? with
  | none => .error .undefined
  | some h => .ok h

/-- Member `shd_warp_t::ibuffer_store_height(height)`. -/
def ibuffer_t.ibuffer_store_height (b : ibuffer_t) (height : Nat) : ibuffer_t :=
  { b with m_height := b.m_height.set b.m_frag height }

/-- The difference `a - k` of an `unsigned` and a `signed`, computed in `unsigned`. -/
def unsigned_sub (a : Nat) (k : Int) : Nat := Int.toNat (((a : Int) - k) % 4294967296)

/-- The part of a `shader_core_ctx` that `fix_heights` works on: `m_fragment_entries`
and the instruction buffers of `m_warp`, both indexed by warp id. -/
structure fragment_state where
  m_fragment_entries : List (List fragment_entry)
  m_warp : List ibuffer_t
  deriving DecidableEq, Repr

/-- The body of the first loop of `fix_heights`, for one entry. -/
def fix_entry (height : Nat) (height_removed : Int) (e : fragment_entry) : fragment_entry :=
  if e.height ≥ height then { e with height := unsigned_sub e.height height_removed } else e

/-- The second loop of `fix_heights`, with `n` iterations to go. -/
def fix_buffer_loop (MAX_WARP_FRAGMENTS height : Nat) (height_removed : Int) :
    Nat → ibuffer_t → Except Fault ibuffer_t
  | 0, b => .ok b
  | n + 1, b =>
    let b := b.ibuffer_next_frag MAX_WARP_FRAGMENTS
    match b.ibuffer_get_height with
    | .error e => .error e
    | .ok h =>
      fix_buffer_loop MAX_WARP_FRAGMENTS height height_removed n
        (if h ≥ height then b.ibuffer_store_height (unsigned_sub h height_removed) else b)

/-- Member `shader_core_ctx::fix_heights(height, height_removed, warp_id)`.  The first
loop goes down the deque; as its iterations touch different entries, the order does
not show in the result. -/
def fix_heights (MAX_WARP_FRAGMENTS : Nat) (c : fragment_state) (height : Nat)
    (height_removed : Int) (warp_id : Nat) : Except Fault fragment_state :=
  match c.m_fragment_entries[warp_id]? with
  | none => .error .undefined
  | some entries =>
    let m_fragment_entries :=
      c.m_fragment_entries.set warp_id (entries.map (fix_entry height height_removed))
    if MAX_WARP_FRAGMENTS = 0 then .ok { c with m_fragment_entries := m_fragment_entries }
    else
      match c.m_warp[warp_id]? with
      | none => .error .undefined
      | some b =>
        match fix_buffer_loop MAX_WARP_FRAGMENTS height height_removed MAX_WARP_FRAGMENTS b with
        | .error e => .error e
        | .ok b =>
          .ok { m_fragment_entries := m_fragment_entries, m_warp := c.m_warp.set warp_id b }

/-- The new value of a cached height: `k` less when it is at least `h`. -/
def renumbered (h k x : Nat) : Nat := if x ≥ h then x - k else x

/-- A core with two warps for examples; warp 1 has entries at the heights 0 to 3. -/
def example_fragments : fragment_state where
  m_fragment_entries := [[⟨5, 0⟩], [⟨0, 8⟩, ⟨1, 16⟩, ⟨2, 24⟩, ⟨3, 32⟩]]
  m_warp := [⟨0, [4, 4]⟩, ⟨1, [3, 1]⟩]

/-! ## Result buses -/

/-- The loop of `test_res_bus` from bus `i` on.  `L` is `MAX_ALU_LATENCY`, the width of
a bus, and `std::bitset::test` throws for a position that is not below it. -/
def test_res_bus_loop (L latency : Nat) : List Nat → Nat → Except Fault Int
  | [], _ => .ok (-1)
  | bus :: rest, i =>
    if ¬ latency < L then .error .abort
    else if bus.testBit latency = false then .ok (i : Int)
    else test_res_bus_loop L latency rest (i + 1)

/-- Member `shader_core_ctx::test_res_bus(latency)`; `num_result_bus` is the length
of `m_result_bus`. -/
def test_res_bus (L : Nat) (m_result_bus : List Nat) (latency : Nat) : Except Fault Int :=
  test_res_bus_loop L latency m_result_bus 0

/-- What `execute` finds at a function unit when it reaches it: the value of
`issue_inst.has_ready() && m_fu[n]->can_issue(**ready_reg)`, the value of
`m_fu[n]->stallable()`, and the latency of the ready instruction. -/
structure fu_offer where
  can_issue : Bool
  stallable : Bool
  latency : Nat
  deriving DecidableEq, Repr

/-- An instruction issued into a unit that cannot stall: the cycle of the issue, the
latency, and the result bus reserved for it. -/
structure bus_issue where
  cycle : Nat
  latency : Nat
  bus : Nat
  deriving DecidableEq, Repr

/-- The body of the loop of `execute` over the function units, in cycle `cycle`: the
buses afterwards, and the issue into a unit that cannot stall, if there is one. -/
def execute_unit (L cycle : Nat) (m_result_bus : List Nat) (o : fu_offer) :
    Except Fault (List Nat × List bus_issue) :=
  if o.can_issue = true then
    if o.stallable = false then
      match test_res_bus L m_result_bus o.latency with
      | .error e => .error e
      | .ok resbus =>
        if resbus ≠ -1 then
          if ¬ o.latency < L then .error .abort
          else
            match m_result_bus[resbus.toNat]? with
            | none => .error .undefined
            | some bus =>
              .ok (m_result_bus.set resbus.toNat (bs_set bus o.latency),
                [⟨cycle, o.latency, resbus.toNat⟩])
        else .ok (m_result_bus, [])
    else .ok (m_result_bus, [])
  else .ok (m_result_bus, [])

/-- The loop of `execute` over the function units. -/
def execute_units (L cycle : Nat) :
    List fu_offer → List Nat → Except Fault (List Nat × List bus_issue)
  | [], m_result_bus => .ok (m_result_bus, [])
  | o :: rest, m_result_bus =>
    match execute_unit L cycle m_result_bus o with
    | .error e => .error e
    | .ok (m_result_bus, issued) =>
      match execute_units L cycle rest m_result_bus with
      | .error e => .error e
      | .ok (m_result_bus, more) => .ok (m_result_bus, issued ++ more)

/-- Member `shader_core_ctx::execute()` in cycle `cycle`, as far as the result buses
go: every bus is shifted right by one, then the function units are visited. -/
def execute (L cycle : Nat) (m_result_bus : List Nat) (offers : List fu_offer) :
    Except Fault (List Nat × List bus_issue) :=
  execute_units L cycle offers (m_result_bus.map fun bus => bus >>> 1)

/-- One call of `execute` per cycle, from cycle `cycle` on; `schedule` lists what
the function units offer in each cycle. -/
def execute_run (L : Nat) : List (List fu_offer) → Nat → List Nat →
    Except Fault (List Nat × List bus_issue)
  | [], _, m_result_bus => .ok (m_result_bus, [])
  | offers :: schedule, cycle, m_result_bus =>
    match execute L cycle m_result_bus offers with
    | .error e => .error e
    | .ok (m_result_bus, issued) =>
      match execute_run L schedule (cycle + 1) m_result_bus with
      | .error e => .error e
      | .ok (m_result_bus, more) => .ok (m_result_bus, issued ++ more)

/-- The invariant of the result buses before the call of `execute` in cycle `t`: every
issue so far is on a bus that exists, an issue that completes in cycle `t - 1` or
later has its bit set in its bus, and no two issues share the cycle of completion and
the bus. -/
def bus_inv (t : Nat) (m_result_bus : List Nat) (issued : List bus_issue) : Prop :=
  (∀ r ∈ issued, r.bus < m_result_bus.length) ∧
  (∀ r ∈ issued, t ≤ r.cycle + r.latency + 1 →
    ∃ bus, m_result_bus[r.bus]? = some bus ∧
      bus.testBit (r.cycle + r.latency + 1 - t) = true) ∧
  (issued.map fun r => (r.cycle + r.latency, r.bus)).Nodup

/-! ## Operand collector: allocation of collector units -/

/-- The fields of a `warp_inst_t` in a pipeline register that the operand collector
reads: the warp, the cycle of issue (`grab_issue_cycle()`), `arch_reg.src`,
`arch_reg.dst` and the active mask. -/
structure oc_inst where
  m_warp_id : Nat
  issue_cycle : Nat
  src : List Int
  dst : List Int
  active_mask : Nat
  deriving DecidableEq, Repr

/-- The ids of the sets of collector units; `other` is any value that `allocate_cu`
does not recognize. -/
inductive cu_set_id where
  | SP_CUS
  | SFU_CUS
  | MEM_CUS
  | GEN_CUS
  | other
  deriving DecidableEq, Repr

/-- The fields of `opndcoll_rfu_t::collector_unit_t` that allocation works on.  The
instruction `m_warp` is `none` when it is `empty()`; `m_src_op` holds the register of
every valid source operand; `m_output_register` is the id of a register set. -/
structure collector_unit_t where
  m_free : Bool
  m_warp : Option oc_inst
  m_warp_id : Nat
  m_not_ready : Nat
  m_src_op : List (Option Int)
  m_output_register : Option Nat
  deriving DecidableEq, Repr

/-- An `input_port_t`: the ids of the input and output register sets and the ids of
the sets of collector units that the port may use. -/
structure input_port_t where
  m_in : List Nat
  m_out : List Nat
  m_cu_sets : List cu_set_id
  deriving DecidableEq, Repr

/-- The configuration that `allocate_cu` reads. -/
structure oc_config where
  MAX_WARP_FRAGMENTS : Nat
  gpgpu_operand_collector_num_units_sp : Nat
  gpgpu_operand_collector_num_units_sfu : Nat
  gpgpu_operand_collector_num_units_mem : Nat
  gpgpu_operand_collector_num_units_gen : Nat
  deriving DecidableEq, Repr

/-- The state of an `opndcoll_rfu_t` as far as allocation goes: the sets of collector
units, the ports, the pipeline register sets by id (a register is `none` when its
instruction is `empty()`), and the arbiter, whose state is a parameter. -/
structure opndcoll_rfu_t (α : Type) where
  m_cus : cu_set_id → List collector_unit_t
  m_in_ports : List input_port_t
  m_pipeline_reg : Nat → List (Option oc_inst)
  m_arbiter : α

/-- Modelled from the spec: a register set has a ready slot when one of its registers
holds an instruction (`register_set::has_ready()`). -/
def has_ready (regs : List (Option oc_inst)) : Bool := regs.any fun r => r.isSome

/-- The number `max_uniq_warps` that `allocate_cu` computes for a set; an id that is
not recognized ends the simulation, and so does a division by zero. -/
def max_uniq_warps (cfg : oc_config) (set_id : cu_set_id) : Except Fault Nat :=
  match set_id with
  | .other => .error .abort
  | .SP_CUS =>
    if cfg.MAX_WARP_FRAGMENTS = 0 then .error .undefined
    else .ok (cfg.gpgpu_operand_collector_num_units_sp / cfg.MAX_WARP_FRAGMENTS)
  | .SFU_CUS =>
    if cfg.MAX_WARP_FRAGMENTS = 0 then .error .undefined
    else .ok (cfg.gpgpu_operand_collector_num_units_sfu / cfg.MAX_WARP_FRAGMENTS)
  | .MEM_CUS =>
    if cfg.MAX_WARP_FRAGMENTS = 0 then .error .undefined
    else .ok (cfg.gpgpu_operand_collector_num_units_mem / cfg.MAX_WARP_FRAGMENTS)
  | .GEN_CUS =>
    if cfg.MAX_WARP_FRAGMENTS = 0 then .error .undefined
    else .ok (cfg.gpgpu_operand_collector_num_units_gen / cfg.MAX_WARP_FRAGMENTS)

/-- The body of the loop of `allocate_cu` that collects `uniq_warp_cycles`: the pair
of a unit that is not free and holds an instruction is pushed unless it is there. -/
def uniq_step (uniq : List (Nat × Nat)) (cu : collector_unit_t) : List (Nat × Nat) :=
  if cu.m_free = false then
    match cu.m_warp with
    | some test_warp =>
      if (test_warp.m_warp_id, test_warp.issue_cycle) ∈ uniq then uniq
      else uniq ++ [(test_warp.m_warp_id, test_warp.issue_cycle)]
    | none => uniq
  else uniq

/-- The deque `uniq_warp_cycles` that `allocate_cu` computes for a set of collector
units. -/
def uniq_warp_cycles (cu_set : List collector_unit_t) : List (Nat × Nat) :=
  cu_set.foldl uniq_step []

/-- Member `collector_unit_t::allocate(pipeline_reg_set, output_reg_set)`: the unit
and the input register set afterwards, and the value returned.  `get_ready` is
`register_set::get_ready()`, giving the position of a register or `none` for `NULL`. -/
def collector_unit_t.allocate (get_ready : List (Option oc_inst) → Option Nat)
    (cu : collector_unit_t) (pipeline_reg_set : List (Option oc_inst)) (output_reg_set : Nat) :
    Except Fault (collector_unit_t × List (Option oc_inst) × Bool) :=
  if cu.m_free = false then .error .abort
  else if bs_none cu.m_not_ready = false then .error .abort
  else
    let cu := { cu with m_free := false, m_output_register := some output_reg_set }
    match get_ready pipeline_reg_set with
    | none => .ok (cu, pipeline_reg_set, false)
    | some k =>
      match pipeline_reg_set[k]? with
      | none => .error .undefined
      | some none => .ok (cu, pipeline_reg_set, false)
      | some (some inst) =>
        .ok ({ cu with
               m_warp_id := inst.m_warp_id
               m_src_op := (inst.src.map fun reg_num => if reg_num ≥ 0 then some reg_num else none)
                 ++ cu.m_src_op.drop inst.src.length
               m_not_ready := (List.range inst.src.length).foldl
                 (fun bits op => if inst.src.getD op (-1) ≥ 0 then bs_set bits op else bits)
                 cu.m_not_ready
               m_warp := some inst },
          pipeline_reg_set.set k none, true)

/-- The loop of `allocate_cu` that looks for a free unit in the set: the set, the
input register set and the arbiter afterwards, and `allocated`.  The output register
set is `inp.m_out[i]`, `none` when the vector has no such element. -/
def allocate_free_unit {α : Type} (get_ready : List (Option oc_inst) → Option Nat)
    (add_read_requests : α → collector_unit_t → α)
    (pipeline_reg_set : List (Option oc_inst)) (output_reg_set : Option Nat) (arbiter : α) :
    List collector_unit_t →
      Except Fault (List collector_unit_t × List (Option oc_inst) × α × Bool)
  | [] => .ok ([], pipeline_reg_set, arbiter, false)
  | cu :: rest =>
    if cu.m_free = true then
      match output_reg_set with
      | none => .error .undefined
      | some rout =>
        match cu.allocate get_ready pipeline_reg_set rout with
        | .error e => .error e
        | .ok (cu, regs, allocated) =>
          .ok (cu :: rest, regs, add_read_requests arbiter cu, allocated)
    else
      match allocate_free_unit get_ready add_read_requests pipeline_reg_set output_reg_set
          arbiter rest with
      | .error e => .error e
      | .ok (rest, regs, arbiter, allocated) => .ok (cu :: rest, regs, arbiter, allocated)

/-- The value of `allow_exec` in `allocate_cu`. -/
def allow_exec (get_ready : List (Option oc_inst) → Option Nat) (uniq : List (Nat × Nat))
    (max : Nat) (pipeline_reg_set : List (Option oc_inst)) : Except Fault Bool :=
  if uniq.length < max then .ok true
  else if uniq.length = max then
    match get_ready pipeline_reg_set with
    | none => .ok false
    | some k =>
      match pipeline_reg_set[k]? with
      | none => .error .undefined
      | some none => .ok false
      | some (some inst) => .ok (decide ((inst.m_warp_id, inst.issue_cycle) ∈ uniq))
  else .error .abort

/-- The loop of `allocate_cu` over the sets of collector units of the port, for the
input register set `rin` and the output register set `rout`.  The body ends in a
`break` on every path that reaches its end, so the sets after the first one are never
looked at. -/
def allocate_cu_sets {α : Type} (cfg : oc_config)
    (get_ready : List (Option oc_inst) → Option Nat)
    (add_read_requests : α → collector_unit_t → α) (rin : Nat) (rout : Option Nat)
    (s : opndcoll_rfu_t α) : List cu_set_id → Except Fault (opndcoll_rfu_t α)
  | [] => .ok s
  | set_id :: _ =>
    match max_uniq_warps cfg set_id with
    | .error e => .error e
    | .ok max =>
      let uniq := uniq_warp_cycles (s.m_cus set_id)
      if ¬ uniq.length ≤ max then .error .abort
      else
        match allow_exec get_ready uniq max (s.m_pipeline_reg rin) with
        | .error e => .error e
        | .ok false => .ok s
        | .ok true =>
          match allocate_free_unit get_ready add_read_requests (s.m_pipeline_reg rin) rout
              s.m_arbiter (s.m_cus set_id) with
          | .error e => .error e
          | .ok (cu_set, regs, arbiter, _) =>
            .ok { s with
                  m_cus := Function.update s.m_cus set_id cu_set
                  m_pipeline_reg := Function.update s.m_pipeline_reg rin regs
                  m_arbiter := arbiter }

/-- The body of the loop of `allocate_cu` over the input register sets of the port. -/
def allocate_cu_stage {α : Type} (cfg : oc_config)
    (get_ready : List (Option oc_inst) → Option Nat)
    (add_read_requests : α → collector_unit_t → α) (inp : input_port_t)
    (s : opndcoll_rfu_t α) (i : Nat) : Except Fault (opndcoll_rfu_t α) :=
  match inp.m_in[i]? with
  | none => .error .undefined
  | some rin =>
    if has_ready (s.m_pipeline_reg rin) = true then
      allocate_cu_sets cfg get_ready add_read_requests rin inp.m_out[i]? s inp.m_cu_sets
    else .ok s

/-- Member `opndcoll_rfu_t::allocate_cu(port_num)`. -/
def allocate_cu {α : Type} (cfg : oc_config) (get_ready : List (Option oc_inst) → Option Nat)
    (add_read_requests : α → collector_unit_t → α) (s : opndcoll_rfu_t α) (port_num : Nat) :
    Except Fault (opndcoll_rfu_t α) :=
  match s.m_in_ports[port_num]? with
  | none => .error .undefined
  | some inp =>
    (List.range inp.m_in.length).foldlM
      (fun s i => allocate_cu_stage cfg get_ready add_read_requests inp s i) s

/-- A configuration for examples: sets of at most two warps in the dedicated units and
one warp in the general units. -/
def example_oc_config : oc_config where
  MAX_WARP_FRAGMENTS := 2
  gpgpu_operand_collector_num_units_sp := 4
  gpgpu_operand_collector_num_units_sfu := 4
  gpgpu_operand_collector_num_units_mem := 4
  gpgpu_operand_collector_num_units_gen := 2

/-- A collector unit for examples: free when `inst` is `none`, else holding `inst`. -/
def example_unit (inst : Option oc_inst) : collector_unit_t where
  m_free := inst.isNone
  m_warp := inst
  m_warp_id := 0
  m_not_ready := 0
  m_src_op := []
  m_output_register := none

/-- An operand collector for examples (the arbiter is left out): the port 0 reads the
register set 0 and may use the sets `SP_CUS` and `GEN_CUS`; the four units of `SP_CUS`
hold the instructions in `sp`, the two units of `GEN_CUS` are free, and the register
set 0 holds `ready`. -/
def example_collector (sp : List (Option oc_inst)) (ready : oc_inst) : opndcoll_rfu_t Unit where
  m_cus := fun set_id =>
    match set_id with
    | .SP_CUS => sp.map example_unit
    | .GEN_CUS => [example_unit none, example_unit none]
    | _ => []
  m_in_ports := [⟨[0], [3], [.SP_CUS, .GEN_CUS]⟩]
  m_pipeline_reg := fun rid => if rid = 0 then [some ready] else []
  m_arbiter := ()

/-- A `get_ready` for examples: the first register that holds an instruction. -/
def example_get_ready (regs : List (Option oc_inst)) : Option Nat :=
  let k := regs.findIdx fun r => r.isSome
  if k < regs.length then some k else none

/-- The pair `(warp_id, issue_cycle)` that a collector unit holds, if it is not free
and its instruction is not empty. -/
def held_pair (cu : collector_unit_t) : Option (Nat × Nat) :=
  if cu.m_free = false then cu.m_warp.map fun w => (w.m_warp_id, w.issue_cycle) else none

/-! ## Operand collector: writeback -/

/-- Member `shader_core_ctx::get_regs_written(fvt)`: the entries of `arch_reg.dst` that
are not negative, as `unsigned` values. -/
def get_regs_written (inst : oc_inst) : List Nat :=
  (inst.dst.filter fun reg_num => decide (reg_num ≥ 0)).map Int.toNat

/-- Modelled from the spec: `arbiter_t::bank_idle(bank)`, true when the bank has no
allocation in this cycle. -/
def arbiter_t.bank_idle (a : arbiter_t) (bank : Nat) : Bool :=
  decide (a.m_allocated_bank bank = .NO_ALLOC)

/-- Modelled from the spec: `arbiter_t::allocate_bank_for_write(bank, op)`, which
asserts that the bank exists and is free and marks it as allocated for a write. -/
def arbiter_t.allocate_bank_for_write (a : arbiter_t) (bank : Nat) : Except Fault arbiter_t :=
  if ¬ bank < a.m_num_banks then .error .abort
  else if a.m_allocated_bank bank ≠ .NO_ALLOC then .error .abort
  else .ok { a with m_allocated_bank := Function.update a.m_allocated_bank bank .WRITE_ALLOC }

/-- The first loop of `opndcoll_rfu_t::writeback`, over the registers written: the
value to return if the loop decides it (`false`), and the arbiter afterwards. -/
def writeback_banks (m_num_banks m_bank_warp_shift warp_id : Nat) :
    arbiter_t → List Nat → Except Fault (Bool × arbiter_t)
  | a, [] => .ok (true, a)
  | a, reg :: rest =>
    match register_bank (reg : Int) (warp_id : Int) m_num_banks m_bank_warp_shift with
    | .error e => .error e
    | .ok b =>
      let bank := Int.toNat (b % 4294967296)
      if a.bank_idle bank = true then
        match a.allocate_bank_for_write bank with
        | .error e => .error e
        | .ok a => writeback_banks m_num_banks m_bank_warp_shift warp_id a rest
      else .ok (false, a)

/-- The configuration that the statistics of `writeback` read. -/
structure regfile_config where
  gpgpu_clock_gated_reg_file : Bool
  warp_size : Nat
  n_regfile_gating_group : Nat
  deriving DecidableEq, Repr

/-- The inner loop of the count of active gating groups: whether one of the lanes
`i + j`, ..., `i + j + n - 1` is active.  `W` is the width of the mask, and
`std::bitset::test` throws for a lane that is not below it. -/
def group_active (W mask i : Nat) : Nat → Nat → Except Fault Bool
  | 0, _ => .ok false
  | n + 1, j =>
    if ¬ i + j < W then .error .abort
    else if mask.testBit (i + j) = true then .ok true
    else group_active W mask i n (j + 1)

/-- The outer loop of the count of active gating groups, from lane `i` on, with fuel;
`none` stands for a loop that does not end. -/
def gating_loop (W mask : Nat) (cfg : regfile_config) :
    Nat → Nat → Nat → Option (Except Fault Nat)
  | 0, i, active_count => if i < cfg.warp_size then none else some (.ok active_count)
  | fuel + 1, i, active_count =>
    if i < cfg.warp_size then
      match group_active W mask i cfg.n_regfile_gating_group 0 with
      | .error e => some (.error e)
      | .ok hit =>
        gating_loop W mask cfg fuel (i + cfg.n_regfile_gating_group)
          (if hit = true then active_count + cfg.n_regfile_gating_group else active_count)
    else some (.ok active_count)

/-- The argument of one call of `incregfile_writes` in `writeback`.  With a gating
group of at least one lane the loop takes at most `warp_size` rounds; with an empty
group it does not end. -/
def regfile_writes (W mask : Nat) (cfg : regfile_config) : Option (Except Fault Nat) :=
  if cfg.gpgpu_clock_gated_reg_file = true then gating_loop W mask cfg cfg.warp_size 0 0
  else some (.ok cfg.warp_size)

/-- Member `opndcoll_rfu_t::writeback(inst)`: the value returned, the arbiter
afterwards, and the total passed to `incregfile_writes`; `none` when the call does not
return.  An instruction that is `empty()` is `none`. -/
def opndcoll_writeback (W : Nat) (cfg : regfile_config) (m_num_banks m_bank_warp_shift : Nat)
    (a : arbiter_t) (inst : Option oc_inst) : Option (Except Fault (Bool × arbiter_t × Nat)) :=
  match inst with
  | none => some (.error .abort)
  | some inst =>
    let regs := get_regs_written inst
    match writeback_banks m_num_banks m_bank_warp_shift inst.m_warp_id a regs with
    | .error e => some (.error e)
    | .ok (false, a) => some (.ok (false, a, 0))
    | .ok (true, a) =>
      if regs = [] then some (.ok (true, a, 0))
      else
        match regfile_writes W inst.active_mask cfg with
        | none => none
        | some (.error e) => some (.error e)
        | some (.ok active_count) => some (.ok (true, a, regs.length * active_count))

/-- An arbiter with four idle banks for examples. -/
def example_idle_arbiter : arbiter_t where
  m_num_banks := 4
  m_num_collectors := 4
  m_queue := fun _ => []
  m_allocated_bank := fun _ => .NO_ALLOC
  m_last_cu := 0
  _inmatch := fun _ => -1
  _outmatch := fun _ => -1
  _request := fun _ _ => 0

/-! ## Load/store unit: writeback -/

/-- Lookup in a `std::map` kept as an association list, for any type of key. -/
def assoc_find {K V : Type} [DecidableEq K] (m : List (K × V)) (k : K) : Option V :=
  (m.find? fun p => decide (p.1 = k)).map fun p => p.2

/-- The member `erase(key)` of a `std::map` kept as an association list. -/
def assoc_erase {K V : Type} [DecidableEq K] (m : List (K × V)) (k : K) : List (K × V) :=
  m.filter fun p => decide (p.1 ≠ k)

/-- The assignment `m[k] = v` on a `std::map` kept as an association list (the order
of the keys is not kept: the unit never iterates over `m_pending_writes` here). -/
def assoc_set {K V : Type} [DecidableEq K] (m : List (K × V)) (k : K) (v : V) : List (K × V) :=
  (k, v) :: assoc_erase m k

/-- Member `std::bitset::to_ulong()`: it throws when the value does not fit in 64 bits. -/
def to_ulong (mask : Nat) : Except Fault Nat :=
  if mask < 18446744073709551616 then .ok mask else .error .abort

/-- The state of a `ldst_unit` as far as `writeback` goes.  An instruction that is
`empty()` is `none`.  Modelled from the spec: a cache holds the responses that are
ready in a queue, `access_ready()` tells whether there is one and `next_access()`
takes the first; each response is given by the instruction of its `mem_fetch`.
`m_next_global` and `m_L1D` are pointers, `none` for `NULL`.  `m_pending_writes` is
keyed by warp, register and mask. -/
structure ldst_unit where
  m_next_wb : Option warp_inst_t
  m_writeback_arb : Nat
  m_num_writeback_clients : Nat
  m_pipeline_reg0 : Option warp_inst_t
  m_L1T : List (Option warp_inst_t)
  m_L1C : List (Option warp_inst_t)
  m_next_global : Option (Option warp_inst_t)
  m_L1D : Option (List (Option warp_inst_t))
  m_pending_writes : List ((Nat × Nat × Nat) × Nat)
  m_scoreboard : Scoreboard

/-- The body of the loop of `ldst_unit::issue` over the destination registers of a
load that is not from shared memory: `m_pending_writes[warp_id][reg_id][mask] +=
n_accesses`, in `unsigned` arithmetic. -/
def pending_add (warp_id ulong_mask n_accesses : Nat)
    (pending : List ((Nat × Nat × Nat) × Nat)) (reg_id : Nat) : List ((Nat × Nat × Nat) × Nat) :=
  if reg_id > 0 then
    assoc_set pending (warp_id, reg_id, ulong_mask)
      (((assoc_find pending (warp_id, reg_id, ulong_mask)).getD 0 + n_accesses) % 4294967296)
  else pending

/-- The part of `ldst_unit::issue(reg_set)` that records the pending writes of the
ready instruction `inst`, whose `accessq_count()` is `n_accesses`. -/
def ldst_issue_pending (pending : List ((Nat × Nat × Nat) × Nat)) (inst : Option warp_inst_t)
    (n_accesses : Nat) : Except Fault (List ((Nat × Nat × Nat) × Nat)) :=
  match inst with
  | none => .error .abort
  | some inst =>
    if inst.is_load = true ∧ inst.space ≠ .shared_space then
      [(0 : Fin 4), 1, 2, 3].foldlM (fun pending r =>
        if inst.out r > 0 then
          match to_ulong inst.m_warp_active_mask with
          | .error e => .error e
          | .ok m => .ok (pending_add inst.m_warp_id m n_accesses pending (inst.out r))
        else .ok pending) pending
    else .ok pending

/-- The body of the loop of `ldst_unit::writeback` over the destination registers of
`m_next_wb`, for the register `reg` (which is positive): the pending writes, the
scoreboard and `insn_completed` afterwards.  `W` is the width of an active mask. -/
def wb_release_step (W : Nat) (inst : warp_inst_t)
    (st : List ((Nat × Nat × Nat) × Nat) × Scoreboard × Bool) (reg : Nat) :
    Except Fault (List ((Nat × Nat × Nat) × Nat) × Scoreboard × Bool) :=
  if inst.space ≠ .shared_space then
    match to_ulong inst.m_warp_active_mask with
    | .error e => .error e
    | .ok m =>
      let count := (assoc_find st.1 (inst.m_warp_id, reg, m)).getD 0
      if ¬ count > 0 then .error .abort
      else
        let still_pending := count - 1
        if still_pending = 0 then
          match st.2.1.releaseRegister W inst.m_warp_id reg inst.m_warp_active_mask with
          | .error e => .error e
          | .ok sb => .ok (assoc_erase st.1 (inst.m_warp_id, reg, m), sb, true)
        else .ok (assoc_set st.1 (inst.m_warp_id, reg, m) still_pending, st.2.1, st.2.2)
  else
    match st.2.1.releaseRegister W inst.m_warp_id reg inst.m_warp_active_mask with
    | .error e => .error e
    | .ok sb => .ok (st.1, sb, true)

/-- The first part of `ldst_unit::writeback()`: the instruction in `m_next_wb`, if
there is one, is written back.  `granted` is the value that
`m_operand_collector->writeback(m_next_wb)` returns.  The calls into the core
(`warp_inst_complete`) and the time stamps are left out. -/
def ldst_writeback_next (W : Nat) (u : ldst_unit) (granted : Bool) : Except Fault ldst_unit :=
  match u.m_next_wb with
  | none => .ok u
  | some inst =>
    if granted = true then
      match [(0 : Fin 4), 1, 2, 3].foldlM (fun st r =>
          if inst.out r > 0 then wb_release_step W inst st (inst.out r) else .ok st)
          (u.m_pending_writes, u.m_scoreboard, false) with
      | .error e => .error e
      | .ok st =>
        .ok { u with m_pending_writes := st.1, m_scoreboard := st.2.1, m_next_wb := none }
    else .ok u

/-- The `switch` in the loop of `ldst_unit::writeback()`: the unit afterwards, and
whether the client was serviced.  The calls into the core for atomics and for the
count of instructions in the pipeline are left out. -/
def service_client (u : ldst_unit) (next_client : Nat) : Except Fault (ldst_unit × Bool) :=
  match next_client with
  | 0 =>
    match u.m_pipeline_reg0 with
    | some inst => .ok ({ u with m_next_wb := some inst, m_pipeline_reg0 := none }, true)
    | none => .ok (u, false)
  | 1 =>
    match u.m_L1T with
    | mf :: rest => .ok ({ u with m_next_wb := mf, m_L1T := rest }, true)
    | [] => .ok (u, false)
  | 2 =>
    match u.m_L1C with
    | mf :: rest => .ok ({ u with m_next_wb := mf, m_L1C := rest }, true)
    | [] => .ok (u, false)
  | 3 =>
    match u.m_next_global with
    | some mf => .ok ({ u with m_next_wb := mf, m_next_global := none }, true)
    | none => .ok (u, false)
  | 4 =>
    match u.m_L1D with
    | some (mf :: rest) => .ok ({ u with m_next_wb := mf, m_L1D := some rest }, true)
    | _ => .ok (u, false)
  | _ => .error .abort

/-- The loop of `ldst_unit::writeback()` over the clients, with `c` the loop counter
and `n` rounds to go at most; the clients serviced so far are listed. -/
def arbitrate_loop : Nat → Nat → ldst_unit → List Nat → Except Fault (ldst_unit × List Nat)
  | 0, _, u, serviced => .ok (u, serviced)
  | n + 1, c, u, serviced =>
    if u.m_next_wb.isNone = true then
      let next_client := ((c + u.m_writeback_arb) % 4294967296) % u.m_num_writeback_clients
      match service_client u next_client with
      | .error e => .error e
      | .ok (u, true) => arbitrate_loop n (c + 1) u (serviced ++ [next_client])
      | .ok (u, false) => arbitrate_loop n (c + 1) u serviced
    else .ok (u, serviced)

/-- The second part of `ldst_unit::writeback()`: the loop over the clients and the
update of `m_writeback_arb`; `serviced_client` is the last client serviced. -/
def ldst_arbitrate (u : ldst_unit) : Except Fault (ldst_unit × List Nat) :=
  match arbitrate_loop u.m_num_writeback_clients 0 u [] with
  | .error e => .error e
  | .ok (u, serviced) =>
    match serviced.getLast? with
    | some serviced_client =>
      .ok ({ u with m_writeback_arb := (serviced_client + 1) % u.m_num_writeback_clients },
        serviced)
    | none => .ok (u, serviced)

/-- Member `ldst_unit::writeback()`: the unit afterwards and the clients serviced. -/
def ldst_unit.writeback (W : Nat) (u : ldst_unit) (granted : Bool) :
    Except Fault (ldst_unit × List Nat) :=
  match ldst_writeback_next W u granted with
  | .error e => .error e
  | .ok u => ldst_arbitrate u

/-- The response that client `c` has ready: `none` when it has none, and `some none`
for a response whose instruction is empty. -/
def client_response (u : ldst_unit) (c : Nat) : Option (Option warp_inst_t) :=
  match c with
  | 0 => u.m_pipeline_reg0.map some
  | 1 => u.m_L1T.head?
  | 2 => u.m_L1C.head?
  | 3 => u.m_next_global
  | 4 => u.m_L1D.bind fun q => q.head?
  | _ => none

/-- A load/store unit for examples, with an empty writeback register, priority at
client 3, a texture response for register 7 and a constant response for register 8. -/
def example_ldst : ldst_unit where
  m_next_wb := none
  m_writeback_arb := 3
  m_num_writeback_clients := 5
  m_pipeline_reg0 := none
  m_L1T := [some (global_load 0 7 15)]
  m_L1C := [some (global_load 1 8 15)]
  m_next_global := none
  m_L1D := none
  m_pending_writes := []
  m_scoreboard := Scoreboard.init 2

/-- A load/store unit for examples whose writeback register holds a global load of
warp 0 into register 7 with the lanes 0 to 3, with `count` accesses of the load
pending and the register reserved in the scoreboard. -/
def example_ldst_wb (count : Nat) : ldst_unit :=
  { example_ldst with
    m_next_wb := some (global_load 0 7 15)
    m_pending_writes := [((0, 7, 15), count)]
    m_scoreboard := Scoreboard.mk [[⟨7, 15⟩], []] [[7], []] }

/-- Modelled from the spec: `register_set::get_uniq_warps()`, the distinct pairs
`(warp_id, issue_cycle)` of the instructions that a stage holds; the stage is given by
the pair of each of its occupied registers. -/
def get_uniq_warps (stage : List (Nat × Nat)) : List (Nat × Nat) :=
  stage.foldl (fun uniq p => if p ∈ uniq then uniq else uniq ++ [p]) []

/-- What happens to a stage: an instruction with the pair `(w, t)` is offered to it, or
the instruction in its `k`-th occupied register leaves it. -/
inductive stage_op where
  | insert (w t : Nat)
  | remove (k : Nat)
  deriving DecidableEq, Repr

/-- One guarded operation on a stage: an offered instruction is inserted when
`check_issue` returns non-zero, as in `scheduler_unit::cycle` and
`dispatch_ready_cu`. -/
def guarded_step (max : Nat) (stage : List (Nat × Nat)) : stage_op → Except Fault (List (Nat × Nat))
  | .insert w t =>
    match check_issue (get_uniq_warps stage) max w t with
    | .error e => .error e
    | .ok r => if r ≠ 0 then .ok (stage ++ [(w, t)]) else .ok stage
  | .remove k => .ok (stage.eraseIdx k)

/-- A sequence of guarded operations on a stage. -/
def guarded_run (max : Nat) : List (Nat × Nat) → List stage_op → Except Fault (List (Nat × Nat))
  | stage, [] => .ok stage
  | stage, op :: ops =>
    match guarded_step max stage op with
    | .error e => .error e
    | .ok stage => guarded_run max stage ops

/-- Reserving lanes `m` of register `r` for warp `w` would abort: some entry of the
warp for `r` shares a lane with `m`. -/
def would_collide (s : Scoreboard) (w r m : Nat) : Prop :=
  ∃ e ∈ s.entries w, e.reg = r ∧ bs_any (e.active_mask &&& m) = true

/-- The cell `(i, o)` of the request matrix can no longer be granted: bank `i` or
collector unit `o` is matched. -/
def cell_closed (inmatch outmatch : Nat → Int) (i o : Nat) : Prop :=
  inmatch i ≠ -1 ∨ outmatch o ≠ -1

/-- The matching seen from the collector units: a bank allocated for a write is
marked as matched, and every matched collector unit is matched to a bank that is not
allocated for a write, that requested the unit and that is matched to it. -/
def grants_ok (a : arbiter_t) (request : Nat → Nat → Int) (inmatch outmatch : Nat → Int) :
    Prop :=
  (∀ i, i < a.m_num_banks → (a.m_allocated_bank i).is_write = true → inmatch i ≠ -1) ∧
    ∀ o, o < a.m_num_collectors → outmatch o ≠ -1 →
      ∃ i, i < a.m_num_banks ∧ outmatch o = (i : Int) ∧ inmatch i = (o : Int) ∧
        request i o ≠ 0 ∧ (a.m_allocated_bank i).is_write = false

/-- An arbiter with two banks and one collector unit; bank 0 asks for the unit. -/
def example_wide_arbiter : arbiter_t :=
  { m_num_banks := 2
    m_num_collectors := 1
    m_queue := fun i => if i = 0 then [⟨0, 0, 8, 0, 0⟩] else []
    m_allocated_bank := fun _ => .NO_ALLOC
    m_last_cu := 0
    _inmatch := fun _ => 0
    _outmatch := fun _ => 0
    _request := fun _ _ => 0 }

/-- The enumerators of `scheduler_prioritization_type` that `shader.cc` names. -/
inductive scheduler_prioritization_type where
  | SCHEDULER_PRIORITIZATION_LRR
  | SCHEDULER_PRIORITIZATION_SRR
  | SCHEDULER_PRIORITIZATION_GTO
  deriving DecidableEq, Repr

/-- The member functions of `shd_warp_t` that `two_level_active_scheduler::order_warps`
calls, as functions of the state `σ` of the core and of the index of the warp.
`waiting` returns the state as well because `shd_warp_t::waiting()` may clear a
memory barrier. -/
structure two_level_env (σ : Type) where
  waiting : σ → Nat → Bool × σ
  ibuffer_next_inst : σ → Nat → Option inst_t
  get_warp_id : σ → Nat → Nat

/-- The body of the loop `for (i < 4)` of `order_warps` for the warp `w`: the value of
`waiting` after looking at input `i` of the next instruction. -/
def longop_step {σ : Type} (env : two_level_env σ) (sb : Scoreboard) (core : σ) (w : Nat)
    (waiting : Bool) (i : Fin 4) : Except Fault Bool :=
  match env.ibuffer_next_inst core w with
  | none => .ok waiting
  | some inst =>
    if inst.in_ i > 0 then
      match sb.islongop (env.get_warp_id core w) (inst.in_ i) with
      | .error e => .error e
      | .ok b => .ok (waiting || b)
    else .ok waiting

/-- The test of `order_warps` on one element of `m_next_cycle_prioritized_warps`: the
final value of `waiting` and the state of the core.  A pointer is `some w` for the
warp `w` and `none` for a null pointer, whose dereference is undefined. -/
def demote_test {σ : Type} (env : two_level_env σ) (sb : Scoreboard) (core : σ) :
    Option Nat → Except Fault (Bool × σ)
  | none => .error .undefined
  | some w =>
    let r := env.waiting core w
    match (List.finRange 4).foldlM (longop_step env sb r.2 w) r.1 with
    | .error e => .error e
    | .ok waiting => .ok (waiting, r.2)

/-- The first loop of `order_warps`, over the elements of
`m_next_cycle_prioritized_warps` that are still to be examined.  The state is the
core, the elements kept so far, `m_pending_warps` and `num_demoted`.  The trace
output of `SCHED_DPRINTF` is left out. -/
def demote_loop {σ : Type} (env : two_level_env σ) (sb : Scoreboard) :
    List (Option Nat) → σ → List (Option Nat) → List (Option Nat) → Nat →
      Except Fault (σ × List (Option Nat) × List (Option Nat) × Nat)
  | [], core, kept, pending, num_demoted => .ok (core, kept, pending, num_demoted)
  | p :: rest, core, kept, pending, num_demoted =>
    match demote_test env sb core p with
    | .error e => .error e
    | .ok (true, core) =>
      demote_loop env sb rest core kept (pending ++ [p]) ((num_demoted + 1) % 4294967296)
    | .ok (false, core) => demote_loop env sb rest core (kept ++ [p]) pending num_demoted

/-- The loop `while (m_next_cycle_prioritized_warps.size() < m_max_active_warps)` of
`order_warps`; `front()` of an empty deque is undefined.  The loop runs at most
`m_max_active_warps - size()` times, which is the fuel to start with. -/
def promote_loop (m_max_active_warps : Nat) :
    Nat → List (Option Nat) → List (Option Nat) → Nat →
      Except Fault (List (Option Nat) × List (Option Nat) × Nat)
  | 0, active, pending, num_promoted => .ok (active, pending, num_promoted)
  | fuel + 1, active, pending, num_promoted =>
    if active.length < m_max_active_warps then
      match pending with
      | [] => .error .undefined
      | p :: rest =>
        promote_loop m_max_active_warps fuel (active ++ [p]) rest
          ((num_promoted + 1) % 4294967296)
    else .ok (active, pending, num_promoted)

/-- Member `two_level_active_scheduler::order_warps()`: the state of the core,
`m_next_cycle_prioritized_warps` and `m_pending_warps` afterwards. -/
def two_level_order_warps {σ : Type} (env : two_level_env σ) (sb : Scoreboard)
    (m_outer_level_prioritization : scheduler_prioritization_type) (m_max_active_warps : Nat)
    (core : σ) (m_next_cycle_prioritized_warps m_pending_warps : List (Option Nat)) :
    Except Fault (σ × List (Option Nat) × List (Option Nat)) :=
  match demote_loop env sb m_next_cycle_prioritized_warps core [] m_pending_warps 0 with
  | .error e => .error e
  | .ok (core, active, pending, num_demoted) =>
    if m_outer_level_prioritization = .SCHEDULER_PRIORITIZATION_SRR then
      match promote_loop m_max_active_warps (m_max_active_warps - active.length)
          active pending 0 with
      | .error e => .error e
      | .ok (active, pending, num_promoted) =>
        if ¬ num_promoted = num_demoted then .error .abort
        else .ok (core, active, pending)
    else .error .abort

/-- The results of the tests of the first loop of `order_warps`, in the order of the
list: element `k` is the value of `waiting` for the element `k` of the list, computed
in the state that the earlier tests leave. -/
def demote_flags {σ : Type} (env : two_level_env σ) (sb : Scoreboard) :
    List (Option Nat) → σ → Except Fault (List Bool)
  | [], _ => .ok []
  | p :: rest, core =>
    match demote_test env sb core p with
    | .error e => .error e
    | .ok (b, core) =>
      match demote_flags env sb rest core with
      | .error e => .error e
      | .ok bs => .ok (b :: bs)

/-- The elements of a list whose flag is `b`, in order. -/
def select_flag {α : Type} (b : Bool) : List α → List Bool → List α
  | x :: xs, f :: fs => if f = b then x :: select_flag b xs fs else select_flag b xs fs
  | _, _ => []

/-- An environment for examples: warp 1 is waiting, and the next instruction of warp 2
reads register 5. -/
def example_two_level_env : two_level_env Unit where
  waiting := fun _ w => (decide (w = 1), ())
  ibuffer_next_inst := fun _ w =>
    if w = 2 then
      some { out := regs4 0 0 0 0, in_ := regs4 5 0 0 0, pred := 0, ar1 := 0, ar2 := 0,
             is_load := false, space := .reg_space }
    else none
  get_warp_id := fun _ w => w

/-! # Lemmas and theorems -/

/-! ## Bit-set lemmas -/

theorem bs_any_and_iff (a b : Nat) :
    bs_any (a &&& b) = true ↔ ∃ i, a.testBit i = true ∧ b.testBit i = true := by
  unfold bs_any
  constructor
  · intro h
    have hne : a &&& b ≠ 0 := by simpa using h
    obtain ⟨i, hi⟩ := Nat.ne_zero_implies_bit_true hne
    exact ⟨i, by simpa [Nat.testBit_and] using hi⟩
  · rintro ⟨i, ha, hb⟩
    have hne : a &&& b ≠ 0 := by
      intro h0
      have : (a &&& b).testBit i = true := by simp [Nat.testBit_and, ha, hb]
      simp [h0] at this
    simpa using hne

theorem testBit_false_of_lt {a N i : Nat} (ha : a < 2 ^ N) (hi : N ≤ i) :
    a.testBit i = false :=
  Nat.testBit_lt_two_pow (lt_of_lt_of_le ha (Nat.pow_le_pow_right (by decide) hi))

theorem testBit_and_bs_not {N a : Nat} (ha : a < 2 ^ N) (b i : Nat) :
    (a &&& bs_not N b).testBit i = (a.testBit i && !b.testBit i) := by
  unfold bs_not
  rw [Nat.testBit_and, Nat.testBit_xor, Nat.testBit_two_pow_sub_one]
  by_cases hi : i < N
  · simp [hi]
  · rw [testBit_false_of_lt ha (Nat.le_of_not_lt hi)]
    simp

theorem and_bs_not_lt {N a : Nat} (ha : a < 2 ^ N) (b : Nat) : a &&& bs_not N b < 2 ^ N :=
  lt_of_le_of_lt Nat.and_le_left ha

theorem bs_none_iff (a : Nat) : bs_none a = true ↔ ∀ i, a.testBit i = false := by
  unfold bs_none
  constructor
  · intro h i
    have : a = 0 := by simpa using h
    simp [this]
  · intro h
    have : a = 0 := Nat.eq_of_testBit_eq (by simpa using h)
    simp [this]

/-! ## `reserveRegister` -/

theorem entries_eq_getElem (s : Scoreboard) {w : Nat} (h : w < s.reg_table.length) :
    s.entries w = s.reg_table[w] := by
  simp [Scoreboard.entries, List.getD_eq_getElem?_getD, List.getElem?_eq_getElem h]

theorem entries_of_not_lt (s : Scoreboard) {w : Nat} (h : ¬ w < s.reg_table.length) :
    s.entries w = [] := by
  simp [Scoreboard.entries, List.getD_eq_getElem?_getD, List.getElem?_eq_none (Nat.le_of_not_lt h)]

theorem entries_set_same (s : Scoreboard) {w : Nat} (h : w < s.reg_table.length)
    (tbl : List reg_and_mask) (lo : List (List Nat)) :
    Scoreboard.entries { reg_table := s.reg_table.set w tbl, longopregs := lo } w = tbl := by
  simp [Scoreboard.entries, List.getD_eq_getElem?_getD, List.getElem?_set, h]

theorem entries_set_other (s : Scoreboard) {w w' : Nat} (h : w' ≠ w)
    (tbl : List reg_and_mask) (lo : List (List Nat)) :
    Scoreboard.entries { reg_table := s.reg_table.set w tbl, longopregs := lo } w' =
      s.entries w' := by
  simp [Scoreboard.entries, List.getD_eq_getElem?_getD, List.getElem?_set, Ne.symm h]

theorem reserveLoop_eq_none_iff (r m : Nat) (l : List reg_and_mask) (res : Nat) :
    reserveLoop r m l res = none ↔
      ∃ e ∈ l, e.reg = r ∧ bs_any (e.active_mask &&& m) = true := by
  induction l generalizing res with
  | nil => simp [reserveLoop]
  | cons e l ih =>
    unfold reserveLoop
    by_cases hr : e.reg = r
    · by_cases hb : bs_any (e.active_mask &&& m) = true
      · rw [if_pos hr, if_pos hb]
        exact ⟨fun _ => ⟨e, List.mem_cons_self _ _, hr, hb⟩, fun _ => rfl⟩
      · rw [if_pos hr, if_neg hb, Option.map_eq_none', ih]
        constructor
        · rintro ⟨x, hx, h1, h2⟩
          exact ⟨x, List.mem_cons_of_mem _ hx, h1, h2⟩
        · rintro ⟨x, hx, h1, h2⟩
          rcases List.mem_cons.mp hx with hx | hx
          · subst hx; exact absurd h2 hb
          · exact ⟨x, hx, h1, h2⟩
    · rw [if_neg hr, Option.map_eq_none', ih]
      constructor
      · rintro ⟨x, hx, h1, h2⟩
        exact ⟨x, List.mem_cons_of_mem _ hx, h1, h2⟩
      · rintro ⟨x, hx, h1, h2⟩
        rcases List.mem_cons.mp hx with hx | hx
        · subst hx; exact absurd h1 hr
        · exact ⟨x, hx, h1, h2⟩

theorem reserveLoop_of_clear (r m : Nat) (l : List reg_and_mask) (res : Nat)
    (h : ∀ e ∈ l, e.reg = r → bs_any (e.active_mask &&& m) = false) :
    reserveLoop r m l res =
      some (l.map (fun e => if e.reg = r then
              { e with active_mask := e.active_mask ||| m } else e),
            if l.any (fun e => decide (e.reg = r)) then 1 else res) := by
  induction l generalizing res with
  | nil => simp [reserveLoop]
  | cons e l ih =>
    have hl : ∀ x ∈ l, x.reg = r → bs_any (x.active_mask &&& m) = false :=
      fun x hx => h x (List.mem_cons_of_mem _ hx)
    unfold reserveLoop
    by_cases hr : e.reg = r
    · have hb : ¬ bs_any (e.active_mask &&& m) = true := by
        simp [h e (List.mem_cons_self _ _) hr]
      rw [if_pos hr, if_neg hb, ih _ hl]
      simp [hr]
    · rw [if_neg hr, ih _ hl]
      simp [hr]

theorem reserveRegister_of_clear (s : Scoreboard) (w r m : Nat) (hw : w < s.reg_table.length)
    (h : ∀ e ∈ s.reg_table[w], e.reg = r → bs_any (e.active_mask &&& m) = false) :
    s.reserveRegister w r m = .ok
      (Scoreboard.mk (s.reg_table.set w
          (if (s.reg_table[w]).any (fun e => decide (e.reg = r)) then
            (s.reg_table[w]).map (fun e => if e.reg = r then
              { e with active_mask := e.active_mask ||| m } else e)
           else (s.reg_table[w]).map (fun e => if e.reg = r then
              { e with active_mask := e.active_mask ||| m } else e) ++ [⟨r, m⟩]))
        s.longopregs) := by
  unfold Scoreboard.reserveRegister
  rw [dif_pos hw, reserveLoop_of_clear r m _ 0 h]
  by_cases ha : (s.reg_table[w]).any (fun e => decide (e.reg = r)) = true
  · simp [ha]
  · simp [ha]

theorem reserveRegister_abort_iff (s : Scoreboard) (w r m : Nat) :
    s.reserveRegister w r m = .error .abort ↔
      ∃ e ∈ s.entries w, e.reg = r ∧ bs_any (e.active_mask &&& m) = true := by
  by_cases hw : w < s.reg_table.length
  · rw [entries_eq_getElem s hw, ← reserveLoop_eq_none_iff r m _ 0]
    unfold Scoreboard.reserveRegister
    rw [dif_pos hw]
    cases hL : reserveLoop r m s.reg_table[w] 0 with
    | none => simp
    | some p => simp
  · rw [entries_of_not_lt s hw]
    unfold Scoreboard.reserveRegister
    rw [dif_neg hw]
    simp

theorem filter_ne_map_update (r m : Nat) (l : List reg_and_mask) :
    (l.map (fun e => if e.reg = r then
        ({ e with active_mask := e.active_mask ||| m } : reg_and_mask) else e)).filter
        (fun e => decide (e.reg ≠ r)) =
      l.filter (fun e => decide (e.reg ≠ r)) := by
  induction l with
  | nil => rfl
  | cons e l ih =>
    simp only [ne_eq, decide_not] at ih ⊢
    by_cases hr : e.reg = r
    · simp [hr, ih]
    · simp [hr, ih]

/-- C1: `reserveRegister(w, r, m)` aborts exactly when some entry of warp `w` for
register `r` has a mask sharing a lane with `m`.  When it does not abort it returns
a scoreboard in which the lanes reserved for `(w, r)` are the previous ones united
with `m`, the entries of `w` for every other register are the same (in the same
order), and every other warp and the long-operation sets are untouched. -/
theorem reserveRegister_contract (s : Scoreboard) (w r m : Nat) :
    (s.reserveRegister w r m = .error .abort ↔
      ∃ e ∈ s.entries w, e.reg = r ∧
        ∃ i, e.active_mask.testBit i = true ∧ m.testBit i = true) ∧
    (w < s.reg_table.length → s.reserveRegister w r m ≠ .error .abort →
      ∃ s', s.reserveRegister w r m = .ok s' ∧
        (∀ i, s'.lane_reserved w r i ↔ (s.lane_reserved w r i ∨ m.testBit i = true)) ∧
        (s'.entries w).filter (fun e => decide (e.reg ≠ r)) =
          (s.entries w).filter (fun e => decide (e.reg ≠ r)) ∧
        (∀ w', w' ≠ w → s'.entries w' = s.entries w') ∧
        s'.reg_table.length = s.reg_table.length ∧
        s'.longopregs = s.longopregs) := by
  refine ⟨?_, ?_⟩
  · rw [reserveRegister_abort_iff]
    simp only [bs_any_and_iff]
  · intro hw hna
    have hclear : ∀ e ∈ s.reg_table[w], e.reg = r → bs_any (e.active_mask &&& m) = false := by
      intro e he hr
      by_contra hb
      apply hna
      rw [reserveRegister_abort_iff, entries_eq_getElem s hw]
      exact ⟨e, he, hr, by simpa using hb⟩
    refine ⟨_, reserveRegister_of_clear s w r m hw hclear, ?_, ?_, ?_, ?_, rfl⟩
    · intro i
      unfold Scoreboard.lane_reserved
      rw [entries_set_same s hw, entries_eq_getElem s hw]
      by_cases ha : (s.reg_table[w]).any (fun e => decide (e.reg = r)) = true
      · rw [if_pos ha]
        obtain ⟨e0, he0, hr0⟩ : ∃ e ∈ s.reg_table[w], e.reg = r := by
          simpa using ha
        constructor
        · rintro ⟨e', he', hr', hb'⟩
          obtain ⟨e, he, rfl⟩ := List.mem_map.mp he'
          by_cases hr : e.reg = r
          · rw [if_pos hr] at hb'
            simp only [Nat.testBit_or, Bool.or_eq_true] at hb'
            rcases hb' with hb' | hb'
            · exact Or.inl ⟨e, he, hr, hb'⟩
            · exact Or.inr hb'
          · rw [if_neg hr] at hr'
            exact absurd hr' hr
        · rintro (⟨e, he, hr, hb⟩ | hm)
          · refine ⟨_, List.mem_map.mpr ⟨e, he, rfl⟩, ?_, ?_⟩
            · rw [if_pos hr]; exact hr
            · rw [if_pos hr]; simp [hb]
          · refine ⟨_, List.mem_map.mpr ⟨e0, he0, rfl⟩, ?_, ?_⟩
            · rw [if_pos hr0]; exact hr0
            · rw [if_pos hr0]; simp [hm]
      · rw [if_neg ha]
        have hno : ∀ e ∈ s.reg_table[w], e.reg ≠ r := by simpa using ha
        constructor
        · rintro ⟨e', he', hr', hb'⟩
          rcases List.mem_append.mp he' with he' | he'
          · obtain ⟨e, he, rfl⟩ := List.mem_map.mp he'
            rw [if_neg (hno e he)] at hr'
            exact absurd hr' (hno e he)
          · have : e' = ⟨r, m⟩ := by simpa using he'
            subst this
            exact Or.inr hb'
        · rintro (⟨e, he, hr, _⟩ | hm)
          · exact absurd hr (hno e he)
          · exact ⟨⟨r, m⟩, by simp, rfl, hm⟩
    · rw [entries_set_same s hw, entries_eq_getElem s hw]
      by_cases ha : (s.reg_table[w]).any (fun e => decide (e.reg = r)) = true
      · rw [if_pos ha, filter_ne_map_update]
      · rw [if_neg ha, List.filter_append, filter_ne_map_update]
        simp
    · intro w' hw'
      exact entries_set_other s hw' _ _
    · simp

/-- Witness for `reserveRegister_contract`: register 5 of warp 0 holds lanes
`0x0F`; reserving the disjoint lanes `0xF0` returns and the entry holds both. -/
theorem reserveRegister_contract_witness :
    ∃ s', (Scoreboard.mk [[⟨5, 0x0F⟩, ⟨6, 0x01⟩], []] [[], []]).reserveRegister 0 5 0xF0 = .ok s' ∧
      (∀ i, s'.lane_reserved 0 5 i ↔
        ((Scoreboard.mk [[⟨5, 0x0F⟩, ⟨6, 0x01⟩], []] [[], []]).lane_reserved 0 5 i ∨
          (0xF0 : Nat).testBit i = true)) := by
  obtain ⟨s', h1, h2, _⟩ :=
    (reserveRegister_contract (Scoreboard.mk [[⟨5, 0x0F⟩, ⟨6, 0x01⟩], []] [[], []]) 0 5 0xF0).2
      (by decide) (by decide)
  exact ⟨s', h1, h2⟩

/-! ## `checkCollision` -/

theorem mem_set_insert (x y : Nat) (s : List Nat) : y ∈ set_insert x s ↔ y = x ∨ y ∈ s := by
  unfold set_insert
  by_cases h : x ∈ s
  · rw [if_pos h]
    constructor
    · exact Or.inr
    · rintro (rfl | h') <;> assumption
  · rw [if_neg h, List.mem_orderedInsert]

theorem mem_cond_set_insert (c : Prop) [Decidable c] (x y : Nat) (s : List Nat) :
    y ∈ (if c then set_insert x s else s) ↔ (c ∧ y = x) ∨ y ∈ s := by
  by_cases h : c
  · simp [h, mem_set_insert]
  · simp [h]

theorem exists_fin4_iff (f : Fin 4 → Nat) (r : Nat) :
    (∃ k, f k = r) ↔ f 0 = r ∨ f 1 = r ∨ f 2 = r ∨ f 3 = r := by
  constructor
  · rintro ⟨k, hk⟩
    fin_cases k
    · exact Or.inl hk
    · exact Or.inr (Or.inl hk)
    · exact Or.inr (Or.inr (Or.inl hk))
    · exact Or.inr (Or.inr (Or.inr hk))
  · rintro (h | h | h | h) <;> exact ⟨_, h⟩

theorem mem_inst_regs (inst : inst_t) (r : Nat) :
    r ∈ inst_regs inst ↔
      0 < r ∧ ((∃ k, inst.out k = r) ∨ (∃ k, inst.in_ k = r) ∨
        inst.pred = (r : Int) ∨ inst.ar1 = (r : Int) ∨ inst.ar2 = (r : Int)) := by
  have hp : ∀ z : Int, (z > 0 ∧ r = z.toNat) ↔ (0 < r ∧ z = (r : Int)) := by
    intro z; omega
  have hq : ∀ a : Nat, (a > 0 ∧ r = a) ↔ (0 < r ∧ a = r) := by
    intro a; omega
  unfold inst_regs
  simp only [mem_cond_set_insert, List.not_mem_nil, or_false, exists_fin4_iff, hp, hq]
  tauto

theorem checkCollision_eq_true_iff (s : Scoreboard) (w : Nat) (inst : inst_t) (m : Nat)
    (hw : w < s.reg_table.length) :
    s.checkCollision w inst m = .ok true ↔
      ∃ r, (0 < r ∧ ((∃ k, inst.out k = r) ∨ (∃ k, inst.in_ k = r) ∨
          inst.pred = (r : Int) ∨ inst.ar1 = (r : Int) ∨ inst.ar2 = (r : Int))) ∧
        ∃ e ∈ s.entries w, e.reg = r ∧
          ∃ i, e.active_mask.testBit i = true ∧ m.testBit i = true := by
  unfold Scoreboard.checkCollision
  rw [dif_pos hw, entries_eq_getElem s hw]
  simp only [Except.ok.injEq, List.any_eq_true, Bool.and_eq_true, decide_eq_true_eq,
    bs_any_and_iff, mem_inst_regs]

/-- C2: for a warp `w` of the scoreboard, `checkCollision(w, inst, m)` returns, and
it returns true exactly when some register number `r > 0` among `out[0..3]`,
`in[0..3]`, `pred`, `ar1`, `ar2` of `inst` has an entry `(r, M)` in the table of
`w` with `M` and `m` sharing a lane.  Scenario: with `r5` reserved on all 32 lanes,
an instruction using `r5` with mask `0x0000FFFF` collides; after the reservation is
released entirely it does not. -/
theorem checkCollision_contract (s : Scoreboard) (w : Nat) (inst : inst_t) (m : Nat) :
    (w < s.reg_table.length →
      ∃ b, s.checkCollision w inst m = .ok b ∧
        (b = true ↔
          ∃ r, (0 < r ∧ ((∃ k, inst.out k = r) ∨ (∃ k, inst.in_ k = r) ∨
              inst.pred = (r : Int) ∨ inst.ar1 = (r : Int) ∨ inst.ar2 = (r : Int))) ∧
            ∃ e ∈ s.entries w, e.reg = r ∧
              ∃ i, e.active_mask.testBit i = true ∧ m.testBit i = true)) ∧
    (((∃ k, inst.out k = 5) ∨ (∃ k, inst.in_ k = 5) ∨
        inst.pred = 5 ∨ inst.ar1 = 5 ∨ inst.ar2 = 5) →
      ∃ s1 s2, (Scoreboard.init 1).reserveRegister 0 5 0xFFFFFFFF = .ok s1 ∧
        s1.checkCollision 0 inst 0x0000FFFF = .ok true ∧
        s1.releaseRegister 32 0 5 0xFFFFFFFF = .ok s2 ∧
        s2.checkCollision 0 inst 0x0000FFFF = .ok false) := by
  refine ⟨?_, ?_⟩
  · intro hw
    have key := checkCollision_eq_true_iff s w inst m hw
    have hex : ∃ b, s.checkCollision w inst m = .ok b := by
      unfold Scoreboard.checkCollision
      rw [dif_pos hw]
      exact ⟨_, rfl⟩
    obtain ⟨b, hb⟩ := hex
    refine ⟨b, hb, ?_⟩
    rw [← key, hb]
    simp
  · intro h5
    refine ⟨Scoreboard.mk [[⟨5, 0xFFFFFFFF⟩]] [[]], Scoreboard.init 1, by decide, ?_,
      by decide, ?_⟩
    · rw [checkCollision_eq_true_iff _ _ _ _ (by decide)]
      refine ⟨5, ⟨by decide, by simpa using h5⟩, ⟨5, 0xFFFFFFFF⟩, by decide, rfl, 0,
        by decide, by decide⟩
    · simp [Scoreboard.checkCollision, Scoreboard.init]

/-- Witness for `checkCollision_contract`: warp 0 holds `r5` on lanes `0x0F` and an
instruction whose first destination is `r5` is checked with mask `0x03`; the same
instruction runs the 32-lane scenario. -/
theorem checkCollision_contract_witness :
    (∃ b, (Scoreboard.mk [[⟨5, 0x0F⟩]] [[]]).checkCollision 0
        { out := regs4 5 0 0 0, in_ := regs4 0 0 0 0, pred := 0, ar1 := 0, ar2 := 0,
          is_load := false, space := .undefined_space } 0x03 = .ok b ∧ b = true) ∧
    (∃ s1 s2, (Scoreboard.init 1).reserveRegister 0 5 0xFFFFFFFF = .ok s1 ∧
        s1.checkCollision 0
          { out := regs4 5 0 0 0, in_ := regs4 0 0 0 0, pred := 0, ar1 := 0, ar2 := 0,
            is_load := false, space := .undefined_space } 0x0000FFFF = .ok true ∧
        s1.releaseRegister 32 0 5 0xFFFFFFFF = .ok s2 ∧
        s2.checkCollision 0
          { out := regs4 5 0 0 0, in_ := regs4 0 0 0 0, pred := 0, ar1 := 0, ar2 := 0,
            is_load := false, space := .undefined_space } 0x0000FFFF = .ok false) := by
  have h := checkCollision_contract (Scoreboard.mk [[⟨5, 0x0F⟩]] [[]]) 0
    { out := regs4 5 0 0 0, in_ := regs4 0 0 0 0, pred := 0, ar1 := 0, ar2 := 0,
      is_load := false, space := .undefined_space } 0x03
  obtain ⟨b, hb, hiff⟩ := h.1 (by decide)
  exact ⟨⟨b, hb, hiff.mpr ⟨5, ⟨by decide, Or.inl ⟨0, rfl⟩⟩, ⟨5, 0x0F⟩, by decide, rfl, 0,
    by decide, by decide⟩⟩, h.2 (Or.inl ⟨0, rfl⟩)⟩

/-! ## `releaseRegister` -/

theorem releaseSanityFails_iff (W m M : Nat) :
    releaseSanityFails W m M = true ↔
      ∃ i, i < W ∧ m.testBit i = true ∧ M.testBit i = false := by
  unfold releaseSanityFails
  simp [List.any_eq_true]

theorem subset_of_and_eq {m M : Nat} (h : m &&& M = m) :
    ∀ i, m.testBit i = true → M.testBit i = true := by
  intro i hi
  have : (m &&& M).testBit i = true := by rw [h]; exact hi
  rw [Nat.testBit_and] at this
  simp only [Bool.and_eq_true] at this
  exact this.2

theorem releaseLoop_no_entry (W r m : Nat) (l : List reg_and_mask)
    (h : ∀ e ∈ l, e.reg ≠ r) : releaseLoop W r m l = some l := by
  induction l with
  | nil => rfl
  | cons e l ih =>
    unfold releaseLoop
    rw [if_neg (h e (List.mem_cons_self _ _)),
      ih (fun x hx => h x (List.mem_cons_of_mem _ hx))]
    rfl

theorem releaseLoop_append (W r m : Nat) (pre l : List reg_and_mask)
    (h : ∀ e ∈ pre, e.reg ≠ r) :
    releaseLoop W r m (pre ++ l) = (releaseLoop W r m l).map (fun tl => pre ++ tl) := by
  induction pre with
  | nil => simp
  | cons e pre ih =>
    rw [List.cons_append, releaseLoop, if_neg (h e (List.mem_cons_self _ _)),
      ih (fun x hx => h x (List.mem_cons_of_mem _ hx)), Option.map_map]
    rfl

theorem releaseLoop_head (W r m M : Nat) (post : List reg_and_mask) :
    releaseLoop W r m (⟨r, M⟩ :: post) =
      if releaseSanityFails W m M then none
      else if bs_none (M &&& bs_not W m) then some post
      else some (⟨r, M &&& bs_not W m⟩ :: post) := by
  rw [releaseLoop]
  simp

theorem releaseLoop_none_of_unreserved (W r m : Nat) (l : List reg_and_mask)
    (hex : ∃ e ∈ l, e.reg = r)
    (hi : ∃ i, i < W ∧ m.testBit i = true ∧
      ∀ e ∈ l, e.reg = r → e.active_mask.testBit i = false) :
    releaseLoop W r m l = none := by
  induction l with
  | nil => simp at hex
  | cons e l ih =>
    obtain ⟨i, hiW, hmi, hall⟩ := hi
    unfold releaseLoop
    by_cases hr : e.reg = r
    · have hs : releaseSanityFails W m e.active_mask = true :=
        (releaseSanityFails_iff W m _).mpr
          ⟨i, hiW, hmi, hall e (List.mem_cons_self _ _) hr⟩
      rw [if_pos hr, if_pos hs]
    · rw [if_neg hr]
      have hex' : ∃ x ∈ l, x.reg = r := by
        obtain ⟨x, hx, hxr⟩ := hex
        rcases List.mem_cons.mp hx with h | h
        · subst h; exact absurd hxr hr
        · exact ⟨x, h, hxr⟩
      rw [ih hex' ⟨i, hiW, hmi, fun x hx => hall x (List.mem_cons_of_mem _ hx)⟩]
      rfl

theorem scoreboard_set_self (s : Scoreboard) {w : Nat} (hw : w < s.reg_table.length) :
    Scoreboard.mk (s.reg_table.set w s.reg_table[w]) s.longopregs = s := by
  cases s with
  | mk tbl lo =>
    have : tbl.set w tbl[w] = tbl := by
      apply List.ext_getElem (by simp)
      intro i h1 h2
      rw [List.getElem_set]
      split
      · next h => subst h; rfl
      · rfl
    simp [this]

theorem releaseRegister_no_entry (W : Nat) (s : Scoreboard) (w r m : Nat)
    (hw : w < s.reg_table.length) (h : ∀ e ∈ s.entries w, e.reg ≠ r) :
    s.releaseRegister W w r m = .ok s := by
  rw [entries_eq_getElem s hw] at h
  unfold Scoreboard.releaseRegister
  rw [dif_pos hw]
  by_cases h0 : s.reg_table[w].length = 0
  · rw [if_pos h0]
  · rw [if_neg h0, releaseLoop_no_entry W r m _ h]
    simp only
    rw [scoreboard_set_self s hw]

theorem releaseRegister_of_loop (W : Nat) (s : Scoreboard) (w r m : Nat)
    (hw : w < s.reg_table.length) (h0 : s.reg_table[w] ≠ []) :
    s.releaseRegister W w r m =
      match releaseLoop W r m s.reg_table[w] with
      | none => .error .abort
      | some tbl => .ok (Scoreboard.mk (s.reg_table.set w tbl) s.longopregs) := by
  unfold Scoreboard.releaseRegister
  rw [dif_pos hw, if_neg (by simpa using h0)]

theorem and_bs_not_self_none {W M m : Nat} (hM : M < 2 ^ W) (h : m = M) :
    bs_none (M &&& bs_not W m) = true := by
  rw [bs_none_iff]
  intro i
  rw [testBit_and_bs_not hM, h]
  cases M.testBit i <;> rfl

theorem and_bs_not_not_none {W M m : Nat} (hM : M < 2 ^ W)
    (hsub : ∀ i, m.testBit i = true → M.testBit i = true) (h : m ≠ M) :
    ¬ bs_none (M &&& bs_not W m) = true := by
  rw [bs_none_iff]
  intro hall
  apply h
  apply Nat.eq_of_testBit_eq
  intro i
  have h1 := hall i
  rw [testBit_and_bs_not hM] at h1
  have h2 := hsub i
  cases hm : m.testBit i <;> cases hMi : M.testBit i <;> simp_all

/-- C3: let the table of warp `w` hold exactly one entry for register `r`, namely
`(r, M)` between the entries `pre` and `post`, with `M` a `W`-bit mask, and let `m`
be a subset of `M`.  Then
`releaseRegister(w, r, m)` returns; afterwards `(w, r)` is reserved on exactly the
lanes of `M` outside `m`, the entry is gone if and only if `m = M`, the other
entries of `w` are the same in the same order, and other warps are unchanged.  On
an empty table `releaseRegister` returns the scoreboard unchanged. -/
theorem releaseRegister_single_entry (W : Nat) (s : Scoreboard) (w : Nat) :
    (∀ (r M m : Nat) (pre post : List reg_and_mask),
      w < s.reg_table.length → M < 2 ^ W →
      (∀ i, m.testBit i = true → M.testBit i = true) →
      s.entries w = pre ++ ⟨r, M⟩ :: post → (∀ e ∈ pre ++ post, e.reg ≠ r) →
      ∃ s', s.releaseRegister W w r m = .ok s' ∧
        (∀ i, s'.lane_reserved w r i ↔ (M.testBit i = true ∧ m.testBit i = false)) ∧
        ((∀ e ∈ s'.entries w, e.reg ≠ r) ↔ m = M) ∧
        (s'.entries w =
          if m = M then pre ++ post else pre ++ ⟨r, M &&& bs_not W m⟩ :: post) ∧
        (∀ w', w' ≠ w → s'.entries w' = s.entries w') ∧
        s'.reg_table.length = s.reg_table.length ∧
        s'.longopregs = s.longopregs) ∧
    (∀ r m : Nat, w < s.reg_table.length → s.entries w = [] →
      s.releaseRegister W w r m = .ok s) := by
  refine ⟨?_, ?_⟩
  · intro r M m pre post hw hM hsub htbl hno
    have hl : s.reg_table[w] = pre ++ ⟨r, M⟩ :: post := by
      rw [← entries_eq_getElem s hw]; exact htbl
    have hne : s.reg_table[w] ≠ [] := by rw [hl]; simp
    have hpre : ∀ e ∈ pre, e.reg ≠ r := fun e he => hno e (List.mem_append_left _ he)
    have hpost : ∀ e ∈ post, e.reg ≠ r := fun e he => hno e (List.mem_append_right _ he)
    have hsan : ¬ releaseSanityFails W m M = true := by
      rw [releaseSanityFails_iff]
      rintro ⟨i, _, h1, h2⟩
      rw [hsub i h1] at h2
      exact Bool.noConfusion h2
    have hrel := releaseRegister_of_loop W s w r m hw hne
    rw [hl, releaseLoop_append W r m pre _ hpre, releaseLoop_head, if_neg hsan] at hrel
    by_cases hmM : m = M
    · rw [if_pos (and_bs_not_self_none hM hmM)] at hrel
      refine ⟨_, hrel, ?_, ?_, ?_, ?_, ?_, rfl⟩
      · intro i
        unfold Scoreboard.lane_reserved
        rw [entries_set_same s hw]
        constructor
        · rintro ⟨e, he, hr, _⟩
          exact absurd hr (hno e he)
        · rintro ⟨h1, h2⟩
          rw [hmM, h1] at h2
          exact Bool.noConfusion h2
      · rw [entries_set_same s hw]
        exact ⟨fun _ => hmM, fun _ => hno⟩
      · rw [entries_set_same s hw, if_pos hmM]
      · intro w' hw'
        exact entries_set_other s hw' _ _
      · simp
    · rw [if_neg (and_bs_not_not_none hM hsub hmM)] at hrel
      refine ⟨_, hrel, ?_, ?_, ?_, ?_, ?_, rfl⟩
      · intro i
        unfold Scoreboard.lane_reserved
        rw [entries_set_same s hw]
        constructor
        · rintro ⟨e, he, hr, hb⟩
          rcases List.mem_append.mp he with he | he
          · exact absurd hr (hpre e he)
          · rcases List.mem_cons.mp he with he | he
            · subst he
              simp only [testBit_and_bs_not hM, Bool.and_eq_true, Bool.not_eq_true'] at hb
              exact hb
            · exact absurd hr (hpost e he)
        · rintro ⟨h1, h2⟩
          refine ⟨⟨r, M &&& bs_not W m⟩, by simp, rfl, ?_⟩
          simp [testBit_and_bs_not hM, h1, h2]
      · rw [entries_set_same s hw]
        constructor
        · intro h
          exact absurd rfl (h ⟨r, M &&& bs_not W m⟩ (by simp))
        · intro h
          exact absurd h hmM
      · rw [entries_set_same s hw, if_neg hmM]
      · intro w' hw'
        exact entries_set_other s hw' _ _
      · simp
  · intro r m hw hempty
    exact releaseRegister_no_entry W s w r m hw (by rw [hempty]; simp)

/-- Witness for `releaseRegister_single_entry`: warp 0 holds `r4`, `r5` (lanes
`0xFF`) and `r6`; the lanes `0x0F` of `r5` are released. -/
theorem releaseRegister_single_entry_witness :
    (∃ s', (Scoreboard.mk [[⟨4, 1⟩, ⟨5, 0xFF⟩, ⟨6, 2⟩], []] [[], []]).releaseRegister 32 0 5 0x0F
        = .ok s' ∧
      s'.entries 0 = [⟨4, 1⟩, ⟨5, 0xF0⟩, ⟨6, 2⟩]) ∧
    (Scoreboard.mk [[⟨4, 1⟩, ⟨5, 0xFF⟩, ⟨6, 2⟩], []] [[], []]).releaseRegister 32 1 5 0x0F =
      .ok (Scoreboard.mk [[⟨4, 1⟩, ⟨5, 0xFF⟩, ⟨6, 2⟩], []] [[], []]) := by
  constructor
  · obtain ⟨s', h1, _, _, h4, _⟩ :=
      (releaseRegister_single_entry 32
        (Scoreboard.mk [[⟨4, 1⟩, ⟨5, 0xFF⟩, ⟨6, 2⟩], []] [[], []]) 0).1 5 0xFF 0x0F
        [⟨4, 1⟩] [⟨6, 2⟩] (by decide) (by decide) (subset_of_and_eq (by decide)) (by decide)
        (by decide)
    refine ⟨s', h1, ?_⟩
    rw [h4]
    decide
  · exact (releaseRegister_single_entry 32
      (Scoreboard.mk [[⟨4, 1⟩, ⟨5, 0xFF⟩, ⟨6, 2⟩], []] [[], []]) 1).2 5 0x0F (by decide)
      (by decide)

/-- C4 (as stated, refuted): lane 0 of register 5 is not reserved for warp 0, yet
releasing it returns instead of aborting, both when the warp has no entries at all
and when it only has an entry for another register. -/
theorem releaseRegister_unreserved_returns :
    ((1 : Nat).testBit 0 = true ∧ ¬ (Scoreboard.init 1).lane_reserved 0 5 0 ∧
      (Scoreboard.init 1).releaseRegister 32 0 5 1 = .ok (Scoreboard.init 1)) ∧
    ((1 : Nat).testBit 0 = true ∧ ¬ (Scoreboard.mk [[⟨6, 1⟩]] [[]]).lane_reserved 0 5 0 ∧
      (Scoreboard.mk [[⟨6, 1⟩]] [[]]).releaseRegister 32 0 5 1 =
        .ok (Scoreboard.mk [[⟨6, 1⟩]] [[]])) := by
  refine ⟨⟨by decide, ?_, by decide⟩, ⟨by decide, ?_, by decide⟩⟩
  · unfold Scoreboard.lane_reserved
    decide
  · unfold Scoreboard.lane_reserved
    decide

/-- C4 (amended): if the table of warp `w` has an entry for register `r` and `m`
contains a lane `i < W` that is not reserved for `(w, r)`, then
`releaseRegister(w, r, m)` aborts; if the table of `w` has no entry for `r`, it
returns with the scoreboard unchanged. -/
theorem releaseRegister_abort_of_unreserved (W : Nat) (s : Scoreboard) (w r m : Nat) :
    ((∃ e ∈ s.entries w, e.reg = r) →
      (∃ i, i < W ∧ m.testBit i = true ∧ ¬ s.lane_reserved w r i) →
      s.releaseRegister W w r m = .error .abort) ∧
    (w < s.reg_table.length → (∀ e ∈ s.entries w, e.reg ≠ r) →
      s.releaseRegister W w r m = .ok s) := by
  refine ⟨?_, fun hw h => releaseRegister_no_entry W s w r m hw h⟩
  rintro hex ⟨i, hiW, hmi, hnr⟩
  have hw : w < s.reg_table.length := by
    by_contra hw
    rw [entries_of_not_lt s hw] at hex
    simp at hex
  rw [entries_eq_getElem s hw] at hex
  have hne : s.reg_table[w] ≠ [] := by
    obtain ⟨e, he, _⟩ := hex
    exact List.ne_nil_of_mem he
  have hall : ∀ e ∈ s.reg_table[w], e.reg = r → e.active_mask.testBit i = false := by
    intro e he hr
    by_contra hb
    apply hnr
    refine ⟨e, ?_, hr, by simpa using hb⟩
    rw [entries_eq_getElem s hw]
    exact he
  rw [releaseRegister_of_loop W s w r m hw hne,
    releaseLoop_none_of_unreserved W r m _ hex ⟨i, hiW, hmi, hall⟩]

/-- Witness for `releaseRegister_abort_of_unreserved`: `r5` holds lanes `0x0F` and
lane 4 is released; and `r7`, which has no entry, is released. -/
theorem releaseRegister_abort_of_unreserved_witness :
    (Scoreboard.mk [[⟨5, 0x0F⟩]] [[]]).releaseRegister 32 0 5 0x10 = .error .abort ∧
    (Scoreboard.mk [[⟨5, 0x0F⟩]] [[]]).releaseRegister 32 0 7 0x10 =
      .ok (Scoreboard.mk [[⟨5, 0x0F⟩]] [[]]) := by
  constructor
  · refine (releaseRegister_abort_of_unreserved 32 (Scoreboard.mk [[⟨5, 0x0F⟩]] [[]])
      0 5 0x10).1 ⟨⟨5, 0x0F⟩, by decide, rfl⟩ ⟨4, by decide, by decide, ?_⟩
    unfold Scoreboard.lane_reserved
    decide
  · exact (releaseRegister_abort_of_unreserved 32 (Scoreboard.mk [[⟨5, 0x0F⟩]] [[]])
      0 7 0x10).2 (by decide) (by decide)

/-! ## Round trip -/

theorem reserveRegister_fresh (s : Scoreboard) (w r m : Nat) (hw : w < s.reg_table.length)
    (h : ∀ e ∈ s.entries w, e.reg ≠ r) :
    s.reserveRegister w r m =
      .ok (Scoreboard.mk (s.reg_table.set w (s.reg_table[w] ++ [⟨r, m⟩])) s.longopregs) := by
  rw [entries_eq_getElem s hw] at h
  rw [reserveRegister_of_clear s w r m hw (fun e he hr => absurd hr (h e he))]
  have ha : ¬ (s.reg_table[w]).any (fun e => decide (e.reg = r)) = true := by
    simpa using h
  rw [if_neg ha]
  have hmap : (s.reg_table[w]).map (fun e => if e.reg = r then
      ({ e with active_mask := e.active_mask ||| m } : reg_and_mask) else e) =
      s.reg_table[w] := by
    conv_rhs => rw [← List.map_id (s.reg_table[w])]
    apply List.map_congr_left
    intro e he
    rw [if_neg (h e he)]
    rfl
  rw [hmap]

/-- C5: when warp `w` has no entry for register `r` and `m` is a `W`-bit mask,
`reserveRegister(w, r, m)` returns and the immediately following `releaseRegister(w, r, m)` returns the
original scoreboard: the hazard table of `w` is restored exactly and
`pendingWrites(w)` has the value it had before the reserve. -/
theorem reserve_release_roundtrip (W : Nat) (s : Scoreboard) (w r m : Nat)
    (hw : w < s.reg_table.length) (hm : m < 2 ^ W)
    (hfresh : ∀ e ∈ s.entries w, e.reg ≠ r) :
    ∃ s1 s2, s.reserveRegister w r m = .ok s1 ∧ s1.releaseRegister W w r m = .ok s2 ∧
      s2 = s ∧ s2.entries w = s.entries w ∧ s2.pendingWrites w = s.pendingWrites w ∧
      (s.entries w = [] → s2.pendingWrites w = .ok false) := by
  have hfresh' : ∀ e ∈ s.reg_table[w], e.reg ≠ r := by
    rw [← entries_eq_getElem s hw]; exact hfresh
  have hw1 : w < (Scoreboard.mk (s.reg_table.set w (s.reg_table[w] ++ [⟨r, m⟩]))
      s.longopregs).reg_table.length := by simpa using hw
  have hget : (Scoreboard.mk (s.reg_table.set w (s.reg_table[w] ++ [⟨r, m⟩]))
      s.longopregs).reg_table[w] = s.reg_table[w] ++ [⟨r, m⟩] := by simp
  have hsan : ¬ releaseSanityFails W m m = true := by
    rw [releaseSanityFails_iff]
    rintro ⟨i, _, h1, h2⟩
    rw [h1] at h2
    exact Bool.noConfusion h2
  have hrel := releaseRegister_of_loop W _ w r m hw1 (by rw [hget]; simp)
  rw [hget, releaseLoop_append W r m _ _ hfresh', releaseLoop_head, if_neg hsan,
    if_pos (and_bs_not_self_none hm rfl)] at hrel
  simp only [Option.map_some', List.append_nil, List.set_set] at hrel
  rw [scoreboard_set_self s hw] at hrel
  refine ⟨_, s, reserveRegister_fresh s w r m hw hfresh, hrel, rfl, rfl, rfl, ?_⟩
  intro hempty
  rw [entries_eq_getElem s hw] at hempty
  unfold Scoreboard.pendingWrites
  rw [dif_pos hw, hempty]
  rfl

/-- Witness for `reserve_release_roundtrip`: warp 0 holds `r6`; `r5` is reserved on
lanes `0xFF` and released again. -/
theorem reserve_release_roundtrip_witness :
    ∃ s1 s2, (Scoreboard.mk [[⟨6, 1⟩], []] [[], []]).reserveRegister 0 5 0xFF = .ok s1 ∧
      s1.releaseRegister 32 0 5 0xFF = .ok s2 ∧
      s2 = Scoreboard.mk [[⟨6, 1⟩], []] [[], []] := by
  obtain ⟨s1, s2, h1, h2, h3, _⟩ :=
    reserve_release_roundtrip 32 (Scoreboard.mk [[⟨6, 1⟩], []] [[], []]) 0 5 0xFF
      (by decide) (by decide) (by decide)
  exact ⟨s1, s2, h1, h2, h3⟩

/-! ## Reachable scoreboard states -/

theorem run_invariant (W : Nat) (P : Scoreboard → Prop) (calls : List ScoreboardCall)
    (hstep : ∀ s c s', c ∈ calls → P s → s.call W c = .ok s' → P s') :
    ∀ s0 s, P s0 → Scoreboard.run W s0 calls = .ok s → P s := by
  induction calls with
  | nil =>
    intro s0 s h0 hrun
    simp only [Scoreboard.run, Except.ok.injEq] at hrun
    exact hrun ▸ h0
  | cons c cs ih =>
    intro s0 s h0 hrun
    rw [Scoreboard.run] at hrun
    cases hc : s0.call W c with
    | error e => rw [hc] at hrun; cases hrun
    | ok s1 =>
      rw [hc] at hrun
      exact ih (fun s c' s' hc' => hstep s c' s' (List.mem_cons_of_mem _ hc')) s1 s
        (hstep s0 c s1 (List.mem_cons_self _ _) h0 hc) hrun

theorem reserveRegister_ok_inv (s s' : Scoreboard) (w r m : Nat)
    (h : s.reserveRegister w r m = .ok s') :
    ∃ hw : w < s.reg_table.length,
      (∀ e ∈ s.reg_table[w], e.reg = r → bs_any (e.active_mask &&& m) = false) := by
  by_cases hw : w < s.reg_table.length
  · refine ⟨hw, ?_⟩
    intro e he hr
    by_contra hb
    have : s.reserveRegister w r m = .error .abort := by
      rw [reserveRegister_abort_iff, entries_eq_getElem s hw]
      exact ⟨e, he, hr, by simpa using hb⟩
    rw [this] at h
    cases h
  · unfold Scoreboard.reserveRegister at h
    rw [dif_neg hw] at h
    cases h

/-- The table of a warp after a call that returned: unchanged, or the result of the
`reserveRegister` loop, or the result of the `releaseRegister` loop. -/
theorem call_entries (W : Nat) (s s' : Scoreboard) (c : ScoreboardCall)
    (h : s.call W c = .ok s') :
    s'.reg_table.length = s.reg_table.length ∧
    ∀ w, s'.entries w = s.entries w ∨
      (∃ r m, c = .reserve w r m ∧
        s'.entries w =
          if (s.entries w).any (fun e => decide (e.reg = r)) then
            (s.entries w).map (fun e => if e.reg = r then
              { e with active_mask := e.active_mask ||| m } else e)
          else (s.entries w).map (fun e => if e.reg = r then
              { e with active_mask := e.active_mask ||| m } else e) ++ [⟨r, m⟩]) ∨
      (∃ r m, c = .release w r m ∧ releaseLoop W r m (s.entries w) = some (s'.entries w)) := by
  cases c with
  | reserve w0 r m =>
    simp only [Scoreboard.call] at h
    obtain ⟨hw, hclear⟩ := reserveRegister_ok_inv s s' w0 r m h
    rw [reserveRegister_of_clear s w0 r m hw hclear] at h
    simp only [Except.ok.injEq] at h
    subst h
    refine ⟨by simp, ?_⟩
    intro w
    by_cases hww : w = w0
    · subst hww
      right; left
      refine ⟨r, m, rfl, ?_⟩
      rw [entries_set_same s hw, entries_eq_getElem s hw]
    · left
      exact entries_set_other s hww _ _
  | release w0 r m =>
    simp only [Scoreboard.call] at h
    by_cases hw : w0 < s.reg_table.length
    · by_cases h0 : s.reg_table[w0] = []
      · have : s.releaseRegister W w0 r m = .ok s :=
          releaseRegister_no_entry W s w0 r m hw
            (by rw [entries_eq_getElem s hw, h0]; simp)
        rw [this] at h
        simp only [Except.ok.injEq] at h
        subst h
        exact ⟨rfl, fun w => Or.inl rfl⟩
      · rw [releaseRegister_of_loop W s w0 r m hw h0] at h
        cases hL : releaseLoop W r m s.reg_table[w0] with
        | none => rw [hL] at h; cases h
        | some tbl =>
          rw [hL] at h
          simp only [Except.ok.injEq] at h
          subst h
          refine ⟨by simp, ?_⟩
          intro w
          by_cases hww : w = w0
          · subst hww
            right; right
            refine ⟨r, m, rfl, ?_⟩
            rw [entries_set_same s hw, entries_eq_getElem s hw]
            exact hL
          · left
            exact entries_set_other s hww _ _
    · unfold Scoreboard.releaseRegister at h
      rw [dif_neg hw] at h
      cases h

theorem releaseLoop_some_regs_sublist (W r m : Nat) (l tbl : List reg_and_mask)
    (h : releaseLoop W r m l = some tbl) :
    (tbl.map fun e => e.reg).Sublist (l.map fun e => e.reg) := by
  induction l generalizing tbl with
  | nil =>
    simp only [releaseLoop, Option.some.injEq] at h
    subst h
    exact List.Sublist.refl _
  | cons e l ih =>
    rw [releaseLoop] at h
    by_cases hr : e.reg = r
    · rw [if_pos hr] at h
      by_cases hs : releaseSanityFails W m e.active_mask = true
      · rw [if_pos hs] at h; cases h
      · rw [if_neg hs] at h
        simp only at h
        by_cases hn : bs_none (e.active_mask &&& bs_not W m) = true
        · rw [if_pos hn] at h
          simp only [Option.some.injEq] at h
          subst h
          simp
        · rw [if_neg hn] at h
          simp only [Option.some.injEq] at h
          subst h
          simp
    · rw [if_neg hr] at h
      cases hL : releaseLoop W r m l with
      | none => rw [hL] at h; cases h
      | some tl =>
        rw [hL] at h
        simp only [Option.map_some', Option.some.injEq] at h
        subst h
        simpa using ih tl hL

theorem releaseLoop_some_nonzero (W r m : Nat) (l tbl : List reg_and_mask)
    (h : releaseLoop W r m l = some tbl) (hl : ∀ e ∈ l, e.active_mask ≠ 0) :
    ∀ e ∈ tbl, e.active_mask ≠ 0 := by
  induction l generalizing tbl with
  | nil =>
    simp only [releaseLoop, Option.some.injEq] at h
    subst h
    exact hl
  | cons e l ih =>
    rw [releaseLoop] at h
    by_cases hr : e.reg = r
    · rw [if_pos hr] at h
      by_cases hs : releaseSanityFails W m e.active_mask = true
      · rw [if_pos hs] at h; cases h
      · rw [if_neg hs] at h
        simp only at h
        by_cases hn : bs_none (e.active_mask &&& bs_not W m) = true
        · rw [if_pos hn] at h
          simp only [Option.some.injEq] at h
          subst h
          exact fun x hx => hl x (List.mem_cons_of_mem _ hx)
        · rw [if_neg hn] at h
          simp only [Option.some.injEq] at h
          subst h
          intro x hx
          rcases List.mem_cons.mp hx with hx | hx
          · subst hx
            simpa [bs_none] using hn
          · exact hl x (List.mem_cons_of_mem _ hx)
    · rw [if_neg hr] at h
      cases hL : releaseLoop W r m l with
      | none => rw [hL] at h; cases h
      | some tl =>
        rw [hL] at h
        simp only [Option.map_some', Option.some.injEq] at h
        subst h
        intro x hx
        rcases List.mem_cons.mp hx with hx | hx
        · subst hx
          exact hl x (List.mem_cons_self _ _)
        · exact ih tl hL (fun y hy => hl y (List.mem_cons_of_mem _ hy)) x hx

theorem entries_init (n w : Nat) : (Scoreboard.init n).entries w = [] := by
  unfold Scoreboard.entries Scoreboard.init
  rw [List.getD_eq_getElem?_getD]
  by_cases h : w < n
  · simp [List.getElem?_replicate, h]
  · simp [List.getElem?_replicate, h]

theorem map_reg_map_update (r m : Nat) (l : List reg_and_mask) :
    ((l.map (fun e => if e.reg = r then
        ({ e with active_mask := e.active_mask ||| m } : reg_and_mask) else e)).map
        fun e => e.reg) = l.map fun e => e.reg := by
  rw [List.map_map]
  apply List.map_congr_left
  intro e _
  by_cases hr : e.reg = r
  · simp [hr]
  · simp [hr]

theorem run_nodup_regs (W : Nat) (calls : List ScoreboardCall) (s0 s : Scoreboard)
    (h0 : ∀ w, ((s0.entries w).map fun e => e.reg).Nodup)
    (hrun : Scoreboard.run W s0 calls = .ok s) :
    ∀ w, ((s.entries w).map fun e => e.reg).Nodup := by
  refine run_invariant W (fun s => ∀ w, ((s.entries w).map fun e => e.reg).Nodup) calls
    ?_ s0 s h0 hrun
  intro s c s' _ hP hc w
  obtain ⟨_, hent⟩ := call_entries W s s' c hc
  rcases hent w with h | ⟨r, m, _, h⟩ | ⟨r, m, _, h⟩
  · rw [h]; exact hP w
  · rw [h]
    by_cases ha : (s.entries w).any (fun e => decide (e.reg = r)) = true
    · rw [if_pos ha, map_reg_map_update]
      exact hP w
    · rw [if_neg ha, List.map_append, map_reg_map_update]
      have hno : ∀ e ∈ s.entries w, e.reg ≠ r := by simpa using ha
      rw [List.nodup_append]
      refine ⟨hP w, by simp, ?_⟩
      intro a ha1 ha2
      obtain ⟨e, he, rfl⟩ := List.mem_map.mp ha1
      have : e.reg = r := by simpa using ha2
      exact hno e he this
  · exact (hP w).sublist (releaseLoop_some_regs_sublist W r m _ _ h)

/-- C6: in every scoreboard state reached from the freshly constructed scoreboard by
`reserveRegister` and `releaseRegister` calls that all return, each warp's table
holds at most one entry per register number; hence two different entries of a warp
for the same register never share a lane. -/
theorem reachable_one_entry_per_register (W n : Nat) (calls : List ScoreboardCall)
    (s : Scoreboard) (hrun : Scoreboard.run W (Scoreboard.init n) calls = .ok s) (w : Nat) :
    ((s.entries w).map fun e => e.reg).Nodup ∧
    (s.entries w).Pairwise (fun a b => a.reg = b.reg →
      ∀ i, ¬ (a.active_mask.testBit i = true ∧ b.active_mask.testBit i = true)) := by
  have hnd := run_nodup_regs W calls (Scoreboard.init n) s
    (fun w => by rw [entries_init]; exact List.nodup_nil) hrun w
  refine ⟨hnd, ?_⟩
  have hp : (s.entries w).Pairwise (fun a b => a.reg ≠ b.reg) := by
    have := hnd
    unfold List.Nodup at this
    rwa [List.pairwise_map] at this
  exact hp.imp (fun hne heq => absurd heq hne)

/-- Witness for `reachable_one_entry_per_register`: two disjoint reservations of
`r5`, one of `r6`, and a partial release of `r5`, all on warp 0. -/
theorem reachable_one_entry_per_register_witness :
    ∃ s, Scoreboard.run 32 (Scoreboard.init 2)
        [.reserve 0 5 0x0F, .reserve 0 6 0xFF, .reserve 0 5 0xF0, .release 0 5 0x0F] = .ok s ∧
      ((s.entries 0).map fun e => e.reg).Nodup := by
  refine ⟨Scoreboard.mk [[⟨5, 0xF0⟩, ⟨6, 0xFF⟩], []] [[], []], by decide, ?_⟩
  exact (reachable_one_entry_per_register 32 2
    [.reserve 0 5 0x0F, .reserve 0 6 0xFF, .reserve 0 5 0xF0, .release 0 5 0x0F]
    (Scoreboard.mk [[⟨5, 0xF0⟩, ⟨6, 0xFF⟩], []] [[], []]) (by decide) 0).1

/-- C7 (as stated, refuted): reserving register 5 of warp 0 with an empty lane mask
returns and leaves an entry, so `pendingWrites(0)` is true although no register of
the warp has a reserved lane. -/
theorem pendingWrites_true_without_lane :
    ∃ s, Scoreboard.run 32 (Scoreboard.init 1) [.reserve 0 5 0] = .ok s ∧
      s.pendingWrites 0 = .ok true ∧ ¬ ∃ r i, s.lane_reserved 0 r i := by
  refine ⟨Scoreboard.mk [[⟨5, 0⟩]] [[]], by decide, by decide, ?_⟩
  rintro ⟨r, i, e, he, _, hb⟩
  have he' : e = ⟨5, 0⟩ := by
    simpa [Scoreboard.entries] using he
  subst he'
  simp at hb

theorem or_ne_zero_right (a : Nat) {m : Nat} (hm : m ≠ 0) : a ||| m ≠ 0 := by
  obtain ⟨i, hi⟩ := Nat.ne_zero_implies_bit_true hm
  intro h0
  have : (a ||| m).testBit i = true := by simp [Nat.testBit_or, hi]
  simp [h0] at this

theorem run_nonzero_masks (W : Nat) (calls : List ScoreboardCall) (s0 s : Scoreboard)
    (hne : ∀ c ∈ calls, c.reserves_nothing = false)
    (h0 : ∀ w, ∀ e ∈ s0.entries w, e.active_mask ≠ 0)
    (hrun : Scoreboard.run W s0 calls = .ok s) :
    ∀ w, ∀ e ∈ s.entries w, e.active_mask ≠ 0 := by
  refine run_invariant W (fun s => ∀ w, ∀ e ∈ s.entries w, e.active_mask ≠ 0) calls
    ?_ s0 s h0 hrun
  intro s c s' hcm hP hc w
  obtain ⟨_, hent⟩ := call_entries W s s' c hc
  rcases hent w with h | ⟨r, m, hcr, h⟩ | ⟨r, m, _, h⟩
  · rw [h]; exact hP w
  · have hm : m ≠ 0 := by
      have := hne c hcm
      rw [hcr] at this
      simpa [ScoreboardCall.reserves_nothing] using this
    have hmap : ∀ e ∈ (s.entries w).map (fun e => if e.reg = r then
        ({ e with active_mask := e.active_mask ||| m } : reg_and_mask) else e),
        e.active_mask ≠ 0 := by
      intro e' he'
      obtain ⟨e, he, rfl⟩ := List.mem_map.mp he'
      by_cases hr : e.reg = r
      · rw [if_pos hr]
        exact or_ne_zero_right _ hm
      · rw [if_neg hr]
        exact hP w e he
    rw [h]
    by_cases ha : (s.entries w).any (fun e => decide (e.reg = r)) = true
    · rw [if_pos ha]
      exact hmap
    · rw [if_neg ha]
      intro e he
      rcases List.mem_append.mp he with he | he
      · exact hmap e he
      · have : e = ⟨r, m⟩ := by simpa using he
        subst this
        exact hm
  · exact releaseLoop_some_nonzero W r m _ _ h (hP w)

theorem run_length (W : Nat) (calls : List ScoreboardCall) (s0 s : Scoreboard)
    (hrun : Scoreboard.run W s0 calls = .ok s) :
    s.reg_table.length = s0.reg_table.length := by
  refine run_invariant W (fun s => s.reg_table.length = s0.reg_table.length) calls
    ?_ s0 s rfl hrun
  intro s c s' _ hP hc
  rw [(call_entries W s s' c hc).1, hP]

/-- C7 (amended): in every state reached from the freshly constructed scoreboard by
`reserveRegister` and `releaseRegister` calls that all return and in which no
`reserveRegister` call has an empty lane mask, `pendingWrites(w)` returns true
exactly when some register of `w` has a reserved lane. -/
theorem pendingWrites_iff_lane_reserved (W n : Nat) (calls : List ScoreboardCall)
    (s : Scoreboard) (hrun : Scoreboard.run W (Scoreboard.init n) calls = .ok s)
    (hne : ∀ c ∈ calls, c.reserves_nothing = false) (w : Nat) (hw : w < n) :
    ∃ b, s.pendingWrites w = .ok b ∧ (b = true ↔ ∃ r i, s.lane_reserved w r i) := by
  have hlen : s.reg_table.length = n := by
    rw [run_length W calls _ s hrun]; simp [Scoreboard.init]
  have hw' : w < s.reg_table.length := by rw [hlen]; exact hw
  have hnz := run_nonzero_masks W calls (Scoreboard.init n) s hne
    (fun w e he => by rw [entries_init] at he; simp at he) hrun w
  rw [entries_eq_getElem s hw'] at hnz
  refine ⟨!(s.reg_table[w]).isEmpty, ?_, ?_⟩
  · unfold Scoreboard.pendingWrites
    rw [dif_pos hw']
  · unfold Scoreboard.lane_reserved
    rw [entries_eq_getElem s hw']
    constructor
    · intro hb
      cases hl : s.reg_table[w] with
      | nil => rw [hl] at hb; simp at hb
      | cons e l =>
        have hez : e.active_mask ≠ 0 := hnz e (by rw [hl]; exact List.mem_cons_self _ _)
        obtain ⟨i, hi⟩ := Nat.ne_zero_implies_bit_true hez
        exact ⟨e.reg, i, e, List.mem_cons_self _ _, rfl, hi⟩
    · rintro ⟨r, i, e, he, _, _⟩
      cases hl : s.reg_table[w] with
      | nil => rw [hl] at he; simp at he
      | cons e l => simp

/-- Witness for `pendingWrites_iff_lane_reserved`: `r5` of warp 0 is reserved on
lanes `0x0F`. -/
theorem pendingWrites_iff_lane_reserved_witness :
    ∃ b, (Scoreboard.mk [[⟨5, 0x0F⟩], []] [[], []]).pendingWrites 0 = .ok b ∧
      (b = true ↔ ∃ r i, (Scoreboard.mk [[⟨5, 0x0F⟩], []] [[], []]).lane_reserved 0 r i) :=
  pendingWrites_iff_lane_reserved 32 2 [.reserve 0 5 0x0F]
    (Scoreboard.mk [[⟨5, 0x0F⟩], []] [[], []]) (by decide) (by decide) 0 (by decide)

/-! ## Long operations -/

/-- C8 (failing input): warp 0 issues a global load A writing `r5` on lanes `0x0F`,
then a global load B writing `r5` on the disjoint lanes `0xF0`.  After
`releaseRegisters(B)` the lanes of A are still reserved for `r5`, so A is still
outstanding, but `islongop(0, 5)` returns false. -/
theorem islongop_false_while_load_outstanding :
    (Scoreboard.init 1).reserveRegisters (global_load 0 5 0x0F) =
      .ok (Scoreboard.mk [[⟨5, 0x0F⟩]] [[5]]) ∧
    (Scoreboard.mk [[⟨5, 0x0F⟩]] [[5]]).islongop 0 5 = .ok true ∧
    (Scoreboard.mk [[⟨5, 0x0F⟩]] [[5]]).reserveRegisters (global_load 0 5 0xF0) =
      .ok (Scoreboard.mk [[⟨5, 0xFF⟩]] [[5]]) ∧
    (Scoreboard.mk [[⟨5, 0xFF⟩]] [[5]]).releaseRegisters 32 (global_load 0 5 0xF0) =
      .ok (Scoreboard.mk [[⟨5, 0x0F⟩]] [[]]) ∧
    (Scoreboard.mk [[⟨5, 0x0F⟩]] [[]]).lane_reserved 0 5 0 ∧
    (Scoreboard.mk [[⟨5, 0x0F⟩]] [[]]).islongop 0 5 = .ok false := by
  refine ⟨by decide, by decide, by decide, by decide, ?_, by decide⟩
  unfold Scoreboard.lane_reserved
  decide

/-! ## Barrier set -/

theorem testBit_bs_set (a x y : Nat) :
    (bs_set a x).testBit y = (a.testBit y || decide (x = y)) := by
  unfold bs_set
  rw [Nat.testBit_or, Nat.testBit_two_pow]

theorem testBit_bs_not (N a y : Nat) :
    (bs_not N a).testBit y = (decide (y < N) != a.testBit y) := by
  unfold bs_not
  rw [Nat.testBit_xor, Nat.testBit_two_pow_sub_one]

theorem lt_of_testBit {a N x : Nat} (ha : a < 2 ^ N) (hx : a.testBit x = true) : x < N := by
  by_contra h
  rw [testBit_false_of_lt ha (Nat.le_of_not_lt h)] at hx
  exact Bool.noConfusion hx

theorem bs_set_lt {a N x : Nat} (ha : a < 2 ^ N) (hx : x < N) : bs_set a x < 2 ^ N := by
  unfold bs_set
  exact Nat.or_lt_two_pow ha (Nat.pow_lt_pow_right (by decide) hx)

theorem and_bs_set_eq_iff (ws a act x : Nat) :
    ws &&& bs_set a x = ws &&& act ↔
      ∀ y, ws.testBit y = true →
        ((y = x ∨ a.testBit y = true) ↔ act.testBit y = true) := by
  constructor
  · intro h y hy
    have hb := congrArg (fun n => Nat.testBit n y) h
    simp only [Nat.testBit_and, testBit_bs_set, hy, Bool.true_and] at hb
    rw [← hb]
    simp only [Bool.or_eq_true, decide_eq_true_eq]
    constructor
    · rintro (h1 | h1)
      · exact Or.inr h1.symm
      · exact Or.inl h1
    · rintro (h1 | h1)
      · exact Or.inr h1
      · exact Or.inl h1.symm
  · intro h
    apply Nat.eq_of_testBit_eq
    intro y
    simp only [Nat.testBit_and, testBit_bs_set]
    cases hy : ws.testBit y with
    | false => rfl
    | true =>
      have h1 := h y hy
      simp only [Bool.true_and]
      rw [Bool.eq_iff_iff, ← h1]
      simp only [Bool.or_eq_true, decide_eq_true_eq]
      constructor
      · rintro (h2 | h2)
        · exact Or.inr h2
        · exact Or.inl h2.symm
      · rintro (h2 | h2)
        · exact Or.inr h2.symm
        · exact Or.inl h2

/-- C9: for a CTA `c` allocated with warp set `ws` and a warp `x` of `c` (warp sets
being `N`-bit sets), `warp_reaches_barrier(c, x)` returns.  With the bit of `x` set, if the at-barrier
warps of `c` equal the active warps of `c`, then afterwards no warp of `c` is at
the barrier; otherwise the bit of `x` is set and no other at-barrier bit changes.
The active set and the CTA map are unchanged, and so is the at-barrier bit of
every warp outside `c`. -/
theorem warp_reaches_barrier_contract (N : Nat) (b : barrier_set_t) (c x ws : Nat)
    (hfind : map_find b.m_cta_to_warps c = some ws) (hws : ws < 2 ^ N)
    (hat : b.m_warp_at_barrier < 2 ^ N) (hx : ws.testBit x = true) :
    ∃ b', b.warp_reaches_barrier N c x = .ok b' ∧
      b'.m_warp_active = b.m_warp_active ∧
      b'.m_cta_to_warps = b.m_cta_to_warps ∧
      b'.m_max_warps_per_core = b.m_max_warps_per_core ∧
      b'.m_max_cta_per_core = b.m_max_cta_per_core ∧
      ((∀ y, ws.testBit y = true →
          ((y = x ∨ b.m_warp_at_barrier.testBit y = true) ↔
            b.m_warp_active.testBit y = true)) →
        ∀ y, ws.testBit y = true → b'.m_warp_at_barrier.testBit y = false) ∧
      (¬ (∀ y, ws.testBit y = true →
          ((y = x ∨ b.m_warp_at_barrier.testBit y = true) ↔
            b.m_warp_active.testBit y = true)) →
        b'.m_warp_at_barrier.testBit x = true ∧
        ∀ y, y ≠ x → b'.m_warp_at_barrier.testBit y = b.m_warp_at_barrier.testBit y) ∧
      (∀ y, ws.testBit y = false →
        b'.m_warp_at_barrier.testBit y = b.m_warp_at_barrier.testBit y) := by
  have hxN : x < N := lt_of_testBit hws hx
  have hset : bs_set b.m_warp_at_barrier x < 2 ^ N := bs_set_lt hat hxN
  unfold barrier_set_t.warp_reaches_barrier
  rw [hfind]
  simp only [not_lt, Bool.not_eq_true]
  rw [if_neg (by omega), if_neg (by simp [hx])]
  by_cases heq : ws &&& bs_set b.m_warp_at_barrier x = ws &&& b.m_warp_active
  · have hsem := (and_bs_set_eq_iff ws b.m_warp_at_barrier b.m_warp_active x).mp heq
    rw [if_pos heq]
    refine ⟨_, rfl, rfl, rfl, rfl, rfl, ?_, ?_, ?_⟩
    · intro _ y hy
      simp only
      rw [testBit_and_bs_not hset, Nat.testBit_and, hy]
      cases (bs_set b.m_warp_at_barrier x).testBit y <;> rfl
    · intro hne
      exact absurd hsem hne
    · intro y hy
      simp only
      rw [testBit_and_bs_not hset, Nat.testBit_and, hy, testBit_bs_set]
      have hxy : ¬ x = y := by
        intro h; rw [h] at hx; rw [hx] at hy; exact Bool.noConfusion hy
      simp [hxy]
  · have hsem : ¬ ∀ y, ws.testBit y = true →
        ((y = x ∨ b.m_warp_at_barrier.testBit y = true) ↔
          b.m_warp_active.testBit y = true) :=
      fun h => heq ((and_bs_set_eq_iff ws b.m_warp_at_barrier b.m_warp_active x).mpr h)
    rw [if_neg heq]
    refine ⟨_, rfl, rfl, rfl, rfl, rfl, ?_, ?_, ?_⟩
    · intro h
      exact absurd h hsem
    · intro _
      simp only
      refine ⟨by simp [testBit_bs_set], ?_⟩
      intro y hy
      rw [testBit_bs_set]
      simp [Ne.symm hy]
    · intro y hy
      simp only
      rw [testBit_bs_set]
      have hxy : ¬ x = y := by
        intro h; rw [h] at hx; rw [hx] at hy; exact Bool.noConfusion hy
      simp [hxy]

/-- Witness for `warp_reaches_barrier_contract`: CTA 0 has warps 0 and 1, CTA 1
has warps 2 and 3, all active; warps 0 and 2 wait and warp 1 of CTA 0 arrives. -/
theorem warp_reaches_barrier_contract_witness :
    ∃ b', (barrier_set_t.mk 8 4 [(0, 3), (1, 12)] 15 5).warp_reaches_barrier 48 0 1 = .ok b' ∧
      b'.m_warp_active = 15 ∧
      (∀ y, (3 : Nat).testBit y = false →
        b'.m_warp_at_barrier.testBit y = (5 : Nat).testBit y) := by
  obtain ⟨b', h1, h2, _, _, _, _, _, h8⟩ :=
    warp_reaches_barrier_contract 48 (barrier_set_t.mk 8 4 [(0, 3), (1, 12)] 15 5) 0 1 3
      (by decide) (by decide) (by decide) (by decide)
  exact ⟨b', h1, h2, h8⟩

/-- C10 (as stated, refuted): one CTA with warps 0 and 1.  If warp 0 exits and
then reaches the barrier, or reaches the barrier and then exits, no call aborts and
warp 0 ends up at the barrier without being active. -/
theorem at_barrier_not_subset_active :
    (∃ b0 b, barrier_set_t.init 48 8 4 = .ok b0 ∧
      b0.admits_all 48 false [.allocate 0 3, .warp_exit 0, .reaches 0 0] = true ∧
      barrier_set_t.run 48 b0 [.allocate 0 3, .warp_exit 0, .reaches 0 0] = .ok b ∧
      b.m_warp_at_barrier.testBit 0 = true ∧ b.m_warp_active.testBit 0 = false) ∧
    (∃ b0 b, barrier_set_t.init 48 8 4 = .ok b0 ∧
      b0.admits_all 48 false [.allocate 0 3, .reaches 0 0, .warp_exit 0] = true ∧
      barrier_set_t.run 48 b0 [.allocate 0 3, .reaches 0 0, .warp_exit 0] = .ok b ∧
      b.m_warp_at_barrier.testBit 0 = true ∧ b.m_warp_active.testBit 0 = false) := by
  refine ⟨⟨barrier_set_t.mk 8 4 [] 0 0, barrier_set_t.mk 8 4 [(0, 3)] 2 1, ?_⟩,
    ⟨barrier_set_t.mk 8 4 [] 0 0, barrier_set_t.mk 8 4 [(0, 3)] 2 1, ?_⟩⟩
  · decide
  · decide

theorem barrier_call_invariant (N : Nat) (b b' : barrier_set_t) (c : BarrierCall)
    (hinv : ∀ y, b.m_warp_at_barrier.testBit y = true →
      y < N ∧ b.m_warp_active.testBit y = true)
    (hadm : b.admits N true c = true) (hcall : b.call N c = .ok b') :
    ∀ y, b'.m_warp_at_barrier.testBit y = true →
      y < N ∧ b'.m_warp_active.testBit y = true := by
  cases c with
  | allocate cta warps =>
    simp only [barrier_set_t.call, barrier_set_t.allocate_barrier] at hcall
    split at hcall
    · cases hcall
    · split at hcall
      · cases hcall
      · split at hcall
        · cases hcall
        · simp only [Except.ok.injEq] at hcall
          subst hcall
          intro y hy
          simp only [Nat.testBit_and, Bool.and_eq_true] at hy
          obtain ⟨h1, h2⟩ := hinv y hy.1
          exact ⟨h1, by simp [Nat.testBit_or, h2]⟩
  | deallocate cta =>
    simp only [barrier_set_t.call, barrier_set_t.deallocate_barrier] at hcall
    split at hcall
    · simp only [Except.ok.injEq] at hcall
      subst hcall
      exact hinv
    · split at hcall
      · cases hcall
      · split at hcall
        · cases hcall
        · simp only [Except.ok.injEq] at hcall
          subst hcall
          intro y hy
          simp only [Nat.testBit_and, Bool.and_eq_true] at hy
          obtain ⟨h1, h2⟩ := hinv y hy.1
          exact ⟨h1, by simp [Nat.testBit_and, h2, hy.2]⟩
  | reaches cta x =>
    simp only [barrier_set_t.admits, Bool.not_true, Bool.false_or] at hadm
    simp only [barrier_set_t.call, barrier_set_t.warp_reaches_barrier] at hcall
    split at hcall
    · cases hcall
    · split at hcall
      · cases hcall
      · rename_i hxN
        have hxN' : x < N := not_not.mp hxN
        split at hcall
        · cases hcall
        · have hset : ∀ y, (bs_set b.m_warp_at_barrier x).testBit y = true →
              y < N ∧ b.m_warp_active.testBit y = true := by
            intro y hy
            rw [testBit_bs_set] at hy
            simp only [Bool.or_eq_true, decide_eq_true_eq] at hy
            rcases hy with hy | hy
            · exact hinv y hy
            · subst hy; exact ⟨hxN', hadm⟩
          split at hcall
          · simp only [Except.ok.injEq] at hcall
            subst hcall
            intro y hy
            simp only [Nat.testBit_and, Bool.and_eq_true] at hy
            exact hset y hy.1
          · simp only [Except.ok.injEq] at hcall
            subst hcall
            exact hset
  | warp_exit x =>
    simp only [barrier_set_t.admits, Bool.not_true, Bool.false_or,
      Bool.not_eq_true'] at hadm
    simp only [barrier_set_t.call, barrier_set_t.warp_exit] at hcall
    split at hcall
    · cases hcall
    · have hact : ∀ y, b.m_warp_at_barrier.testBit y = true →
          y < N ∧ (bs_reset N b.m_warp_active x).testBit y = true := by
        intro y hy
        obtain ⟨h1, h2⟩ := hinv y hy
        refine ⟨h1, ?_⟩
        have hxy : ¬ x = y := by
          intro h; rw [h] at hadm; rw [hadm] at hy; exact Bool.noConfusion hy
        unfold bs_reset
        rw [Nat.testBit_and, testBit_bs_not, Nat.testBit_two_pow]
        simp [h1, h2, hxy]
      split at hcall
      · cases hcall
      · split at hcall
        · simp only [Except.ok.injEq] at hcall
          subst hcall
          intro y hy
          simp only [Nat.testBit_and, Bool.and_eq_true] at hy
          exact hact y hy.1
        · simp only [Except.ok.injEq] at hcall
          subst hcall
          exact hact

theorem barrier_run_invariant (N : Nat) (calls : List BarrierCall) :
    ∀ b0 b : barrier_set_t,
      (∀ y, b0.m_warp_at_barrier.testBit y = true →
        y < N ∧ b0.m_warp_active.testBit y = true) →
      b0.admits_all N true calls = true → barrier_set_t.run N b0 calls = .ok b →
      ∀ y, b.m_warp_at_barrier.testBit y = true →
        y < N ∧ b.m_warp_active.testBit y = true := by
  induction calls with
  | nil =>
    intro b0 b h0 _ hrun
    simp only [barrier_set_t.run, Except.ok.injEq] at hrun
    exact hrun ▸ h0
  | cons c cs ih =>
    intro b0 b h0 hadm hrun
    rw [barrier_set_t.run] at hrun
    rw [barrier_set_t.admits_all, Bool.and_eq_true] at hadm
    cases hc : b0.call N c with
    | error e => rw [hc] at hrun; cases hrun
    | ok b1 =>
      rw [hc] at hrun
      have hadm2 := hadm.2
      rw [hc] at hadm2
      exact ih b1 b (barrier_call_invariant N b0 b1 c h0 hadm.1 hc) hadm2 hrun

/-- C10 (amended): in every barrier-set state reached from construction by
`allocate_barrier`, `warp_reaches_barrier`, `warp_exit` and `deallocate_barrier`
calls that all return, where allocated warp sets are pairwise disjoint, every
warp that reaches a barrier is active at that moment and every warp that exits is
not waiting at a barrier at that moment, each warp at a barrier is active. -/
theorem at_barrier_subset_active (N max_warps max_cta : Nat) (b0 b : barrier_set_t)
    (calls : List BarrierCall)
    (hinit : barrier_set_t.init N max_warps max_cta = .ok b0)
    (hadm : b0.admits_all N true calls = true)
    (hrun : barrier_set_t.run N b0 calls = .ok b) :
    ∀ y, b.m_warp_at_barrier.testBit y = true → b.m_warp_active.testBit y = true := by
  have h0 : ∀ y, b0.m_warp_at_barrier.testBit y = true →
      y < N ∧ b0.m_warp_active.testBit y = true := by
    unfold barrier_set_t.init at hinit
    split at hinit
    · cases hinit
    · simp only [Except.ok.injEq] at hinit
      subst hinit
      intro y hy
      simp at hy
  intro y hy
  exact (barrier_run_invariant N calls b0 b h0 hadm hrun y hy).2

/-- Witness for `at_barrier_subset_active`: two CTAs; warp 0 waits, warp 3 exits,
warp 2 waits and is released at once, warp 1 arrives and releases warp 0. -/
theorem at_barrier_subset_active_witness :
    ∃ b, barrier_set_t.run 48 (barrier_set_t.mk 8 4 [] 0 0)
        [.allocate 0 3, .allocate 1 12, .reaches 0 0, .warp_exit 3, .reaches 1 2] = .ok b ∧
      b.m_warp_at_barrier = 1 ∧
      ∀ y, b.m_warp_at_barrier.testBit y = true → b.m_warp_active.testBit y = true :=
  ⟨barrier_set_t.mk 8 4 [(0, 3), (1, 12)] 7 1, by decide, rfl,
    at_barrier_subset_active 48 8 4 (barrier_set_t.mk 8 4 [] 0 0)
      (barrier_set_t.mk 8 4 [(0, 3), (1, 12)] 7 1)
      [.allocate 0 3, .allocate 1 12, .reaches 0 0, .warp_exit 3, .reaches 1 2]
      (by decide) (by decide) (by decide)⟩

/-! ## Barrier set: what each call does -/

theorem and_eq_and_iff (a x y : Nat) :
    a &&& x = a &&& y ↔ ∀ i, a.testBit i = true → (x.testBit i = true ↔ y.testBit i = true) := by
  constructor
  · intro h i hi
    have hb := congrArg (fun n => Nat.testBit n i) h
    simp only [Nat.testBit_and, hi, Bool.true_and] at hb
    rw [hb]
  · intro h
    apply Nat.eq_of_testBit_eq
    intro i
    simp only [Nat.testBit_and]
    cases hi : a.testBit i with
    | false => rfl
    | true =>
      simp only [Bool.true_and]
      rw [Bool.eq_iff_iff]
      exact h i hi

theorem and_eq_zero_iff (a x : Nat) :
    a &&& x = 0 ↔ ∀ i, a.testBit i = true → x.testBit i = false := by
  constructor
  · intro h i hi
    have hb := congrArg (fun n => Nat.testBit n i) h
    simpa [Nat.testBit_and, hi] using hb
  · intro h
    apply Nat.eq_of_testBit_eq
    intro i
    simp only [Nat.testBit_and, Nat.zero_testBit]
    cases hi : a.testBit i with
    | false => rfl
    | true => simp [h i hi]

theorem map_find_some_mem {m : List (Nat × Nat)} {k v : Nat} (h : map_find m k = some v) :
    (k, v) ∈ m := by
  unfold map_find at h
  cases hf : m.find? (fun p => p.1 == k) with
  | none => rw [hf] at h; cases h
  | some p =>
    rw [hf] at h
    simp only [Option.map_some', Option.some.injEq] at h
    have hk : p.1 = k := by simpa using List.find?_some hf
    have hm := List.mem_of_find?_eq_some hf
    have : p = (k, v) := by
      cases p
      simp_all
    rw [← this]
    exact hm

theorem mem_map_assign {k v : Nat} {m : List (Nat × Nat)} {p : Nat × Nat}
    (h : p ∈ map_assign k v m) : p = (k, v) ∨ p ∈ m := by
  induction m with
  | nil =>
    simp only [map_assign, List.mem_singleton] at h
    exact Or.inl h
  | cons q rest ih =>
    rw [map_assign] at h
    split at h
    · rcases List.mem_cons.mp h with h | h
      · exact Or.inl h
      · exact Or.inr h
    · split at h
      · rcases List.mem_cons.mp h with h | h
        · exact Or.inl h
        · exact Or.inr (List.mem_cons_of_mem _ h)
      · rcases List.mem_cons.mp h with h | h
        · exact Or.inr (h ▸ List.mem_cons_self _ _)
        · rcases ih h with h | h
          · exact Or.inl h
          · exact Or.inr (List.mem_cons_of_mem _ h)

theorem pairwise_map_assign {R : Nat × Nat → Nat × Nat → Prop} {k v : Nat}
    {m : List (Nat × Nat)} (hm : m.Pairwise R)
    (hnew : ∀ p ∈ m, R (k, v) p ∧ R p (k, v)) : (map_assign k v m).Pairwise R := by
  induction m with
  | nil => simp [map_assign]
  | cons q rest ih =>
    rw [List.pairwise_cons] at hm
    rw [map_assign]
    split
    · rw [List.pairwise_cons]
      exact ⟨fun p hp => (hnew p hp).1, List.pairwise_cons.mpr hm⟩
    · split
      · rw [List.pairwise_cons]
        exact ⟨fun p hp => (hnew p (List.mem_cons_of_mem _ hp)).1, hm.2⟩
      · rw [List.pairwise_cons]
        refine ⟨?_, ih hm.2 (fun p hp => hnew p (List.mem_cons_of_mem _ hp))⟩
        intro p hp
        rcases mem_map_assign hp with h | h
        · rw [h]; exact (hnew q (List.mem_cons_self _ _)).2
        · exact hm.1 p h

theorem testBit_bs_reset {N a : Nat} (ha : a < 2 ^ N) (x y : Nat) :
    (bs_reset N a x).testBit y = (a.testBit y && !decide (x = y)) := by
  unfold bs_reset
  rw [testBit_and_bs_not ha, Nat.testBit_two_pow]

theorem release_due_congr {b b' : barrier_set_t} {ws : Nat}
    (hat : ∀ y, ws.testBit y = true →
      b'.m_warp_at_barrier.testBit y = b.m_warp_at_barrier.testBit y)
    (hact : ∀ y, ws.testBit y = true →
      b'.m_warp_active.testBit y = b.m_warp_active.testBit y)
    (h : b'.release_due ws) : b.release_due ws := by
  obtain ⟨⟨y, hy, hy'⟩, hall⟩ := h
  refine ⟨⟨y, hy, by rw [← hat y hy]; exact hy'⟩, ?_⟩
  intro z hz
  rw [← hat z hz, ← hact z hz]
  exact hall z hz

theorem allocate_barrier_ok {N : Nat} {b b' : barrier_set_t} {c ws : Nat}
    (h : b.allocate_barrier N c ws = .ok b') :
    c < b.m_max_cta_per_core ∧ map_find b.m_cta_to_warps c = none ∧
    b'.m_cta_to_warps = map_assign c ws b.m_cta_to_warps ∧
    b'.m_warp_active = b.m_warp_active ||| ws ∧
    b'.m_warp_at_barrier = b.m_warp_at_barrier &&& bs_not N ws ∧
    b'.m_max_cta_per_core = b.m_max_cta_per_core ∧
    b'.m_max_warps_per_core = b.m_max_warps_per_core := by
  unfold barrier_set_t.allocate_barrier at h
  split at h
  · cases h
  · rename_i hc
    split at h
    · cases h
    · rename_i hf
      simp only at h
      split at h
      · cases h
      · simp only [Except.ok.injEq] at h
        subst h
        refine ⟨not_not.mp hc, ?_, rfl, rfl, rfl, rfl, rfl⟩
        cases hm : map_find b.m_cta_to_warps c with
        | none => rfl
        | some v => rw [hm] at hf; simp at hf

theorem deallocate_barrier_ok {N : Nat} {b b' : barrier_set_t} {c : Nat}
    (h : b.deallocate_barrier N c = .ok b') :
    (map_find b.m_cta_to_warps c = none ∧ b' = b) ∨
    ∃ ws, map_find b.m_cta_to_warps c = some ws ∧
      ws &&& b.m_warp_at_barrier = 0 ∧ ws &&& b.m_warp_active = 0 ∧
      b'.m_cta_to_warps = map_erase c b.m_cta_to_warps ∧
      b'.m_warp_active = b.m_warp_active &&& bs_not N ws ∧
      b'.m_warp_at_barrier = b.m_warp_at_barrier &&& bs_not N ws ∧
      b'.m_max_cta_per_core = b.m_max_cta_per_core ∧
      b'.m_max_warps_per_core = b.m_max_warps_per_core := by
  unfold barrier_set_t.deallocate_barrier at h
  split at h
  · rename_i hf
    simp only [Except.ok.injEq] at h
    exact Or.inl ⟨hf, h.symm⟩
  · rename_i ws hf
    simp only at h
    split at h
    · cases h
    · rename_i h1
      split at h
      · cases h
      · rename_i h2
        simp only [Except.ok.injEq] at h
        subst h
        refine Or.inr ⟨ws, hf, ?_, ?_, rfl, rfl, rfl, rfl, rfl⟩
        · simpa [bs_any] using h1
        · simpa [bs_any] using h2

theorem warp_reaches_barrier_ok {N : Nat} {b b' : barrier_set_t} {c x : Nat}
    (h : b.warp_reaches_barrier N c x = .ok b') :
    ∃ ws, map_find b.m_cta_to_warps c = some ws ∧ x < N ∧ ws.testBit x = true ∧
      b'.m_cta_to_warps = b.m_cta_to_warps ∧ b'.m_warp_active = b.m_warp_active ∧
      b'.m_max_cta_per_core = b.m_max_cta_per_core ∧
      b'.m_max_warps_per_core = b.m_max_warps_per_core ∧
      ((ws &&& bs_set b.m_warp_at_barrier x = ws &&& b.m_warp_active ∧
          b'.m_warp_at_barrier = bs_set b.m_warp_at_barrier x &&&
            bs_not N (ws &&& bs_set b.m_warp_at_barrier x)) ∨
       (ws &&& bs_set b.m_warp_at_barrier x ≠ ws &&& b.m_warp_active ∧
          b'.m_warp_at_barrier = bs_set b.m_warp_at_barrier x)) := by
  unfold barrier_set_t.warp_reaches_barrier at h
  split at h
  · cases h
  · rename_i ws hf
    split at h
    · cases h
    · rename_i hx
      split at h
      · cases h
      · rename_i hb
        simp only at h
        split at h
        · rename_i heq
          simp only [Except.ok.injEq] at h
          subst h
          exact ⟨ws, hf, not_not.mp hx, not_not.mp hb, rfl, rfl, rfl, rfl, Or.inl ⟨heq, rfl⟩⟩
        · rename_i hne
          simp only [Except.ok.injEq] at h
          subst h
          exact ⟨ws, hf, not_not.mp hx, not_not.mp hb, rfl, rfl, rfl, rfl, Or.inr ⟨hne, rfl⟩⟩

theorem warp_exit_ok {N : Nat} {b b' : barrier_set_t} {x : Nat}
    (h : b.warp_exit N x = .ok b') :
    ∃ w, b.m_cta_to_warps.find? (fun p => p.2.testBit x) = some w ∧ x < N ∧
      b'.m_cta_to_warps = b.m_cta_to_warps ∧
      b'.m_warp_active = bs_reset N b.m_warp_active x ∧
      b'.m_max_cta_per_core = b.m_max_cta_per_core ∧
      b'.m_max_warps_per_core = b.m_max_warps_per_core ∧
      ((w.2 &&& b.m_warp_at_barrier = w.2 &&& bs_reset N b.m_warp_active x ∧
          b'.m_warp_at_barrier = b.m_warp_at_barrier &&&
            bs_not N (w.2 &&& b.m_warp_at_barrier)) ∨
       (w.2 &&& b.m_warp_at_barrier ≠ w.2 &&& bs_reset N b.m_warp_active x ∧
          b'.m_warp_at_barrier = b.m_warp_at_barrier)) := by
  unfold barrier_set_t.warp_exit at h
  split at h
  · cases h
  · rename_i hx
    simp only at h
    split at h
    · cases h
    · rename_i w hf
      split at h
      · rename_i heq
        simp only [Except.ok.injEq] at h
        subst h
        exact ⟨w, hf, not_not.mp hx, rfl, rfl, rfl, rfl, Or.inl ⟨heq, rfl⟩⟩
      · rename_i hne
        simp only [Except.ok.injEq] at h
        subst h
        exact ⟨w, hf, not_not.mp hx, rfl, rfl, rfl, rfl, Or.inr ⟨hne, rfl⟩⟩

/-! ## Barrier set: atomic release -/

theorem eq_or_disjoint_of_pairwise {m : List (Nat × Nat)}
    (hm : m.Pairwise fun p q => p.2 &&& q.2 = 0) {p q : Nat × Nat}
    (hp : p ∈ m) (hq : q ∈ m) : p = q ∨ p.2 &&& q.2 = 0 := by
  by_cases h : p = q
  · exact Or.inl h
  · right
    have hsymm : Symmetric (fun p q : Nat × Nat => p.2 &&& q.2 = 0) := by
      intro a b hab
      show b.2 &&& a.2 = 0
      rw [Nat.and_comm]; exact hab
    exact hm.forall hsymm hp hq h

theorem barrier_call_atomic (N : Nat) (b b' : barrier_set_t) (c : BarrierCall)
    (hwf : b.wf N) (hinv : ∀ p ∈ b.m_cta_to_warps, ¬ b.release_due p.2)
    (hadm : b.admits N false c = true) (hcall : b.call N c = .ok b') :
    b'.wf N ∧ ∀ p ∈ b'.m_cta_to_warps, ¬ b'.release_due p.2 := by
  obtain ⟨hat, hact, hws, hpw⟩ := hwf
  cases c with
  | allocate cta ws =>
    simp only [barrier_set_t.admits, Bool.and_eq_true, decide_eq_true_eq,
      List.all_eq_true, beq_iff_eq] at hadm
    obtain ⟨hwsN, hdisj⟩ := hadm
    obtain ⟨_, _, hmap, ha, hb, _, _⟩ := allocate_barrier_ok hcall
    have hbit : ∀ y, b'.m_warp_at_barrier.testBit y =
        (b.m_warp_at_barrier.testBit y && !ws.testBit y) := by
      intro y; rw [hb, testBit_and_bs_not hat]
    refine ⟨⟨?_, ?_, ?_, ?_⟩, ?_⟩
    · rw [hb]; exact and_bs_not_lt hat _
    · rw [ha]; exact Nat.or_lt_two_pow hact hwsN
    · intro p hp
      rw [hmap] at hp
      rcases mem_map_assign hp with h | h
      · rw [h]; exact hwsN
      · exact hws p h
    · rw [hmap]
      apply pairwise_map_assign hpw
      intro p hp
      refine ⟨?_, hdisj p hp⟩
      show ws &&& p.2 = 0
      rw [Nat.and_comm]; exact hdisj p hp
    · intro p hp hdue
      rw [hmap] at hp
      rcases mem_map_assign hp with h | h
      · obtain ⟨⟨y, hy, hy'⟩, _⟩ := hdue
        rw [h] at hy
        rw [hbit, hy] at hy'
        simp at hy'
      · refine hinv p h (release_due_congr ?_ ?_ hdue)
        · intro y hy
          rw [hbit, (and_eq_zero_iff _ _).mp (hdisj p h) y hy]
          simp
        · intro y hy
          rw [ha, Nat.testBit_or, (and_eq_zero_iff _ _).mp (hdisj p h) y hy]
          simp
  | deallocate cta =>
    rcases deallocate_barrier_ok hcall with ⟨_, h⟩ | ⟨ws, _, h1, h2, hmap, ha, hb, _, _⟩
    · subst h
      exact ⟨⟨hat, hact, hws, hpw⟩, hinv⟩
    · have hbat : b'.m_warp_at_barrier = b.m_warp_at_barrier := by
        apply Nat.eq_of_testBit_eq
        intro y
        rw [hb, testBit_and_bs_not hat]
        cases hy : ws.testBit y with
        | false => simp
        | true => rw [(and_eq_zero_iff _ _).mp h1 y hy]; rfl
      have hbact : b'.m_warp_active = b.m_warp_active := by
        apply Nat.eq_of_testBit_eq
        intro y
        rw [ha, testBit_and_bs_not hact]
        cases hy : ws.testBit y with
        | false => simp
        | true => rw [(and_eq_zero_iff _ _).mp h2 y hy]; rfl
      have hsub : ∀ p ∈ b'.m_cta_to_warps, p ∈ b.m_cta_to_warps := by
        intro p hp
        rw [hmap] at hp
        exact (List.mem_filter.mp hp).1
      refine ⟨⟨?_, ?_, ?_, ?_⟩, ?_⟩
      · rw [hbat]; exact hat
      · rw [hbact]; exact hact
      · exact fun p hp => hws p (hsub p hp)
      · rw [hmap]
        exact hpw.sublist (List.filter_sublist _)
      · intro p hp hdue
        refine hinv p (hsub p hp) (release_due_congr ?_ ?_ hdue)
        · intro y _; rw [hbat]
        · intro y _; rw [hbact]
  | reaches cta x =>
    obtain ⟨ws, hf, hxN, hx, hmap, ha, _, _, hcase⟩ := warp_reaches_barrier_ok hcall
    have hmem := map_find_some_mem hf
    have hset : bs_set b.m_warp_at_barrier x < 2 ^ N := bs_set_lt hat hxN
    have hother : ∀ p ∈ b.m_cta_to_warps, p.2 &&& ws = 0 → ∀ y, p.2.testBit y = true →
        (bs_set b.m_warp_at_barrier x).testBit y = b.m_warp_at_barrier.testBit y ∧
        ws.testBit y = false := by
      intro p _ hd y hy
      have hwy := (and_eq_zero_iff _ _).mp hd y hy
      have hxy : ¬ x = y := by
        intro h; rw [h] at hx; rw [hx] at hwy; exact Bool.noConfusion hwy
      refine ⟨?_, hwy⟩
      rw [testBit_bs_set]
      simp [hxy]
    rcases hcase with ⟨heq, hb⟩ | ⟨hne, hb⟩
    · have hbit : ∀ y, b'.m_warp_at_barrier.testBit y =
          ((bs_set b.m_warp_at_barrier x).testBit y &&
            !(ws.testBit y && (bs_set b.m_warp_at_barrier x).testBit y)) := by
        intro y; rw [hb, testBit_and_bs_not hset, Nat.testBit_and]
      refine ⟨⟨?_, ?_, ?_, ?_⟩, ?_⟩
      · rw [hb]; exact and_bs_not_lt hset _
      · rw [ha]; exact hact
      · rw [hmap]; exact hws
      · rw [hmap]; exact hpw
      · intro p hp hdue
        rw [hmap] at hp
        rcases eq_or_disjoint_of_pairwise hpw hp hmem with h | h
        · obtain ⟨⟨y, hy, hy'⟩, _⟩ := hdue
          rw [h] at hy
          rw [hbit, hy] at hy'
          cases hh : (bs_set b.m_warp_at_barrier x).testBit y <;> rw [hh] at hy' <;>
            simp at hy'
        · refine hinv p hp (release_due_congr ?_ ?_ hdue)
          · intro y hy
            obtain ⟨h1, h2⟩ := hother p hp h y hy
            rw [hbit, h1, h2]
            simp
          · intro y _; rw [ha]
    · refine ⟨⟨?_, ?_, ?_, ?_⟩, ?_⟩
      · rw [hb]; exact hset
      · rw [ha]; exact hact
      · rw [hmap]; exact hws
      · rw [hmap]; exact hpw
      · intro p hp hdue
        rw [hmap] at hp
        rcases eq_or_disjoint_of_pairwise hpw hp hmem with h | h
        · apply hne
          rw [and_eq_and_iff]
          intro y hy
          have := hdue.2 y (by rw [h]; exact hy)
          rw [hb, ha] at this
          exact this
        · refine hinv p hp (release_due_congr ?_ ?_ hdue)
          · intro y hy
            rw [hb]
            exact (hother p hp h y hy).1
          · intro y _; rw [ha]
  | warp_exit x =>
    obtain ⟨w, hf, hxN, hmap, ha, _, _, hcase⟩ := warp_exit_ok hcall
    have hmem := List.mem_of_find?_eq_some hf
    have hx : w.2.testBit x = true := by simpa using List.find?_some hf
    have hother : ∀ p ∈ b.m_cta_to_warps, p.2 &&& w.2 = 0 → ∀ y, p.2.testBit y = true →
        (bs_reset N b.m_warp_active x).testBit y = b.m_warp_active.testBit y ∧
        w.2.testBit y = false := by
      intro p _ hd y hy
      have hwy := (and_eq_zero_iff _ _).mp hd y hy
      have hxy : ¬ x = y := by
        intro h; rw [h] at hx; rw [hx] at hwy; exact Bool.noConfusion hwy
      refine ⟨?_, hwy⟩
      rw [testBit_bs_reset hact]
      simp [hxy]
    rcases hcase with ⟨heq, hb⟩ | ⟨hne, hb⟩
    · have hbit : ∀ y, b'.m_warp_at_barrier.testBit y =
          (b.m_warp_at_barrier.testBit y &&
            !(w.2.testBit y && b.m_warp_at_barrier.testBit y)) := by
        intro y; rw [hb, testBit_and_bs_not hat, Nat.testBit_and]
      refine ⟨⟨?_, ?_, ?_, ?_⟩, ?_⟩
      · rw [hb]; exact and_bs_not_lt hat _
      · rw [ha]; exact and_bs_not_lt hact _
      · rw [hmap]; exact hws
      · rw [hmap]; exact hpw
      · intro p hp hdue
        rw [hmap] at hp
        rcases eq_or_disjoint_of_pairwise hpw hp hmem with h | h
        · obtain ⟨⟨y, hy, hy'⟩, _⟩ := hdue
          rw [h] at hy
          rw [hbit, hy] at hy'
          cases hh : b.m_warp_at_barrier.testBit y <;> rw [hh] at hy' <;> simp at hy'
        · refine hinv p hp (release_due_congr ?_ ?_ hdue)
          · intro y hy
            rw [hbit, (hother p hp h y hy).2]
            simp
          · intro y hy
            rw [ha]
            exact (hother p hp h y hy).1
    · refine ⟨⟨?_, ?_, ?_, ?_⟩, ?_⟩
      · rw [hb]; exact hat
      · rw [ha]; exact and_bs_not_lt hact _
      · rw [hmap]; exact hws
      · rw [hmap]; exact hpw
      · intro p hp hdue
        rw [hmap] at hp
        rcases eq_or_disjoint_of_pairwise hpw hp hmem with h | h
        · apply hne
          rw [and_eq_and_iff]
          intro y hy
          have := hdue.2 y (by rw [h]; exact hy)
          rw [hb, ha] at this
          exact this
        · refine hinv p hp (release_due_congr ?_ ?_ hdue)
          · intro y _; rw [hb]
          · intro y hy
            rw [ha]
            exact (hother p hp h y hy).1

theorem barrier_run_atomic (N : Nat) (calls : List BarrierCall) :
    ∀ b0 b : barrier_set_t, b0.wf N →
      (∀ p ∈ b0.m_cta_to_warps, ¬ b0.release_due p.2) →
      b0.admits_all N false calls = true → barrier_set_t.run N b0 calls = .ok b →
      b.wf N ∧ ∀ p ∈ b.m_cta_to_warps, ¬ b.release_due p.2 := by
  induction calls with
  | nil =>
    intro b0 b hwf h0 _ hrun
    simp only [barrier_set_t.run, Except.ok.injEq] at hrun
    subst hrun
    exact ⟨hwf, h0⟩
  | cons c cs ih =>
    intro b0 b hwf h0 hadm hrun
    rw [barrier_set_t.run] at hrun
    rw [barrier_set_t.admits_all, Bool.and_eq_true] at hadm
    cases hc : b0.call N c with
    | error e => rw [hc] at hrun; cases hrun
    | ok b1 =>
      rw [hc] at hrun
      have hadm2 := hadm.2
      rw [hc] at hadm2
      obtain ⟨hwf1, h1⟩ := barrier_call_atomic N b0 b1 c hwf h0 hadm.1 hc
      exact ih b1 b hwf1 h1 hadm2 hrun

theorem barrier_init_wf {N max_warps max_cta : Nat} {b0 : barrier_set_t}
    (hinit : barrier_set_t.init N max_warps max_cta = .ok b0) :
    b0.wf N ∧ b0.m_cta_to_warps = [] := by
  unfold barrier_set_t.init at hinit
  split at hinit
  · cases hinit
  · simp only [Except.ok.injEq] at hinit
    subst hinit
    exact ⟨⟨Nat.pos_pow_of_pos _ (by decide), Nat.pos_pow_of_pos _ (by decide),
      fun p hp => by simp at hp, List.Pairwise.nil⟩, rfl⟩

/-- C11: in every barrier-set state reached from construction by
`allocate_barrier`, `warp_reaches_barrier`, `warp_exit` and `deallocate_barrier`
calls that all return, the allocated warp sets being pairwise disjoint, no allocated
CTA has a non-empty set of at-barrier warps equal to its set of active warps: a CTA
in that situation is released before the call returns. -/
theorem barrier_release_atomic (N max_warps max_cta : Nat) (b0 b : barrier_set_t)
    (calls : List BarrierCall)
    (hinit : barrier_set_t.init N max_warps max_cta = .ok b0)
    (hadm : b0.admits_all N false calls = true)
    (hrun : barrier_set_t.run N b0 calls = .ok b) :
    ∀ c ws, (c, ws) ∈ b.m_cta_to_warps →
      ¬ ((∃ y, ws.testBit y = true ∧ b.m_warp_at_barrier.testBit y = true) ∧
         ∀ y, ws.testBit y = true →
          (b.m_warp_at_barrier.testBit y = true ↔ b.m_warp_active.testBit y = true)) := by
  obtain ⟨hwf, hnil⟩ := barrier_init_wf hinit
  intro c ws hmem
  exact (barrier_run_atomic N calls b0 b hwf
    (fun p hp => by rw [hnil] at hp; simp at hp) hadm hrun).2 (c, ws) hmem

/-- Witness for `barrier_release_atomic`: in CTA 0 warp 0 waits and warp 1 exits,
which releases warp 0; in CTA 1 warp 2 waits while warp 3 runs. -/
theorem barrier_release_atomic_witness :
    ∃ b, barrier_set_t.run 48 (barrier_set_t.mk 8 4 [] 0 0)
        [.allocate 0 3, .allocate 1 12, .reaches 0 0, .warp_exit 1, .reaches 1 2] = .ok b ∧
      b.m_warp_at_barrier = 4 ∧ b.m_warp_active = 13 ∧
      ¬ ((∃ y, (12 : Nat).testBit y = true ∧ b.m_warp_at_barrier.testBit y = true) ∧
         ∀ y, (12 : Nat).testBit y = true →
          (b.m_warp_at_barrier.testBit y = true ↔ b.m_warp_active.testBit y = true)) :=
  ⟨barrier_set_t.mk 8 4 [(0, 3), (1, 12)] 13 4, by decide, rfl, rfl,
    barrier_release_atomic 48 8 4 (barrier_set_t.mk 8 4 [] 0 0)
      (barrier_set_t.mk 8 4 [(0, 3), (1, 12)] 13 4)
      [.allocate 0 3, .allocate 1 12, .reaches 0 0, .warp_exit 1, .reaches 1 2]
      (by decide) (by decide) (by decide) 1 12 (by decide)⟩

/-! ## Barrier set: `warp_exit` -/

/-- C12 (as stated, refuted): first, a reachable state of one CTA with warps 0, 1, 2
in which warp 0 exited while waiting and warp 1 waits; when warp 2 exits, the only
still-active warp (warp 1) is at the barrier, yet warps 0 and 1 stay at the barrier.
Second, a state in which warp 0 belongs to CTA 0 and to CTA 1: its exit re-evaluates
CTA 0 only, and warp 2 of CTA 1 stays at the barrier. -/
theorem warp_exit_siblings_not_released :
    (∃ b1 b2, barrier_set_t.run 48 (barrier_set_t.mk 8 4 [] 0 0)
        [.allocate 0 7, .reaches 0 0, .warp_exit 0, .reaches 0 1] = .ok b1 ∧
      map_find b1.m_cta_to_warps 0 = some 7 ∧ (7 : Nat).testBit 2 = true ∧
      b1.warp_exit 48 2 = .ok b2 ∧
      (∀ y, (7 : Nat).testBit y = true → b2.m_warp_active.testBit y = true →
        b1.m_warp_at_barrier.testBit y = true) ∧
      b2.m_warp_at_barrier.testBit 1 = true) ∧
    (∃ b2, map_find (barrier_set_t.mk 8 4 [(0, 3), (1, 5)] 7 4).m_cta_to_warps 1 = some 5 ∧
      (5 : Nat).testBit 0 = true ∧
      (barrier_set_t.mk 8 4 [(0, 3), (1, 5)] 7 4).warp_exit 48 0 = .ok b2 ∧
      (∀ y, (5 : Nat).testBit y = true → b2.m_warp_active.testBit y = true →
        (4 : Nat).testBit y = true) ∧
      b2.m_warp_at_barrier.testBit 2 = true) := by
  constructor
  · refine ⟨barrier_set_t.mk 8 4 [(0, 7)] 6 3, barrier_set_t.mk 8 4 [(0, 7)] 2 3,
      by decide, by decide, by decide, by decide, ?_, by decide⟩
    intro y hy
    have hy3 : y < 3 := lt_of_testBit (by decide : (7 : Nat) < 2 ^ 3) hy
    interval_cases y <;> decide
  · refine ⟨barrier_set_t.mk 8 4 [(0, 3), (1, 5)] 6 4, by decide, by decide, by decide, ?_,
      by decide⟩
    intro y hy
    have hy3 : y < 3 := lt_of_testBit (by decide : (5 : Nat) < 2 ^ 3) hy
    interval_cases y <;> revert hy <;> decide

/-- C12 (amended): let `c`, with warp set `ws`, be the first allocated CTA that
contains warp `x` (the only one when CTAs share no warp), in a state of `N`-bit
sets where every warp of `c` at the barrier is active and `x` is not at the
barrier.  Then `warp_exit(x)` returns, clears the active bit of `x` and no other
active bit, and if every still-active warp of `c` is at the barrier, then on return
no warp of `c` is at the barrier.  Warps outside `c` keep their at-barrier bit. -/
theorem warp_exit_contract (N : Nat) (b : barrier_set_t) (x c ws : Nat)
    (hfind : b.m_cta_to_warps.find? (fun p => p.2.testBit x) = some (c, ws))
    (hws : ws < 2 ^ N) (hat : b.m_warp_at_barrier < 2 ^ N) (hact : b.m_warp_active < 2 ^ N)
    (hsub : ∀ y, ws.testBit y = true → b.m_warp_at_barrier.testBit y = true →
      b.m_warp_active.testBit y = true)
    (hxat : b.m_warp_at_barrier.testBit x = false) :
    ∃ b', b.warp_exit N x = .ok b' ∧
      b'.m_warp_active.testBit x = false ∧
      (∀ y, y ≠ x → b'.m_warp_active.testBit y = b.m_warp_active.testBit y) ∧
      b'.m_cta_to_warps = b.m_cta_to_warps ∧
      ((∀ y, ws.testBit y = true → b'.m_warp_active.testBit y = true →
          b.m_warp_at_barrier.testBit y = true) →
        ∀ y, ws.testBit y = true → b'.m_warp_at_barrier.testBit y = false) ∧
      (∀ y, ws.testBit y = false →
        b'.m_warp_at_barrier.testBit y = b.m_warp_at_barrier.testBit y) := by
  have hx : ws.testBit x = true := by simpa using List.find?_some hfind
  have hxN : x < N := lt_of_testBit hws hx
  have hactx : (bs_reset N b.m_warp_active x).testBit x = false := by
    rw [testBit_bs_reset hact]; simp
  have hacty : ∀ y, y ≠ x →
      (bs_reset N b.m_warp_active x).testBit y = b.m_warp_active.testBit y := by
    intro y hy
    rw [testBit_bs_reset hact]
    simp [Ne.symm hy]
  unfold barrier_set_t.warp_exit
  rw [if_neg (by omega)]
  simp only [hfind]
  by_cases heq : ws &&& b.m_warp_at_barrier = ws &&& bs_reset N b.m_warp_active x
  · rw [if_pos heq]
    refine ⟨_, rfl, hactx, hacty, rfl, ?_, ?_⟩
    · intro _ y hy
      simp only
      rw [testBit_and_bs_not hat, Nat.testBit_and, hy]
      cases b.m_warp_at_barrier.testBit y <;> rfl
    · intro y hy
      simp only
      rw [testBit_and_bs_not hat, Nat.testBit_and, hy]
      simp
  · rw [if_neg heq]
    refine ⟨_, rfl, hactx, hacty, rfl, ?_, fun y _ => rfl⟩
    intro hall
    exfalso
    apply heq
    rw [and_eq_and_iff]
    intro y hy
    constructor
    · intro hyat
      have hyx : y ≠ x := by
        intro h; rw [h, hxat] at hyat; exact Bool.noConfusion hyat
      rw [hacty y hyx]
      exact hsub y hy hyat
    · intro hyact
      exact hall y hy hyact

/-- Witness for `warp_exit_contract`: CTA 0 has warps 0, 1, 2, all active, warps 0
and 1 wait; warp 2 exits and both are released. -/
theorem warp_exit_contract_witness :
    ∃ b', (barrier_set_t.mk 8 4 [(0, 7)] 7 3).warp_exit 48 2 = .ok b' ∧
      b'.m_warp_active.testBit 2 = false ∧
      (∀ y, (7 : Nat).testBit y = true → b'.m_warp_at_barrier.testBit y = false) := by
  obtain ⟨b', h1, h2, h3, _, h5, _⟩ :=
    warp_exit_contract 48 (barrier_set_t.mk 8 4 [(0, 7)] 7 3) 2 0 7
      (by decide) (by decide) (by decide) (by decide)
      (by
        intro y hy _
        have hy3 : y < 3 := lt_of_testBit (by decide : (7 : Nat) < 2 ^ 3) hy
        interval_cases y <;> decide)
      (by decide)
  refine ⟨b', h1, h2, h5 ?_⟩
  intro y hy hact
  have hy3 : y < 3 := lt_of_testBit (by decide : (7 : Nat) < 2 ^ 3) hy
  have hne : y ≠ 2 := by
    intro h; rw [h, h2] at hact; exact Bool.noConfusion hact
  have hlt : y < 2 := by omega
  interval_cases y <;> decide

/-! ## Barrier set: `deallocate_barrier` and unknown CTA ids -/

theorem map_find_erase_self (k : Nat) (m : List (Nat × Nat)) :
    map_find (map_erase k m) k = none := by
  unfold map_find map_erase
  rw [Option.map_eq_none', List.find?_eq_none]
  intro p hp
  have := (List.mem_filter.mp hp).2
  simpa using this

theorem map_find_erase_ne {k k' : Nat} (h : k' ≠ k) (m : List (Nat × Nat)) :
    map_find (map_erase k m) k' = map_find m k' := by
  unfold map_find map_erase
  induction m with
  | nil => rfl
  | cons p rest ih =>
    by_cases hp : p.1 = k
    · have hne : ¬ p.1 = k' := by rw [hp]; exact Ne.symm h
      rw [List.filter_cons_of_neg (by simp [hp]),
        List.find?_cons_of_neg _ (by simp [hne]), ih]
    · rw [List.filter_cons_of_pos (by simp [hp])]
      by_cases hk : p.1 = k'
      · rw [List.find?_cons_of_pos _ (by simp [hk]), List.find?_cons_of_pos _ (by simp [hk])]
      · rw [List.find?_cons_of_neg _ (by simp [hk]), List.find?_cons_of_neg _ (by simp [hk]),
          ih]

theorem length_map_assign_le (k v : Nat) (m : List (Nat × Nat)) :
    (map_assign k v m).length ≤ m.length + 1 := by
  induction m with
  | nil => simp [map_assign]
  | cons p rest ih =>
    rw [map_assign]
    split
    · simp
    · split
      · simp
      · simp only [List.length_cons]
        omega

theorem length_map_erase_lt {k v : Nat} {m : List (Nat × Nat)} (h : (k, v) ∈ m) :
    (map_erase k m).length < m.length := by
  unfold map_erase
  apply List.length_filter_lt_length_iff_exists.mpr
  exact ⟨(k, v), h, by simp⟩

/-- C13: for a CTA `c` allocated with warp set `ws` (in a state of `N`-bit sets),
`deallocate_barrier(c)` aborts exactly when some warp of `c` is still active or
still at a barrier.  Otherwise it returns; `c` has no record afterwards, the
records of other CTAs and both bitsets are unchanged, and `c` can be allocated
again (whenever its id and the number of records were within `m_max_cta_per_core`). -/
theorem deallocate_barrier_contract (N : Nat) (b : barrier_set_t) (c ws : Nat)
    (hfind : map_find b.m_cta_to_warps c = some ws)
    (hat : b.m_warp_at_barrier < 2 ^ N) (hact : b.m_warp_active < 2 ^ N) :
    (b.deallocate_barrier N c = .error .abort ↔
      ∃ y, ws.testBit y = true ∧
        (b.m_warp_active.testBit y = true ∨ b.m_warp_at_barrier.testBit y = true)) ∧
    (b.deallocate_barrier N c ≠ .error .abort →
      ∃ b', b.deallocate_barrier N c = .ok b' ∧
        map_find b'.m_cta_to_warps c = none ∧
        (∀ c', c' ≠ c → map_find b'.m_cta_to_warps c' = map_find b.m_cta_to_warps c') ∧
        b'.m_warp_active = b.m_warp_active ∧
        b'.m_warp_at_barrier = b.m_warp_at_barrier ∧
        (∀ ws', c < b.m_max_cta_per_core →
          b.m_cta_to_warps.length ≤ b.m_max_cta_per_core →
          ∃ b'', b'.allocate_barrier N c ws' = .ok b'')) := by
  have hmem := map_find_some_mem hfind
  by_cases h1 : bs_any (ws &&& b.m_warp_at_barrier) = true
  · have hab : b.deallocate_barrier N c = .error .abort := by
      unfold barrier_set_t.deallocate_barrier
      rw [hfind]
      simp only
      rw [if_pos h1]
    refine ⟨⟨fun _ => ?_, fun _ => hab⟩, fun h => absurd hab h⟩
    obtain ⟨y, hy, hy'⟩ := (bs_any_and_iff _ _).mp h1
    exact ⟨y, hy, Or.inr hy'⟩
  · by_cases h2 : bs_any (ws &&& b.m_warp_active) = true
    · have hab : b.deallocate_barrier N c = .error .abort := by
        unfold barrier_set_t.deallocate_barrier
        rw [hfind]
        simp only
        rw [if_neg h1, if_pos h2]
      refine ⟨⟨fun _ => ?_, fun _ => hab⟩, fun h => absurd hab h⟩
      obtain ⟨y, hy, hy'⟩ := (bs_any_and_iff _ _).mp h2
      exact ⟨y, hy, Or.inl hy'⟩
    · have hok : b.deallocate_barrier N c = .ok
          { b with
            m_warp_active := b.m_warp_active &&& bs_not N ws
            m_warp_at_barrier := b.m_warp_at_barrier &&& bs_not N ws
            m_cta_to_warps := map_erase c b.m_cta_to_warps } := by
        unfold barrier_set_t.deallocate_barrier
        rw [hfind]
        simp only
        rw [if_neg h1, if_neg h2]
      have hz1 : ∀ y, ws.testBit y = true → b.m_warp_at_barrier.testBit y = false := by
        intro y hy
        by_contra hc
        exact h1 ((bs_any_and_iff _ _).mpr ⟨y, hy, by simpa using hc⟩)
      have hz2 : ∀ y, ws.testBit y = true → b.m_warp_active.testBit y = false := by
        intro y hy
        by_contra hc
        exact h2 ((bs_any_and_iff _ _).mpr ⟨y, hy, by simpa using hc⟩)
      refine ⟨⟨fun h => ?_, ?_⟩, fun _ => ⟨_, hok, ?_, ?_, ?_, ?_, ?_⟩⟩
      · rw [hok] at h; cases h
      · rintro ⟨y, hy, h | h⟩
        · rw [hz2 y hy] at h; exact Bool.noConfusion h
        · rw [hz1 y hy] at h; exact Bool.noConfusion h
      · exact map_find_erase_self c _
      · intro c' hc'
        exact map_find_erase_ne hc' _
      · apply Nat.eq_of_testBit_eq
        intro y
        simp only
        rw [testBit_and_bs_not hact]
        cases hy : ws.testBit y with
        | false => simp
        | true => rw [hz2 y hy]; rfl
      · apply Nat.eq_of_testBit_eq
        intro y
        simp only
        rw [testBit_and_bs_not hat]
        cases hy : ws.testBit y with
        | false => simp
        | true => rw [hz1 y hy]; rfl
      · intro ws' hc hlen
        unfold barrier_set_t.allocate_barrier
        simp only
        rw [if_neg (by simpa using hc), map_find_erase_self]
        have hl : (map_assign c ws' (map_erase c b.m_cta_to_warps)).length ≤
            b.m_max_cta_per_core := by
          have h3 := length_map_assign_le c ws' (map_erase c b.m_cta_to_warps)
          have h4 := length_map_erase_lt hmem
          omega
        simp only [Option.isSome_none, Bool.false_eq_true, if_false]
        rw [if_neg (by simpa using hl)]
        exact ⟨_, rfl⟩

/-- Witness for `deallocate_barrier_contract`: CTA 0 (warps 0, 1) has retired while
CTA 1 (warps 2, 3) runs with warp 2 at the barrier. -/
theorem deallocate_barrier_contract_witness :
    (∃ b', (barrier_set_t.mk 8 4 [(0, 3), (1, 12)] 12 4).deallocate_barrier 48 0 = .ok b' ∧
      map_find b'.m_cta_to_warps 0 = none ∧ b'.m_warp_active = 12 ∧
      b'.m_warp_at_barrier = 4) ∧
    (barrier_set_t.mk 8 4 [(0, 3), (1, 12)] 12 4).deallocate_barrier 48 1 = .error .abort := by
  constructor
  · obtain ⟨b', h1, h2, _, h4, h5, _⟩ :=
      (deallocate_barrier_contract 48 (barrier_set_t.mk 8 4 [(0, 3), (1, 12)] 12 4) 0 3
        (by decide) (by decide) (by decide)).2 (by decide)
    exact ⟨b', h1, h2, h4, h5⟩
  · exact (deallocate_barrier_contract 48 (barrier_set_t.mk 8 4 [(0, 3), (1, 12)] 12 4) 1 12
      (by decide) (by decide) (by decide)).1.mpr ⟨2, by decide, Or.inl (by decide)⟩

/-- C14 (as stated, refuted): CTA 0 is not allocated in the freshly constructed
barrier set, and `deallocate_barrier(0)` returns the state unchanged. -/
theorem deallocate_unknown_cta_returns :
    map_find (barrier_set_t.mk 8 4 [] 0 0).m_cta_to_warps 0 = none ∧
    barrier_set_t.init 48 8 4 = .ok (barrier_set_t.mk 8 4 [] 0 0) ∧
    (barrier_set_t.mk 8 4 [] 0 0).deallocate_barrier 48 0 = .ok (barrier_set_t.mk 8 4 [] 0 0) := by
  decide

/-- C14 (amended): for a CTA id `c` that is not allocated, `warp_reaches_barrier(c, x)`
aborts, while `deallocate_barrier(c)` returns and leaves the barrier set unchanged. -/
theorem unknown_cta_contract (N : Nat) (b : barrier_set_t) (c x : Nat)
    (hfind : map_find b.m_cta_to_warps c = none) :
    b.warp_reaches_barrier N c x = .error .abort ∧ b.deallocate_barrier N c = .ok b := by
  constructor
  · unfold barrier_set_t.warp_reaches_barrier
    rw [hfind]
  · unfold barrier_set_t.deallocate_barrier
    rw [hfind]

/-- Witness for `unknown_cta_contract`: only CTA 0 is allocated and CTA 2 is named. -/
theorem unknown_cta_contract_witness :
    (barrier_set_t.mk 8 4 [(0, 3)] 3 0).warp_reaches_barrier 48 2 0 = .error .abort ∧
    (barrier_set_t.mk 8 4 [(0, 3)] 3 0).deallocate_barrier 48 2 =
      .ok (barrier_set_t.mk 8 4 [(0, 3)] 3 0) :=
  unknown_cta_contract 48 (barrier_set_t.mk 8 4 [(0, 3)] 3 0) 2 0 (by decide)

/-! ## Register banks -/

theorem bank_remainder (k : Int) (nb : Nat) (hk : 0 ≤ k) (hk' : k < 2 ^ 31) :
    (k % 2 ^ 32).toNat % nb < 2 ^ 31 ∧ (((k % 2 ^ 32).toNat % nb : Nat) : Int) = k % (nb : Int) := by
  have h1 : k % 2 ^ 32 = k := Int.emod_eq_of_lt hk (by omega)
  rw [h1]
  obtain ⟨n, rfl⟩ := Int.eq_ofNat_of_zero_le hk
  simp only [Int.toNat_ofNat]
  constructor
  · have : n % nb ≤ n := Nat.mod_le _ _
    have hn : n < 2 ^ 31 := by exact_mod_cast hk'
    omega
  · exact Int.natCast_mod n nb

/-- C17: for register number `r ≥ 0` and warp id `w ≥ 0` with `r + w < 2^31` and
`num_banks > 0`, `register_bank` returns `(r + w) mod num_banks` when
`bank_warp_shift` is non-zero and `r mod num_banks` when it is zero, and the bank
returned lies in `0 .. num_banks - 1`.  The function reads and writes nothing but
its four arguments. -/
theorem register_bank_contract (r w : Int) (num_banks bank_warp_shift : Nat)
    (hr : 0 ≤ r) (hw : 0 ≤ w) (hsum : r + w < 2 ^ 31) (hnb : 0 < num_banks) :
    ∃ bank, register_bank r w num_banks bank_warp_shift = .ok bank ∧
      (bank_warp_shift ≠ 0 → bank = (r + w) % (num_banks : Int)) ∧
      (bank_warp_shift = 0 → bank = r % (num_banks : Int)) ∧
      0 ≤ bank ∧ bank < (num_banks : Int) := by
  have hnb' : (0 : Int) < (num_banks : Int) := by exact_mod_cast hnb
  by_cases hs : bank_warp_shift = 0
  · obtain ⟨h1, h2⟩ := bank_remainder r num_banks hr (by omega)
    have hval : register_bank r w num_banks bank_warp_shift = .ok (r % (num_banks : Int)) := by
      unfold register_bank
      simp only
      rw [if_neg (not_not.mpr hs)]
      simp only
      rw [if_neg (by omega), if_pos h1, h2]
    exact ⟨_, hval, fun h => absurd hs h, fun _ => rfl,
      Int.emod_nonneg _ (by omega), Int.emod_lt_of_pos _ hnb'⟩
  · obtain ⟨h1, h2⟩ := bank_remainder (r + w) num_banks (by omega) hsum
    have hval : register_bank r w num_banks bank_warp_shift =
        .ok ((r + w) % (num_banks : Int)) := by
      unfold register_bank
      simp only
      rw [if_pos hs, if_pos ⟨by omega, hsum⟩]
      simp only
      rw [if_neg (by omega), if_pos h1, h2]
    exact ⟨_, hval, fun _ => rfl, fun h => absurd h hs,
      Int.emod_nonneg _ (by omega), Int.emod_lt_of_pos _ hnb'⟩

/-- Witness for `register_bank_contract`: register 13 of warp 6 with 8 banks. -/
theorem register_bank_contract_witness :
    ∃ bank, register_bank 13 6 8 5 = .ok bank ∧ bank = 3 ∧ 0 ≤ bank ∧ bank < 8 := by
  obtain ⟨bank, h1, h2, _, h4, h5⟩ :=
    register_bank_contract 13 6 8 5 (by decide) (by decide) (by decide) (by decide)
  exact ⟨bank, h1, by rw [h2 (by decide)]; decide, h4, h5⟩

/-! ## Loose round robin -/

theorem order_lrr_loop_spec {T : Type} (input : List T) (hpos : 0 < input.length) :
    ∀ (count iter : Nat) (res : List T), iter ≤ input.length →
      ∃ out, order_lrr_loop input count iter res = .ok out ∧
        out.length = res.length + count ∧
        (∀ i, i < res.length → out[i]? = res[i]?) ∧
        ∀ i, i < count → out[res.length + i]? = input[(iter + i) % input.length]? := by
  intro count
  induction count with
  | zero =>
    intro iter res _
    exact ⟨res, rfl, rfl, fun _ _ => rfl, fun i hi => absurd hi (Nat.not_lt_zero _)⟩
  | succ count ih =>
    intro iter res hiter
    have hmod : (if iter = input.length then 0 else iter) = iter % input.length := by
      by_cases h : iter = input.length
      · rw [if_pos h, h, Nat.mod_self]
      · rw [if_neg h, Nat.mod_eq_of_lt (by omega)]
    have hlt : iter % input.length < input.length := Nat.mod_lt _ hpos
    rw [order_lrr_loop]
    simp only [hmod]
    rw [List.getElem?_eq_getElem hlt]
    simp only
    obtain ⟨out, hout, hlen, hpre, hel⟩ :=
      ih (iter % input.length + 1) (res ++ [input[iter % input.length]]) (by omega)
    refine ⟨out, hout, ?_, ?_, ?_⟩
    · rw [hlen]; simp; omega
    · intro i hi
      rw [hpre i (by simp; omega), List.getElem?_append_left hi]
    · intro i hi
      cases i with
      | zero =>
        rw [Nat.add_zero, hpre res.length (by simp), List.getElem?_concat_length,
          Nat.add_zero, List.getElem?_eq_getElem hlt]
      | succ j =>
        have := hel j (by omega)
        simp only [List.length_append, List.length_singleton] at this
        rw [show res.length + (j + 1) = res.length + 1 + j by omega, this]
        congr 1
        rw [show iter + (j + 1) = iter + (1 + j) by omega, Nat.add_mod iter,
          show iter % input.length + 1 + j = iter % input.length + (1 + j) by omega,
          Nat.add_mod (iter % input.length), Nat.mod_mod]

/-- C20: for a non-empty `input`, a position `last` in it or the end position, and
`n ≤ |input|`, `order_lrr` returns the first `n` elements of the rotation of `input`
that starts just after `last` (at the first element when `last` is the final element
or the end position).  For `n = |input|` the result is a permutation of `input`
whose last element is the element at `last`. -/
theorem order_lrr_contract {T : Type} (input : List T) (last n : Nat) (hne : input ≠ [])
    (hlast : last ≤ input.length) (hn : n ≤ input.length) :
    ∃ result, order_lrr input last n = .ok result ∧
      result = (input.rotate
        (if last = input.length then 0 else (last + 1) % input.length)).take n ∧
      (n = input.length →
        result.Perm input ∧ (last < input.length → result.getLast? = input[last]?)) := by
  have hpos : 0 < input.length := List.length_pos.mpr hne
  have hiter : (if last = input.length then 0 else last + 1) ≤ input.length := by
    split <;> omega
  obtain ⟨out, hout, hlen, _, hel⟩ :=
    order_lrr_loop_spec input hpos n (if last = input.length then 0 else last + 1) [] hiter
  have hstart : (if last = input.length then 0 else last + 1) % input.length =
      (if last = input.length then 0 else (last + 1) % input.length) := by
    split
    · exact Nat.zero_mod _
    · rfl
  have hrot : out = (input.rotate
      (if last = input.length then 0 else (last + 1) % input.length)).take n := by
    apply List.ext_getElem?
    intro i
    by_cases hi : i < n
    · have h1 := hel i hi
      simp only [List.length_nil, Nat.zero_add] at h1
      rw [h1, List.getElem?_take_of_lt hi, List.getElem?_rotate (by omega), ← hstart,
        Nat.add_comm i, Nat.mod_add_mod]
    · rw [List.getElem?_eq_none (by simp at hlen; omega),
        List.getElem?_eq_none (by simp [List.length_take]; omega)]
  refine ⟨out, ?_, hrot, ?_⟩
  · unfold order_lrr
    rw [if_neg (by omega)]
    exact hout
  · intro hnl
    have hfull : out = input.rotate
        (if last = input.length then 0 else (last + 1) % input.length) := by
      rw [hrot, List.take_of_length_le (by rw [List.length_rotate]; omega)]
    refine ⟨by rw [hfull]; exact List.rotate_perm _ _, ?_⟩
    intro hl
    rw [hfull, List.getLast?_eq_getElem?, List.length_rotate,
      List.getElem?_rotate (by omega), if_neg (by omega)]
    congr 1
    rw [Nat.add_mod_mod, show input.length - 1 + (last + 1) = last + input.length by omega,
      Nat.add_mod_right, Nat.mod_eq_of_lt hl]

/-- Witness for `order_lrr_contract`: four warps, the one at position 1 issued last. -/
theorem order_lrr_contract_witness :
    ∃ result, order_lrr [10, 11, 12, 13] 1 4 = .ok result ∧
      result = [12, 13, 10, 11] ∧ result.Perm [10, 11, 12, 13] := by
  obtain ⟨result, h1, h2, h3⟩ :=
    order_lrr_contract [10, 11, 12, 13] 1 4 (by decide) (by decide) (by decide)
  exact ⟨result, h1, by rw [h2]; decide, (h3 rfl).1⟩

/-! ## Loops that may fault -/

theorem foldlM_range_succ {σ : Type} (f : σ → Nat → Except Fault σ) (s : σ) (n : Nat) :
    (List.range (n + 1)).foldlM f s =
      match (List.range n).foldlM f s with
      | .ok s' => f s' n
      | .error e => .error e := by
  rw [List.range_succ, List.foldlM_append]
  cases h : (List.range n).foldlM f s with
  | error e => rfl
  | ok s' =>
    show List.foldlM f s' [n] = f s' n
    rw [List.foldlM_cons]
    cases f s' n <;> rfl

theorem foldlM_invariant {σ α : Type} (f : σ → α → Except Fault σ) (P : σ → Prop)
    (l : List α) (hstep : ∀ s x s', x ∈ l → P s → f s x = .ok s' → P s') :
    ∀ s s', P s → l.foldlM f s = .ok s' → P s' := by
  induction l with
  | nil =>
    intro s s' hs h
    have : s = s' := by simpa [pure, Except.pure] using h
    exact this ▸ hs
  | cons x l ih =>
    intro s s' hs h
    rw [List.foldlM_cons] at h
    cases hx : f s x with
    | error e => rw [hx] at h; cases h
    | ok s1 =>
      rw [hx] at h
      exact ih (fun s y s' hy => hstep s y s' (List.mem_cons_of_mem _ hy)) s1 s'
        (hstep s x s1 (List.mem_cons_self _ _) hs hx) h

theorem foldlM_range_invariant {σ : Type} (f : σ → Nat → Except Fault σ)
    (P : Nat → σ → Prop) (s0 : σ) (h0 : P 0 s0) :
    ∀ n, (∀ k s s', k < n → P k s → f s k = .ok s' → P (k + 1) s') →
      ∀ s', (List.range n).foldlM f s0 = .ok s' → P n s' := by
  intro n
  induction n with
  | zero =>
    intro _ s' h
    have : s0 = s' := by simpa [pure, Except.pure] using h
    exact this ▸ h0
  | succ n ih =>
    intro hstep s' h
    rw [foldlM_range_succ] at h
    cases hn : (List.range n).foldlM f s0 with
    | error e => rw [hn] at h; cases h
    | ok s1 =>
      rw [hn] at h
      exact hstep n s1 s' (Nat.lt_succ_self n)
        (ih (fun k s s' hk => hstep k s s' (Nat.lt_succ_of_lt hk)) s1 hn) h

/-! ## Bank arbiter -/

theorem clear_matching_apply (n : Nat) (arr : Nat → Int) (i : Nat) :
    clear_matching n arr i = if i < n then -1 else arr i := by
  unfold clear_matching
  induction n with
  | zero => simp
  | succ n ih =>
    rw [List.range_succ, List.foldl_append]
    simp only [List.foldl_cons, List.foldl_nil]
    by_cases h : i = n
    · subst h
      simp
    · rw [Function.update_noteq h, ih]
      by_cases h2 : i < n
      · simp [h2, Nat.lt_succ_of_lt h2]
      · have : ¬ i < n + 1 := by omega
        simp [h2, this]

theorem zero_row_apply (n : Nat) (row : Nat → Int) (j : Nat) :
    (List.range n).foldl (fun row j => Function.update row j 0) row j =
      if j < n then 0 else row j := by
  induction n with
  | zero => simp
  | succ n ih =>
    rw [List.range_succ, List.foldl_append]
    simp only [List.foldl_cons, List.foldl_nil]
    by_cases h : j = n
    · subst h
      simp
    · rw [Function.update_noteq h, ih]
      by_cases h2 : j < n
      · simp [h2, Nat.lt_succ_of_lt h2]
      · have : ¬ j < n + 1 := by omega
        simp [h2, this]

theorem request_step_ok (a : arbiter_t) (st st' : (Nat → Int) × (Nat → Nat → Int)) (k : Nat)
    (h : request_step a st k = .ok st') :
    (∀ i, st'.1 i = if i = k ∧ (a.m_allocated_bank k).is_write = true then 0 else st.1 i) ∧
    (∀ i, i ≠ k → st'.2 i = st.2 i) ∧
    (∀ j, j < a.m_num_collectors →
      (st'.2 k j ≠ 0 ↔ ∃ op rest, a.m_queue k = op :: rest ∧ op.oc_id = (j : Int))) := by
  unfold request_step at h
  simp only at h
  have hin : ∀ (f : Nat → Int) i,
      (if (a.m_allocated_bank k).is_write = true then Function.update f k 0 else f) i =
        if i = k ∧ (a.m_allocated_bank k).is_write = true then 0 else f i := by
    intro f i
    by_cases hw : (a.m_allocated_bank k).is_write = true
    · rw [if_pos hw]
      by_cases hik : i = k
      · subst hik; simp [hw]
      · rw [Function.update_noteq hik]; simp [hik]
    · rw [if_neg hw]; simp [hw]
  cases hq : a.m_queue k with
  | nil =>
    rw [hq] at h
    simp only [Except.ok.injEq] at h
    subst h
    refine ⟨hin _, fun i hi => Function.update_noteq hi _ _, ?_⟩
    intro j hj
    simp only [Function.update_same, zero_row_apply, hj, if_true, ne_eq, not_true_eq_false,
      false_iff]
    rintro ⟨op, rest, hc, _⟩
    cases hc
  | cons op rest =>
    rw [hq] at h
    simp only at h
    by_cases h1 : op.oc_id < (a.m_num_collectors : Int)
    · by_cases h2 : op.oc_id < 0
      · rw [if_neg (not_not.mpr h1), if_pos h2] at h
        cases h
      · rw [if_neg (not_not.mpr h1), if_neg h2] at h
        simp only [Except.ok.injEq] at h
        subst h
        refine ⟨hin _, fun i hi => Function.update_noteq hi _ _, ?_⟩
        intro j hj
        simp only [Function.update_same]
        have hnn : 0 ≤ op.oc_id := not_lt.mp h2
        by_cases hjo : j = op.oc_id.toNat
        · subst hjo
          simp only [Function.update_same, ne_eq, one_ne_zero, not_false_eq_true, true_iff]
          exact ⟨op, rest, rfl, (Int.toNat_of_nonneg hnn).symm⟩
        · rw [Function.update_noteq hjo, zero_row_apply, if_pos hj]
          simp only [ne_eq, not_true_eq_false, false_iff]
          rintro ⟨op', rest', hc, ho⟩
          simp only [List.cons.injEq] at hc
          apply hjo
          rw [hc.1, ho]
          simp
    · rw [if_pos h1] at h
      cases h

theorem requests_spec (a : arbiter_t) (inm0 : Nat → Int) (req0 : Nat → Nat → Int)
    (st' : (Nat → Int) × (Nat → Nat → Int))
    (h : (List.range a.m_num_banks).foldlM (request_step a) (inm0, req0) = .ok st') :
    (∀ i, st'.1 i =
      if i < a.m_num_banks ∧ (a.m_allocated_bank i).is_write = true then 0 else inm0 i) ∧
    (∀ i, i < a.m_num_banks → ∀ j, j < a.m_num_collectors →
      (st'.2 i j ≠ 0 ↔ ∃ op rest, a.m_queue i = op :: rest ∧ op.oc_id = (j : Int))) := by
  refine foldlM_range_invariant (request_step a)
    (fun k st =>
      (∀ i, st.1 i = if i < k ∧ (a.m_allocated_bank i).is_write = true then 0 else inm0 i) ∧
      (∀ i, i < k → ∀ j, j < a.m_num_collectors →
        (st.2 i j ≠ 0 ↔ ∃ op rest, a.m_queue i = op :: rest ∧ op.oc_id = (j : Int))))
    (inm0, req0) ⟨fun i => by simp, fun i hi => absurd hi (Nat.not_lt_zero _)⟩
    a.m_num_banks ?_ st' h
  intro k s s' _ hP hs
  obtain ⟨h1, h2, h3⟩ := request_step_ok a s s' k hs
  constructor
  · intro i
    rw [h1, hP.1]
    by_cases hik : i = k
    · subst hik
      by_cases hw : (a.m_allocated_bank i).is_write = true
      · simp [hw]
      · simp [hw]
    · by_cases hw : (a.m_allocated_bank i).is_write = true
      · have : (i < k + 1) ↔ i < k := by omega
        simp [hik, hw, this]
      · simp [hik, hw]
  · intro i hi j hj
    by_cases hik : i = k
    · subst hik
      exact h3 j hj
    · rw [h2 i hik]
      exact hP.2 i (by omega) j hj

theorem diagonal_step_ok (a : arbiter_t) (sq : Nat) (req : Nat → Nat → Int)
    (st st' : (Nat → Int) × (Nat → Int) × Nat) (input : Nat)
    (h : diagonal_step a.m_num_banks a.m_num_collectors sq req st input = .ok st')
    (hinv : matching_ok a req st.1 st.2.1) : matching_ok a req st'.1 st'.2.1 := by
  obtain ⟨inm, outm, out⟩ := st
  unfold diagonal_step at h
  simp only at h
  by_cases h1 : input < a.m_num_banks
  · by_cases h2 : out < a.m_num_collectors
    · rw [if_neg (not_not.mpr h1), if_neg (not_not.mpr h2)] at h
      simp only [Except.ok.injEq] at h
      subst h
      by_cases hg : (decide (out < a.m_num_collectors) && decide (inm input = -1) &&
          decide (outm out = -1) && decide (req input out ≠ 0)) = true
      · simp only [hg, if_true]
        simp only [Bool.and_eq_true, decide_eq_true_eq] at hg
        obtain ⟨⟨⟨_, hi⟩, ho⟩, hr⟩ := hg
        intro i hiN hne hw
        by_cases hii : i = input
        · subst hii
          exact ⟨out, h2, by simp, by simp, hr⟩
        · rw [Function.update_noteq hii] at hne
          obtain ⟨o, ho1, ho2, ho3, ho4⟩ := hinv i hiN hne hw
          simp only at ho2 ho3
          have hoo : o ≠ out := by
            intro hc
            rw [hc, ho] at ho3
            omega
          exact ⟨o, ho1, by rw [Function.update_noteq hii]; exact ho2,
            by rw [Function.update_noteq hoo]; exact ho3, ho4⟩
      · simp only [hg, if_false]
        exact hinv
    · rw [if_neg (not_not.mpr h1), if_pos h2] at h
      cases h
  · rw [if_pos h1] at h
    cases h

theorem wavefront_ok (a : arbiter_t) (sq pri : Nat) (req : Nat → Nat → Int)
    (st st' : (Nat → Int) × (Nat → Int))
    (h : wavefront a.m_num_banks a.m_num_collectors sq pri req st = .ok st')
    (hinv : matching_ok a req st.1 st.2) : matching_ok a req st'.1 st'.2 := by
  unfold wavefront at h
  refine foldlM_invariant _ (fun s => matching_ok a req s.1 s.2) (List.range sq) ?_ st st'
    hinv h
  intro s p s' _ hs hstep
  simp only at hstep
  cases hd : (List.range a.m_num_banks).foldlM
      (diagonal_step a.m_num_banks a.m_num_collectors sq req) (s.1, s.2, (pri + p) % sq) with
  | error e => rw [hd] at hstep; cases hstep
  | ok t =>
    rw [hd] at hstep
    simp only [Except.ok.injEq] at hstep
    subst hstep
    exact foldlM_invariant _ (fun t => matching_ok a req t.1 t.2.1) (List.range a.m_num_banks)
      (fun t x t' _ ht hx => diagonal_step_ok a sq req t t' x hx ht)
      (s.1, s.2, (pri + p) % sq) t hs hd

theorem collect_step_ok (a : arbiter_t) (inm : Nat → Int)
    (st st' : List op_t × (Nat → List op_t)) (k : Nat)
    (h : collect_step a inm st k = .ok st') :
    (read_granted a inm k = false ∧ st' = st) ∨
    (read_granted a inm k = true ∧
      ∃ op rest, st.2 k = op :: rest ∧ st' = (st.1 ++ [op], Function.update st.2 k rest)) := by
  unfold collect_step at h
  unfold read_granted
  by_cases h1 : inm k ≠ -1
  · by_cases h2 : (a.m_allocated_bank k).is_write = true
    · rw [if_pos h1, if_neg (not_not.mpr h2)] at h
      simp only [Except.ok.injEq] at h
      left
      exact ⟨by simp [h2], h.symm⟩
    · rw [if_pos h1, if_pos h2] at h
      cases hq : st.2 k with
      | nil => rw [hq] at h; cases h
      | cons op rest =>
        rw [hq] at h
        simp only [Except.ok.injEq] at h
        right
        exact ⟨by simp [h1, h2], op, rest, rfl, h.symm⟩
  · rw [if_neg h1] at h
    simp only [Except.ok.injEq] at h
    left
    exact ⟨by simp [not_not.mp h1], h.symm⟩

theorem collect_spec (a : arbiter_t) (inm : Nat → Int) (q0 : Nat → List op_t)
    (st' : List op_t × (Nat → List op_t)) (n : Nat)
    (h : (List.range n).foldlM (collect_step a inm) ([], q0) = .ok st') :
    List.Forall₂ (fun b op => (q0 b).head? = some op)
      ((List.range n).filter (read_granted a inm)) st'.1 ∧
    (∀ i, i < n → read_granted a inm i = true → ∃ op, q0 i = op :: st'.2 i) ∧
    (∀ i, ¬ (i < n ∧ read_granted a inm i = true) → st'.2 i = q0 i) := by
  refine foldlM_range_invariant (collect_step a inm)
    (fun k st =>
      List.Forall₂ (fun b op => (q0 b).head? = some op)
        ((List.range k).filter (read_granted a inm)) st.1 ∧
      (∀ i, i < k → read_granted a inm i = true → ∃ op, q0 i = op :: st.2 i) ∧
      (∀ i, ¬ (i < k ∧ read_granted a inm i = true) → st.2 i = q0 i))
    ([], q0) ⟨by simp, fun i hi => absurd hi (Nat.not_lt_zero _), fun _ _ => rfl⟩ n ?_ st' h
  intro k s s' _ hP hs
  obtain ⟨hP1, hP2, hP3⟩ := hP
  have hk : s.2 k = q0 k := hP3 k (fun hc => absurd hc.1 (Nat.lt_irrefl k))
  rcases collect_step_ok a inm s s' k hs with ⟨hg, rfl⟩ | ⟨hg, op, rest, hq, rfl⟩
  · refine ⟨?_, ?_, ?_⟩
    · rw [List.range_succ, List.filter_append]
      simpa [hg] using hP1
    · intro i hi hgi
      have : i ≠ k := by
        intro hc; rw [hc, hg] at hgi; exact Bool.noConfusion hgi
      exact hP2 i (by omega) hgi
    · intro i hi
      apply hP3
      intro hc
      exact hi ⟨by omega, hc.2⟩
  · refine ⟨?_, ?_, ?_⟩
    · rw [List.range_succ, List.filter_append]
      simp only [List.filter_cons, List.filter_nil, hg, if_true]
      apply List.rel_append hP1
      refine List.Forall₂.cons ?_ List.Forall₂.nil
      rw [← hk, hq]
      rfl
    · intro i hi hgi
      by_cases hik : i = k
      · subst hik
        simp only [Function.update_same]
        exact ⟨op, by rw [← hk, hq]⟩
      · simp only [Function.update_noteq hik]
        exact hP2 i (by omega) hgi
    · intro i hi
      have hik : i ≠ k := by
        intro hc
        apply hi
        rw [hc]
        exact ⟨Nat.lt_succ_self k, hg⟩
      simp only [Function.update_noteq hik]
      apply hP3
      intro hc
      exact hi ⟨by omega, hc.2⟩

theorem forall₂_mem_right {α β : Type} {R : α → β → Prop} {l₁ : List α} {l₂ : List β}
    (h : List.Forall₂ R l₁ l₂) : ∀ b ∈ l₂, ∃ a ∈ l₁, R a b := by
  induction h with
  | nil => intro b hb; cases hb
  | cons hab _ ih =>
    intro b hb
    rcases List.mem_cons.mp hb with hb | hb
    · subst hb
      exact ⟨_, List.mem_cons_self _ _, hab⟩
    · obtain ⟨a, ha, hr⟩ := ih b hb
      exact ⟨a, List.mem_cons_of_mem _ ha, hr⟩

theorem nodup_map_of_forall₂ {α β γ : Type} {R : α → β → Prop} (f : β → γ)
    {l₁ : List α} {l₂ : List β} (h : List.Forall₂ R l₁ l₂) (hnd : l₁.Nodup)
    (hinj : ∀ a ∈ l₁, ∀ a' ∈ l₁, ∀ b b', R a b → R a' b' → f b = f b' → a = a') :
    (l₂.map f).Nodup := by
  induction h with
  | nil => exact List.nodup_nil
  | @cons a b l₁ l₂ hab hrest ih =>
    rw [List.nodup_cons] at hnd
    rw [List.map_cons, List.nodup_cons]
    constructor
    · intro hmem
      obtain ⟨b', hb', hfb⟩ := List.mem_map.mp hmem
      obtain ⟨a', ha', hr'⟩ := forall₂_mem_right hrest b' hb'
      have := hinj a (List.mem_cons_self _ _) a' (List.mem_cons_of_mem _ ha') b b' hab hr'
        hfb.symm
      rw [this] at hnd
      exact hnd.1 ha'
    · exact ih hnd.2 (fun x hx x' hx' => hinj x (List.mem_cons_of_mem _ hx) x'
        (List.mem_cons_of_mem _ hx'))

theorem allocate_reads_ok (a a' : arbiter_t) (result : List op_t)
    (h : a.allocate_reads = .ok (result, a')) :
    ∃ (st1 : (Nat → Int) × (Nat → Nat → Int)) (st2 : (Nat → Int) × (Nat → Int))
      (st3 : List op_t × (Nat → List op_t)),
      (List.range a.m_num_banks).foldlM (request_step a)
        (clear_matching a.m_num_banks a._inmatch, a._request) = .ok st1 ∧
      wavefront a.m_num_banks a.m_num_collectors
        (if a.m_num_banks > a.m_num_collectors then a.m_num_banks else a.m_num_collectors)
        a.m_last_cu st1.2 (st1.1, clear_matching a.m_num_collectors a._outmatch) = .ok st2 ∧
      (List.range a.m_num_banks).foldlM (collect_step a st2.1) ([], a.m_queue) = .ok st3 ∧
      result = st3.1 ∧ a'.m_queue = st3.2 ∧ a'._inmatch = st2.1 ∧ a'._outmatch = st2.2 ∧
      a'._request = st1.2 ∧
      a'.m_last_cu = (a.m_last_cu + 1) %
        (if a.m_num_banks > a.m_num_collectors then a.m_num_banks else a.m_num_collectors) ∧
      a'.m_num_banks = a.m_num_banks ∧ a'.m_num_collectors = a.m_num_collectors ∧
      a'.m_allocated_bank = a.m_allocated_bank ∧
      0 < (if a.m_num_banks > a.m_num_collectors then a.m_num_banks
        else a.m_num_collectors) := by
  unfold arbiter_t.allocate_reads at h
  simp only at h
  generalize (if a.m_num_banks > a.m_num_collectors then a.m_num_banks
    else a.m_num_collectors) = sq at h ⊢
  by_cases hsq : sq > 0
  · rw [if_neg (not_not.mpr hsq)] at h
    cases h1 : (List.range a.m_num_banks).foldlM (request_step a)
        (clear_matching a.m_num_banks a._inmatch, a._request) with
    | error e => rw [h1] at h; cases h
    | ok st1 =>
      obtain ⟨inm, req⟩ := st1
      rw [h1] at h
      simp only at h
      cases h2 : wavefront a.m_num_banks a.m_num_collectors sq a.m_last_cu req
          (inm, clear_matching a.m_num_collectors a._outmatch) with
      | error e => rw [h2] at h; cases h
      | ok st2 =>
        obtain ⟨inm2, outm2⟩ := st2
        rw [h2] at h
        simp only at h
        cases h3 : (List.range a.m_num_banks).foldlM (collect_step a inm2) ([], a.m_queue) with
        | error e => rw [h3] at h; cases h
        | ok st3 =>
          obtain ⟨res, q⟩ := st3
          rw [h3] at h
          simp only [Except.ok.injEq, Prod.mk.injEq] at h
          obtain ⟨hr, ha⟩ := h
          subst ha
          exact ⟨(inm, req), (inm2, outm2), (res, q), rfl, h2, h3, hr.symm, rfl, rfl, rfl, rfl,
            rfl, rfl, rfl, rfl, hsq⟩
  · rw [if_pos hsq] at h
    cases h

theorem exists_ok_of_isOk {ε α : Type} (x : Except ε α) (h : x.isOk = true) :
    ∃ p, x = .ok p := by
  cases x with
  | error e => simp [Except.isOk, Except.toBool] at h
  | ok p => exact ⟨p, rfl⟩

theorem allocate_reads_grants (a a' : arbiter_t) (result : List op_t)
    (h : a.allocate_reads = .ok (result, a')) :
    matching_ok a a'._request a'._inmatch a'._outmatch ∧
    (∀ i, i < a.m_num_banks → ∀ j, j < a.m_num_collectors →
      (a'._request i j ≠ 0 ↔ ∃ op rest, a.m_queue i = op :: rest ∧ op.oc_id = (j : Int))) ∧
    List.Forall₂ (fun b op => (a.m_queue b).head? = some op)
      ((List.range a.m_num_banks).filter (read_granted a a'._inmatch)) result ∧
    (∀ i, i < a.m_num_banks → read_granted a a'._inmatch i = true →
      ∃ op, a.m_queue i = op :: a'.m_queue i) ∧
    (∀ i, ¬ (i < a.m_num_banks ∧ read_granted a a'._inmatch i = true) →
      a'.m_queue i = a.m_queue i) := by
  obtain ⟨st1, st2, st3, h1, h2, h3, hr, hq, hin, hout, hreq, _, _, _, _, _⟩ :=
    allocate_reads_ok a a' result h
  obtain ⟨hs1, hs2⟩ := requests_spec a _ _ st1 h1
  have hinit : matching_ok a st1.2 st1.1 (clear_matching a.m_num_collectors a._outmatch) := by
    intro i hi hne hw
    exfalso
    apply hne
    rw [hs1 i, if_neg (by simp [hw]), clear_matching_apply, if_pos hi]
  have hfin := wavefront_ok a _ _ st1.2 _ st2 h2 hinit
  obtain ⟨hc1, hc2, hc3⟩ := collect_spec a st2.1 a.m_queue st3 a.m_num_banks h3
  rw [hreq, hin, hout, hr, hq]
  exact ⟨hfin, hs2, hc1, hc2, hc3⟩

/-- C15: when `allocate_reads` runs to completion, the returned operands are the
queue heads of pairwise different register banks, and no two of them go to the same
collector unit.  If every queued operand sits in the queue of its own bank, the
`m_bank` fields of the returned operands are pairwise different as well. -/
theorem allocate_reads_distinct (a a' : arbiter_t) (result : List op_t)
    (h : a.allocate_reads = .ok (result, a')) :
    ∃ banks : List Nat, banks.Nodup ∧ (∀ b ∈ banks, b < a.m_num_banks) ∧
      List.Forall₂ (fun b op => (a.m_queue b).head? = some op) banks result ∧
      (result.map fun op => op.m_oc_id).Nodup ∧
      ((∀ b op, op ∈ a.m_queue b → op.m_bank = b) →
        (result.map fun op => op.m_bank).Nodup) := by
  obtain ⟨hmatch, hreq, hres, _, _⟩ := allocate_reads_grants a a' result h
  have hnd : ((List.range a.m_num_banks).filter (read_granted a a'._inmatch)).Nodup :=
    (List.nodup_range _).filter _
  have hlt : ∀ b ∈ (List.range a.m_num_banks).filter (read_granted a a'._inmatch),
      b < a.m_num_banks := fun b hb => List.mem_range.mp (List.mem_filter.mp hb).1
  have hgr : ∀ b ∈ (List.range a.m_num_banks).filter (read_granted a a'._inmatch),
      ∀ op, (a.m_queue b).head? = some op →
        ∃ o, o < a.m_num_collectors ∧ a'._outmatch o = (b : Int) ∧ op.oc_id = (o : Int) := by
    intro b hb op hop
    have hg := (List.mem_filter.mp hb).2
    simp only [read_granted, Bool.and_eq_true, decide_eq_true_eq, Bool.not_eq_true'] at hg
    obtain ⟨o, ho1, _, ho3, ho4⟩ := hmatch b (hlt b hb) hg.1 hg.2
    obtain ⟨op0, rest, hq, hoc⟩ := (hreq b (hlt b hb) o ho1).mp ho4
    rw [hq] at hop
    simp only [List.head?_cons, Option.some.injEq] at hop
    exact ⟨o, ho1, ho3, by rw [← hop]; exact hoc⟩
  refine ⟨_, hnd, hlt, hres, ?_, ?_⟩
  · apply nodup_map_of_forall₂ _ hres hnd
    intro b hb b' hb' op op' hop hop' heq
    obtain ⟨o, _, ho2, ho3⟩ := hgr b hb op hop
    obtain ⟨o', _, ho2', ho3'⟩ := hgr b' hb' op' hop'
    have hoc : op.oc_id = op'.oc_id := by
      unfold op_t.oc_id
      simp only at heq
      rw [heq]
    have hoo : o = o' := by
      have : (o : Int) = (o' : Int) := by rw [← ho3, ← ho3', hoc]
      exact_mod_cast this
    rw [hoo, ho2'] at ho2
    exact_mod_cast ho2.symm
  · intro hwf
    apply nodup_map_of_forall₂ _ hres hnd
    intro b _ b' _ op op' hop hop' heq
    have h1 : op.m_bank = b := hwf b op (List.mem_of_mem_head? hop)
    have h2 : op'.m_bank = b' := hwf b' op' (List.mem_of_mem_head? hop')
    simp only at heq
    rw [← h1, ← h2, heq]

/-- Witness for `allocate_reads_distinct`: banks 0 and 1 ask for the same collector
unit and bank 2 is being written; one operand is returned. -/
theorem allocate_reads_distinct_witness :
    ∃ result a', example_arbiter.allocate_reads = .ok (result, a') ∧
      result = [⟨1, 1, 9, 0, 1⟩] ∧ (result.map fun op => op.m_oc_id).Nodup := by
  obtain ⟨⟨result, a'⟩, hp⟩ :=
    exists_ok_of_isOk example_arbiter.allocate_reads (by decide)
  have hres : (example_arbiter.allocate_reads).map (fun p => p.1) =
      .ok [⟨1, 1, 9, 0, 1⟩] := by decide
  rw [hp] at hres
  obtain ⟨_, _, _, _, h, _⟩ := allocate_reads_distinct example_arbiter a' result hp
  exact ⟨result, a', hp, by simpa [Except.map] using hres, h⟩

/-- C16: when `allocate_reads` runs to completion, the returned operands are the
queue heads of a set of granted banks.  A bank allocated for a write is not granted
and its queue is exactly as before; every bank that is not granted has an unchanged
queue; every granted bank has lost exactly its head, which is among the returned
operands.  The bank allocations themselves are not changed. -/
theorem allocate_reads_frame (a a' : arbiter_t) (result : List op_t)
    (h : a.allocate_reads = .ok (result, a')) :
    ∃ granted : List Nat,
      List.Forall₂ (fun b op => (a.m_queue b).head? = some op) granted result ∧
      (∀ b, (a.m_allocated_bank b).is_write = true →
        b ∉ granted ∧ a'.m_queue b = a.m_queue b) ∧
      (∀ b, b ∉ granted → a'.m_queue b = a.m_queue b) ∧
      (∀ b, b ∈ granted → ∃ op, op ∈ result ∧ a.m_queue b = op :: a'.m_queue b) ∧
      a'.m_allocated_bank = a.m_allocated_bank := by
  obtain ⟨_, _, hres, hq1, hq2⟩ := allocate_reads_grants a a' result h
  obtain ⟨_, _, _, _, _, _, _, _, _, _, _, _, _, _, halloc, _⟩ := allocate_reads_ok a a' result h
  have hmem : ∀ b, b ∈ (List.range a.m_num_banks).filter (read_granted a a'._inmatch) ↔
      (b < a.m_num_banks ∧ read_granted a a'._inmatch b = true) := by
    intro b
    rw [List.mem_filter, List.mem_range]
  have hnot : ∀ b, b ∉ (List.range a.m_num_banks).filter (read_granted a a'._inmatch) →
      a'.m_queue b = a.m_queue b := by
    intro b hb
    exact hq2 b (fun hc => hb ((hmem b).mpr hc))
  have hw : ∀ b, (a.m_allocated_bank b).is_write = true →
      b ∉ (List.range a.m_num_banks).filter (read_granted a a'._inmatch) := by
    intro b hb hc
    have := ((hmem b).mp hc).2
    simp [read_granted, hb] at this
  refine ⟨_, hres, fun b hb => ⟨hw b hb, hnot b (hw b hb)⟩, hnot, ?_, halloc⟩
  intro b hb
  obtain ⟨hb1, hb2⟩ := (hmem b).mp hb
  obtain ⟨op, hop⟩ := hq1 b hb1 hb2
  refine ⟨op, ?_, hop⟩
  have hlen := hres.length_eq
  obtain ⟨k, hk, hkb⟩ := List.getElem_of_mem hb
  have hk' : k < result.length := by rw [← hlen]; exact hk
  have := (List.forall₂_iff_get.mp hres).2 k hk hk'
  simp only [List.get_eq_getElem, hkb, hop, List.head?_cons, Option.some.injEq] at this
  rw [this]
  exact List.getElem_mem hk'

/-- Witness for `allocate_reads_frame`: the read of bank 2, which is being written,
stays at the head of its queue, and bank 1 is granted and loses its head. -/
theorem allocate_reads_frame_witness :
    ∃ result a', example_arbiter.allocate_reads = .ok (result, a') ∧
      a'.m_queue 2 = example_arbiter.m_queue 2 ∧ a'.m_queue 1 = [] := by
  obtain ⟨⟨result, a'⟩, hp⟩ :=
    exists_ok_of_isOk example_arbiter.allocate_reads (by decide)
  have hq1 : (example_arbiter.allocate_reads).map (fun p => p.2.m_queue 1) = .ok [] := by
    decide
  rw [hp] at hq1
  obtain ⟨_, _, h, _⟩ := allocate_reads_frame example_arbiter a' result hp
  exact ⟨result, a', hp, (h 2 (by decide)).2, by simpa [Except.map] using hq1⟩

/-! ## Warp scheduler -/

theorem issue_into_ok {σ ι : Type} (env : sched_env σ ι) (st st' : warp_scan σ)
    (pipe : pipe_t) (height : Nat) (pI : ι) (active_mask w : Nat)
    (h : issue_into env st pipe height pI active_mask w = .ok st') :
    scan_step_ok w st st' := by
  unfold issue_into at h
  split at h
  · cases h
  · cases h
    exact Or.inr ⟨_, rfl, rfl, rfl⟩

theorem try_issue_ok {σ ι : Type} (env : sched_env σ ι) (st st' : warp_scan σ)
    (height : Nat) (pI : ι) (active_mask w : Nat) (b : Bool)
    (h : try_issue env st height pI active_mask w = .ok (st', b)) :
    scan_step_ok w st st' := by
  unfold try_issue at h
  simp only at h
  split at h
  · split at h
    · cases h
    · split at h
      · split at h
        · cases h
        · next st2 h2 =>
          cases h
          exact issue_into_ok env st _ _ _ _ _ _ h2
      · cases h
        exact Or.inl ⟨rfl, rfl⟩
  · split at h
    · cases h
    · split at h
      · cases h
      · split at h
        · split at h
          · cases h
          · next st2 h2 =>
            cases h
            exact issue_into_ok env st _ _ _ _ _ _ h2
        · split at h
          · split at h
            · split at h
              · cases h
              · next st2 h2 =>
                cases h
                exact issue_into_ok env st _ _ _ _ _ _ h2
            · cases h
              exact Or.inl ⟨rfl, rfl⟩
          · cases h
            exact Or.inl ⟨rfl, rfl⟩

theorem examine_entry_ok {σ ι : Type} (env : sched_env σ ι) (w iter : Nat)
    (st st' : warp_scan σ) (h : examine_entry env w iter st = .ok st') :
    scan_step_ok w st st' := by
  unfold examine_entry at h
  simp only at h
  split at h
  · cases h
    exact Or.inl ⟨rfl, rfl⟩
  · split at h
    · split at h
      · cases h
      · split at h
        · cases h
          exact Or.inl ⟨rfl, rfl⟩
        · split at h
          · split at h
            · cases h
            · split at h
              · cases h
              · next st2 b h2 =>
                have h3 := try_issue_ok env _ st2 _ _ _ _ b h2
                split at h
                · split at h
                  · cases h
                  · cases h
                    exact h3
                · cases h
                  exact h3
          · cases h
            exact Or.inl ⟨rfl, rfl⟩
    · cases h
      exact Or.inl ⟨rfl, rfl⟩

theorem scan_inv_step {σ : Type} (w : Nat) (st st' : warp_scan σ)
    (h : scan_step_ok w st st') (hi : scan_inv w st) : scan_inv w st' := by
  rcases h with ⟨hc, hn⟩ | ⟨c, hw, hc, hn⟩
  · exact ⟨by rw [hc, hn]; exact hi.1, by rw [hc]; exact hi.2⟩
  · refine ⟨by rw [hc, hn, List.length_append, hi.1]; rfl, ?_⟩
    intro c' hc'
    rw [hc, List.mem_append] at hc'
    rcases hc' with hc' | hc'
    · exact hi.2 c' hc'
    · rw [List.mem_singleton] at hc'
      rw [hc']
      exact hw

theorem scan_warp_inv {σ ι : Type} (env : sched_env σ ι) (w iter : Nat) :
    ∀ (fuel : Nat) (st st' : warp_scan σ), scan_warp env w iter fuel st = .ok st' →
      scan_inv w st → scan_inv w st' := by
  intro fuel
  induction fuel with
  | zero =>
    intro st st' h hi
    unfold scan_warp at h
    cases h
    exact hi
  | succ fuel ih =>
    intro st st' h hi
    rw [scan_warp] at h
    simp only at h
    split at h
    · split at h
      · cases h
      · next st2 h2 =>
        have h3 := examine_entry_ok env w iter _ st2 h2
        exact ih st2 st' h (scan_inv_step w _ st2 h3 hi)
    · cases h
      exact hi

theorem cycle_loop_one_warp {σ ι : Type} (env : sched_env σ ι) :
    ∀ (ws : List (Option Nat)) (iter : Nat) (s s' : sched_state σ) (calls : List issue_call),
      cycle_loop env ws iter s = .ok (s', calls) → ∃ w, ∀ c ∈ calls, c.warp_id = w := by
  intro ws
  induction ws with
  | nil =>
    intro iter s s' calls h
    unfold cycle_loop at h
    cases h
    exact ⟨0, by simp⟩
  | cons p rest ih =>
    intro iter s s' calls h
    cases p with
    | none =>
      rw [cycle_loop] at h
      exact ih _ _ _ _ h
    | some p =>
      rw [cycle_loop] at h
      simp only at h
      split at h
      · exact ih _ _ _ _ h
      · split at h
        · cases h
          exact ⟨0, by simp⟩
        · split at h
          · exact ih _ _ _ _ h
          · split at h
            · cases h
            · split at h
              · exact ih _ _ _ _ h
              · split at h
                · cases h
                · next st hst =>
                  have hi := scan_warp_inv env _ _ _ _ st hst ⟨rfl, by simp⟩
                  split at h
                  · cases h
                    exact ⟨_, hi.2⟩
                  · next hz =>
                    have hnil : st.calls = [] := by
                      have := hi.1
                      rw [not_not.mp hz] at this
                      exact List.length_eq_zero.mp this
                    split at h
                    · cases h
                    · next s2 calls2 h2 =>
                      cases h
                      rw [hnil, List.nil_append]
                      exact ih _ _ _ _ h2

/-- C18: in one call of `scheduler_unit::cycle` that returns, all calls of
`issue_warp` are for the same warp, whatever the ordering policy, the configuration
and the state of the instruction buffers, the scoreboard and the pipeline registers:
the scan of the prioritized warps stops after the first warp that issued a fragment. -/
theorem cycle_issues_one_warp {σ ι : Type} (env : sched_env σ ι) (s s' : sched_state σ)
    (calls : List issue_call) (h : scheduler_cycle env s = .ok (s', calls)) :
    ∀ c ∈ calls, ∀ c' ∈ calls, c.warp_id = c'.warp_id := by
  unfold scheduler_cycle at h
  simp only at h
  split at h
  · cases h
  · split at h
    · cases h
    · next s2 calls2 h2 =>
      cases h
      obtain ⟨w, hw⟩ := cycle_loop_one_warp env _ _ _ _ _ h2
      intro c hc c' hc'
      rw [hw c hc, hw c' hc']

/-- Witness for `cycle_issues_one_warp`: with two warps that both have two ready
fragments, the call issues both fragments of warp 0 and nothing of warp 1. -/
theorem cycle_issues_one_warp_witness :
    ∃ s' calls, scheduler_cycle example_env example_sched = .ok (s', calls) ∧
      calls = [⟨0, .sp_out, 0, 1, 1⟩, ⟨1, .sp_out, 0, 1, 1⟩] ∧
      ∀ c ∈ calls, ∀ c' ∈ calls, c.warp_id = c'.warp_id := by
  obtain ⟨⟨s', calls⟩, hp⟩ :=
    exists_ok_of_isOk (scheduler_cycle example_env example_sched) (by decide)
  have hc : (scheduler_cycle example_env example_sched).map (fun p => p.2) =
      .ok [⟨0, .sp_out, 0, 1, 1⟩, ⟨1, .sp_out, 0, 1, 1⟩] := by
    decide
  rw [hp] at hc
  exact ⟨s', calls, hp, by simpa [Except.map] using hc,
    cycle_issues_one_warp example_env example_sched s' calls hp⟩

/-- C19: in the loop of `scheduler_unit::cycle` over the buffer of a warp that is not
waiting, when the examined entry is valid and holds an instruction whose PC differs
from the PC that the divergence stack reports for the height of the entry, the entry
is handled by `set_next_pc` with the PC of the stack, `ibuffer_flush` and
`ibuffer_next_frag` and by nothing else: `issue_warp` is not called, the flags and
the counter `issued` keep their values, and every part of the core that these three
functions of the warp leave alone, such as the scoreboard and the pipeline registers,
is unchanged; the loop goes on from that state. -/
theorem control_hazard_flush {σ ι β : Type} (env : sched_env σ ι) (warp_id iter fuel : Nat)
    (st : warp_scan σ) (inst : ι) (view : σ → β)
    (hwait : (env.waiting st.core warp_id).1 = false)
    (hempty : env.ibuffer_frag_empty (env.waiting st.core warp_id).2 warp_id = false)
    (hchecked : st.checked < env.MAX_WARP_FRAGMENTS)
    (hvalid : env.ibuffer_next_valid (env.waiting st.core warp_id).2 warp_id = true)
    (hinst : env.ibuffer_next_inst (env.waiting st.core warp_id).2 warp_id = some inst)
    (hstack : (env.iter_get_pdom_stack (env.waiting st.core warp_id).2 warp_id
      (env.ibuffer_get_height (env.waiting st.core warp_id).2 warp_id)).1 = true)
    (hpc : (env.iter_get_pdom_stack (env.waiting st.core warp_id).2 warp_id
      (env.ibuffer_get_height (env.waiting st.core warp_id).2 warp_id)).2.1 ≠ env.pc inst)
    (hview_pc : ∀ c w pc, view (env.set_next_pc c w pc) = view c)
    (hview_flush : ∀ c w, view (env.ibuffer_flush c w) = view c)
    (hview_next : ∀ c w, view (env.ibuffer_next_frag c w) = view c) :
    ∃ st', examine_entry env warp_id iter { st with core := (env.waiting st.core warp_id).2 }
        = .ok st' ∧
      st'.core = env.ibuffer_next_frag (env.ibuffer_flush (env.set_next_pc
        (env.waiting st.core warp_id).2 warp_id
        (env.iter_get_pdom_stack (env.waiting st.core warp_id).2 warp_id
          (env.ibuffer_get_height (env.waiting st.core warp_id).2 warp_id)).2.1)
        warp_id) warp_id ∧
      st'.calls = st.calls ∧ st'.issued = st.issued ∧ st'.lanes_active = st.lanes_active ∧
      st'.valid_inst = st.valid_inst ∧ st'.ready_inst = st.ready_inst ∧
      st'.issued_inst = st.issued_inst ∧ st'.checked = st.checked + 1 ∧
      view st'.core = view (env.waiting st.core warp_id).2 ∧
      scan_warp env warp_id iter (fuel + 1) st = scan_warp env warp_id iter fuel st' := by
  have hbody : examine_entry env warp_id iter { st with core := (env.waiting st.core warp_id).2 }
      = .ok { st with
              checked := st.checked + 1
              core := env.ibuffer_next_frag (env.ibuffer_flush (env.set_next_pc
                (env.waiting st.core warp_id).2 warp_id
                (env.iter_get_pdom_stack (env.waiting st.core warp_id).2 warp_id
                  (env.ibuffer_get_height (env.waiting st.core warp_id).2 warp_id)).2.1)
                warp_id) warp_id } := by
    unfold examine_entry
    simp only [hvalid, hinst, hstack]
    rw [if_neg (by simp), if_neg (by simp), if_pos hpc]
  refine ⟨_, hbody, rfl, rfl, rfl, rfl, rfl, rfl, rfl, rfl, ?_, ?_⟩
  · simp only [hview_next, hview_flush, hview_pc]
  · rw [scan_warp]
    simp only
    rw [if_pos ⟨hwait, hempty, hchecked⟩, hbody]

/-- Witness for `control_hazard_flush`: the stack reports the PC 20 for an entry that
holds the instruction at PC 10; the next PC becomes 20, the buffer is flushed and
the count of issued instructions of the core stays 0. -/
theorem control_hazard_flush_witness :
    ∃ st', examine_entry example_env 0 0 example_scan = .ok st' ∧
      st'.core = ⟨1, 20, 20, true, 0⟩ ∧ st'.calls = [] ∧ st'.core.issued = 0 := by
  obtain ⟨st', h, hcore, hcalls, _, _, _, _, _, _, hissued, _⟩ :=
    control_hazard_flush example_env 0 0 0 example_scan 10 (fun c => c.issued)
      rfl rfl (by decide) rfl rfl rfl (by decide)
      (fun _ _ _ => rfl) (fun _ _ => rfl) (fun _ _ => rfl)
  exact ⟨st', h, hcore, hcalls, hissued⟩

/-! ## Loose round robin: fairness -/

theorem find_supervised_fold (ws : List Nat) (p s last : Nat) (hnd : ws.Nodup)
    (hs : ws[s]? = some p) :
    ∀ n, n ≤ ws.length →
      (List.range n).foldl
        (fun last k => if (ws.map some)[k]? = some (some p) then k else last) last =
      if s < n then s else last := by
  intro n
  induction n with
  | zero => intro _; simp
  | succ n ih =>
    intro hn
    rw [List.range_succ, List.foldl_append, ih (by omega)]
    simp only [List.foldl_cons, List.foldl_nil]
    have hsl : s < ws.length := by
      rcases Nat.lt_or_ge s ws.length with h | h
      · exact h
      · rw [List.getElem?_eq_none h] at hs
        cases hs
    by_cases hns : n = s
    · subst hns
      rw [if_pos (by rw [List.getElem?_map, hs]; rfl), if_pos (by omega)]
    · have hne : (ws.map some)[n]? ≠ some (some p) := by
        intro h
        rw [List.getElem?_map] at h
        have hn' : ws[n]? = some p := by
          cases hv : ws[n]? with
          | none => rw [hv] at h; cases h
          | some v =>
            rw [hv] at h
            simp only [Option.map_some', Option.some.injEq] at h
            rw [h]
        have h1 : ws[n] = p := by
          rw [List.getElem?_eq_getElem (by omega)] at hn'
          exact Option.some.inj hn'
        have h2 : ws[s] = p := by
          rw [List.getElem?_eq_getElem hsl] at hs
          exact Option.some.inj hs
        exact hns ((List.Nodup.getElem_inj_iff hnd).mp (h1.trans h2.symm))
      rw [if_neg hne]
      by_cases h1 : s < n
      · rw [if_pos h1, if_pos (by omega)]
      · rw [if_neg h1, if_neg (by omega)]

theorem find_supervised_nodup (ws : List Nat) (p s last : Nat) (hnd : ws.Nodup)
    (hs : ws[s]? = some p) : find_supervised (ws.map some) p last = s := by
  have hsl : s < ws.length := by
    rcases Nat.lt_or_ge s ws.length with h | h
    · exact h
    · rw [List.getElem?_eq_none h] at hs
      cases hs
  unfold find_supervised
  rw [List.length_map, find_supervised_fold ws p s last hnd hs ws.length (Nat.le_refl _),
    if_pos hsl]

theorem lrr_issue_first_spec (ws : List Nat) (last : Nat) (hne : ws ≠ []) (hnd : ws.Nodup)
    (hlast : last ≤ ws.length) :
    ∃ p, ws[lrr_next ws.length last]? = some p ∧
      lrr_issue_first ws last = .ok (some (p, lrr_next ws.length last)) := by
  have hpos : 0 < ws.length := List.length_pos.mpr hne
  have hiter : (if last = ws.length then 0 else last + 1) ≤ ws.length := by
    split <;> omega
  obtain ⟨out, hout, hlen, _, hel⟩ :=
    order_lrr_loop_spec ws hpos ws.length (if last = ws.length then 0 else last + 1) [] hiter
  have hstart : (if last = ws.length then 0 else last + 1) % ws.length =
      lrr_next ws.length last := by
    unfold lrr_next
    split
    · exact Nat.zero_mod _
    · rfl
  have hlt : lrr_next ws.length last < ws.length := by
    rw [← hstart]
    exact Nat.mod_lt _ hpos
  have h0 := hel 0 hpos
  simp only [List.length_nil, Nat.add_zero, hstart] at h0
  rw [List.getElem?_eq_getElem hlt] at h0
  refine ⟨ws[lrr_next ws.length last], List.getElem?_eq_getElem hlt, ?_⟩
  have horder : lrr_order_warps ws last = .ok out := by
    unfold lrr_order_warps order_lrr
    rw [if_neg (by simp)]
    exact hout
  unfold lrr_issue_first
  rw [horder]
  simp only
  have hhead : out.head? = some ws[lrr_next ws.length last] := by
    rw [← h0]
    cases out with
    | nil => simp at hlen; omega
    | cons a t => simp
  rw [hhead]
  simp only
  rw [find_supervised_nodup ws _ _ last hnd (List.getElem?_eq_getElem hlt)]

theorem lrr_issues_spec (ws : List Nat) (hne : ws ≠ []) (hnd : ws.Nodup) :
    ∀ (k last : Nat), last ≤ ws.length →
      ∃ tr, lrr_issues ws k last = .ok tr ∧ tr.length = k ∧
        ∀ j, j < k → tr[j]? = ws[(lrr_next ws.length last + j) % ws.length]? := by
  have hpos : 0 < ws.length := List.length_pos.mpr hne
  intro k
  induction k with
  | zero =>
    intro last _
    exact ⟨[], rfl, rfl, fun j hj => absurd hj (Nat.not_lt_zero _)⟩
  | succ k ih =>
    intro last hlast
    obtain ⟨p, hp, hfirst⟩ := lrr_issue_first_spec ws last hne hnd hlast
    have hlt : lrr_next ws.length last < ws.length := by
      rcases Nat.lt_or_ge (lrr_next ws.length last) ws.length with h | h
      · exact h
      · rw [List.getElem?_eq_none h] at hp
        cases hp
    obtain ⟨tr, htr, hlen, hel⟩ := ih (lrr_next ws.length last) (Nat.le_of_lt hlt)
    refine ⟨p :: tr, ?_, by simp [hlen], ?_⟩
    · rw [lrr_issues, hfirst]
      simp only
      rw [htr]
    · intro j hj
      cases j with
      | zero =>
        simp only [List.getElem?_cons_zero, Nat.add_zero]
        rw [Nat.mod_eq_of_lt hlt, hp]
      | succ j =>
        simp only [List.getElem?_cons_succ]
        rw [hel j (by omega)]
        congr 1
        have hnext : ∀ x, x < ws.length → lrr_next ws.length x = (x + 1) % ws.length := by
          intro x hx
          unfold lrr_next
          rw [if_neg (by omega)]
        rw [hnext _ hlt, Nat.add_mod, Nat.mod_mod, ← Nat.add_mod]
        congr 1
        omega

/-- C21: for a loose-round-robin scheduler over `N ≥ 1` different warps in which the
first warp of the order issues in every cycle and is recorded as
`m_last_supervised_issued`, the warp that issues in a cycle is the supervised warp
that follows, cyclically, the one that issued in the cycle before, and in every
window of `N` consecutive cycles each supervised warp issues exactly once. -/
theorem lrr_fairness (ws : List Nat) (last k : Nat) (hne : ws ≠ []) (hnd : ws.Nodup)
    (hlast : last ≤ ws.length) :
    ∃ tr, lrr_issues ws k last = .ok tr ∧ tr.length = k ∧
      (∀ j, j + 1 < k → ∃ i, i < ws.length ∧ tr[j]? = ws[i]? ∧
        tr[j + 1]? = ws[(i + 1) % ws.length]?) ∧
      ∀ j, j + ws.length ≤ k → ∀ w ∈ ws, ((tr.drop j).take ws.length).count w = 1 := by
  have hpos : 0 < ws.length := List.length_pos.mpr hne
  obtain ⟨tr, htr, hlen, hel⟩ := lrr_issues_spec ws hne hnd k last hlast
  refine ⟨tr, htr, hlen, ?_, ?_⟩
  · intro j hj
    refine ⟨(lrr_next ws.length last + j) % ws.length, Nat.mod_lt _ hpos,
      hel j (by omega), ?_⟩
    rw [hel (j + 1) hj]
    congr 1
    rw [Nat.add_mod ((lrr_next ws.length last + j) % ws.length), Nat.mod_mod,
      ← Nat.add_mod, Nat.add_assoc]
  · intro j hj w hw
    have hwin : (tr.drop j).take ws.length =
        ws.rotate ((lrr_next ws.length last + j) % ws.length) := by
      apply List.ext_getElem?
      intro t
      by_cases ht : t < ws.length
      · rw [List.getElem?_take_of_lt ht, List.getElem?_drop, hel (j + t) (by omega),
          List.getElem?_rotate ht]
        congr 1
        rw [Nat.add_mod t, Nat.mod_mod, ← Nat.add_mod]
        congr 1
        omega
      · rw [List.getElem?_eq_none (by simp; omega), List.getElem?_eq_none (by simp; omega)]
    rw [hwin, (List.rotate_perm ws _).count_eq]
    exact List.count_eq_one_of_mem hnd hw

/-- Witness for `lrr_fairness`: three warps, seven cycles, starting after the warp at
position 1. -/
theorem lrr_fairness_witness :
    ∃ tr, lrr_issues [7, 8, 9] 7 1 = .ok tr ∧ tr.length = 7 ∧
      (∀ j, j + 1 < 7 → ∃ i, i < 3 ∧ tr[j]? = [7, 8, 9][i]? ∧
        tr[j + 1]? = [7, 8, 9][(i + 1) % 3]?) ∧
      ∀ j, j + 3 ≤ 7 → ∀ w ∈ [7, 8, 9], ((tr.drop j).take 3).count w = 1 :=
  lrr_fairness [7, 8, 9] 1 7 (by decide) (by decide) (by decide)

/-! ## Ordering by priority -/

theorem priority_loop_spec {T : Type} [DecidableEq T] (skip : Option T) :
    ∀ (count : Nat) (temp result : List T), count ≤ temp.length →
      priority_loop skip count temp result =
        .ok (result ++ (temp.take count).filter fun x => decide (skip ≠ some x)) := by
  intro count
  induction count with
  | zero =>
    intro temp result _
    simp [priority_loop]
  | succ count ih =>
    intro temp result h
    cases temp with
    | nil => simp at h
    | cons x iter =>
      rw [priority_loop, ih iter _ (by simpa using h)]
      by_cases hx : skip = some x
      · simp [hx, List.take_succ_cons]
      · simp [hx, List.take_succ_cons]

theorem sorted_blocked_last (done_exit waiting : Nat → Bool) (dyn : Nat → Nat) (x y : Nat)
    (h : sort_warps_by_oldest_dynamic_id done_exit waiting dyn (some y) (some x) = false)
    (hy : warp_blocked done_exit waiting y = false) :
    warp_blocked done_exit waiting x = false ∧ dyn x ≤ dyn y := by
  unfold warp_blocked at hy ⊢
  unfold sort_warps_by_oldest_dynamic_id at h
  simp only [Bool.or_eq_false_iff] at hy ⊢
  simp only [hy.1, hy.2, Bool.false_eq_true, or_self, if_false] at h
  split at h
  · cases h
  · next hx =>
    simp only [not_or, Bool.not_eq_true] at hx
    exact ⟨hx, by simpa using h⟩

/-- C22: for a supervised list without duplicates and a last-issued position in it,
`gto_scheduler::order_warps` builds a permutation of the supervised warps that starts
with the last-issued warp; among the warps after it, a warp that is neither exited
nor waiting is preceded only by such warps, and these appear in strictly increasing
order of dynamic warp id.  The sorting function is any that meets the promise of
`std::sort`; the warps that are neither exited nor waiting have different dynamic
ids, as `init_warps` gives every warp it starts the next value of a counter. -/
theorem gto_order_contract
    (sort : (Option Nat → Option Nat → Bool) → List (Option Nat) → List (Option Nat))
    (done_exit waiting : Nat → Bool) (dyn : Nat → Nat)
    (supervised : List (Option Nat)) (last : Nat)
    (hsort : is_std_sort (sort_warps_by_oldest_dynamic_id done_exit waiting dyn) supervised
      (sort (sort_warps_by_oldest_dynamic_id done_exit waiting dyn) supervised))
    (hnd : supervised.Nodup) (hlast : last < supervised.length)
    (hdyn : ∀ x y, some x ∈ supervised → some y ∈ supervised → x ≠ y →
      warp_blocked done_exit waiting x = false → warp_blocked done_exit waiting y = false →
      dyn x ≠ dyn y) :
    ∃ rest, gto_order_warps sort done_exit waiting dyn supervised last =
        .ok (supervised[last] :: rest) ∧
      (supervised[last] :: rest).Perm supervised ∧
      rest.Pairwise fun a b => ∀ x y, a = some x → b = some y →
        warp_blocked done_exit waiting y = false →
        warp_blocked done_exit waiting x = false ∧ dyn x < dyn y := by
  obtain ⟨hperm, hsorted⟩ := hsort
  generalize hso : sort (sort_warps_by_oldest_dynamic_id done_exit waiting dyn) supervised = sorted
    at hperm hsorted
  have hlen : sorted.length = supervised.length := hperm.length_eq
  have hnds : sorted.Nodup := hperm.nodup_iff.mpr hnd
  refine ⟨sorted.filter fun x => decide (some supervised[last] ≠ some x), ?_, ?_, ?_⟩
  · unfold gto_order_warps order_by_priority
    rw [if_neg (by simp)]
    simp only
    rw [List.getElem?_eq_getElem hlast]
    simp only
    rw [hso, priority_loop_spec _ _ _ _ (by omega), ← hlen, List.take_length]
    rfl
  · have hmem : supervised[last] ∈ sorted :=
      hperm.mem_iff.mpr (List.getElem_mem hlast)
    refine (List.perm_ext_iff_of_nodup ?_ hnd).mpr ?_
    · refine List.nodup_cons.mpr ⟨?_, hnds.filter _⟩
      simp
    · intro x
      rw [← hperm.mem_iff]
      by_cases hx : x = supervised[last]
      · simp [hx, hmem]
      · have hx' : supervised[last] ≠ x := fun h => hx h.symm
        simp [hx, hx']
  · refine List.Pairwise.filter _ ?_
    have hboth : sorted.Pairwise fun a b =>
        a ≠ b ∧ sort_warps_by_oldest_dynamic_id done_exit waiting dyn b a = false :=
      (List.pairwise_and_iff.mpr ⟨hnds, hsorted⟩)
    refine (List.Pairwise.and_mem.mp hboth).imp ?_
    rintro a b ⟨ha, hb, hab, hcomp⟩ x y rfl rfl hy
    obtain ⟨hx, hle⟩ := sorted_blocked_last done_exit waiting dyn x y hcomp hy
    refine ⟨hx, Nat.lt_of_le_of_ne hle ?_⟩
    exact hdyn x y (hperm.mem_iff.mp ha) (hperm.mem_iff.mp hb)
      (fun h => hab (by rw [h])) hx hy

/-- Witness for `gto_order_contract`: five warps of which warp 3 waits, younger warps
having the smaller ids; the last-issued warp 1 comes first. -/
theorem gto_order_contract_witness :
    ∃ rest, gto_order_warps example_sort (fun _ => false) (fun w => w == 3) (fun w => 10 - w)
        [some 0, some 1, some 2, some 3, some 4] 1 = .ok (some 1 :: rest) ∧
      (some 1 :: rest).Perm [some 0, some 1, some 2, some 3, some 4] ∧
      rest.Pairwise fun a b => ∀ x y, a = some x → b = some y →
        warp_blocked (fun _ => false) (fun w => w == 3) y = false →
        warp_blocked (fun _ => false) (fun w => w == 3) x = false ∧ 10 - x < 10 - y :=
  gto_order_contract example_sort (fun _ => false) (fun w => w == 3) (fun w => 10 - w)
    [some 0, some 1, some 2, some 3, some 4] 1 ⟨by decide, by decide⟩ (by decide) (by decide)
    (fun x y hx hy hxy _ _ => by
      show 10 - x ≠ 10 - y
      simp only [List.mem_cons, Option.some.injEq, List.mem_singleton, List.not_mem_nil,
        or_false] at hx hy
      omega)

/-- C23: the candidate list of `swl_scheduler::order_warps` is longer than the cap.
With `K` the smaller of `m_num_warps_to_limit` and the number of supervised warps,
the list has `K + 1` warps whenever the last-issued warp is not among the first `K`
warps of the sorted vector: the greedy warp is pushed first, and then each of the
first `K` sorted warps that differs from it. -/
theorem swl_order_exceeds_cap
    (sort : (Option Nat → Option Nat → Bool) → List (Option Nat) → List (Option Nat))
    (done_exit waiting : Nat → Bool) (dyn : Nat → Nat) (limit : Nat)
    (supervised : List (Option Nat)) (last : Nat) (greedy : Option Nat)
    (hlen : (sort (sort_warps_by_oldest_dynamic_id done_exit waiting dyn) supervised).length =
      supervised.length)
    (hget : supervised[last]? = some greedy)
    (hnot : greedy ∉ (sort (sort_warps_by_oldest_dynamic_id done_exit waiting dyn)
      supervised).take (min limit supervised.length)) :
    ∃ result, swl_order_warps sort done_exit waiting dyn limit supervised last = .ok result ∧
      result.length = min limit supervised.length + 1 := by
  have hrun : swl_order_warps sort done_exit waiting dyn limit supervised last =
      .ok ([greedy] ++ ((sort (sort_warps_by_oldest_dynamic_id done_exit waiting dyn)
        supervised).take (min limit supervised.length)).filter
        (fun x => decide (some greedy ≠ some x))) := by
    unfold swl_order_warps order_by_priority
    rw [if_neg (by simp)]
    simp only
    rw [hget]
    simp only
    rw [priority_loop_spec _ _ _ _ (by rw [hlen]; exact Nat.min_le_right _ _)]
  have hall : ((sort (sort_warps_by_oldest_dynamic_id done_exit waiting dyn)
      supervised).take (min limit supervised.length)).filter
      (fun x => decide (some greedy ≠ some x)) =
      (sort (sort_warps_by_oldest_dynamic_id done_exit waiting dyn) supervised).take
        (min limit supervised.length) := by
    rw [List.filter_eq_self]
    intro x hx
    have : greedy ≠ x := fun h => hnot (h ▸ hx)
    simp [this]
  refine ⟨_, hrun, ?_⟩
  rw [hall, List.length_append, List.length_take, hlen,
    Nat.min_eq_left (Nat.min_le_right _ _)]
  simp only [List.length_singleton]
  omega

/-- Witness for `swl_order_exceeds_cap`: three ready warps with the dynamic ids 0, 1
and 2, the cap 1, and warp 2 the last to issue; the candidates are the warps 2 and 0. -/
theorem swl_order_exceeds_cap_witness :
    swl_order_warps example_sort (fun _ => false) (fun _ => false) (fun w => w) 1
        [some 0, some 1, some 2] 2 = .ok [some 2, some 0] ∧
      ∃ result, swl_order_warps example_sort (fun _ => false) (fun _ => false) (fun w => w) 1
        [some 0, some 1, some 2] 2 = .ok result ∧ result.length = min 1 3 + 1 :=
  ⟨by decide,
    swl_order_exceeds_cap example_sort (fun _ => false) (fun _ => false) (fun w => w) 1
      [some 0, some 1, some 2] 2 (some 2) (by decide) (by decide) (by decide)⟩

/-! ## Heights of fragments -/

theorem unsigned_sub_eq (a k : Nat) (hk : k ≤ a) (ha : a < 4294967296) :
    unsigned_sub a (k : Int) = a - k := by
  unfold unsigned_sub
  have h1 : ((a : Int) - (k : Int)) = ((a - k : Nat) : Int) := by omega
  rw [h1, Int.emod_eq_of_lt (by omega) (by omega)]
  exact Int.toNat_natCast _

theorem add_mod_inj (M f t t' : Nat) (ht : 1 ≤ t) (htt : t < t') (ht' : t' ≤ M)
    (h : (f + t) % M = (f + t') % M) : False := by
  have h1 : t % M = t' % M := Nat.ModEq.add_left_cancel' f h
  rw [Nat.mod_eq_of_lt (by omega)] at h1
  rcases Nat.eq_or_lt_of_le ht' with h2 | h2
  · rw [h2, Nat.mod_self] at h1
    omega
  · rw [Nat.mod_eq_of_lt h2] at h1
    omega

theorem add_mod_surj (M f i : Nat) (hi : i < M) : ∃ t, 1 ≤ t ∧ t ≤ M ∧ (f + t) % M = i := by
  have hr := Nat.mod_lt f (show 0 < M by omega)
  have hf := Nat.div_add_mod f M
  by_cases h : f % M < i
  · refine ⟨i - f % M, by omega, by omega, ?_⟩
    have : f + (i - f % M) = M * (f / M) + i := by omega
    rw [this, Nat.mul_add_mod, Nat.mod_eq_of_lt hi]
  · refine ⟨M + i - f % M, by omega, by omega, ?_⟩
    have : f + (M + i - f % M) = M * (f / M + 1) + i := by
      rw [Nat.mul_add, Nat.mul_one]
      omega
    rw [this, Nat.mul_add_mod, Nat.mod_eq_of_lt hi]

theorem fix_buffer_loop_spec (M h : Nat) (k : Int) :
    ∀ (n : Nat) (b : ibuffer_t), n ≤ M → b.m_height.length = M →
      ∃ b', fix_buffer_loop M h k n b = .ok b' ∧ b'.m_height.length = M ∧
        b'.m_frag = (if n = 0 then b.m_frag else (b.m_frag + n) % M) ∧
        ∀ i, i < M →
          ((∃ t, 1 ≤ t ∧ t ≤ n ∧ (b.m_frag + t) % M = i) → b'.m_height[i]? =
            (b.m_height[i]?).map fun x => if x ≥ h then unsigned_sub x k else x) ∧
          ((¬ ∃ t, 1 ≤ t ∧ t ≤ n ∧ (b.m_frag + t) % M = i) →
            b'.m_height[i]? = b.m_height[i]?) := by
  intro n
  induction n with
  | zero =>
    intro b _ hlen
    refine ⟨b, rfl, hlen, rfl, ?_⟩
    intro i _
    refine ⟨?_, fun _ => rfl⟩
    rintro ⟨t, h1, h2, _⟩
    omega
  | succ n ih =>
    intro b hn hlen
    have hM : 0 < M := by omega
    have hf : (b.m_frag + 1) % M < M := Nat.mod_lt _ hM
    have hfl : (b.m_frag + 1) % M < b.m_height.length := by rw [hlen]; exact hf
    rw [fix_buffer_loop]
    simp only [ibuffer_t.ibuffer_next_frag, ibuffer_t.ibuffer_get_height]
    rw [List.getElem?_eq_getElem hfl]
    simp only
    generalize hx : b.m_height[(b.m_frag + 1) % M] = x
    generalize hb1 : (if x ≥ h then
        ibuffer_t.ibuffer_store_height ⟨(b.m_frag + 1) % M, b.m_height⟩ (unsigned_sub x k)
       else (⟨(b.m_frag + 1) % M, b.m_height⟩ : ibuffer_t)) = b1
    have hfr : b1.m_frag = (b.m_frag + 1) % M := by
      rw [← hb1]
      split <;> rfl
    have hlen1 : b1.m_height.length = M := by
      rw [← hb1]
      split <;> simp [ibuffer_t.ibuffer_store_height, hlen]
    have hsame : ∀ i, i ≠ (b.m_frag + 1) % M → b1.m_height[i]? = b.m_height[i]? := by
      intro i hxi
      rw [← hb1]
      split
      · simp only [ibuffer_t.ibuffer_store_height]
        rw [List.getElem?_set_ne (fun h => hxi h.symm)]
      · rfl
    have hthis : b1.m_height[(b.m_frag + 1) % M]? =
        (b.m_height[(b.m_frag + 1) % M]?).map fun x => if x ≥ h then unsigned_sub x k else x := by
      rw [List.getElem?_eq_getElem hfl, hx, ← hb1]
      split
      · next hge =>
        simp only [ibuffer_t.ibuffer_store_height, Option.map_some', if_pos hge]
        rw [List.getElem?_set_self hfl]
      · next hge =>
        simp only [Option.map_some', if_neg hge]
        rw [List.getElem?_eq_getElem hfl, hx]
    obtain ⟨b', hrun, hlen', hfrag', hel'⟩ := ih b1 (by omega) hlen1
    rw [hfr] at hfrag' hel'
    have hshift : ∀ t, ((b.m_frag + 1) % M + t) % M = (b.m_frag + (t + 1)) % M := by
      intro t
      rw [Nat.mod_add_mod]
      congr 1
      omega
    refine ⟨b', hrun, hlen', ?_, ?_⟩
    · rw [hfrag', if_neg (Nat.succ_ne_zero n)]
      split
      · next h0 => rw [h0]
      · rw [Nat.mod_add_mod, Nat.add_assoc, Nat.add_comm 1 n]
    · intro i hi
      by_cases hlater : ∃ t, 1 ≤ t ∧ t ≤ n ∧ ((b.m_frag + 1) % M + t) % M = i
      · have hv := (hel' i hi).1 hlater
        obtain ⟨t, h1, h2, h3⟩ := hlater
        have hne : i ≠ (b.m_frag + 1) % M := by
          intro heq
          rw [hshift, heq] at h3
          exact add_mod_inj M b.m_frag 1 (t + 1) (by omega) (by omega) (by omega) h3.symm
        refine ⟨fun _ => ?_, fun hno => ?_⟩
        · rw [hv, hsame i hne]
        · exact absurd ⟨t + 1, by omega, by omega, by rw [← hshift]; exact h3⟩ hno
      · have hv := (hel' i hi).2 hlater
        by_cases hxi : i = (b.m_frag + 1) % M
        · refine ⟨fun _ => ?_, fun hno => ?_⟩
          · rw [hv, hxi, hthis]
          · exact absurd ⟨1, by omega, by omega, hxi.symm⟩ hno
        · refine ⟨fun hyes => ?_, fun _ => ?_⟩
          · obtain ⟨t, h1, h2, h3⟩ := hyes
            rcases Nat.eq_or_lt_of_le h1 with h1' | h1'
            · rw [← h1'] at h3
              exact absurd h3.symm hxi
            · exact absurd ⟨t - 1, by omega, by omega, by
                rw [hshift, Nat.sub_add_cancel h1]; exact h3⟩ hlater
          · rw [hv, hsame i hxi]

/-- C24: for a warp `w` of the core, a height `h` and a number `k ≤ h` of removed
levels, `fix_heights(h, k, w)` returns, and afterwards every pending-fragment entry of
`w` whose height was at least `h` has its height lowered by exactly `k` while the
entries below `h` are as before; the same holds for the height stored in each
fragment slot of the instruction buffer of `w`; the entries and buffers of the other
warps are unchanged.  Heights are `unsigned` values, and no subtraction wraps. -/
theorem fix_heights_contract (M : Nat) (c : fragment_state) (h k w : Nat)
    (entries : List fragment_entry) (b : ibuffer_t) (hkh : k ≤ h)
    (hentries : c.m_fragment_entries[w]? = some entries) (hb : c.m_warp[w]? = some b)
    (hlen : b.m_height.length = M)
    (h32e : ∀ e ∈ entries, e.height < 4294967296) (h32b : ∀ x ∈ b.m_height, x < 4294967296) :
    ∃ c', fix_heights M c h (k : Int) w = .ok c' ∧
      c'.m_fragment_entries[w]? =
        some (entries.map fun e => { e with height := renumbered h k e.height }) ∧
      (c'.m_warp[w]?).map (fun b' => b'.m_height) = some (b.m_height.map (renumbered h k)) ∧
      ∀ w', w' ≠ w → c'.m_fragment_entries[w']? = c.m_fragment_entries[w']? ∧
        c'.m_warp[w']? = c.m_warp[w']? := by
  have hwe : w < c.m_fragment_entries.length := by
    rcases Nat.lt_or_ge w c.m_fragment_entries.length with h' | h'
    · exact h'
    · rw [List.getElem?_eq_none h'] at hentries
      cases hentries
  have hww : w < c.m_warp.length := by
    rcases Nat.lt_or_ge w c.m_warp.length with h' | h'
    · exact h'
    · rw [List.getElem?_eq_none h'] at hb
      cases hb
  have hmap : entries.map (fix_entry h (k : Int)) =
      entries.map fun e => { e with height := renumbered h k e.height } := by
    apply List.map_congr_left
    intro e he
    unfold fix_entry renumbered
    split
    · next hge => rw [unsigned_sub_eq _ _ (by omega) (h32e e he)]
    · rfl
  unfold fix_heights
  rw [hentries]
  simp only
  by_cases hM : M = 0
  · rw [if_pos hM]
    refine ⟨_, rfl, ?_, ?_, ?_⟩
    · simp only
      rw [List.getElem?_set_self hwe, hmap]
    · have hnil : b.m_height = [] := List.length_eq_zero.mp (hlen.trans hM)
      simp only
      rw [hb]
      simp [hnil]
    · intro w' hw'
      exact ⟨List.getElem?_set_ne (fun h => hw' h.symm), rfl⟩
  · rw [if_neg hM, hb]
    simp only
    obtain ⟨b', hrun, hlen', _, hel⟩ := fix_buffer_loop_spec M h (k : Int) M b (Nat.le_refl _) hlen
    rw [hrun]
    refine ⟨_, rfl, ?_, ?_, ?_⟩
    · simp only
      rw [List.getElem?_set_self hwe, hmap]
    · simp only
      rw [List.getElem?_set_self hww]
      simp only [Option.map_some', Option.some.injEq]
      apply List.ext_getElem?
      intro i
      by_cases hi : i < M
      · rw [(hel i hi).1 (add_mod_surj M b.m_frag i hi), List.getElem?_map]
        have hil : i < b.m_height.length := by omega
        rw [List.getElem?_eq_getElem hil]
        simp only [Option.map_some', Option.some.injEq]
        unfold renumbered
        split
        · next hge =>
          rw [unsigned_sub_eq _ _ (by omega) (h32b _ (List.getElem_mem hil))]
        · rfl
      · rw [List.getElem?_eq_none (by omega), List.getElem?_eq_none (by simp; omega)]
    · intro w' hw'
      simp only
      exact ⟨List.getElem?_set_ne (fun h => hw' h.symm),
        List.getElem?_set_ne (fun h => hw' h.symm)⟩

/-- Witness for `fix_heights_contract`: one level removed at height 2; the heights 2
and 3 of warp 1 become 1 and 2, the heights 0 and 1 stay, and so does warp 0. -/
theorem fix_heights_contract_witness :
    fix_heights 2 example_fragments 2 1 1 =
        .ok ⟨[[⟨5, 0⟩], [⟨0, 8⟩, ⟨1, 16⟩, ⟨1, 24⟩, ⟨2, 32⟩]], [⟨0, [4, 4]⟩, ⟨1, [2, 1]⟩]⟩ ∧
      ∃ c', fix_heights 2 example_fragments 2 ((1 : Nat) : Int) 1 = .ok c' ∧
        c'.m_fragment_entries[1]? =
          some (([⟨0, 8⟩, ⟨1, 16⟩, ⟨2, 24⟩, ⟨3, 32⟩] : List fragment_entry).map fun e =>
            { e with height := renumbered 2 1 e.height }) ∧
        (c'.m_warp[1]?).map (fun b' => b'.m_height) = some ([3, 1].map (renumbered 2 1)) ∧
        ∀ w', w' ≠ 1 → c'.m_fragment_entries[w']? = example_fragments.m_fragment_entries[w']? ∧
          c'.m_warp[w']? = example_fragments.m_warp[w']? :=
  ⟨by decide,
    fix_heights_contract 2 example_fragments 2 1 1 [⟨0, 8⟩, ⟨1, 16⟩, ⟨2, 24⟩, ⟨3, 32⟩] ⟨1, [3, 1]⟩
      (by decide) rfl rfl rfl (by decide) (by decide)⟩

/-! ## Result buses -/

theorem test_res_bus_loop_spec (L latency : Nat) (hl : latency < L) :
    ∀ (buses : List Nat) (i : Nat),
      (test_res_bus_loop L latency buses i = .ok (-1) ∧
        ∀ bus ∈ buses, bus.testBit latency = true) ∨
      ∃ j bus, test_res_bus_loop L latency buses i = .ok ((i + j : Nat) : Int) ∧
        buses[j]? = some bus ∧ bus.testBit latency = false ∧
        ∀ j', j' < j → ∀ bus', buses[j']? = some bus' → bus'.testBit latency = true := by
  intro buses
  induction buses with
  | nil =>
    intro i
    exact Or.inl ⟨rfl, by simp⟩
  | cons bus rest ih =>
    intro i
    rw [test_res_bus_loop, if_neg (not_not.mpr hl)]
    by_cases hb : bus.testBit latency = false
    · rw [if_pos hb]
      exact Or.inr ⟨0, bus, rfl, List.getElem?_cons_zero, hb,
        fun j' hj' => absurd hj' (Nat.not_lt_zero _)⟩
    · rw [if_neg hb]
      have hb' : bus.testBit latency = true := by simpa using hb
      rcases ih (i + 1) with ⟨h1, h2⟩ | ⟨j, bus2, h1, h2, h3, h4⟩
      · refine Or.inl ⟨h1, ?_⟩
        intro b hbm
        rcases List.mem_cons.mp hbm with rfl | hbm
        · exact hb'
        · exact h2 b hbm
      · refine Or.inr ⟨j + 1, bus2, ?_, by rw [List.getElem?_cons_succ]; exact h2, h3, ?_⟩
        · rw [h1]
          congr 2
          omega
        · intro j' hj' bus' hbus'
          cases j' with
          | zero =>
            simp only [List.getElem?_cons_zero, Option.some.injEq] at hbus'
            rw [← hbus']
            exact hb'
          | succ j' =>
            rw [List.getElem?_cons_succ] at hbus'
            exact h4 j' (by omega) bus' hbus'

theorem bus_inv_shift (t : Nat) (buses : List Nat) (issued : List bus_issue)
    (h : bus_inv t buses issued) : bus_inv (t + 1) (buses.map fun bus => bus >>> 1) issued := by
  obtain ⟨h1, h2, h3⟩ := h
  refine ⟨by simpa using h1, ?_, h3⟩
  intro r hr ht
  obtain ⟨bus, hb1, hb2⟩ := h2 r hr (by omega)
  refine ⟨bus >>> 1, by rw [List.getElem?_map, hb1]; rfl, ?_⟩
  rw [Nat.testBit_shiftRight, ← hb2]
  congr 1
  omega

theorem execute_unit_inv (L c : Nat) (buses buses' : List Nat) (o : fu_offer)
    (log iss : List bus_issue) (h : execute_unit L c buses o = .ok (buses', iss))
    (hi : bus_inv (c + 1) buses log) : bus_inv (c + 1) buses' (log ++ iss) := by
  unfold execute_unit at h
  have hsame : bus_inv (c + 1) buses (log ++ []) := by rw [List.append_nil]; exact hi
  split at h
  · split at h
    · split at h
      · cases h
      · next resbus hres =>
        split at h
        · next hne =>
          split at h
          · cases h
          · next hlat =>
            have hlat' : o.latency < L := not_not.mp hlat
            split at h
            · cases h
            · next bus hbus =>
              cases h
              obtain ⟨h1, h2, h3⟩ := hi
              have hidx : resbus.toNat < buses.length := by
                rcases Nat.lt_or_ge resbus.toNat buses.length with h' | h'
                · exact h'
                · rw [List.getElem?_eq_none h'] at hbus
                  cases hbus
              have hclear : bus.testBit o.latency = false := by
                unfold test_res_bus at hres
                rcases test_res_bus_loop_spec L o.latency hlat' buses 0 with
                  ⟨h5, _⟩ | ⟨j, bus2, h5, h6, h7, _⟩
                · rw [h5] at hres
                  cases hres
                  exact absurd rfl hne
                · rw [h5] at hres
                  cases hres
                  simp only [Nat.zero_add, Int.toNat_ofNat] at hbus
                  rw [h6] at hbus
                  cases hbus
                  exact h7
              refine ⟨?_, ?_, ?_⟩
              · intro r hr
                rw [List.length_set]
                rcases List.mem_append.mp hr with hr | hr
                · exact h1 r hr
                · rw [List.mem_singleton] at hr
                  rw [hr]
                  exact hidx
              · intro r hr ht
                rcases List.mem_append.mp hr with hr | hr
                · obtain ⟨b, hb1, hb2⟩ := h2 r hr ht
                  by_cases hrb : r.bus = resbus.toNat
                  · refine ⟨bs_set bus o.latency, by
                      rw [hrb, List.getElem?_set_self hidx], ?_⟩
                    rw [hrb, hbus] at hb1
                    cases hb1
                    unfold bs_set
                    rw [Nat.testBit_or, hb2, Bool.true_or]
                  · exact ⟨b, by rw [List.getElem?_set_ne (fun h => hrb h.symm)]; exact hb1, hb2⟩
                · rw [List.mem_singleton] at hr
                  rw [hr]
                  refine ⟨bs_set bus o.latency, List.getElem?_set_self hidx, ?_⟩
                  unfold bs_set
                  have : c + o.latency + 1 - (c + 1) = o.latency := by omega
                  simp only [this]
                  rw [Nat.testBit_or, Nat.testBit_two_pow_self, Bool.or_true]
              · rw [List.map_append, List.nodup_append]
                refine ⟨h3, by simp, ?_⟩
                intro key hk1 hk2
                simp only [List.map_cons, List.map_nil, List.mem_singleton] at hk2
                obtain ⟨r, hr, hkey⟩ := List.mem_map.mp hk1
                rw [hk2] at hkey
                simp only [Prod.mk.injEq] at hkey
                obtain ⟨b, hb1, hb2⟩ := h2 r hr (by omega)
                rw [hkey.2, hbus] at hb1
                cases hb1
                have : r.cycle + r.latency + 1 - (c + 1) = o.latency := by omega
                rw [this, hclear] at hb2
                cases hb2
        · cases h
          exact hsame
    · cases h
      exact hsame
  · cases h
    exact hsame

theorem execute_unit_length (L c : Nat) (buses buses' : List Nat) (o : fu_offer)
    (iss : List bus_issue) (h : execute_unit L c buses o = .ok (buses', iss)) :
    buses'.length = buses.length := by
  unfold execute_unit at h
  split at h
  · split at h
    · split at h
      · cases h
      · split at h
        · split at h
          · cases h
          · split at h
            · cases h
            · cases h
              exact List.length_set _ _ _
        · cases h
          rfl
    · cases h
      rfl
  · cases h
    rfl

theorem execute_units_inv (L c : Nat) :
    ∀ (offers : List fu_offer) (buses buses' : List Nat) (log iss : List bus_issue),
      execute_units L c offers buses = .ok (buses', iss) → bus_inv (c + 1) buses log →
      bus_inv (c + 1) buses' (log ++ iss) ∧ buses'.length = buses.length := by
  intro offers
  induction offers with
  | nil =>
    intro buses buses' log iss h hi
    unfold execute_units at h
    cases h
    rw [List.append_nil]
    exact ⟨hi, rfl⟩
  | cons o rest ih =>
    intro buses buses' log iss h hi
    rw [execute_units] at h
    split at h
    · cases h
    · next b1 iss1 h1 =>
      split at h
      · cases h
      · next b2 more h2 =>
        cases h
        have hi1 := execute_unit_inv L c buses b1 o log iss1 h1 hi
        obtain ⟨hi2, hl2⟩ := ih b1 _ (log ++ iss1) more h2 hi1
        rw [List.append_assoc] at hi2
        exact ⟨hi2, hl2.trans (execute_unit_length L c buses b1 o iss1 h1)⟩

theorem execute_run_inv (L : Nat) :
    ∀ (schedule : List (List fu_offer)) (c : Nat) (buses buses' : List Nat)
      (log iss : List bus_issue),
      execute_run L schedule c buses = .ok (buses', iss) → bus_inv c buses log →
      bus_inv (c + schedule.length) buses' (log ++ iss) ∧ buses'.length = buses.length := by
  intro schedule
  induction schedule with
  | nil =>
    intro c buses buses' log iss h hi
    unfold execute_run at h
    cases h
    rw [List.append_nil]
    exact ⟨hi, rfl⟩
  | cons offers rest ih =>
    intro c buses buses' log iss h hi
    rw [execute_run] at h
    split at h
    · cases h
    · next b1 iss1 h1 =>
      split at h
      · cases h
      · next b2 more h2 =>
        cases h
        unfold execute at h1
        obtain ⟨hi1, hl1⟩ := execute_units_inv L c offers _ b1 log iss1 h1
          (bus_inv_shift c buses log hi)
        obtain ⟨hi2, hl2⟩ := ih (c + 1) b1 _ (log ++ iss1) more h2 hi1
        rw [List.append_assoc] at hi2
        rw [List.length_cons, show c + (rest.length + 1) = c + 1 + rest.length by omega]
        exact ⟨hi2, by rw [hl2, hl1, List.length_map]⟩

theorem length_le_of_nodup_lt (l : List Nat) (n : Nat) (hnd : l.Nodup) (hlt : ∀ x ∈ l, x < n) :
    l.length ≤ n := by
  have hsub : l ⊆ List.range n := fun x hx => List.mem_range.mpr (hlt x hx)
  have := (List.subperm_of_subset hnd hsub).length_le
  rwa [List.length_range] at this

theorem bus_inv_count (t : Nat) (buses : List Nat) (issued : List bus_issue)
    (h : bus_inv t buses issued) (T : Nat) :
    (issued.filter fun r => r.cycle + r.latency = T).length ≤ buses.length := by
  obtain ⟨h1, _, h3⟩ := h
  have hsub : (issued.filter fun r => r.cycle + r.latency = T).Sublist issued :=
    List.filter_sublist _
  have hnd : ((issued.filter fun r => r.cycle + r.latency = T).map
      fun r => (r.cycle + r.latency, r.bus)).Nodup := h3.sublist (hsub.map _)
  have hmap : ((issued.filter fun r => r.cycle + r.latency = T).map
      fun r => (r.cycle + r.latency, r.bus)) =
      ((issued.filter fun r => r.cycle + r.latency = T).map fun r => r.bus).map
        fun b => (T, b) := by
    rw [List.map_map]
    apply List.map_congr_left
    intro r hr
    have := (List.mem_filter.mp hr).2
    simp only [decide_eq_true_eq] at this
    simp [this]
  rw [hmap] at hnd
  have hnd2 := hnd.of_map
  have := length_le_of_nodup_lt _ buses.length hnd2 (by
    intro x hx
    obtain ⟨r, hr, rfl⟩ := List.mem_map.mp hx
    exact h1 r (hsub.subset hr))
  rwa [List.length_map] at this

theorem execute_unit_total (L c : Nat) (buses : List Nat) (o : fu_offer) (hl : o.latency < L) :
    ∃ r, execute_unit L c buses o = .ok r := by
  unfold execute_unit
  split
  · split
    · unfold test_res_bus
      rcases test_res_bus_loop_spec L o.latency hl buses 0 with ⟨h5, _⟩ | ⟨j, bus, h5, h6, _, _⟩
      · rw [h5]
        exact ⟨_, rfl⟩
      · rw [h5]
        simp only [Nat.zero_add, Int.toNat_ofNat, h6]
        exact ⟨_, rfl⟩
    · exact ⟨_, rfl⟩
  · exact ⟨_, rfl⟩

theorem execute_units_total (L c : Nat) :
    ∀ (offers : List fu_offer) (buses : List Nat), (∀ o ∈ offers, o.latency < L) →
      ∃ r, execute_units L c offers buses = .ok r := by
  intro offers
  induction offers with
  | nil => intro buses _; exact ⟨_, rfl⟩
  | cons o rest ih =>
    intro buses hl
    obtain ⟨⟨b1, iss1⟩, h1⟩ := execute_unit_total L c buses o (hl o (List.mem_cons_self _ _))
    obtain ⟨⟨b2, more⟩, h2⟩ := ih b1 fun o' ho' => hl o' (List.mem_cons_of_mem _ ho')
    rw [execute_units, h1]
    simp only
    rw [h2]
    exact ⟨_, rfl⟩

theorem execute_run_total (L : Nat) :
    ∀ (schedule : List (List fu_offer)) (c : Nat) (buses : List Nat),
      (∀ offers ∈ schedule, ∀ o ∈ offers, o.latency < L) →
      ∃ r, execute_run L schedule c buses = .ok r := by
  intro schedule
  induction schedule with
  | nil => intro c buses _; exact ⟨_, rfl⟩
  | cons offers rest ih =>
    intro c buses hl
    obtain ⟨⟨b1, iss1⟩, h1⟩ := execute_units_total L c offers (buses.map fun bus => bus >>> 1)
      (hl offers (List.mem_cons_self _ _))
    obtain ⟨⟨b2, more⟩, h2⟩ := ih (c + 1) b1 fun o' ho' => hl o' (List.mem_cons_of_mem _ ho')
    rw [execute_run]
    unfold execute
    rw [h1]
    simp only
    rw [h2]
    exact ⟨_, rfl⟩

/-- C25: starting from empty result buses and calling `execute` once per cycle, for
every cycle `T` the instructions issued into units that cannot stall and whose cycle
of issue plus latency is `T` are at most `num_result_bus` many; the calls return when
every offered latency is below `MAX_ALU_LATENCY`.  For such a latency,
`test_res_bus` returns the lowest index of a bus whose bit at the latency is clear,
and -1 when every bus has it set. -/
theorem result_bus_invariant (L n : Nat) (schedule : List (List fu_offer)) :
    (∀ buses' issued, execute_run L schedule 0 (List.replicate n 0) = .ok (buses', issued) →
      ∀ T, (issued.filter fun r => r.cycle + r.latency = T).length ≤ n) ∧
    ((∀ offers ∈ schedule, ∀ o ∈ offers, o.latency < L) →
      ∃ r, execute_run L schedule 0 (List.replicate n 0) = .ok r) ∧
    ∀ (buses : List Nat) (latency : Nat), latency < L →
      (test_res_bus L buses latency = .ok (-1) ∧
        ∀ bus ∈ buses, bus.testBit latency = true) ∨
      ∃ j bus, test_res_bus L buses latency = .ok ((j : Nat) : Int) ∧
        buses[j]? = some bus ∧ bus.testBit latency = false ∧
        ∀ j', j' < j → ∀ bus', buses[j']? = some bus' → bus'.testBit latency = true := by
  refine ⟨?_, execute_run_total L schedule 0 _, ?_⟩
  · intro buses' issued h T
    have hinit : bus_inv 0 (List.replicate n 0) [] :=
      ⟨by simp, by simp, by simp⟩
    obtain ⟨hi, hl⟩ := execute_run_inv L schedule 0 _ buses' [] issued h hinit
    rw [List.nil_append] at hi
    have := bus_inv_count _ buses' issued hi T
    rwa [hl, List.length_replicate] at this
  · intro buses latency hl
    unfold test_res_bus
    rcases test_res_bus_loop_spec L latency hl buses 0 with h | ⟨j, bus, h1, h2⟩
    · exact Or.inl h
    · rw [Nat.zero_add] at h1
      exact Or.inr ⟨j, bus, h1, h2⟩

/-- Witness for `result_bus_invariant`: two buses and three units that offer an
instruction of latency 3 in cycle 0; two of them issue, on the buses 0 and 1. -/
theorem result_bus_invariant_witness :
    execute_run 8 [[⟨true, false, 3⟩, ⟨true, false, 3⟩, ⟨true, false, 3⟩]] 0 [0, 0] =
        .ok ([8, 8], [⟨0, 3, 0⟩, ⟨0, 3, 1⟩]) ∧
      (([⟨0, 3, 0⟩, ⟨0, 3, 1⟩] : List bus_issue).filter
        fun r => r.cycle + r.latency = 3).length ≤ 2 ∧
      test_res_bus 8 [8, 8] 3 = .ok (-1) ∧ test_res_bus 8 [8, 0] 3 = .ok 1 :=
  ⟨by decide,
    (result_bus_invariant 8 2 [[⟨true, false, 3⟩, ⟨true, false, 3⟩, ⟨true, false, 3⟩]]).1
      [8, 8] [⟨0, 3, 0⟩, ⟨0, 3, 1⟩] (by decide) 3,
    by decide, by decide⟩

/-! ## Operand collector: allocation of collector units -/

theorem uniq_step_eq (uniq : List (Nat × Nat)) (cu : collector_unit_t) :
    uniq_step uniq cu =
      match held_pair cu with
      | some p => if p ∈ uniq then uniq else uniq ++ [p]
      | none => uniq := by
  unfold uniq_step held_pair
  by_cases hf : cu.m_free = false
  · rw [if_pos hf, if_pos hf]
    cases cu.m_warp <;> rfl
  · rw [if_neg hf, if_neg hf]

theorem uniq_fold_spec (l : List collector_unit_t) :
    ∀ acc : List (Nat × Nat), acc.Nodup →
      (l.foldl uniq_step acc).Nodup ∧
      ∀ p, p ∈ l.foldl uniq_step acc ↔ p ∈ acc ∨ ∃ cu ∈ l, held_pair cu = some p := by
  induction l with
  | nil =>
    intro acc hnd
    exact ⟨hnd, fun p => by simp⟩
  | cons cu rest ih =>
    intro acc hnd
    rw [List.foldl_cons, uniq_step_eq]
    cases hp : held_pair cu with
    | none =>
      simp only
      obtain ⟨h1, h2⟩ := ih acc hnd
      refine ⟨h1, fun p => ?_⟩
      rw [h2 p]
      constructor
      · rintro (h | ⟨c, hc, hcp⟩)
        · exact Or.inl h
        · exact Or.inr ⟨c, List.mem_cons_of_mem _ hc, hcp⟩
      · rintro (h | ⟨c, hc, hcp⟩)
        · exact Or.inl h
        · rcases List.mem_cons.mp hc with rfl | hc
          · rw [hp] at hcp
            cases hcp
          · exact Or.inr ⟨c, hc, hcp⟩
    | some q =>
      simp only
      by_cases hq : q ∈ acc
      · rw [if_pos hq]
        obtain ⟨h1, h2⟩ := ih acc hnd
        refine ⟨h1, fun p => ?_⟩
        rw [h2 p]
        constructor
        · rintro (h | ⟨c, hc, hcp⟩)
          · exact Or.inl h
          · exact Or.inr ⟨c, List.mem_cons_of_mem _ hc, hcp⟩
        · rintro (h | ⟨c, hc, hcp⟩)
          · exact Or.inl h
          · rcases List.mem_cons.mp hc with rfl | hc
            · rw [hp] at hcp
              cases hcp
              exact Or.inl hq
            · exact Or.inr ⟨c, hc, hcp⟩
      · rw [if_neg hq]
        obtain ⟨h1, h2⟩ := ih (acc ++ [q]) (by
          rw [List.nodup_append]
          refine ⟨hnd, by simp, ?_⟩
          intro a ha hb
          rw [List.mem_singleton] at hb
          exact hq (hb ▸ ha))
        refine ⟨h1, fun p => ?_⟩
        rw [h2 p, List.mem_append, List.mem_singleton]
        constructor
        · rintro ((h | h) | ⟨c, hc, hcp⟩)
          · exact Or.inl h
          · exact Or.inr ⟨cu, List.mem_cons_self _ _, by rw [hp, h]⟩
          · exact Or.inr ⟨c, List.mem_cons_of_mem _ hc, hcp⟩
        · rintro (h | ⟨c, hc, hcp⟩)
          · exact Or.inl (Or.inl h)
          · rcases List.mem_cons.mp hc with rfl | hc
            · rw [hp] at hcp
              cases hcp
              exact Or.inl (Or.inr rfl)
            · exact Or.inr ⟨c, hc, hcp⟩

theorem uniq_warp_cycles_spec (l : List collector_unit_t) :
    (uniq_warp_cycles l).Nodup ∧
      ∀ p, p ∈ uniq_warp_cycles l ↔ ∃ cu ∈ l, held_pair cu = some p := by
  obtain ⟨h1, h2⟩ := uniq_fold_spec l [] List.nodup_nil
  refine ⟨h1, fun p => ?_⟩
  unfold uniq_warp_cycles
  rw [h2 p]
  simp

theorem allocate_held (get_ready : List (Option oc_inst) → Option Nat) (cu cu' : collector_unit_t)
    (regs regs' : List (Option oc_inst)) (rout k : Nat) (inst : oc_inst) (b : Bool)
    (hget : get_ready regs = some k) (hk : regs[k]? = some (some inst))
    (h : cu.allocate get_ready regs rout = .ok (cu', regs', b)) :
    held_pair cu' = some (inst.m_warp_id, inst.issue_cycle) ∧ regs' = regs.set k none ∧
      b = true := by
  unfold collector_unit_t.allocate at h
  split at h
  · cases h
  · split at h
    · cases h
    · simp only [hget, hk] at h
      cases h
      exact ⟨rfl, rfl, rfl⟩

theorem allocate_free_unit_mem {α : Type} (get_ready : List (Option oc_inst) → Option Nat)
    (add_read_requests : α → collector_unit_t → α) (regs : List (Option oc_inst))
    (rout : Option Nat) (k : Nat) (inst : oc_inst)
    (hget : get_ready regs = some k) (hk : regs[k]? = some (some inst)) :
    ∀ (arbiter : α) (l l' : List collector_unit_t) (regs' : List (Option oc_inst))
      (arbiter' : α) (b : Bool),
      allocate_free_unit get_ready add_read_requests regs rout arbiter l =
        .ok (l', regs', arbiter', b) →
      ∀ x ∈ l', x ∈ l ∨ held_pair x = some (inst.m_warp_id, inst.issue_cycle) := by
  intro arbiter l
  induction l with
  | nil =>
    intro l' regs' arbiter' b h
    unfold allocate_free_unit at h
    cases h
    simp
  | cons cu rest ih =>
    intro l' regs' arbiter' b h x hx
    unfold allocate_free_unit at h
    split at h
    · split at h
      · cases h
      · next ro =>
        split at h
        · cases h
        · next cu' r' b' hal =>
          cases h
          rcases List.mem_cons.mp hx with rfl | hx
          · exact Or.inr (allocate_held get_ready cu _ regs _ ro k inst _ hget hk hal).1
          · exact Or.inl (List.mem_cons_of_mem _ hx)
    · split at h
      · cases h
      · next rest' r' a' b' hrec =>
        cases h
        rcases List.mem_cons.mp hx with rfl | hx
        · exact Or.inl (List.mem_cons_self _ _)
        · rcases ih _ _ _ _ hrec x hx with h' | h'
          · exact Or.inl (List.mem_cons_of_mem _ h')
          · exact Or.inr h'

theorem length_le_of_nodup_subset {T : Type} [DecidableEq T] (l m : List T) (hnd : l.Nodup)
    (hsub : l ⊆ m) : l.length ≤ m.length :=
  (List.subperm_of_subset hnd hsub).length_le

theorem allocate_free_unit_busy {α : Type} (get_ready : List (Option oc_inst) → Option Nat)
    (add_read_requests : α → collector_unit_t → α) (regs : List (Option oc_inst))
    (rout : Option Nat) (arbiter : α) :
    ∀ l : List collector_unit_t, (∀ cu ∈ l, cu.m_free = false) →
      allocate_free_unit get_ready add_read_requests regs rout arbiter l =
        .ok (l, regs, arbiter, false) := by
  intro l
  induction l with
  | nil => intro _; rfl
  | cons cu rest ih =>
    intro h
    unfold allocate_free_unit
    rw [if_neg (by rw [h cu (List.mem_cons_self _ _)]; simp),
      ih fun c hc => h c (List.mem_cons_of_mem _ hc)]

/-- C26: in `allocate_cu`, for an input register set of the port whose ready
instruction has the pair `(warp_id, issue_cycle)`: if the set of collector units tried
for the port holds `max_uniq_warps` distinct pairs and the pair of the instruction is
not one of them, the operand collector is left as it is, so no unit is allocated and
the instruction stays in its register set; and whenever the body returns, the set
holds at most `max_uniq_warps` distinct pairs afterwards. -/
theorem allocate_cu_cap {α : Type} (cfg : oc_config)
    (get_ready : List (Option oc_inst) → Option Nat)
    (add_read_requests : α → collector_unit_t → α) (inp : input_port_t)
    (s : opndcoll_rfu_t α) (i rin k max : Nat) (set_id : cu_set_id) (rest : List cu_set_id)
    (inst : oc_inst)
    (hin : inp.m_in[i]? = some rin) (hsets : inp.m_cu_sets = set_id :: rest)
    (hready : has_ready (s.m_pipeline_reg rin) = true)
    (hmax : max_uniq_warps cfg set_id = .ok max)
    (hget : get_ready (s.m_pipeline_reg rin) = some k)
    (hk : (s.m_pipeline_reg rin)[k]? = some (some inst)) :
    ((uniq_warp_cycles (s.m_cus set_id)).length = max →
      (inst.m_warp_id, inst.issue_cycle) ∉ uniq_warp_cycles (s.m_cus set_id) →
      allocate_cu_stage cfg get_ready add_read_requests inp s i = .ok s) ∧
    ∀ s', allocate_cu_stage cfg get_ready add_read_requests inp s i = .ok s' →
      (uniq_warp_cycles (s'.m_cus set_id)).length ≤ max := by
  have hstage : allocate_cu_stage cfg get_ready add_read_requests inp s i =
      allocate_cu_sets cfg get_ready add_read_requests rin inp.m_out[i]? s (set_id :: rest) := by
    unfold allocate_cu_stage
    rw [hin]
    simp only
    rw [if_pos hready, hsets]
  rw [hstage]
  unfold allocate_cu_sets
  simp only
  rw [hmax]
  simp only
  constructor
  · intro hlen hnot
    rw [if_neg (by omega)]
    unfold allow_exec
    rw [if_neg (by omega), if_pos hlen, hget]
    simp only [hk]
    rw [decide_eq_false hnot]
  · intro s' h
    split at h
    · cases h
    · next hle =>
      have hle' : (uniq_warp_cycles (s.m_cus set_id)).length ≤ max := not_not.mp hle
      split at h
      · cases h
      · cases h
        exact hle'
      · next hallow =>
        split at h
        · cases h
        · next cu_set regs arbiter b hfree =>
          cases h
          simp only [Function.update_same]
          have hmem := allocate_free_unit_mem get_ready add_read_requests _ _ k inst hget hk
            _ _ _ _ _ _ hfree
          obtain ⟨hnd', hspec'⟩ := uniq_warp_cycles_spec cu_set
          obtain ⟨_, hspec⟩ := uniq_warp_cycles_spec (s.m_cus set_id)
          have hsub : uniq_warp_cycles cu_set ⊆
              (inst.m_warp_id, inst.issue_cycle) :: uniq_warp_cycles (s.m_cus set_id) := by
            intro p hp
            obtain ⟨x, hx, hxp⟩ := (hspec' p).mp hp
            rcases hmem x hx with h1 | h1
            · exact List.mem_cons_of_mem _ ((hspec p).mpr ⟨x, h1, hxp⟩)
            · rw [h1] at hxp
              cases hxp
              exact List.mem_cons_self _ _
          unfold allow_exec at hallow
          split at hallow
          · next hlt =>
            have := length_le_of_nodup_subset _ _ hnd' hsub
            rw [List.length_cons] at this
            omega
          · split at hallow
            · next heq =>
              rw [hget] at hallow
              simp only [hk, Except.ok.injEq, decide_eq_true_eq] at hallow
              have hsub2 : uniq_warp_cycles cu_set ⊆ uniq_warp_cycles (s.m_cus set_id) := by
                intro p hp
                rcases List.mem_cons.mp (hsub hp) with rfl | h1
                · exact hallow
                · exact h1
              have := length_le_of_nodup_subset _ _ hnd' hsub2
              omega
            · cases hallow

/-- Witness for `allocate_cu_cap`: a cap of two pairs; two units hold the warps 1 and
2, two units are free, and the ready instruction of warp 3 is not bound. -/
theorem allocate_cu_cap_witness :
    allocate_cu_stage example_oc_config example_get_ready (fun a _ => a) ⟨[0], [3], [.SP_CUS, .GEN_CUS]⟩
        (example_collector [some ⟨1, 10, [], [], 1⟩, some ⟨2, 10, [], [], 1⟩, none, none]
          ⟨3, 11, [], [], 1⟩) 0 =
      .ok (example_collector [some ⟨1, 10, [], [], 1⟩, some ⟨2, 10, [], [], 1⟩, none, none]
          ⟨3, 11, [], [], 1⟩) :=
  (allocate_cu_cap example_oc_config example_get_ready (fun a _ => a)
    ⟨[0], [3], [.SP_CUS, .GEN_CUS]⟩
    (example_collector [some ⟨1, 10, [], [], 1⟩, some ⟨2, 10, [], [], 1⟩, none, none]
      ⟨3, 11, [], [], 1⟩) 0 0 0 2 .SP_CUS [.GEN_CUS] ⟨3, 11, [], [], 1⟩
    rfl rfl (by decide) (by decide) (by decide) (by decide)).1 (by decide) (by decide)

/-- C27: `allocate_cu` does not bind a ready instruction when the first set listed for
the port has no free unit, whatever the other sets listed for the port hold: the loop
over the sets is left after its first iteration, so a free unit of a later set, such
as the general-purpose set, is never taken. -/
theorem allocate_cu_first_set_only {α : Type} (cfg : oc_config)
    (get_ready : List (Option oc_inst) → Option Nat)
    (add_read_requests : α → collector_unit_t → α) (inp : input_port_t)
    (s : opndcoll_rfu_t α) (i rin k max : Nat) (set_id : cu_set_id) (rest : List cu_set_id)
    (inst : oc_inst)
    (hin : inp.m_in[i]? = some rin) (hsets : inp.m_cu_sets = set_id :: rest)
    (hmax : max_uniq_warps cfg set_id = .ok max)
    (hcap : (uniq_warp_cycles (s.m_cus set_id)).length ≤ max)
    (hbusy : ∀ cu ∈ s.m_cus set_id, cu.m_free = false)
    (hget : get_ready (s.m_pipeline_reg rin) = some k)
    (hk : (s.m_pipeline_reg rin)[k]? = some (some inst)) :
    allocate_cu_stage cfg get_ready add_read_requests inp s i = .ok s := by
  unfold allocate_cu_stage
  rw [hin]
  simp only
  split
  · rw [hsets]
    unfold allocate_cu_sets
    simp only
    rw [hmax]
    simp only
    rw [if_neg (not_not.mpr hcap),
      allocate_free_unit_busy get_ready add_read_requests _ _ _ _ hbusy]
    simp only [Function.update_eq_self]
    have hallow : ∃ b, allow_exec get_ready (uniq_warp_cycles (s.m_cus set_id)) max
        (s.m_pipeline_reg rin) = .ok b := by
      unfold allow_exec
      split
      · exact ⟨_, rfl⟩
      · rw [if_pos (by omega), hget]
        simp only [hk]
        exact ⟨_, rfl⟩
    obtain ⟨b, hb⟩ := hallow
    rw [hb]
    cases b <;> rfl
  · rfl

/-- Witness for `allocate_cu_first_set_only`: the four units of `SP_CUS` hold fragments
of the warps 1 and 2, both units of `GEN_CUS` are free and hold no pair, the cap of
`GEN_CUS` is 1, and the ready instruction of warp 3 at the port with the sets `SP_CUS`
and `GEN_CUS` is not bound. -/
theorem allocate_cu_first_set_only_witness :
    (∃ cu ∈ (example_collector [some ⟨1, 10, [], [], 1⟩, some ⟨2, 10, [], [], 1⟩,
        some ⟨1, 10, [], [], 2⟩, some ⟨2, 10, [], [], 2⟩] ⟨3, 11, [], [], 1⟩).m_cus .GEN_CUS,
      cu.m_free = true) ∧
    uniq_warp_cycles ((example_collector [some ⟨1, 10, [], [], 1⟩, some ⟨2, 10, [], [], 1⟩,
        some ⟨1, 10, [], [], 2⟩, some ⟨2, 10, [], [], 2⟩] ⟨3, 11, [], [], 1⟩).m_cus .GEN_CUS)
      = [] ∧
    max_uniq_warps example_oc_config .GEN_CUS = .ok 1 ∧
    allocate_cu_stage example_oc_config example_get_ready (fun a _ => a)
        ⟨[0], [3], [.SP_CUS, .GEN_CUS]⟩
        (example_collector [some ⟨1, 10, [], [], 1⟩, some ⟨2, 10, [], [], 1⟩,
          some ⟨1, 10, [], [], 2⟩, some ⟨2, 10, [], [], 2⟩] ⟨3, 11, [], [], 1⟩) 0 =
      .ok (example_collector [some ⟨1, 10, [], [], 1⟩, some ⟨2, 10, [], [], 1⟩,
          some ⟨1, 10, [], [], 2⟩, some ⟨2, 10, [], [], 2⟩] ⟨3, 11, [], [], 1⟩) :=
  ⟨by decide, by decide, by decide,
    allocate_cu_first_set_only example_oc_config example_get_ready (fun a _ => a)
      ⟨[0], [3], [.SP_CUS, .GEN_CUS]⟩
      (example_collector [some ⟨1, 10, [], [], 1⟩, some ⟨2, 10, [], [], 1⟩,
        some ⟨1, 10, [], [], 2⟩, some ⟨2, 10, [], [], 2⟩] ⟨3, 11, [], [], 1⟩)
      0 0 0 2 .SP_CUS [.GEN_CUS] ⟨3, 11, [], [], 1⟩
      rfl rfl (by decide) (by decide) (by decide) (by decide) (by decide)⟩

/-! ## Operand collector: writeback -/

theorem writeback_banks_spec (nb shift wid : Nat) :
    ∀ (regs banks : List Nat) (a : arbiter_t),
      List.Forall₂ (fun (reg bank : Nat) => register_bank (reg : Int) (wid : Int) nb shift =
        .ok (bank : Int)) regs banks →
      (∀ bank ∈ banks, bank < a.m_num_banks) → a.m_num_banks ≤ 4294967296 →
      ∃ b a', writeback_banks nb shift wid a regs = .ok (b, a') ∧
        (b = true ↔ (∀ bank ∈ banks, a.m_allocated_bank bank = .NO_ALLOC) ∧ banks.Nodup) ∧
        (b = true → ∀ x, a'.m_allocated_bank x =
          if x ∈ banks then .WRITE_ALLOC else a.m_allocated_bank x) ∧
        ∀ x, a'.m_allocated_bank x = a.m_allocated_bank x ∨
          (x ∈ banks ∧ a.m_allocated_bank x = .NO_ALLOC ∧
            a'.m_allocated_bank x = .WRITE_ALLOC) := by
  intro regs banks a h
  induction h generalizing a with
  | nil =>
    intro _ _
    exact ⟨true, a, rfl, by simp, by simp, fun x => Or.inl rfl⟩
  | @cons reg bank regs banks hrb _ ih =>
    intro hlt hnb
    have hb : bank < a.m_num_banks := hlt bank (List.mem_cons_self _ _)
    have hconv : Int.toNat (((bank : Nat) : Int) % 4294967296) = bank := by
      rw [Int.emod_eq_of_lt (by omega) (by omega)]
      exact Int.toNat_natCast _
    rw [writeback_banks, hrb]
    simp only [hconv]
    by_cases hidle : a.m_allocated_bank bank = .NO_ALLOC
    · have hidle' : a.bank_idle bank = true := by
        unfold arbiter_t.bank_idle
        exact decide_eq_true hidle
      rw [if_pos hidle']
      unfold arbiter_t.allocate_bank_for_write
      rw [if_neg (not_not.mpr hb), if_neg (not_not.mpr hidle)]
      simp only
      obtain ⟨b, a', hrun, hiff, htrue, hany⟩ := ih
        { a with m_allocated_bank := Function.update a.m_allocated_bank bank .WRITE_ALLOC }
        (fun x hx => hlt x (List.mem_cons_of_mem _ hx)) hnb
      refine ⟨b, a', hrun, ?_, ?_, ?_⟩
      · rw [hiff]
        simp only
        constructor
        · rintro ⟨h1, h2⟩
          have hnot : bank ∉ banks := by
            intro hmem
            have := h1 bank hmem
            rw [Function.update_same] at this
            cases this
          refine ⟨?_, List.nodup_cons.mpr ⟨hnot, h2⟩⟩
          intro x hx
          rcases List.mem_cons.mp hx with rfl | hx
          · exact hidle
          · have := h1 x hx
            rwa [Function.update_noteq (fun h : x = bank => hnot (by rw [← h]; exact hx))] at this
        · rintro ⟨h1, h2⟩
          obtain ⟨hnot, hnd⟩ := List.nodup_cons.mp h2
          refine ⟨?_, hnd⟩
          intro x hx
          rw [Function.update_noteq (fun h : x = bank => hnot (by rw [← h]; exact hx))]
          exact h1 x (List.mem_cons_of_mem _ hx)
      · intro hb' x
        rw [htrue hb' x]
        simp only
        by_cases hx : x ∈ banks
        · rw [if_pos hx, if_pos (List.mem_cons_of_mem _ hx)]
        · rw [if_neg hx]
          by_cases hxb : x = bank
          · rw [hxb, Function.update_same, if_pos (List.mem_cons_self _ _)]
          · rw [Function.update_noteq hxb, if_neg (by simp [hx, hxb])]
      · intro x
        rcases hany x with h1 | ⟨h1, h2, h3⟩
        · simp only at h1
          by_cases hxb : x = bank
          · rw [hxb, Function.update_same] at h1
            rw [hxb]
            exact Or.inr ⟨List.mem_cons_self _ _, hidle, h1⟩
          · rw [Function.update_noteq hxb] at h1
            exact Or.inl h1
        · simp only at h2
          by_cases hxb : x = bank
          · rw [hxb, Function.update_same] at h2
            cases h2
          · rw [Function.update_noteq hxb] at h2
            exact Or.inr ⟨List.mem_cons_of_mem _ h1, h2, h3⟩
    · have hidle' : ¬ a.bank_idle bank = true := by
        unfold arbiter_t.bank_idle
        simpa using hidle
      rw [if_neg hidle']
      refine ⟨false, a, rfl, ?_, by simp, fun x => Or.inl rfl⟩
      constructor
      · intro h
        cases h
      · rintro ⟨h1, _⟩
        exact absurd (h1 bank (List.mem_cons_self _ _)) hidle

theorem writeback_banks_refused (nb shift wid : Nat) :
    ∀ (regs banks : List Nat) (a a' : arbiter_t),
      List.Forall₂ (fun (reg bank : Nat) => register_bank (reg : Int) (wid : Int) nb shift =
        .ok (bank : Int)) regs banks →
      (∀ bank ∈ banks, bank < a.m_num_banks) → a.m_num_banks ≤ 4294967296 →
      writeback_banks nb shift wid a regs = .ok (false, a') →
      ∃ pre bad post, banks = pre ++ bad :: post ∧ pre.Nodup ∧
        (∀ x ∈ pre, a.m_allocated_bank x = .NO_ALLOC) ∧
        (a.m_allocated_bank bad ≠ .NO_ALLOC ∨ bad ∈ pre) ∧
        ∀ x, a'.m_allocated_bank x =
          if x ∈ pre then .WRITE_ALLOC else a.m_allocated_bank x := by
  intro regs banks a a' h
  induction h generalizing a with
  | nil =>
    intro _ _ hrun
    unfold writeback_banks at hrun
    cases hrun
  | @cons reg bank regs banks hrb _ ih =>
    intro hlt hnb hrun
    have hb : bank < a.m_num_banks := hlt bank (List.mem_cons_self _ _)
    have hconv : Int.toNat (((bank : Nat) : Int) % 4294967296) = bank := by
      rw [Int.emod_eq_of_lt (by omega) (by omega)]
      exact Int.toNat_natCast _
    rw [writeback_banks, hrb] at hrun
    simp only [hconv] at hrun
    by_cases hidle : a.m_allocated_bank bank = .NO_ALLOC
    · have hidle' : a.bank_idle bank = true := by
        unfold arbiter_t.bank_idle
        exact decide_eq_true hidle
      rw [if_pos hidle'] at hrun
      unfold arbiter_t.allocate_bank_for_write at hrun
      rw [if_neg (not_not.mpr hb), if_neg (not_not.mpr hidle)] at hrun
      simp only at hrun
      obtain ⟨pre, bad, post, hsplit, hnd, hpre, hbad, hall⟩ := ih
        { a with m_allocated_bank := Function.update a.m_allocated_bank bank .WRITE_ALLOC }
        (fun x hx => hlt x (List.mem_cons_of_mem _ hx)) hnb hrun
      simp only at hpre hbad hall
      have hnot : bank ∉ pre := by
        intro hmem
        have := hpre bank hmem
        rw [Function.update_same] at this
        cases this
      refine ⟨bank :: pre, bad, post, by rw [hsplit]; rfl, List.nodup_cons.mpr ⟨hnot, hnd⟩,
        ?_, ?_, ?_⟩
      · intro x hx
        rcases List.mem_cons.mp hx with rfl | hx
        · exact hidle
        · have := hpre x hx
          rwa [Function.update_noteq (fun h : x = bank => hnot (by rw [← h]; exact hx))] at this
      · by_cases hbb : bad = bank
        · right
          rw [hbb]
          exact List.mem_cons_self _ _
        · rcases hbad with hbad | hbad
          · left
            rwa [Function.update_noteq hbb] at hbad
          · right
            exact List.mem_cons_of_mem _ hbad
      · intro x
        rw [hall x]
        by_cases hx : x ∈ pre
        · rw [if_pos hx, if_pos (List.mem_cons_of_mem _ hx)]
        · rw [if_neg hx]
          by_cases hxb : x = bank
          · rw [hxb, Function.update_same, if_pos (List.mem_cons_self _ _)]
          · rw [Function.update_noteq hxb, if_neg (by simp [hx, hxb])]
    · have hidle' : ¬ a.bank_idle bank = true := by
        unfold arbiter_t.bank_idle
        simpa using hidle
      rw [if_neg hidle'] at hrun
      simp only [Except.ok.injEq, Prod.mk.injEq, true_and] at hrun
      subst hrun
      exact ⟨[], bank, banks, rfl, List.nodup_nil, by simp, Or.inl hidle, fun x => by simp⟩

theorem group_active_total (W mask i : Nat) :
    ∀ (n j : Nat), i + j + n ≤ W → ∃ b, group_active W mask i n j = .ok b := by
  intro n
  induction n with
  | zero =>
    intro j _
    exact ⟨false, rfl⟩
  | succ n ih =>
    intro j h
    unfold group_active
    rw [if_neg (not_not.mpr (by omega))]
    by_cases hb : mask.testBit (i + j) = true
    · rw [if_pos hb]
      exact ⟨true, rfl⟩
    · rw [if_neg hb]
      exact ih (j + 1) (by omega)

theorem gating_loop_total (W mask : Nat) (cfg : regfile_config)
    (hrange : ∀ k, k * cfg.n_regfile_gating_group < cfg.warp_size →
      k * cfg.n_regfile_gating_group + cfg.n_regfile_gating_group ≤ W) :
    ∀ (fuel k active_count : Nat), cfg.warp_size ≤ (k + fuel) * cfg.n_regfile_gating_group →
      ∃ n, gating_loop W mask cfg fuel (k * cfg.n_regfile_gating_group) active_count =
        some (.ok n) := by
  intro fuel
  induction fuel with
  | zero =>
    intro k active_count h
    unfold gating_loop
    rw [Nat.add_zero] at h
    rw [if_neg (by omega)]
    exact ⟨_, rfl⟩
  | succ fuel ih =>
    intro k active_count h
    unfold gating_loop
    by_cases hlt : k * cfg.n_regfile_gating_group < cfg.warp_size
    · rw [if_pos hlt]
      obtain ⟨b, hb⟩ := group_active_total W mask (k * cfg.n_regfile_gating_group)
        cfg.n_regfile_gating_group 0 (by have := hrange k hlt; omega)
      rw [hb]
      simp only
      have hnext : k * cfg.n_regfile_gating_group + cfg.n_regfile_gating_group =
          (k + 1) * cfg.n_regfile_gating_group := by
        rw [Nat.add_mul, Nat.one_mul]
      rw [hnext]
      exact ih (k + 1) _ (by
        have : k + 1 + fuel = k + (fuel + 1) := by omega
        rw [this]
        exact h)
    · rw [if_neg hlt]
      exact ⟨_, rfl⟩

theorem regfile_writes_total (W mask : Nat) (cfg : regfile_config)
    (hgate : cfg.gpgpu_clock_gated_reg_file = true →
      0 < cfg.n_regfile_gating_group ∧
        ∀ k, k * cfg.n_regfile_gating_group < cfg.warp_size →
          k * cfg.n_regfile_gating_group + cfg.n_regfile_gating_group ≤ W) :
    ∃ n, regfile_writes W mask cfg = some (.ok n) := by
  unfold regfile_writes
  by_cases hc : cfg.gpgpu_clock_gated_reg_file = true
  · rw [if_pos hc]
    obtain ⟨hg, hrange⟩ := hgate hc
    have h := gating_loop_total W mask cfg hrange cfg.warp_size 0 0 (by
      rw [Nat.zero_add]
      exact Nat.le_mul_of_pos_right _ hg)
    rw [Nat.zero_mul] at h
    exact h
  · rw [if_neg hc]
    exact ⟨_, rfl⟩

/-- C28, counterexample: the destination registers 1 and 5 of an instruction of warp 0
both map to bank 1 of four banks; every bank is idle when `writeback` is called, and
the call returns false, because the first register has taken the bank when the second
one is examined.  After the call bank 1 is still allocated for a write, and the other
banks are idle as before. -/
theorem writeback_same_bank_refused :
    (∀ bank, example_idle_arbiter.m_allocated_bank bank = .NO_ALLOC) ∧
    register_bank 1 0 4 5 = .ok 1 ∧ register_bank 5 0 4 5 = .ok 1 ∧
    (opndcoll_writeback 32 ⟨false, 32, 4⟩ 4 5 example_idle_arbiter
      (some ⟨0, 10, [], [1, 5], 1⟩)).map (fun r => r.map fun p =>
        (p.1, p.2.1.m_allocated_bank 0, p.2.1.m_allocated_bank 1, p.2.1.m_allocated_bank 2,
          p.2.1.m_allocated_bank 3)) =
      some (.ok (false, .NO_ALLOC, .WRITE_ALLOC, .NO_ALLOC, .NO_ALLOC)) :=
  ⟨fun _ => rfl, by decide, by decide, by decide⟩

/-- C28, amended: take a non-empty instruction whose destination registers (the
entries of `arch_reg.dst` that are not negative) `register_bank` maps to the banks
`banks`, all of them banks of the arbiter, and a configuration in which the statistics
loop is well formed: with a clock-gated register file the gating group is not empty
and the lanes it tests are lanes of the active mask.  Then `writeback` returns.  It
returns true if and only if every one of these banks is idle when `writeback` is
called and no two destination registers map to the same bank, and then exactly these
banks have become allocated for a write.  When it returns false, `banks` splits into
the banks `pre` of the registers before the first refused one, the refused bank `bad`
and the rest: the banks in `pre` were idle and pairwise different, `bad` was not idle
or is one of `pre`, every bank in `pre` is allocated for a write after the call, and
every other bank has kept its allocation. -/
theorem writeback_contract (W : Nat) (cfg : regfile_config) (nb shift : Nat) (a : arbiter_t)
    (inst : oc_inst) (banks : List Nat)
    (hbanks : List.Forall₂ (fun (reg bank : Nat) =>
      register_bank (reg : Int) (inst.m_warp_id : Int) nb shift = .ok (bank : Int))
      (get_regs_written inst) banks)
    (hlt : ∀ bank ∈ banks, bank < a.m_num_banks) (hnb : a.m_num_banks ≤ 4294967296)
    (hgate : cfg.gpgpu_clock_gated_reg_file = true →
      0 < cfg.n_regfile_gating_group ∧
        ∀ k, k * cfg.n_regfile_gating_group < cfg.warp_size →
          k * cfg.n_regfile_gating_group + cfg.n_regfile_gating_group ≤ W) :
    ∃ b a' k, opndcoll_writeback W cfg nb shift a (some inst) = some (.ok (b, a', k)) ∧
      (b = true ↔ (∀ bank ∈ banks, a.m_allocated_bank bank = .NO_ALLOC) ∧ banks.Nodup) ∧
      (b = true → ∀ x, a'.m_allocated_bank x =
        if x ∈ banks then .WRITE_ALLOC else a.m_allocated_bank x) ∧
      (b = false → ∃ pre bad post, banks = pre ++ bad :: post ∧ pre.Nodup ∧
        (∀ x ∈ pre, a.m_allocated_bank x = .NO_ALLOC) ∧
        (a.m_allocated_bank bad ≠ .NO_ALLOC ∨ bad ∈ pre) ∧
        ∀ x, a'.m_allocated_bank x =
          if x ∈ pre then .WRITE_ALLOC else a.m_allocated_bank x) ∧
      ∀ x, a'.m_allocated_bank x = a.m_allocated_bank x ∨
        (x ∈ banks ∧ a.m_allocated_bank x = .NO_ALLOC ∧
          a'.m_allocated_bank x = .WRITE_ALLOC) := by
  obtain ⟨b, a', hrun, hiff, htrue, hany⟩ :=
    writeback_banks_spec nb shift inst.m_warp_id _ banks a hbanks hlt hnb
  obtain ⟨n, hstat⟩ := regfile_writes_total W inst.active_mask cfg hgate
  unfold opndcoll_writeback
  simp only
  rw [hrun]
  cases b with
  | false =>
    exact ⟨false, a', 0, rfl, hiff, htrue,
      fun _ => writeback_banks_refused nb shift inst.m_warp_id _ banks a a' hbanks hlt hnb hrun,
      hany⟩
  | true =>
    simp only
    by_cases hregs : get_regs_written inst = []
    · rw [if_pos hregs]
      exact ⟨true, a', 0, rfl, hiff, htrue, (fun h => by cases h), hany⟩
    · rw [if_neg hregs, hstat]
      exact ⟨true, a', _, rfl, hiff, htrue, (fun h => by cases h), hany⟩

/-- Witness for `writeback_contract`: the destination registers 1, 6 and 5 of an
instruction of warp 0 map to the banks 1, 2 and 1 of four idle banks, with a
clock-gated register file of 32 lanes in groups of 4. -/
theorem writeback_contract_witness :
    ∃ b a' k, opndcoll_writeback 32 ⟨true, 32, 4⟩ 4 5 example_idle_arbiter
        (some ⟨0, 10, [], [1, -1, 6, 5], 17⟩) = some (.ok (b, a', k)) ∧
      (b = true ↔
        (∀ bank ∈ [1, 2, 1], example_idle_arbiter.m_allocated_bank bank = .NO_ALLOC) ∧
        [1, 2, 1].Nodup) ∧
      (b = true → ∀ x, a'.m_allocated_bank x =
        if x ∈ [1, 2, 1] then .WRITE_ALLOC else example_idle_arbiter.m_allocated_bank x) ∧
      (b = false → ∃ pre bad post, [1, 2, 1] = pre ++ bad :: post ∧ pre.Nodup ∧
        (∀ x ∈ pre, example_idle_arbiter.m_allocated_bank x = .NO_ALLOC) ∧
        (example_idle_arbiter.m_allocated_bank bad ≠ .NO_ALLOC ∨ bad ∈ pre) ∧
        ∀ x, a'.m_allocated_bank x =
          if x ∈ pre then .WRITE_ALLOC else example_idle_arbiter.m_allocated_bank x) ∧
      ∀ x, a'.m_allocated_bank x = example_idle_arbiter.m_allocated_bank x ∨
        (x ∈ [1, 2, 1] ∧ example_idle_arbiter.m_allocated_bank x = .NO_ALLOC ∧
          a'.m_allocated_bank x = .WRITE_ALLOC) :=
  writeback_contract 32 ⟨true, 32, 4⟩ 4 5 example_idle_arbiter
    ⟨0, 10, [], [1, -1, 6, 5], 17⟩ [1, 2, 1]
    (List.Forall₂.cons (by decide) (List.Forall₂.cons (by decide)
      (List.Forall₂.cons (by decide) List.Forall₂.nil)))
    (by decide) (by decide) (fun _ => ⟨by decide, fun k hk => by
      show k * 4 + 4 ≤ 32
      have : k * 4 < 32 := hk
      omega⟩)

/-! ## Load/store unit: arbitration of the writeback register -/

theorem service_client_none (u : ldst_unit) (c : Nat) (hc : c < 5)
    (h : client_response u c = none) : service_client u c = .ok (u, false) := by
  unfold client_response at h
  unfold service_client
  interval_cases c
  · cases hp : u.m_pipeline_reg0 with
    | none => rfl
    | some x => rw [hp] at h; cases h
  · cases hp : u.m_L1T with
    | nil => rfl
    | cons x r => rw [hp] at h; cases h
  · cases hp : u.m_L1C with
    | nil => rfl
    | cons x r => rw [hp] at h; cases h
  · cases hp : u.m_next_global with
    | none => rfl
    | some x => rw [hp] at h; cases h
  · cases hp : u.m_L1D with
    | none => rfl
    | some q =>
      cases q with
      | nil => rfl
      | cons x r => rw [hp] at h; cases h

theorem service_client_some (u : ldst_unit) (c : Nat) (r : Option warp_inst_t)
    (h : client_response u c = some r) :
    ∃ u', service_client u c = .ok (u', true) ∧ u'.m_next_wb = r ∧
      u'.m_writeback_arb = u.m_writeback_arb ∧
      u'.m_num_writeback_clients = u.m_num_writeback_clients ∧
      u'.m_pending_writes = u.m_pending_writes ∧ u'.m_scoreboard = u.m_scoreboard := by
  unfold client_response at h
  unfold service_client
  split at h
  · cases hp : u.m_pipeline_reg0 with
    | none => rw [hp] at h; cases h
    | some x =>
      rw [hp] at h
      cases h
      exact ⟨_, rfl, rfl, rfl, rfl, rfl, rfl⟩
  · cases hp : u.m_L1T with
    | nil => rw [hp] at h; cases h
    | cons x q =>
      rw [hp] at h
      cases h
      exact ⟨_, rfl, rfl, rfl, rfl, rfl, rfl⟩
  · cases hp : u.m_L1C with
    | nil => rw [hp] at h; cases h
    | cons x q =>
      rw [hp] at h
      cases h
      exact ⟨_, rfl, rfl, rfl, rfl, rfl, rfl⟩
  · cases hp : u.m_next_global with
    | none => rw [hp] at h; cases h
    | some x =>
      rw [hp] at h
      cases h
      exact ⟨_, rfl, rfl, rfl, rfl, rfl, rfl⟩
  · cases hp : u.m_L1D with
    | none => rw [hp] at h; cases h
    | some q =>
      cases q with
      | nil => rw [hp] at h; cases h
      | cons x q =>
        rw [hp] at h
        cases h
        exact ⟨_, rfl, rfl, rfl, rfl, rfl, rfl⟩
  · cases h

theorem arbitrate_loop_occupied (n c : Nat) (u : ldst_unit) (sv : List Nat)
    (h : u.m_next_wb.isNone = false) : arbitrate_loop n c u sv = .ok (u, sv) := by
  cases n with
  | zero => rfl
  | succ n =>
    unfold arbitrate_loop
    rw [if_neg (by rw [h]; simp)]

theorem arbitrate_loop_idle :
    ∀ (n c : Nat) (u : ldst_unit) (sv : List Nat), u.m_num_writeback_clients = 5 →
      (∀ x, x < 5 → client_response u x = none) → arbitrate_loop n c u sv = .ok (u, sv) := by
  intro n
  induction n with
  | zero => intro c u sv _ _; rfl
  | succ n ih =>
    intro c u sv hn hnone
    unfold arbitrate_loop
    split
    · simp only
      rw [service_client_none u _ (by rw [hn]; exact Nat.mod_lt _ (by omega))
        (hnone _ (by rw [hn]; exact Nat.mod_lt _ (by omega)))]
      exact ih (c + 1) u sv hn hnone
    · rfl

theorem arbitrate_loop_first :
    ∀ (k n c : Nat) (u : ldst_unit) (sv : List Nat) (inst : warp_inst_t),
      u.m_next_wb = none → u.m_num_writeback_clients = 5 → u.m_writeback_arb < 5 →
      k < n → c + k < 5 →
      (∀ j, j < k → client_response u ((c + j + u.m_writeback_arb) % 5) = none) →
      client_response u ((c + k + u.m_writeback_arb) % 5) = some (some inst) →
      ∃ u', arbitrate_loop n c u sv = .ok (u', sv ++ [(c + k + u.m_writeback_arb) % 5]) ∧
        u'.m_next_wb = some inst ∧ u'.m_writeback_arb = u.m_writeback_arb ∧
        u'.m_num_writeback_clients = 5 ∧
        u'.m_pending_writes = u.m_pending_writes ∧ u'.m_scoreboard = u.m_scoreboard := by
  intro k
  induction k with
  | zero =>
    intro n c u sv inst hwb hn harb hk hc _ hresp
    obtain ⟨n, rfl⟩ : ∃ n', n = n' + 1 := ⟨n - 1, by omega⟩
    unfold arbitrate_loop
    rw [if_pos (by rw [hwb]; rfl)]
    simp only
    have hmod : (c + u.m_writeback_arb) % 4294967296 = c + u.m_writeback_arb :=
      Nat.mod_eq_of_lt (by omega)
    rw [hmod, hn]
    rw [Nat.add_zero] at hresp
    obtain ⟨u', hs, h1, h2, h3, h4, h5⟩ := service_client_some u _ _ hresp
    rw [hs]
    simp only
    rw [arbitrate_loop_occupied _ _ _ _ (by rw [h1]; rfl)]
    exact ⟨u', rfl, h1, h2, h3.trans hn, h4, h5⟩
  | succ k ih =>
    intro n c u sv inst hwb hn harb hk hc hnone hresp
    obtain ⟨n, rfl⟩ : ∃ n', n = n' + 1 := ⟨n - 1, by omega⟩
    unfold arbitrate_loop
    rw [if_pos (by rw [hwb]; rfl)]
    simp only
    have hmod : (c + u.m_writeback_arb) % 4294967296 = c + u.m_writeback_arb :=
      Nat.mod_eq_of_lt (by omega)
    rw [hmod, hn]
    have h0 := hnone 0 (by omega)
    rw [Nat.add_zero] at h0
    rw [service_client_none u _ (Nat.mod_lt _ (by omega)) h0]
    simp only
    have hshift : ∀ j, c + 1 + j = c + (j + 1) := fun j => by omega
    obtain ⟨u', hrun, hrest⟩ := ih n (c + 1) u sv inst hwb hn harb (by omega) (by omega)
      (fun j hj => by rw [hshift]; exact hnone (j + 1) (by omega))
      (by rw [hshift]; exact hresp)
    rw [hshift] at hrun
    exact ⟨u', hrun, hrest⟩

/-- C29: in `ldst_unit::writeback` with five clients, when the writeback register
`m_next_wb` is empty as the loop over the clients starts (`u1` is the unit at that
point) and the first client with a response, in the cyclic order that starts at
`m_writeback_arb`, holds a non-empty instruction, that client is serviced and no
other; its instruction is in `m_next_wb` afterwards, and `m_writeback_arb` becomes the
client after it, modulo 5.  When no client has a response, and when `m_next_wb` stays
occupied because the operand collector refuses the writeback, nothing is serviced and
`m_writeback_arb` keeps its value. -/
theorem writeback_arbitration (W : Nat) (u u1 : ldst_unit) (granted : Bool)
    (hnext : ldst_writeback_next W u granted = .ok u1)
    (hwb : u1.m_next_wb = none) (hn : u1.m_num_writeback_clients = 5)
    (harb : u1.m_writeback_arb < 5) :
    (∀ k inst, k < 5 →
      (∀ j, j < k → client_response u1 ((j + u1.m_writeback_arb) % 5) = none) →
      client_response u1 ((k + u1.m_writeback_arb) % 5) = some (some inst) →
      ∃ u', u.writeback W granted = .ok (u', [(k + u1.m_writeback_arb) % 5]) ∧
        u'.m_next_wb = some inst ∧
        u'.m_writeback_arb = ((k + u1.m_writeback_arb) % 5 + 1) % 5) ∧
    ((∀ x, x < 5 → client_response u1 x = none) → u.writeback W granted = .ok (u1, [])) ∧
    ∀ inst, ldst_unit.writeback W { u with m_next_wb := some inst } false =
      .ok ({ u with m_next_wb := some inst }, []) := by
  refine ⟨?_, ?_, ?_⟩
  · intro k inst hk hnone hresp
    obtain ⟨u', hrun, h1, h2, h3, _, _⟩ := arbitrate_loop_first k 5 0 u1 [] inst hwb hn harb hk
      (by omega) (fun j hj => by rw [Nat.zero_add]; exact hnone j hj)
      (by rw [Nat.zero_add]; exact hresp)
    rw [Nat.zero_add, List.nil_append] at hrun
    refine ⟨{ u' with m_writeback_arb := ((k + u1.m_writeback_arb) % 5 + 1) % 5 }, ?_, h1, rfl⟩
    unfold ldst_unit.writeback
    rw [hnext]
    simp only
    unfold ldst_arbitrate
    rw [hn, hrun]
    simp only [List.getLast?_singleton, h3]
  · intro hnone
    unfold ldst_unit.writeback
    rw [hnext]
    simp only
    unfold ldst_arbitrate
    rw [arbitrate_loop_idle _ _ _ _ hn hnone]
    rfl
  · intro inst
    unfold ldst_unit.writeback ldst_writeback_next
    simp only [Bool.false_eq_true, if_false]
    unfold ldst_arbitrate
    rw [arbitrate_loop_occupied u.m_num_writeback_clients 0 { u with m_next_wb := some inst } []
      rfl]
    rfl

/-- Witness for `writeback_arbitration`: the priority is at client 3; the clients 3, 4
and 0 have nothing, so the texture response of client 1 is serviced and the priority
moves to client 2. -/
theorem writeback_arbitration_witness :
    ∃ u', example_ldst.writeback 32 true = .ok (u', [1]) ∧
      u'.m_next_wb = some (global_load 0 7 15) ∧ u'.m_writeback_arb = 2 :=
  (writeback_arbitration 32 example_ldst example_ldst true rfl rfl rfl (by decide)).1 3
    (global_load 0 7 15) (by decide) (fun j hj => by interval_cases j <;> rfl) rfl

/-! ## Load/store unit: pending writes -/

theorem assoc_find_erase_self {K V : Type} [DecidableEq K] (m : List (K × V)) (k : K) :
    assoc_find (assoc_erase m k) k = none := by
  unfold assoc_find assoc_erase
  rw [Option.map_eq_none', List.find?_eq_none]
  intro p hp
  have := (List.mem_filter.mp hp).2
  simpa using this

theorem assoc_find_erase_ne {K V : Type} [DecidableEq K] (m : List (K × V)) (k k' : K)
    (h : k' ≠ k) : assoc_find (assoc_erase m k) k' = assoc_find m k' := by
  unfold assoc_find assoc_erase
  congr 1
  induction m with
  | nil => rfl
  | cons p rest ih =>
    by_cases hp : p.1 = k
    · rw [List.filter_cons_of_neg (by simp [hp]), List.find?_cons_of_neg _ (by
        simp only [decide_eq_true_eq]
        rw [hp]
        exact fun h' => h h'.symm)]
      exact ih
    · rw [List.filter_cons_of_pos (by simp [hp])]
      by_cases hp' : p.1 = k'
      · rw [List.find?_cons_of_pos _ (by simp [hp']), List.find?_cons_of_pos _ (by simp [hp'])]
      · rw [List.find?_cons_of_neg _ (by simp [hp']), List.find?_cons_of_neg _ (by simp [hp'])]
        exact ih

theorem assoc_find_set_self {K V : Type} [DecidableEq K] (m : List (K × V)) (k : K) (v : V) :
    assoc_find (assoc_set m k v) k = some v := by
  unfold assoc_find assoc_set
  rw [List.find?_cons_of_pos _ (by simp)]
  rfl

theorem assoc_find_set_ne {K V : Type} [DecidableEq K] (m : List (K × V)) (k k' : K) (v : V)
    (h : k' ≠ k) : assoc_find (assoc_set m k v) k' = assoc_find m k' := by
  have := assoc_find_erase_ne m k k' h
  unfold assoc_find assoc_set at *
  rw [List.find?_cons_of_neg _ (by
    simp only [decide_eq_true_eq]
    exact fun h' => h h'.symm)]
  exact this

theorem pending_fold_find (w m n : Nat) (key : Nat × Nat × Nat) :
    ∀ (l : List Nat) (pending : List ((Nat × Nat × Nat) × Nat)),
      assoc_find (l.foldl (pending_add w m n) pending) key =
        if key.1 = w ∧ key.2.2 = m ∧ 0 < key.2.1 ∧ 0 < l.count key.2.1 then
          some (((assoc_find pending key).getD 0 + n * l.count key.2.1) % 4294967296)
        else assoc_find pending key := by
  intro l
  induction l with
  | nil =>
    intro pending
    simp
  | cons x rest ih =>
    intro pending
    rw [List.foldl_cons, ih]
    by_cases hkey : key.1 = w ∧ key.2.2 = m ∧ 0 < key.2.1
    · obtain ⟨h1, h2, h3⟩ := hkey
      have hk : key = (w, key.2.1, m) := by
        rw [← h1, ← h2]
      by_cases hx : x = key.2.1
      · have hfind : assoc_find (pending_add w m n pending x) key =
            some (((assoc_find pending key).getD 0 + n) % 4294967296) := by
          unfold pending_add
          rw [if_pos (by omega), hx, ← hk, assoc_find_set_self]
        rw [hfind, hx, List.count_cons_self]
        by_cases hc : 0 < rest.count key.2.1
        · rw [if_pos ⟨h1, h2, h3, hc⟩, if_pos ⟨h1, h2, h3, by omega⟩]
          simp only [Option.getD_some]
          rw [Nat.mod_add_mod, Nat.mul_add, Nat.mul_one]
          congr 2
          omega
        · rw [if_neg (fun h => hc h.2.2.2), if_pos ⟨h1, h2, h3, by omega⟩]
          have : rest.count key.2.1 = 0 := by omega
          rw [this, Nat.zero_add, Nat.mul_one]
      · have hfind : assoc_find (pending_add w m n pending x) key = assoc_find pending key := by
          unfold pending_add
          split
          · rw [assoc_find_set_ne _ _ _ _ (by
              rw [hk]
              intro h
              simp only [Prod.mk.injEq] at h
              exact hx h.2.1.symm)]
          · rfl
        rw [hfind, List.count_cons_of_ne (fun h => hx h.symm)]
    · have hfind : assoc_find (pending_add w m n pending x) key = assoc_find pending key := by
        unfold pending_add
        split
        · next hpos =>
          rw [assoc_find_set_ne _ _ _ _ (by
            intro h
            rw [h] at hkey
            exact hkey ⟨rfl, rfl, hpos⟩)]
        · rfl
      rw [hfind, if_neg (fun h => hkey ⟨h.1, h.2.1, h.2.2.1⟩),
        if_neg (fun h => hkey ⟨h.1, h.2.1, h.2.2.1⟩)]

theorem ldst_issue_pending_eq (pending : List ((Nat × Nat × Nat) × Nat)) (inst : warp_inst_t)
    (n : Nat) (hload : inst.is_load = true) (hspace : inst.space ≠ .shared_space)
    (hmask : inst.m_warp_active_mask < 18446744073709551616) :
    ldst_issue_pending pending (some inst) n =
      .ok ([inst.out 0, inst.out 1, inst.out 2, inst.out 3].foldl
        (pending_add inst.m_warp_id inst.m_warp_active_mask n) pending) := by
  have hstep : ∀ (p : List ((Nat × Nat × Nat) × Nat)) (r : Fin 4),
      (if inst.out r > 0 then
        match to_ulong inst.m_warp_active_mask with
        | .error e => .error e
        | .ok m => .ok (pending_add inst.m_warp_id m n p (inst.out r))
      else (.ok p : Except Fault _)) =
      .ok (pending_add inst.m_warp_id inst.m_warp_active_mask n p (inst.out r)) := by
    intro p r
    unfold to_ulong
    rw [if_pos hmask]
    split
    · rfl
    · next h =>
      unfold pending_add
      rw [if_neg h]
  unfold ldst_issue_pending
  simp only
  rw [if_pos ⟨hload, hspace⟩]
  simp only [List.foldlM_cons, List.foldlM_nil, hstep, List.foldl_cons, List.foldl_nil]
  rfl

theorem service_client_frame (u u' : ldst_unit) (c : Nat) (b : Bool)
    (h : service_client u c = .ok (u', b)) :
    u'.m_pending_writes = u.m_pending_writes ∧ u'.m_scoreboard = u.m_scoreboard ∧
      u'.m_num_writeback_clients = u.m_num_writeback_clients := by
  unfold service_client at h
  split at h
  · split at h <;> cases h <;> exact ⟨rfl, rfl, rfl⟩
  · split at h <;> cases h <;> exact ⟨rfl, rfl, rfl⟩
  · split at h <;> cases h <;> exact ⟨rfl, rfl, rfl⟩
  · split at h <;> cases h <;> exact ⟨rfl, rfl, rfl⟩
  · split at h <;> cases h <;> exact ⟨rfl, rfl, rfl⟩
  · cases h

theorem service_client_total (u : ldst_unit) (c : Nat) (hc : c < 5) :
    ∃ r, service_client u c = .ok r := by
  unfold service_client
  interval_cases c
  · cases u.m_pipeline_reg0 <;> exact ⟨_, rfl⟩
  · cases u.m_L1T <;> exact ⟨_, rfl⟩
  · cases u.m_L1C <;> exact ⟨_, rfl⟩
  · cases u.m_next_global <;> exact ⟨_, rfl⟩
  · cases hq : u.m_L1D with
    | none => exact ⟨_, rfl⟩
    | some q => cases q <;> exact ⟨_, rfl⟩

theorem arbitrate_loop_total :
    ∀ (n c : Nat) (u : ldst_unit) (sv : List Nat), u.m_num_writeback_clients ≤ 5 →
      (0 < n → 0 < u.m_num_writeback_clients) →
      ∃ u' sv', arbitrate_loop n c u sv = .ok (u', sv') ∧
        u'.m_pending_writes = u.m_pending_writes ∧ u'.m_scoreboard = u.m_scoreboard := by
  intro n
  induction n with
  | zero =>
    intro c u sv _ _
    exact ⟨u, sv, rfl, rfl, rfl⟩
  | succ n ih =>
    intro c u sv hle hpos
    have hp := hpos (Nat.succ_pos n)
    unfold arbitrate_loop
    split
    · simp only
      obtain ⟨⟨u1, b⟩, hs⟩ := service_client_total u
        (((c + u.m_writeback_arb) % 4294967296) % u.m_num_writeback_clients)
        (Nat.lt_of_lt_of_le (Nat.mod_lt _ hp) hle)
      obtain ⟨f1, f2, f3⟩ := service_client_frame u u1 _ b hs
      rw [hs]
      cases b with
      | true =>
        simp only
        obtain ⟨u', sv', hrun, g1, g2⟩ := ih (c + 1) u1
          (sv ++ [((c + u.m_writeback_arb) % 4294967296) % u.m_num_writeback_clients])
          (by rw [f3]; exact hle) (fun _ => by rw [f3]; exact hp)
        exact ⟨u', sv', hrun, g1.trans f1, g2.trans f2⟩
      | false =>
        simp only
        obtain ⟨u', sv', hrun, g1, g2⟩ := ih (c + 1) u1 sv
          (by rw [f3]; exact hle) (fun _ => by rw [f3]; exact hp)
        exact ⟨u', sv', hrun, g1.trans f1, g2.trans f2⟩
    · exact ⟨u, sv, rfl, rfl, rfl⟩

theorem ldst_arbitrate_total (u : ldst_unit) (hle : u.m_num_writeback_clients ≤ 5) :
    ∃ u' sv, ldst_arbitrate u = .ok (u', sv) ∧
      u'.m_pending_writes = u.m_pending_writes ∧ u'.m_scoreboard = u.m_scoreboard := by
  obtain ⟨u1, sv, hrun, g1, g2⟩ := arbitrate_loop_total u.m_num_writeback_clients 0 u [] hle
    (fun h => h)
  unfold ldst_arbitrate
  rw [hrun]
  simp only
  cases sv.getLast? with
  | none => exact ⟨u1, sv, rfl, g1, g2⟩
  | some x => exact ⟨_, sv, rfl, g1, g2⟩

theorem wb_release_step_eq (W : Nat) (inst : warp_inst_t)
    (pending : List ((Nat × Nat × Nat) × Nat)) (sb : Scoreboard) (flag : Bool) (reg : Nat)
    (hspace : inst.space ≠ .shared_space)
    (hmask : inst.m_warp_active_mask < 18446744073709551616) :
    wb_release_step W inst (pending, sb, flag) reg =
      if (assoc_find pending (inst.m_warp_id, reg, inst.m_warp_active_mask)).getD 0 = 0 then
        .error .abort
      else if (assoc_find pending (inst.m_warp_id, reg, inst.m_warp_active_mask)).getD 0 = 1
      then
        (sb.releaseRegister W inst.m_warp_id reg inst.m_warp_active_mask).map (fun sb' =>
          (assoc_erase pending (inst.m_warp_id, reg, inst.m_warp_active_mask), sb', true))
      else
        .ok (assoc_set pending (inst.m_warp_id, reg, inst.m_warp_active_mask)
          ((assoc_find pending (inst.m_warp_id, reg, inst.m_warp_active_mask)).getD 0 - 1),
          sb, flag) := by
  unfold wb_release_step
  rw [if_pos hspace]
  unfold to_ulong
  rw [if_pos hmask]
  simp only
  by_cases h0 : (assoc_find pending (inst.m_warp_id, reg, inst.m_warp_active_mask)).getD 0 = 0
  · rw [if_pos h0, if_pos (by omega)]
  · rw [if_neg h0, if_neg (by omega)]
    by_cases h1 : (assoc_find pending (inst.m_warp_id, reg, inst.m_warp_active_mask)).getD 0 = 1
    · rw [if_pos h1, if_pos (by omega)]
      cases sb.releaseRegister W inst.m_warp_id reg inst.m_warp_active_mask <;> rfl
    · rw [if_neg h1, if_neg (by omega)]

theorem wb_release_fold (W : Nat) (inst : warp_inst_t)
    (hspace : inst.space ≠ .shared_space)
    (hmask : inst.m_warp_active_mask < 18446744073709551616) :
    ∀ (l : List Nat) (pending : List ((Nat × Nat × Nat) × Nat)) (sb sb' : Scoreboard)
      (flag : Bool),
      (l.filter fun reg => decide (0 < reg)).Nodup →
      (∀ reg ∈ l, 0 < reg →
        1 ≤ (assoc_find pending (inst.m_warp_id, reg, inst.m_warp_active_mask)).getD 0) →
      (l.filter fun reg => decide (0 < reg ∧
          (assoc_find pending (inst.m_warp_id, reg, inst.m_warp_active_mask)).getD 0 = 1)).foldlM
        (fun s reg => s.releaseRegister W inst.m_warp_id reg inst.m_warp_active_mask) sb =
        .ok sb' →
      ∃ pending' flag',
        l.foldlM (fun st reg => if reg > 0 then wb_release_step W inst st reg else .ok st)
          (pending, sb, flag) = .ok (pending', sb', flag') ∧
        (∀ reg ∈ l, 0 < reg →
          assoc_find pending' (inst.m_warp_id, reg, inst.m_warp_active_mask) =
            if (assoc_find pending (inst.m_warp_id, reg, inst.m_warp_active_mask)).getD 0 = 1
            then none
            else some ((assoc_find pending
              (inst.m_warp_id, reg, inst.m_warp_active_mask)).getD 0 - 1)) ∧
        ∀ key, (∀ reg ∈ l, 0 < reg → key ≠ (inst.m_warp_id, reg, inst.m_warp_active_mask)) →
          assoc_find pending' key = assoc_find pending key := by
  intro l
  induction l with
  | nil =>
    intro pending sb sb' flag _ _ hrel
    have : sb = sb' := by simpa [pure, Except.pure] using hrel
    subst this
    exact ⟨pending, flag, rfl, fun reg h => absurd h (List.not_mem_nil _), fun _ _ => rfl⟩
  | cons x rest ih =>
    intro pending sb sb' flag hnd hcnt hrel
    rw [List.foldlM_cons]
    by_cases hx : 0 < x
    · rw [List.filter_cons_of_pos (by simpa using hx)] at hnd
      obtain ⟨hnot, hnd'⟩ := List.nodup_cons.mp hnd
      have hne : ∀ reg ∈ rest, 0 < reg → reg ≠ x := by
        intro reg hreg hpos hc
        apply hnot
        rw [← hc]
        exact List.mem_filter.mpr ⟨hreg, by simpa using hpos⟩
      have hkey : ∀ reg ∈ rest, 0 < reg →
          (inst.m_warp_id, reg, inst.m_warp_active_mask) ≠
            (inst.m_warp_id, x, inst.m_warp_active_mask) := by
        intro reg hreg hpos hc
        simp only [Prod.mk.injEq, true_and, and_true] at hc
        exact hne reg hreg hpos hc
      have hc1 := hcnt x (List.mem_cons_self _ _) hx
      rw [if_pos hx, wb_release_step_eq W inst pending sb flag x hspace hmask,
        if_neg (by omega)]
      by_cases h1 : (assoc_find pending (inst.m_warp_id, x, inst.m_warp_active_mask)).getD 0 = 1
      · rw [if_pos h1]
        rw [List.filter_cons_of_pos (by simpa using ⟨hx, h1⟩), List.foldlM_cons] at hrel
        cases hr : sb.releaseRegister W inst.m_warp_id x inst.m_warp_active_mask with
        | error e =>
          rw [hr] at hrel
          cases hrel
        | ok sb1 =>
          rw [hr] at hrel
          have hcongr : (rest.filter fun reg => decide (0 < reg ∧
              (assoc_find (assoc_erase pending (inst.m_warp_id, x, inst.m_warp_active_mask))
                (inst.m_warp_id, reg, inst.m_warp_active_mask)).getD 0 = 1)) =
              (rest.filter fun reg => decide (0 < reg ∧
                (assoc_find pending (inst.m_warp_id, reg, inst.m_warp_active_mask)).getD 0 = 1))
              := by
            apply List.filter_congr
            intro reg hreg
            by_cases hpos : 0 < reg
            · rw [assoc_find_erase_ne _ _ _ (hkey reg hreg hpos)]
            · simp [hpos]
          obtain ⟨pending', flag', hrun, hdst, hoth⟩ := ih
            (assoc_erase pending (inst.m_warp_id, x, inst.m_warp_active_mask)) sb1 sb' true hnd'
            (fun reg hreg hpos => by
              rw [assoc_find_erase_ne _ _ _ (hkey reg hreg hpos)]
              exact hcnt reg (List.mem_cons_of_mem _ hreg) hpos)
            (by rw [hcongr]; exact hrel)
          refine ⟨pending', flag', hrun, ?_, ?_⟩
          · intro reg hreg hpos
            rcases List.mem_cons.mp hreg with rfl | hreg
            · rw [if_pos h1, hoth _ (fun r hr' hp' => (hkey r hr' hp').symm)]
              exact assoc_find_erase_self _ _
            · rw [hdst reg hreg hpos, assoc_find_erase_ne _ _ _ (hkey reg hreg hpos)]
          · intro key hk
            rw [hoth key (fun r hr' hp' => hk r (List.mem_cons_of_mem _ hr') hp')]
            exact assoc_find_erase_ne _ _ _ (hk x (List.mem_cons_self _ _) hx)
      · rw [if_neg h1]
        rw [List.filter_cons_of_neg (by simpa using fun _ => h1)] at hrel
        have hcongr : (rest.filter fun reg => decide (0 < reg ∧
            (assoc_find (assoc_set pending (inst.m_warp_id, x, inst.m_warp_active_mask)
              ((assoc_find pending (inst.m_warp_id, x, inst.m_warp_active_mask)).getD 0 - 1))
              (inst.m_warp_id, reg, inst.m_warp_active_mask)).getD 0 = 1)) =
            (rest.filter fun reg => decide (0 < reg ∧
              (assoc_find pending (inst.m_warp_id, reg, inst.m_warp_active_mask)).getD 0 = 1))
            := by
          apply List.filter_congr
          intro reg hreg
          by_cases hpos : 0 < reg
          · rw [assoc_find_set_ne _ _ _ _ (hkey reg hreg hpos)]
          · simp [hpos]
        obtain ⟨pending', flag', hrun, hdst, hoth⟩ := ih
          (assoc_set pending (inst.m_warp_id, x, inst.m_warp_active_mask)
            ((assoc_find pending (inst.m_warp_id, x, inst.m_warp_active_mask)).getD 0 - 1))
          sb sb' flag hnd'
          (fun reg hreg hpos => by
            rw [assoc_find_set_ne _ _ _ _ (hkey reg hreg hpos)]
            exact hcnt reg (List.mem_cons_of_mem _ hreg) hpos)
          (by rw [hcongr]; exact hrel)
        refine ⟨pending', flag', hrun, ?_, ?_⟩
        · intro reg hreg hpos
          rcases List.mem_cons.mp hreg with rfl | hreg
          · rw [if_neg h1, hoth _ (fun r hr' hp' => (hkey r hr' hp').symm)]
            exact assoc_find_set_self _ _ _
          · rw [hdst reg hreg hpos, assoc_find_set_ne _ _ _ _ (hkey reg hreg hpos)]
        · intro key hk
          rw [hoth key (fun r hr' hp' => hk r (List.mem_cons_of_mem _ hr') hp')]
          exact assoc_find_set_ne _ _ _ _ (hk x (List.mem_cons_self _ _) hx)
    · rw [List.filter_cons_of_neg (by simpa using hx)] at hnd
      rw [List.filter_cons_of_neg (by simpa using fun h : 0 < x => absurd h hx)] at hrel
      rw [if_neg hx]
      obtain ⟨pending', flag', hrun, hdst, hoth⟩ := ih pending sb sb' flag hnd
        (fun reg hreg hpos => hcnt reg (List.mem_cons_of_mem _ hreg) hpos) hrel
      refine ⟨pending', flag', hrun, ?_, ?_⟩
      · intro reg hreg hpos
        rcases List.mem_cons.mp hreg with rfl | hreg
        · exact absurd hpos hx
        · exact hdst reg hreg hpos
      · intro key hk
        exact hoth key (fun r hr' hp' => hk r (List.mem_cons_of_mem _ hr') hp')

theorem ldst_writeback_next_eq (W : Nat) (u : ldst_unit) (inst : warp_inst_t)
    (st : List ((Nat × Nat × Nat) × Nat) × Scoreboard × Bool)
    (hnext : u.m_next_wb = some inst)
    (hfold : [inst.out 0, inst.out 1, inst.out 2, inst.out 3].foldlM
      (fun st reg => if reg > 0 then wb_release_step W inst st reg else .ok st)
      (u.m_pending_writes, u.m_scoreboard, false) = .ok st) :
    ldst_writeback_next W u true =
      .ok { u with m_pending_writes := st.1, m_scoreboard := st.2.1, m_next_wb := none } := by
  unfold ldst_writeback_next
  rw [hnext]
  simp only [if_true]
  have hfin : [(0 : Fin 4), 1, 2, 3].foldlM (fun st r =>
      if inst.out r > 0 then wb_release_step W inst st (inst.out r) else .ok st)
      (u.m_pending_writes, u.m_scoreboard, false) = .ok st := hfold
  rw [hfin]

theorem ldst_writeback_released (W : Nat) (u : ldst_unit) (inst : warp_inst_t)
    (sb' : Scoreboard) (hspace : inst.space ≠ .shared_space)
    (hmask : inst.m_warp_active_mask < 18446744073709551616)
    (hnext : u.m_next_wb = some inst) (hcl : u.m_num_writeback_clients ≤ 5)
    (hnd : ([inst.out 0, inst.out 1, inst.out 2, inst.out 3].filter
      fun reg => decide (0 < reg)).Nodup)
    (hcnt : ∀ reg ∈ [inst.out 0, inst.out 1, inst.out 2, inst.out 3], 0 < reg →
      1 ≤ (assoc_find u.m_pending_writes
        (inst.m_warp_id, reg, inst.m_warp_active_mask)).getD 0)
    (hrel : ([inst.out 0, inst.out 1, inst.out 2, inst.out 3].filter fun reg =>
        decide (0 < reg ∧ (assoc_find u.m_pending_writes
          (inst.m_warp_id, reg, inst.m_warp_active_mask)).getD 0 = 1)).foldlM
      (fun s reg => s.releaseRegister W inst.m_warp_id reg inst.m_warp_active_mask)
      u.m_scoreboard = .ok sb') :
    ∃ u1 u' serviced, ldst_writeback_next W u true = .ok u1 ∧ u1.m_next_wb = none ∧
      u.writeback W true = .ok (u', serviced) ∧ u1.m_scoreboard = sb' ∧
      u'.m_scoreboard = sb' ∧ u'.m_pending_writes = u1.m_pending_writes ∧
      (∀ reg ∈ [inst.out 0, inst.out 1, inst.out 2, inst.out 3], 0 < reg →
        assoc_find u'.m_pending_writes (inst.m_warp_id, reg, inst.m_warp_active_mask) =
          if (assoc_find u.m_pending_writes
            (inst.m_warp_id, reg, inst.m_warp_active_mask)).getD 0 = 1 then none
          else some ((assoc_find u.m_pending_writes
            (inst.m_warp_id, reg, inst.m_warp_active_mask)).getD 0 - 1)) ∧
      ∀ key, (∀ reg ∈ [inst.out 0, inst.out 1, inst.out 2, inst.out 3], 0 < reg →
          key ≠ (inst.m_warp_id, reg, inst.m_warp_active_mask)) →
        assoc_find u'.m_pending_writes key = assoc_find u.m_pending_writes key := by
  obtain ⟨pending', flag', hfold, hdst, hoth⟩ := wb_release_fold W inst hspace hmask
    [inst.out 0, inst.out 1, inst.out 2, inst.out 3] u.m_pending_writes u.m_scoreboard sb'
    false hnd hcnt hrel
  have hn := ldst_writeback_next_eq W u inst (pending', sb', flag') hnext hfold
  obtain ⟨u', sv, harb, g1, g2⟩ := ldst_arbitrate_total
    { u with m_pending_writes := pending', m_scoreboard := sb', m_next_wb := none } hcl
  refine ⟨_, u', sv, hn, rfl, ?_, rfl, g2, g1, ?_, ?_⟩
  · unfold ldst_unit.writeback
    rw [hn]
    exact harb
  · intro reg hreg hpos
    rw [g1]
    exact hdst reg hreg hpos
  · intro key hk
    rw [g1]
    exact hoth key hk

/-- C30: `ldst_unit::issue` of a load that is not from shared memory, with `n` queued
accesses, adds `n` to the counter keyed by the warp, a destination register and the
active mask, once for every field of `out` that holds that register (in `unsigned`
arithmetic), and leaves the other counters alone.  A call of `ldst_unit::writeback`
whose writeback register holds an instruction that is not from shared memory, has its
write slots and has pairwise different destination registers, each with a pending
counter of at least 1, returns with the writeback register cleared in its first part;
the scoreboard afterwards is the one obtained by releasing, in order, the reservation
of the warp, the register and the mask for exactly the destination registers whose
counter was 1, the keys of these registers are erased, the counter of every other
destination register is lowered by one, and the other counters are unchanged.  In
particular, when every counter is above 1 the scoreboard is unchanged.  For one
destination register `reg` in the loop of `writeback`: a counter that is missing or
zero fails the assertion; a counter of 1 releases the reservation and erases the key;
a larger counter is lowered by one, and the scoreboard and `insn_completed` stay as
they are. -/
theorem pending_load_accounting (W : Nat) (u : ldst_unit) (inst : warp_inst_t) (n : Nat)
    (sb' : Scoreboard) (hspace : inst.space ≠ .shared_space)
    (hmask : inst.m_warp_active_mask < 18446744073709551616) :
    (inst.is_load = true →
      ∃ pending', ldst_issue_pending u.m_pending_writes (some inst) n = .ok pending' ∧
        ∀ key : Nat × Nat × Nat, assoc_find pending' key =
          if key.1 = inst.m_warp_id ∧ key.2.2 = inst.m_warp_active_mask ∧ 0 < key.2.1 ∧
              0 < [inst.out 0, inst.out 1, inst.out 2, inst.out 3].count key.2.1 then
            some (((assoc_find u.m_pending_writes key).getD 0 +
              n * [inst.out 0, inst.out 1, inst.out 2, inst.out 3].count key.2.1) % 4294967296)
          else assoc_find u.m_pending_writes key) ∧
    (u.m_next_wb = some inst → u.m_num_writeback_clients ≤ 5 →
      ([inst.out 0, inst.out 1, inst.out 2, inst.out 3].filter
        fun reg => decide (0 < reg)).Nodup →
      (∀ reg ∈ [inst.out 0, inst.out 1, inst.out 2, inst.out 3], 0 < reg →
        1 ≤ (assoc_find u.m_pending_writes
          (inst.m_warp_id, reg, inst.m_warp_active_mask)).getD 0) →
      ([inst.out 0, inst.out 1, inst.out 2, inst.out 3].filter fun reg =>
          decide (0 < reg ∧ (assoc_find u.m_pending_writes
            (inst.m_warp_id, reg, inst.m_warp_active_mask)).getD 0 = 1)).foldlM
        (fun s reg => s.releaseRegister W inst.m_warp_id reg inst.m_warp_active_mask)
        u.m_scoreboard = .ok sb' →
      ∃ u1 u' serviced, ldst_writeback_next W u true = .ok u1 ∧ u1.m_next_wb = none ∧
        u.writeback W true = .ok (u', serviced) ∧ u1.m_scoreboard = sb' ∧
        u'.m_scoreboard = sb' ∧ u'.m_pending_writes = u1.m_pending_writes ∧
        (∀ reg ∈ [inst.out 0, inst.out 1, inst.out 2, inst.out 3], 0 < reg →
          assoc_find u'.m_pending_writes (inst.m_warp_id, reg, inst.m_warp_active_mask) =
            if (assoc_find u.m_pending_writes
              (inst.m_warp_id, reg, inst.m_warp_active_mask)).getD 0 = 1 then none
            else some ((assoc_find u.m_pending_writes
              (inst.m_warp_id, reg, inst.m_warp_active_mask)).getD 0 - 1)) ∧
        ∀ key, (∀ reg ∈ [inst.out 0, inst.out 1, inst.out 2, inst.out 3], 0 < reg →
            key ≠ (inst.m_warp_id, reg, inst.m_warp_active_mask)) →
          assoc_find u'.m_pending_writes key = assoc_find u.m_pending_writes key) ∧
    (u.m_next_wb = some inst → u.m_num_writeback_clients ≤ 5 →
      ([inst.out 0, inst.out 1, inst.out 2, inst.out 3].filter
        fun reg => decide (0 < reg)).Nodup →
      (∀ reg ∈ [inst.out 0, inst.out 1, inst.out 2, inst.out 3], 0 < reg →
        1 < (assoc_find u.m_pending_writes
          (inst.m_warp_id, reg, inst.m_warp_active_mask)).getD 0) →
      ∃ u' serviced, u.writeback W true = .ok (u', serviced) ∧
        u'.m_scoreboard = u.m_scoreboard ∧
        ∀ reg ∈ [inst.out 0, inst.out 1, inst.out 2, inst.out 3], 0 < reg →
          assoc_find u'.m_pending_writes (inst.m_warp_id, reg, inst.m_warp_active_mask) =
            some ((assoc_find u.m_pending_writes
              (inst.m_warp_id, reg, inst.m_warp_active_mask)).getD 0 - 1)) ∧
    ∀ (pending : List ((Nat × Nat × Nat) × Nat)) (sb : Scoreboard) (flag : Bool) (reg : Nat),
      ((assoc_find pending (inst.m_warp_id, reg, inst.m_warp_active_mask)).getD 0 = 0 →
        wb_release_step W inst (pending, sb, flag) reg = .error .abort) ∧
      ((assoc_find pending (inst.m_warp_id, reg, inst.m_warp_active_mask)).getD 0 = 1 →
        wb_release_step W inst (pending, sb, flag) reg =
          (sb.releaseRegister W inst.m_warp_id reg inst.m_warp_active_mask).map (fun sb' =>
            (assoc_erase pending (inst.m_warp_id, reg, inst.m_warp_active_mask), sb', true)) ∧
        assoc_find (assoc_erase pending (inst.m_warp_id, reg, inst.m_warp_active_mask))
          (inst.m_warp_id, reg, inst.m_warp_active_mask) = none) ∧
      (1 < (assoc_find pending (inst.m_warp_id, reg, inst.m_warp_active_mask)).getD 0 →
        ∃ pending', wb_release_step W inst (pending, sb, flag) reg = .ok (pending', sb, flag) ∧
          assoc_find pending' (inst.m_warp_id, reg, inst.m_warp_active_mask) =
            some ((assoc_find pending
              (inst.m_warp_id, reg, inst.m_warp_active_mask)).getD 0 - 1) ∧
          ∀ key, key ≠ (inst.m_warp_id, reg, inst.m_warp_active_mask) →
            assoc_find pending' key = assoc_find pending key) := by
  refine ⟨?_, ?_, ?_, ?_⟩
  · intro hload
    refine ⟨_, ldst_issue_pending_eq u.m_pending_writes inst n hload hspace hmask, ?_⟩
    intro key
    exact pending_fold_find _ _ _ key _ u.m_pending_writes
  · intro hnext hcl hnd hcnt hrel
    exact ldst_writeback_released W u inst sb' hspace hmask hnext hcl hnd hcnt hrel
  · intro hnext hcl hnd hcnt
    have hnil : ([inst.out 0, inst.out 1, inst.out 2, inst.out 3].filter fun reg =>
        decide (0 < reg ∧ (assoc_find u.m_pending_writes
          (inst.m_warp_id, reg, inst.m_warp_active_mask)).getD 0 = 1)) = [] := by
      rw [List.filter_eq_nil_iff]
      intro reg hreg hc
      simp only [decide_eq_true_eq] at hc
      have := hcnt reg hreg hc.1
      omega
    obtain ⟨_, u', sv, _, _, hrun, _, hsb, _, hdst, _⟩ :=
      ldst_writeback_released W u inst u.m_scoreboard hspace hmask hnext hcl hnd
        (fun reg hreg hpos => Nat.le_of_lt (hcnt reg hreg hpos)) (by rw [hnil]; rfl)
    refine ⟨u', sv, hrun, hsb, ?_⟩
    intro reg hreg hpos
    rw [hdst reg hreg hpos, if_neg (by have := hcnt reg hreg hpos; omega)]
  · intro pending sb flag reg
    rw [wb_release_step_eq W inst pending sb flag reg hspace hmask]
    refine ⟨?_, ?_, ?_⟩
    · intro hc
      rw [if_pos hc]
    · intro hc
      rw [if_neg (by omega), if_pos hc]
      exact ⟨rfl, assoc_find_erase_self _ _⟩
    · intro hc
      rw [if_neg (by omega), if_neg (by omega)]
      exact ⟨_, rfl, assoc_find_set_self _ _ _, fun key hkey => assoc_find_set_ne _ _ _ _ hkey⟩

/-- Witness for `pending_load_accounting`: a global load of warp 0 into register 7
with three accesses brings the counter from 1 to 4; a writeback at a counter of 1
releases register 7 in the scoreboard and erases the key; a writeback at a counter of
2 leaves the scoreboard alone and brings the counter to 1. -/
theorem pending_load_accounting_witness :
    (∃ pending', ldst_issue_pending (example_ldst_wb 1).m_pending_writes
        (some (global_load 0 7 15)) 3 = .ok pending' ∧
      assoc_find pending' (0, 7, 15) = some 4) ∧
    (∃ u' serviced, (example_ldst_wb 1).writeback 32 true = .ok (u', serviced) ∧
      u'.m_scoreboard = Scoreboard.mk [[], []] [[7], []] ∧
      assoc_find u'.m_pending_writes (0, 7, 15) = none) ∧
    (∃ u' serviced, (example_ldst_wb 2).writeback 32 true = .ok (u', serviced) ∧
      u'.m_scoreboard = (example_ldst_wb 2).m_scoreboard ∧
      assoc_find u'.m_pending_writes (0, 7, 15) = some 1) := by
  refine ⟨?_, ?_, ?_⟩
  · obtain ⟨p, hp, hfind⟩ := (pending_load_accounting 32 (example_ldst_wb 1)
      (global_load 0 7 15) 3 (Scoreboard.mk [[], []] [[7], []]) (by decide) (by decide)).1 rfl
    exact ⟨p, hp, by rw [hfind (0, 7, 15)]; decide⟩
  · obtain ⟨_, u', sv, _, _, hrun, _, hsb, _, hdst, _⟩ :=
      (pending_load_accounting 32 (example_ldst_wb 1) (global_load 0 7 15) 3
        (Scoreboard.mk [[], []] [[7], []]) (by decide) (by decide)).2.1 rfl (by decide)
        (by decide) (by decide) (by decide)
    exact ⟨u', sv, hrun, hsb, (hdst 7 (by decide) (by decide)).trans (by decide)⟩
  · obtain ⟨u', sv, hrun, hsb, hdst⟩ :=
      (pending_load_accounting 32 (example_ldst_wb 2) (global_load 0 7 15) 3
        (Scoreboard.mk [[], []] [[7], []]) (by decide) (by decide)).2.2.1 rfl (by decide)
        (by decide) (by decide)
    exact ⟨u', sv, hrun, hsb, (hdst 7 (by decide) (by decide)).trans (by decide)⟩

/-! ## Release of a register that is not reserved -/

/-- C31: when warp `w` has at least one entry but none for register `r`,
`releaseRegister(w, r, m)` returns, for every lane mask `m`, and the scoreboard is
the same afterwards: the release of a register that is not reserved is ignored. -/
theorem release_without_entry_ignored (W : Nat) (s : Scoreboard) (w r m : Nat)
    (hne : s.entries w ≠ []) (h : ∀ e ∈ s.entries w, e.reg ≠ r) :
    s.releaseRegister W w r m = .ok s := by
  have hw : w < s.reg_table.length := by
    rcases Nat.lt_or_ge w s.reg_table.length with h' | h'
    · exact h'
    · exact absurd (entries_of_not_lt s (Nat.not_lt.mpr h')) hne
  exact releaseRegister_no_entry W s w r m hw h

/-- Witness for `release_without_entry_ignored`: warp 0 holds register 6 only, and
all lanes of register 5 are released. -/
theorem release_without_entry_ignored_witness :
    (Scoreboard.mk [[⟨6, 3⟩], []] [[], []]).releaseRegister 32 0 5 0xFFFFFFFF =
      .ok (Scoreboard.mk [[⟨6, 3⟩], []] [[], []]) :=
  release_without_entry_ignored 32 (Scoreboard.mk [[⟨6, 3⟩], []] [[], []]) 0 5 0xFFFFFFFF
    (by decide) (by decide)

/-! ## Width accounting of the pipeline register stages -/

theorem uniq_pairs_fold (l : List (Nat × Nat)) :
    ∀ acc : List (Nat × Nat), acc.Nodup →
      (l.foldl (fun uniq p => if p ∈ uniq then uniq else uniq ++ [p]) acc).Nodup ∧
      ∀ p, p ∈ l.foldl (fun uniq p => if p ∈ uniq then uniq else uniq ++ [p]) acc ↔
        p ∈ acc ∨ p ∈ l := by
  induction l with
  | nil =>
    intro acc hnd
    exact ⟨hnd, fun p => by simp⟩
  | cons q rest ih =>
    intro acc hnd
    rw [List.foldl_cons]
    by_cases hq : q ∈ acc
    · rw [if_pos hq]
      obtain ⟨h1, h2⟩ := ih acc hnd
      refine ⟨h1, fun p => ?_⟩
      rw [h2 p, List.mem_cons]
      constructor
      · rintro (h | h)
        · exact Or.inl h
        · exact Or.inr (Or.inr h)
      · rintro (h | h | h)
        · exact Or.inl h
        · exact Or.inl (h ▸ hq)
        · exact Or.inr h
    · rw [if_neg hq]
      obtain ⟨h1, h2⟩ := ih (acc ++ [q]) (by
        rw [List.nodup_append]
        refine ⟨hnd, by simp, ?_⟩
        intro a ha hb
        rw [List.mem_singleton] at hb
        exact hq (hb ▸ ha))
      refine ⟨h1, fun p => ?_⟩
      rw [h2 p, List.mem_append, List.mem_singleton, List.mem_cons]
      constructor
      · rintro ((h | h) | h)
        · exact Or.inl h
        · exact Or.inr (Or.inl h)
        · exact Or.inr (Or.inr h)
      · rintro (h | h | h)
        · exact Or.inl (Or.inl h)
        · exact Or.inl (Or.inr h)
        · exact Or.inr h

theorem get_uniq_warps_spec (stage : List (Nat × Nat)) :
    (get_uniq_warps stage).Nodup ∧ ∀ p, p ∈ get_uniq_warps stage ↔ p ∈ stage := by
  obtain ⟨h1, h2⟩ := uniq_pairs_fold stage [] List.nodup_nil
  refine ⟨h1, fun p => ?_⟩
  unfold get_uniq_warps
  rw [h2 p]
  simp

theorem check_issue_spec (uniq : List (Nat × Nat)) (max w t : Nat) (h : uniq.length ≤ max) :
    ∃ r, check_issue uniq max w t = .ok r ∧
      (r ≠ 0 ↔ uniq.length < max ∨ (w, t) ∈ uniq) := by
  unfold check_issue
  rw [if_neg (not_not.mpr h)]
  by_cases hlt : uniq.length < max
  · rw [if_pos hlt]
    exact ⟨1, rfl, by simp [hlt]⟩
  · rw [if_neg hlt]
    by_cases hany : (uniq.any fun it => it.1 == w && it.2 == t) = true
    · rw [if_pos hany]
      refine ⟨1, rfl, ?_⟩
      have hmem : (w, t) ∈ uniq := by
        obtain ⟨p, hp, hpe⟩ := List.any_eq_true.mp hany
        simp only [Bool.and_eq_true, beq_iff_eq] at hpe
        have : p = (w, t) := Prod.ext hpe.1 hpe.2
        exact this ▸ hp
      simp [hmem]
    · rw [if_neg hany]
      refine ⟨0, rfl, ?_⟩
      have hmem : (w, t) ∉ uniq := by
        intro hm
        exact hany (List.any_eq_true.mpr ⟨(w, t), hm, by simp⟩)
      simp [hlt, hmem]

/-- C32: for a pipeline-register stage that holds at most `max` distinct pairs
`(warp_id, issue_cycle)`, `check_issue(stage, max, w, t)` returns, and the value is
non-zero if and only if the stage holds fewer than `max` distinct pairs or holds an
instruction with the pair `(w, t)`. -/
theorem check_issue_contract (stage : List (Nat × Nat)) (max w t : Nat)
    (h : (get_uniq_warps stage).length ≤ max) :
    ∃ r, check_issue (get_uniq_warps stage) max w t = .ok r ∧
      (r ≠ 0 ↔ (get_uniq_warps stage).length < max ∨ (w, t) ∈ stage) := by
  obtain ⟨r, hr, hiff⟩ := check_issue_spec (get_uniq_warps stage) max w t h
  exact ⟨r, hr, by rw [hiff, (get_uniq_warps_spec stage).2]⟩

/-- Witness for `check_issue_contract`: a stage of width 2 that holds two fragments
of warp 1 and an instruction of warp 2 accepts a third fragment of warp 1. -/
theorem check_issue_contract_witness :
    ∃ r, check_issue (get_uniq_warps [(1, 10), (2, 10), (1, 10)]) 2 1 10 = .ok r ∧
      (r ≠ 0 ↔ (get_uniq_warps [(1, 10), (2, 10), (1, 10)]).length < 2 ∨
        (1, 10) ∈ [(1, 10), (2, 10), (1, 10)]) :=
  check_issue_contract [(1, 10), (2, 10), (1, 10)] 2 1 10 (by decide)

/-- C33: a call of `arbiter_t::allocate_reads` that returns moves the priority pointer
by one position: `m_last_cu` becomes its old value plus one, modulo the larger of the
number of banks and the number of collector units, whatever was granted. -/
theorem allocate_reads_advances_priority (a a' : arbiter_t) (result : List op_t)
    (h : a.allocate_reads = .ok (result, a')) :
    a'.m_last_cu = (a.m_last_cu + 1) % max a.m_num_banks a.m_num_collectors := by
  obtain ⟨_, _, _, _, _, _, _, _, _, _, _, hlast, _⟩ := allocate_reads_ok a a' result h
  rw [hlast]
  congr 1
  split
  · next hgt => exact (Nat.max_eq_left (Nat.le_of_lt hgt)).symm
  · next hgt => exact (Nat.max_eq_right (Nat.le_of_not_lt hgt)).symm

/-- Witness for `allocate_reads_advances_priority`: four banks, four collector units
and the pointer at 0; afterwards the pointer is at 1. -/
theorem allocate_reads_advances_priority_witness :
    ∃ result a', example_arbiter.allocate_reads = .ok (result, a') ∧ a'.m_last_cu = 1 := by
  obtain ⟨⟨result, a'⟩, hp⟩ :=
    exists_ok_of_isOk example_arbiter.allocate_reads (by decide)
  exact ⟨result, a', hp, allocate_reads_advances_priority example_arbiter a' result hp⟩

theorem guarded_step_inv (max : Nat) (stage : List (Nat × Nat)) (op : stage_op)
    (h : (get_uniq_warps stage).length ≤ max) :
    ∃ stage', guarded_step max stage op = .ok stage' ∧ (get_uniq_warps stage').length ≤ max := by
  obtain ⟨hnd, hmem⟩ := get_uniq_warps_spec stage
  cases op with
  | insert w t =>
    obtain ⟨r, hr, hiff⟩ := check_issue_spec (get_uniq_warps stage) max w t h
    unfold guarded_step
    simp only
    rw [hr]
    simp only
    by_cases hr0 : r ≠ 0
    · rw [if_pos hr0]
      refine ⟨_, rfl, ?_⟩
      obtain ⟨hnd', hmem'⟩ := get_uniq_warps_spec (stage ++ [(w, t)])
      rcases hiff.mp hr0 with hlt | hin
      · have hsub : get_uniq_warps (stage ++ [(w, t)]) ⊆ (w, t) :: get_uniq_warps stage := by
          intro p hp
          rcases List.mem_append.mp ((hmem' p).mp hp) with h1 | h1
          · exact List.mem_cons_of_mem _ ((hmem p).mpr h1)
          · rw [List.mem_singleton] at h1
            rw [h1]
            exact List.mem_cons_self _ _
        have := length_le_of_nodup_subset _ _ hnd' hsub
        rw [List.length_cons] at this
        omega
      · have hsub : get_uniq_warps (stage ++ [(w, t)]) ⊆ get_uniq_warps stage := by
          intro p hp
          rcases List.mem_append.mp ((hmem' p).mp hp) with h1 | h1
          · exact (hmem p).mpr h1
          · rw [List.mem_singleton] at h1
            rw [h1]
            exact hin
        have := length_le_of_nodup_subset _ _ hnd' hsub
        omega
    · rw [if_neg hr0]
      exact ⟨_, rfl, h⟩
  | remove k =>
    refine ⟨_, rfl, ?_⟩
    obtain ⟨hnd', hmem'⟩ := get_uniq_warps_spec (stage.eraseIdx k)
    have hsub : get_uniq_warps (stage.eraseIdx k) ⊆ get_uniq_warps stage := by
      intro p hp
      exact (hmem p).mpr ((List.eraseIdx_sublist stage k).subset ((hmem' p).mp hp))
    have := length_le_of_nodup_subset _ _ hnd' hsub
    omega

/-- C35: a stage that holds at most `max` distinct pairs `(warp_id, issue_cycle)` still
does so after an instruction is inserted under the guard of `check_issue` with that
`max`, and after an instruction is removed; so on a stage that starts empty and is
changed by such operations only, every call of `check_issue` returns, that is, its
assertion `uniq_warp_cycles.size() <= max` holds, and the stage holds at most `max`
distinct pairs at the end. -/
theorem width_accounting_invariant (max : Nat) (ops : List stage_op) :
    (∀ stage op, (get_uniq_warps stage).length ≤ max →
      ∃ stage', guarded_step max stage op = .ok stage' ∧
        (get_uniq_warps stage').length ≤ max) ∧
    ∃ stage', guarded_run max [] ops = .ok stage' ∧ (get_uniq_warps stage').length ≤ max := by
  refine ⟨fun stage op h => guarded_step_inv max stage op h, ?_⟩
  have hrun : ∀ (ops : List stage_op) (stage : List (Nat × Nat)),
      (get_uniq_warps stage).length ≤ max →
      ∃ stage', guarded_run max stage ops = .ok stage' ∧
        (get_uniq_warps stage').length ≤ max := by
    intro ops
    induction ops with
    | nil => intro stage h; exact ⟨stage, rfl, h⟩
    | cons op rest ih =>
      intro stage h
      obtain ⟨s1, h1, h2⟩ := guarded_step_inv max stage op h
      obtain ⟨s2, h3, h4⟩ := ih s1 h2
      refine ⟨s2, ?_, h4⟩
      rw [guarded_run, h1]
      exact h3
  exact hrun ops [] (Nat.zero_le _)

/-- Witness for `width_accounting_invariant`: with a width of 1 the instruction of
warp 2 is refused while a fragment of warp 1 is in the stage, and a second fragment
of warp 1 is accepted. -/
theorem width_accounting_invariant_witness :
    guarded_run 1 [] [.insert 1 10, .insert 2 10, .insert 1 10, .remove 0, .insert 2 10] =
        .ok [(1, 10)] ∧
      ∃ stage', guarded_run 1 [] [.insert 1 10, .insert 2 10, .insert 1 10, .remove 0,
          .insert 2 10] = .ok stage' ∧ (get_uniq_warps stage').length ≤ 1 :=
  ⟨by decide, (width_accounting_invariant 1 [.insert 1 10, .insert 2 10, .insert 1 10,
    .remove 0, .insert 2 10]).2⟩

/-! ## A register listed twice among the destinations -/

theorem reserveRegister_fault (s : Scoreboard) (w r m : Nat) (f : Fault)
    (hw : w < s.reg_table.length) (h : s.reserveRegister w r m = .error f) : f = .abort := by
  unfold Scoreboard.reserveRegister at h
  rw [dif_pos hw] at h
  split at h
  · cases h
    rfl
  · split at h <;> cases h

theorem reserveRegister_entries (s s' : Scoreboard) (w r m : Nat)
    (h : s.reserveRegister w r m = .ok s') :
    s'.reg_table.length = s.reg_table.length ∧
    s'.entries w =
      if (s.entries w).any (fun e => decide (e.reg = r)) then
        (s.entries w).map (fun e => if e.reg = r then
          { e with active_mask := e.active_mask ||| m } else e)
      else (s.entries w).map (fun e => if e.reg = r then
          { e with active_mask := e.active_mask ||| m } else e) ++ [⟨r, m⟩] := by
  obtain ⟨hw, hclear⟩ := reserveRegister_ok_inv s s' w r m h
  rw [reserveRegister_of_clear s w r m hw hclear] at h
  cases h
  refine ⟨by simp, ?_⟩
  rw [entries_set_same s hw, entries_eq_getElem s hw]

theorem would_collide_after_reserve (s s' : Scoreboard) (w r m : Nat) (hm : m ≠ 0)
    (h : s.reserveRegister w r m = .ok s') : would_collide s' w r m := by
  obtain ⟨_, hent⟩ := reserveRegister_entries s s' w r m h
  have hself : ∀ a : Nat, bs_any ((a ||| m) &&& m) = true := by
    intro a
    have : (a ||| m) &&& m = m := by
      apply Nat.eq_of_testBit_eq
      intro i
      simp only [Nat.testBit_and, Nat.testBit_or]
      cases a.testBit i <;> cases m.testBit i <;> rfl
    rw [this]
    unfold bs_any
    simpa using hm
  unfold would_collide
  rw [hent]
  by_cases hany : (s.entries w).any (fun e => decide (e.reg = r)) = true
  · rw [if_pos hany]
    obtain ⟨e, he, her⟩ := List.any_eq_true.mp hany
    have her' : e.reg = r := by simpa using her
    refine ⟨{ e with active_mask := e.active_mask ||| m }, ?_, her', hself _⟩
    exact List.mem_map.mpr ⟨e, he, by rw [if_pos her']⟩
  · rw [if_neg hany]
    refine ⟨⟨r, m⟩, by simp, rfl, ?_⟩
    have := hself 0
    simpa using this

theorem would_collide_preserved (s s' : Scoreboard) (w r r' m : Nat) (hne : r' ≠ r)
    (h : s.reserveRegister w r' m = .ok s') (hc : would_collide s w r m) :
    would_collide s' w r m := by
  obtain ⟨_, hent⟩ := reserveRegister_entries s s' w r' m h
  obtain ⟨e, he, her, hb⟩ := hc
  have hmem : e ∈ (s.entries w).map (fun e => if e.reg = r' then
      ({ e with active_mask := e.active_mask ||| m } : reg_and_mask) else e) :=
    List.mem_map.mpr ⟨e, he, by rw [if_neg (by rw [her]; exact fun h => hne h.symm)]⟩
  refine ⟨e, ?_, her, hb⟩
  rw [hent]
  split
  · exact hmem
  · exact List.mem_append_left _ hmem

theorem reserve_fold_collides (inst : warp_inst_t) (r : Nat) (hr : 0 < r) :
    ∀ (l : List (Fin 4)) (s : Scoreboard), inst.m_warp_id < s.reg_table.length →
      would_collide s inst.m_warp_id r inst.m_warp_active_mask →
      (∃ j ∈ l, inst.out j = r) →
      l.foldlM (fun (s : Scoreboard) r =>
        if inst.out r > 0 then
          s.reserveRegister inst.m_warp_id (inst.out r) inst.m_warp_active_mask
        else pure s) s = .error .abort := by
  intro l
  induction l with
  | nil =>
    intro s _ _ hj
    obtain ⟨j, hj, _⟩ := hj
    cases hj
  | cons k rest ih =>
    intro s hw hc hj
    rw [List.foldlM_cons]
    by_cases hk : inst.out k = r
    · rw [if_pos (by omega), hk, (reserveRegister_abort_iff s _ _ _).mpr hc]
      rfl
    · have hj' : ∃ j ∈ rest, inst.out j = r := by
        obtain ⟨j, hj1, hj2⟩ := hj
        rcases List.mem_cons.mp hj1 with rfl | hj1
        · exact absurd hj2 hk
        · exact ⟨j, hj1, hj2⟩
      by_cases hpos : inst.out k > 0
      · rw [if_pos hpos]
        cases hres : s.reserveRegister inst.m_warp_id (inst.out k) inst.m_warp_active_mask with
        | error f =>
          rw [reserveRegister_fault s _ _ _ f hw hres]
          rfl
        | ok s' =>
          have hlen := (reserveRegister_entries s s' _ _ _ hres).1
          exact ih s' (by omega) (would_collide_preserved s s' _ r _ _ hk hres hc) hj'
      · rw [if_neg hpos]
        exact ih s hw hc hj'

theorem reserve_fold_twice (inst : warp_inst_t) (r : Nat) (hr : 0 < r)
    (hm : inst.m_warp_active_mask ≠ 0) :
    ∀ (pre post : List (Fin 4)) (i : Fin 4) (s : Scoreboard),
      inst.m_warp_id < s.reg_table.length → inst.out i = r → (∃ j ∈ post, inst.out j = r) →
      (pre ++ i :: post).foldlM (fun (s : Scoreboard) r =>
        if inst.out r > 0 then
          s.reserveRegister inst.m_warp_id (inst.out r) inst.m_warp_active_mask
        else pure s) s = .error .abort := by
  intro pre
  induction pre with
  | nil =>
    intro post i s hw hi hj
    rw [List.nil_append, List.foldlM_cons, if_pos (by omega), hi]
    cases hres : s.reserveRegister inst.m_warp_id r inst.m_warp_active_mask with
    | error f =>
      rw [reserveRegister_fault s _ _ _ f hw hres]
      rfl
    | ok s' =>
      have hlen := (reserveRegister_entries s s' _ _ _ hres).1
      exact reserve_fold_collides inst r hr post s' (by omega)
        (would_collide_after_reserve s s' _ r _ hm hres) hj
  | cons k pre ih =>
    intro post i s hw hi hj
    rw [List.cons_append, List.foldlM_cons]
    by_cases hpos : inst.out k > 0
    · rw [if_pos hpos]
      cases hres : s.reserveRegister inst.m_warp_id (inst.out k) inst.m_warp_active_mask with
      | error f =>
        rw [reserveRegister_fault s _ _ _ f hw hres]
        rfl
      | ok s' =>
        have hlen := (reserveRegister_entries s s' _ _ _ hres).1
        exact ih post i s' (by omega) hi hj
    · rw [if_neg hpos]
      exact ih post i s hw hi hj

/-- C38: for an instruction of a warp of the scoreboard that lists the same register
`r > 0` in two of its four destination slots and has a non-empty active mask,
`reserveRegisters(inst)` aborts, whatever the scoreboard holds: at the latest the call
of `reserveRegister` for the second slot finds the lanes reserved by the first. -/
theorem reserveRegisters_duplicate_aborts (s : Scoreboard) (inst : warp_inst_t) (i j : Fin 4)
    (r : Nat) (hw : inst.m_warp_id < s.reg_table.length) (hij : i < j)
    (hi : inst.out i = r) (hj : inst.out j = r) (hr : 0 < r)
    (hm : inst.m_warp_active_mask ≠ 0) :
    s.reserveRegisters inst = .error .abort := by
  have hsplit : ∃ pre post, [(0 : Fin 4), 1, 2, 3] = pre ++ i :: post ∧ j ∈ post := by
    fin_cases i <;> fin_cases j <;> first
      | exact absurd hij (by decide)
      | exact ⟨[], [1, 2, 3], rfl, by decide⟩
      | exact ⟨[0], [2, 3], rfl, by decide⟩
      | exact ⟨[0, 1], [3], rfl, by decide⟩
  obtain ⟨pre, post, hl, hjp⟩ := hsplit
  unfold Scoreboard.reserveRegisters
  rw [hl, reserve_fold_twice inst r hr hm pre post i s hw hi ⟨j, hjp, hj⟩]
  rfl

/-- Witness for `reserveRegisters_duplicate_aborts`: register 5 in the destination
slots 0 and 2, on an empty scoreboard. -/
theorem reserveRegisters_duplicate_aborts_witness :
    (Scoreboard.init 1).reserveRegisters
      { out := regs4 5 0 5 0, in_ := regs4 0 0 0 0, pred := 0, ar1 := 0, ar2 := 0,
        is_load := false, space := .reg_space, m_warp_id := 0, m_warp_active_mask := 3 } =
      .error .abort :=
  reserveRegisters_duplicate_aborts (Scoreboard.init 1)
    { out := regs4 5 0 5 0, in_ := regs4 0 0 0 0, pred := 0, ar1 := 0, ar2 := 0,
      is_load := false, space := .reg_space, m_warp_id := 0, m_warp_active_mask := 3 }
    0 2 5 (by decide) (by decide) rfl rfl (by decide) (by decide)

/-! ## Stall accounting of the scheduler -/

theorem diagonal_step_spec (I O sq : Nat) (req : Nat → Nat → Int)
    (inm outm : Nat → Int) (out : Nat) (st' : (Nat → Int) × (Nat → Int) × Nat) (input : Nat)
    (h : diagonal_step I O sq req (inm, outm, out) input = .ok st') :
    input < I ∧ out < O ∧ st'.2.2 = (out + 1) % sq ∧
      ((inm input = -1 ∧ outm out = -1 ∧ req input out ≠ 0 ∧
          st'.1 = Function.update inm input (out : Int) ∧
          st'.2.1 = Function.update outm out (input : Int)) ∨
        (¬ (inm input = -1 ∧ outm out = -1 ∧ req input out ≠ 0) ∧
          st'.1 = inm ∧ st'.2.1 = outm)) := by
  unfold diagonal_step at h
  simp only at h
  by_cases h1 : input < I
  · by_cases h2 : out < O
    · rw [if_neg (not_not.mpr h1), if_neg (not_not.mpr h2)] at h
      simp only [Except.ok.injEq] at h
      subst h
      refine ⟨h1, h2, rfl, ?_⟩
      by_cases hg : inm input = -1 ∧ outm out = -1 ∧ req input out ≠ 0
      · left
        obtain ⟨g1, g2, g3⟩ := hg
        simp [h2, g1, g2, g3]
      · right
        refine ⟨hg, ?_⟩
        have hb : (decide (out < O) && decide (inm input = -1) &&
            decide (outm out = -1) && decide (req input out ≠ 0)) = false := by
          rw [Bool.eq_false_iff]
          intro hc
          simp only [Bool.and_eq_true, decide_eq_true_eq] at hc
          exact hg ⟨hc.1.1.2, hc.1.2, hc.2⟩
        simp only [hb]
        exact ⟨rfl, rfl⟩
    · rw [if_neg (not_not.mpr h1), if_pos h2] at h
      cases h
  · rw [if_pos h1] at h
    cases h

theorem diagonal_step_closed (I O sq : Nat) (req : Nat → Nat → Int)
    (st st' : (Nat → Int) × (Nat → Int) × Nat) (input : Nat)
    (h : diagonal_step I O sq req st input = .ok st') :
    (∀ i o, cell_closed st.1 st.2.1 i o → cell_closed st'.1 st'.2.1 i o) ∧
      (req input st.2.2 ≠ 0 → cell_closed st'.1 st'.2.1 input st.2.2) := by
  obtain ⟨inm, outm, out⟩ := st
  obtain ⟨_, _, _, hc⟩ := diagonal_step_spec I O sq req inm outm out st' input h
  rcases hc with ⟨g1, g2, g3, e1, e2⟩ | ⟨hn, e1, e2⟩
  · rw [e1, e2]
    constructor
    · intro i o hio
      rcases hio with hi | ho
      · left
        by_cases hii : i = input
        · subst hii
          simp only [Function.update_same]
          omega
        · rw [Function.update_noteq hii]
          exact hi
      · right
        by_cases hoo : o = out
        · subst hoo
          simp only [Function.update_same]
          omega
        · rw [Function.update_noteq hoo]
          exact ho
    · intro _
      left
      simp only [Function.update_same]
      omega
  · rw [e1, e2]
    refine ⟨fun i o hio => hio, ?_⟩
    intro hr
    by_cases hi : inm input = -1
    · by_cases ho : outm out = -1
      · exact absurd ⟨hi, ho, hr⟩ hn
      · exact Or.inr ho
    · exact Or.inl hi

theorem diagonal_step_grants (a : arbiter_t) (sq : Nat) (req : Nat → Nat → Int)
    (st st' : (Nat → Int) × (Nat → Int) × Nat) (input : Nat)
    (h : diagonal_step a.m_num_banks a.m_num_collectors sq req st input = .ok st')
    (hinv : grants_ok a req st.1 st.2.1) : grants_ok a req st'.1 st'.2.1 := by
  obtain ⟨inm, outm, out⟩ := st
  obtain ⟨hin, hout, _, hc⟩ :=
    diagonal_step_spec a.m_num_banks a.m_num_collectors sq req inm outm out st' input h
  obtain ⟨hw, hg⟩ := hinv
  simp only at hw hg
  rcases hc with ⟨g1, g2, g3, e1, e2⟩ | ⟨_, e1, e2⟩
  · rw [e1, e2]
    constructor
    · intro i hi hwi
      by_cases hii : i = input
      · subst hii
        simp only [Function.update_same]
        omega
      · rw [Function.update_noteq hii]
        exact hw i hi hwi
    · intro o ho hne
      by_cases hoo : o = out
      · subst hoo
        refine ⟨input, hin, by simp, by simp, g3, ?_⟩
        cases hwi : (a.m_allocated_bank input).is_write with
        | false => rfl
        | true => exact absurd g1 (hw input hin hwi)
      · rw [Function.update_noteq hoo] at hne
        obtain ⟨i, hi, h1, h2, h3, h4⟩ := hg o ho hne
        have hii : i ≠ input := by
          intro hc
          rw [hc, g1] at h2
          omega
        exact ⟨i, hi, by rw [Function.update_noteq hoo]; exact h1,
          by rw [Function.update_noteq hii]; exact h2, h3, h4⟩
  · rw [e1, e2]
    exact ⟨hw, hg⟩

theorem diagonal_loop_visits (I O sq : Nat) (req : Nat → Nat → Int)
    (inm outm : Nat → Int) (x : Nat) (st' : (Nat → Int) × (Nat → Int) × Nat)
    (h : (List.range I).foldlM (diagonal_step I O sq req) (inm, outm, x % sq) = .ok st') :
    (∀ i o, cell_closed inm outm i o → cell_closed st'.1 st'.2.1 i o) ∧
      ∀ i, i < I → req i ((x + i) % sq) ≠ 0 → cell_closed st'.1 st'.2.1 i ((x + i) % sq) := by
  refine foldlM_range_invariant (diagonal_step I O sq req)
    (fun k st =>
      st.2.2 = (x + k) % sq ∧
      (∀ i o, cell_closed inm outm i o → cell_closed st.1 st.2.1 i o) ∧
      ∀ i, i < k → req i ((x + i) % sq) ≠ 0 → cell_closed st.1 st.2.1 i ((x + i) % sq))
    (inm, outm, x % sq) ⟨rfl, fun i o hio => hio, fun i hi => absurd hi (Nat.not_lt_zero _)⟩
    I ?_ st' h |>.2
  intro k s s' _ hP hs
  obtain ⟨hout, hmono, hvis⟩ := hP
  obtain ⟨hc1, hc2⟩ := diagonal_step_closed I O sq req s s' k hs
  obtain ⟨_, _, hnext, _⟩ := diagonal_step_spec I O sq req s.1 s.2.1 s.2.2 s' k hs
  refine ⟨?_, fun i o hio => hc1 i o (hmono i o hio), ?_⟩
  · rw [hnext, hout, Nat.add_mod, Nat.mod_mod, ← Nat.add_mod, Nat.add_assoc]
  · intro i hi hr
    by_cases hik : i = k
    · subst hik
      rw [← hout]
      apply hc2
      rw [hout]
      exact hr
    · exact hc1 _ _ (hvis i (by omega) hr)

theorem wavefront_visits (I O sq pri : Nat) (req : Nat → Nat → Int)
    (st st' : (Nat → Int) × (Nat → Int))
    (h : wavefront I O sq pri req st = .ok st') :
    (∀ i o, cell_closed st.1 st.2 i o → cell_closed st'.1 st'.2 i o) ∧
      ∀ p, p < sq → ∀ i, i < I → req i ((pri + p + i) % sq) ≠ 0 →
        cell_closed st'.1 st'.2 i ((pri + p + i) % sq) := by
  unfold wavefront at h
  refine foldlM_range_invariant _
    (fun k s =>
      (∀ i o, cell_closed st.1 st.2 i o → cell_closed s.1 s.2 i o) ∧
      ∀ p, p < k → ∀ i, i < I → req i ((pri + p + i) % sq) ≠ 0 →
        cell_closed s.1 s.2 i ((pri + p + i) % sq))
    st ⟨fun i o hio => hio, fun p hp => absurd hp (Nat.not_lt_zero _)⟩ sq ?_ st' h
  intro k s s' _ hP hs
  obtain ⟨hmono, hvis⟩ := hP
  simp only at hs
  cases hd : (List.range I).foldlM (diagonal_step I O sq req) (s.1, s.2, (pri + k) % sq) with
  | error e => rw [hd] at hs; cases hs
  | ok t =>
    rw [hd] at hs
    simp only [Except.ok.injEq] at hs
    subst hs
    obtain ⟨hc1, hc2⟩ := diagonal_loop_visits I O sq req s.1 s.2 (pri + k) t hd
    refine ⟨fun i o hio => hc1 i o (hmono i o hio), ?_⟩
    intro p hp i hi hr
    by_cases hpk : p = k
    · subst hpk
      exact hc2 i hi hr
    · exact hc1 _ _ (hvis p (by omega) i hi hr)

theorem wavefront_grants (a : arbiter_t) (sq pri : Nat) (req : Nat → Nat → Int)
    (st st' : (Nat → Int) × (Nat → Int))
    (h : wavefront a.m_num_banks a.m_num_collectors sq pri req st = .ok st')
    (hinv : grants_ok a req st.1 st.2) : grants_ok a req st'.1 st'.2 := by
  unfold wavefront at h
  refine foldlM_invariant _ (fun s => grants_ok a req s.1 s.2) (List.range sq) ?_ st st'
    hinv h
  intro s p s' _ hs hstep
  simp only at hstep
  cases hd : (List.range a.m_num_banks).foldlM
      (diagonal_step a.m_num_banks a.m_num_collectors sq req) (s.1, s.2, (pri + p) % sq) with
  | error e => rw [hd] at hstep; cases hstep
  | ok t =>
    rw [hd] at hstep
    simp only [Except.ok.injEq] at hstep
    subst hstep
    exact foldlM_invariant _ (fun t => grants_ok a req t.1 t.2.1) (List.range a.m_num_banks)
      (fun t x t' _ ht hx => diagonal_step_grants a sq req t t' x hx ht)
      (s.1, s.2, (pri + p) % sq) t hs hd

theorem request_step_head (a : arbiter_t) (st st' : (Nat → Int) × (Nat → Nat → Int)) (k : Nat)
    (h : request_step a st k = .ok st') (op : op_t) (rest : List op_t)
    (hq : a.m_queue k = op :: rest) :
    0 ≤ op.oc_id ∧ op.oc_id < (a.m_num_collectors : Int) := by
  unfold request_step at h
  simp only at h
  rw [hq] at h
  simp only at h
  by_cases h1 : op.oc_id < (a.m_num_collectors : Int)
  · by_cases h2 : op.oc_id < 0
    · rw [if_neg (not_not.mpr h1), if_pos h2] at h
      cases h
    · exact ⟨not_lt.mp h2, h1⟩
  · rw [if_pos h1] at h
    cases h

theorem requests_heads (a : arbiter_t) (st0 st' : (Nat → Int) × (Nat → Nat → Int))
    (h : (List.range a.m_num_banks).foldlM (request_step a) st0 = .ok st') :
    ∀ i, i < a.m_num_banks → ∀ op rest, a.m_queue i = op :: rest →
      0 ≤ op.oc_id ∧ op.oc_id < (a.m_num_collectors : Int) := by
  refine foldlM_range_invariant (request_step a)
    (fun k _ => ∀ i, i < k → ∀ op rest, a.m_queue i = op :: rest →
      0 ≤ op.oc_id ∧ op.oc_id < (a.m_num_collectors : Int))
    st0 (fun i hi => absurd hi (Nat.not_lt_zero _)) a.m_num_banks ?_ st' h
  intro k s s' _ hP hs i hi op rest hq
  by_cases hik : i = k
  · subst hik
    exact request_step_head a s s' i hs op rest hq
  · exact hP i (by omega) op rest hq

theorem add_mod_reach (M f b j : Nat) (hj : j < M) : ∃ p, p < M ∧ (f + p + b) % M = j := by
  obtain ⟨t, ht1, ht2, ht3⟩ := add_mod_surj M (f + b) j hj
  by_cases ht : t = M
  · refine ⟨0, by omega, ?_⟩
    rw [ht, Nat.add_mod_right] at ht3
    rw [Nat.add_zero]
    exact ht3
  · refine ⟨t, by omega, ?_⟩
    rw [← ht3]
    congr 1
    omega

/-- C36: the wavefront matching of `arbiter_t::allocate_reads` is maximal.  With no
more banks than collector units, after a call that returns, every bank that is not
allocated for a write and has a pending head request is either granted, or another
bank, which is not allocated for a write either and whose head request names the same
collector unit, is granted and matched to that collector unit.  So no bank is left
without a grant while the collector unit of its head request is left unmatched. -/
theorem wavefront_maximal (a a' : arbiter_t) (result : List op_t)
    (hle : a.m_num_banks ≤ a.m_num_collectors)
    (h : a.allocate_reads = .ok (result, a'))
    (b : Nat) (op : op_t) (rest : List op_t) (hb : b < a.m_num_banks)
    (hq : a.m_queue b = op :: rest) (hw : (a.m_allocated_bank b).is_write = false) :
    read_granted a a'._inmatch b = true ∨
      ∃ b' op' rest', b' < a.m_num_banks ∧ b' ≠ b ∧ a.m_queue b' = op' :: rest' ∧
        op'.oc_id = op.oc_id ∧ read_granted a a'._inmatch b' = true ∧
        a'._outmatch op.oc_id.toNat = (b' : Int) := by
  obtain ⟨st1, st2, st3, h1, h2, _, _, _, hin, hout, _, _, _⟩ :=
    allocate_reads_ok a a' result h
  have hsq : (if a.m_num_banks > a.m_num_collectors then a.m_num_banks
      else a.m_num_collectors) = a.m_num_collectors := if_neg (by omega)
  rw [hsq] at h2
  obtain ⟨hs1, hs2⟩ := requests_spec a _ _ st1 h1
  obtain ⟨hnn, hlt⟩ := requests_heads a _ st1 h1 b hb op rest hq
  have hj : op.oc_id.toNat < a.m_num_collectors := by omega
  have hoc : op.oc_id = (op.oc_id.toNat : Int) := (Int.toNat_of_nonneg hnn).symm
  have hreq : st1.2 b op.oc_id.toNat ≠ 0 := (hs2 b hb _ hj).mpr ⟨op, rest, hq, hoc⟩
  have hinit : grants_ok a st1.2 st1.1 (clear_matching a.m_num_collectors a._outmatch) := by
    constructor
    · intro i hi hwi
      rw [hs1 i, if_pos ⟨hi, hwi⟩]
      omega
    · intro o ho hne
      exfalso
      apply hne
      rw [clear_matching_apply, if_pos ho]
  have hfin := wavefront_grants a _ _ st1.2 _ st2 h2 hinit
  obtain ⟨_, hvis⟩ := wavefront_visits _ _ _ _ st1.2 _ st2 h2
  obtain ⟨p, hp, hpj⟩ := add_mod_reach a.m_num_collectors a.m_last_cu b op.oc_id.toNat hj
  have hcl := hvis p hp b hb (by rw [hpj]; exact hreq)
  rw [hpj] at hcl
  rw [hin, hout]
  by_cases hbm : st2.1 b = -1
  · right
    rcases hcl with hc | hc
    · exact absurd hbm hc
    · obtain ⟨i, hi, g1, g2, g3, g4⟩ := hfin.2 _ hj hc
      obtain ⟨op', rest', hq', hoc'⟩ := (hs2 i hi _ hj).mp g3
      have hne : st2.1 i ≠ -1 := by
        rw [g2]
        omega
      refine ⟨i, op', rest', hi, ?_, hq', hoc'.trans hoc.symm, ?_, g1⟩
      · intro hc'
        rw [hc'] at hne
        exact hne hbm
      · simp [read_granted, hne, g4]
  · left
    simp [read_granted, hbm, hw]

/-- Witness for `wavefront_maximal`: in `example_arbiter` banks 0 and 1 both ask for
collector unit 1; the theorem is applied to bank 1, which is the one that is granted
and matched to the unit. -/
theorem wavefront_maximal_witness :
    ∃ result a', example_arbiter.allocate_reads = .ok (result, a') ∧
      (read_granted example_arbiter a'._inmatch 1 = true ∨
        ∃ b' op' rest', b' < example_arbiter.m_num_banks ∧ b' ≠ 1 ∧
          example_arbiter.m_queue b' = op' :: rest' ∧
          op'.oc_id = (⟨1, 1, 9, 0, 1⟩ : op_t).oc_id ∧
          read_granted example_arbiter a'._inmatch b' = true ∧
          a'._outmatch (⟨1, 1, 9, 0, 1⟩ : op_t).oc_id.toNat = (b' : Int)) := by
  obtain ⟨⟨result, a'⟩, hp⟩ := exists_ok_of_isOk example_arbiter.allocate_reads (by decide)
  exact ⟨result, a', hp,
    wavefront_maximal example_arbiter a' result (by decide) hp 1 ⟨1, 1, 9, 0, 1⟩ []
      (by decide) (by decide) (by decide)⟩

/-! ## Assertions of the bank arbiter -/

theorem foldlM_range_total {σ : Type} (f : σ → Nat → Except Fault σ)
    (P : Nat → σ → Prop) (s0 : σ) (h0 : P 0 s0) :
    ∀ n, (∀ k s, k < n → P k s → ∃ s', f s k = .ok s' ∧ P (k + 1) s') →
      ∃ s', (List.range n).foldlM f s0 = .ok s' ∧ P n s' := by
  intro n
  induction n with
  | zero =>
    intro _
    exact ⟨s0, rfl, h0⟩
  | succ n ih =>
    intro hstep
    obtain ⟨s1, h1, hP1⟩ := ih (fun k s hk => hstep k s (Nat.lt_succ_of_lt hk))
    obtain ⟨s2, h2, hP2⟩ := hstep n s1 (Nat.lt_succ_self n) hP1
    refine ⟨s2, ?_, hP2⟩
    rw [foldlM_range_succ, h1]
    exact h2

theorem foldlM_range_error {σ : Type} (f : σ → Nat → Except Fault σ) (s0 : σ) :
    ∀ n e, (List.range n).foldlM f s0 = .error e → ∃ k s, k < n ∧ f s k = .error e := by
  intro n
  induction n with
  | zero =>
    intro e h
    cases h
  | succ n ih =>
    intro e h
    rw [foldlM_range_succ] at h
    cases hn : (List.range n).foldlM f s0 with
    | error e' =>
      rw [hn] at h
      cases h
      obtain ⟨k, s, hk, hs⟩ := ih e hn
      exact ⟨k, s, Nat.lt_succ_of_lt hk, hs⟩
    | ok s1 =>
      rw [hn] at h
      exact ⟨n, s1, Nat.lt_succ_self n, h⟩

theorem request_step_total (a : arbiter_t) (st : (Nat → Int) × (Nat → Nat → Int)) (k : Nat)
    (hv : ∀ op rest, a.m_queue k = op :: rest →
      0 ≤ op.oc_id ∧ op.oc_id < (a.m_num_collectors : Int)) :
    ∃ st', request_step a st k = .ok st' := by
  unfold request_step
  simp only
  cases hq : a.m_queue k with
  | nil => exact ⟨_, rfl⟩
  | cons op rest =>
    obtain ⟨h1, h2⟩ := hv op rest hq
    simp only
    rw [if_neg (not_not.mpr h2), if_neg (not_lt.mpr h1)]
    exact ⟨_, rfl⟩

theorem requests_total (a : arbiter_t) (st0 : (Nat → Int) × (Nat → Nat → Int))
    (hv : ∀ i, i < a.m_num_banks → ∀ op rest, a.m_queue i = op :: rest →
      0 ≤ op.oc_id ∧ op.oc_id < (a.m_num_collectors : Int)) :
    ∃ st1, (List.range a.m_num_banks).foldlM (request_step a) st0 = .ok st1 := by
  obtain ⟨st1, h1, _⟩ := foldlM_range_total (request_step a) (fun _ _ => True) st0 trivial
    a.m_num_banks (fun k s hk _ => by
      obtain ⟨s', hs'⟩ := request_step_total a s k (hv k hk)
      exact ⟨s', hs', trivial⟩)
  exact ⟨st1, h1⟩

theorem diagonal_step_total (I O sq : Nat) (req : Nat → Nat → Int)
    (st : (Nat → Int) × (Nat → Int) × Nat) (input : Nat)
    (hin : input < I) (hout : st.2.2 < O) :
    ∃ st', diagonal_step I O sq req st input = .ok st' ∧ st'.2.2 = (st.2.2 + 1) % sq := by
  obtain ⟨inm, outm, out⟩ := st
  unfold diagonal_step
  simp only
  rw [if_neg (not_not.mpr hin), if_neg (not_not.mpr hout)]
  exact ⟨_, rfl, rfl⟩

theorem wavefront_total (I O sq pri : Nat) (req : Nat → Nat → Int)
    (st : (Nat → Int) × (Nat → Int)) (hsq : 0 < sq) (hle : sq ≤ O) :
    ∃ st', wavefront I O sq pri req st = .ok st' := by
  unfold wavefront
  obtain ⟨st', h, _⟩ := foldlM_range_total
    (fun (st : (Nat → Int) × (Nat → Int)) p =>
      match (List.range I).foldlM (diagonal_step I O sq req) (st.1, st.2, (pri + p) % sq) with
      | .error e => .error e
      | .ok st' => .ok (st'.1, st'.2.1))
    (fun _ _ => True) st trivial sq (fun p s _ _ => by
      obtain ⟨t, ht, _⟩ := foldlM_range_total (diagonal_step I O sq req)
        (fun _ (t : (Nat → Int) × (Nat → Int) × Nat) => t.2.2 < sq)
        (s.1, s.2, (pri + p) % sq) (Nat.mod_lt _ hsq) I (fun k t hk ht => by
          have ht2 : t.2.2 < sq := ht
          obtain ⟨t', h1, h2⟩ := diagonal_step_total I O sq req t k hk (by omega)
          exact ⟨t', h1, by show t'.2.2 < sq; rw [h2]; exact Nat.mod_lt _ hsq⟩)
      refine ⟨(t.1, t.2.1), ?_, trivial⟩
      simp only [ht])
  exact ⟨st', h⟩

theorem collect_total (a : arbiter_t) (inm : Nat → Int) (q0 : Nat → List op_t) (n : Nat)
    (hne : ∀ i, i < n → read_granted a inm i = true → ∃ op rest, q0 i = op :: rest) :
    ∃ st3, (List.range n).foldlM (collect_step a inm) ([], q0) = .ok st3 := by
  obtain ⟨st3, h, _⟩ := foldlM_range_total (collect_step a inm)
    (fun k (st : List op_t × (Nat → List op_t)) => ∀ i, k ≤ i → st.2 i = q0 i)
    ([], q0) (fun _ _ => rfl) n (fun k s hk hP => by
      unfold collect_step
      by_cases h1 : inm k ≠ -1
      · by_cases h2 : (a.m_allocated_bank k).is_write = true
        · rw [if_pos h1, if_neg (not_not.mpr h2)]
          exact ⟨s, rfl, fun i hi => hP i (by omega)⟩
        · rw [if_pos h1, if_pos h2]
          obtain ⟨op, rest, hq⟩ := hne k hk (by simp [read_granted, h1, h2])
          rw [hP k (Nat.le_refl k), hq]
          refine ⟨_, rfl, ?_⟩
          intro i hi
          have hik : i ≠ k := by omega
          simp only [Function.update_noteq hik]
          exact hP i (by omega)
      · rw [if_neg h1]
        exact ⟨s, rfl, fun i hi => hP i (by omega)⟩)
  exact ⟨st3, h⟩

theorem allocate_reads_total (a : arbiter_t) (h1 : 1 ≤ a.m_num_banks)
    (hle : a.m_num_banks ≤ a.m_num_collectors)
    (hv : ∀ i, i < a.m_num_banks → ∀ op rest, a.m_queue i = op :: rest →
      0 ≤ op.oc_id ∧ op.oc_id < (a.m_num_collectors : Int)) :
    ∃ r, a.allocate_reads = .ok r := by
  have hsq : (if a.m_num_banks > a.m_num_collectors then a.m_num_banks
      else a.m_num_collectors) = a.m_num_collectors := if_neg (by omega)
  obtain ⟨st1, hr⟩ := requests_total a (clear_matching a.m_num_banks a._inmatch, a._request) hv
  obtain ⟨st2, hwv⟩ := wavefront_total a.m_num_banks a.m_num_collectors a.m_num_collectors
    a.m_last_cu st1.2 (st1.1, clear_matching a.m_num_collectors a._outmatch) (by omega)
    (Nat.le_refl _)
  obtain ⟨hs1, hs2⟩ := requests_spec a _ _ st1 hr
  have hinit : matching_ok a st1.2 st1.1 (clear_matching a.m_num_collectors a._outmatch) := by
    intro i hi hne hw
    exfalso
    apply hne
    rw [hs1 i, if_neg (by simp [hw]), clear_matching_apply, if_pos hi]
  have hfin := wavefront_ok a _ _ st1.2 _ st2 hwv hinit
  obtain ⟨st3, hc⟩ := collect_total a st2.1 a.m_queue a.m_num_banks (by
    intro i hi hg
    simp only [read_granted, Bool.and_eq_true, decide_eq_true_eq, Bool.not_eq_true'] at hg
    obtain ⟨o, ho1, _, _, ho4⟩ := hfin i hi hg.1 hg.2
    obtain ⟨op, rest, hq, _⟩ := (hs2 i hi o ho1).mp ho4
    exact ⟨op, rest, hq⟩)
  unfold arbiter_t.allocate_reads
  simp only
  rw [hsq, if_neg (by omega), hr]
  simp only
  rw [hwv]
  simp only
  rw [hc]
  exact ⟨_, rfl⟩

theorem diagonal_step_error (I O sq : Nat) (req : Nat → Nat → Int)
    (st : (Nat → Int) × (Nat → Int) × Nat) (input : Nat) (e : Fault)
    (h : diagonal_step I O sq req st input = .error e) : e = .abort := by
  obtain ⟨inm, outm, out⟩ := st
  unfold diagonal_step at h
  simp only at h
  split at h
  · cases h
    rfl
  · split at h
    · cases h
      rfl
    · cases h

theorem diagonal_loop_aborts (I O sq : Nat) (hO : O < sq) (hI : sq ≤ I)
    (req : Nat → Nat → Int) (inm outm : Nat → Int) (x : Nat) :
    (List.range I).foldlM (diagonal_step I O sq req) (inm, outm, x % sq) = .error .abort := by
  cases h : (List.range I).foldlM (diagonal_step I O sq req) (inm, outm, x % sq) with
  | error e =>
    obtain ⟨k, s, _, hs⟩ := foldlM_range_error _ _ _ _ h
    rw [diagonal_step_error I O sq req s k e hs]
  | ok st' =>
    exfalso
    obtain ⟨k0, hk0, hk1⟩ := add_mod_reach sq x 0 (sq - 1) (by omega)
    rw [Nat.add_zero] at hk1
    have hP := foldlM_range_invariant (diagonal_step I O sq req)
      (fun k (st : (Nat → Int) × (Nat → Int) × Nat) => st.2.2 = (x + k) % sq ∧ k ≤ k0)
      (inm, outm, x % sq) ⟨rfl, Nat.zero_le _⟩ I (fun k s s' _ hP hs => by
        obtain ⟨hout, hle⟩ := hP
        obtain ⟨_, hlt, hnext, _⟩ := diagonal_step_spec I O sq req s.1 s.2.1 s.2.2 s' k hs
        have hne : k ≠ k0 := by
          intro hc
          rw [hout, hc, hk1] at hlt
          omega
        refine ⟨?_, by omega⟩
        show s'.2.2 = (x + (k + 1)) % sq
        rw [hnext, hout, Nat.add_mod, Nat.mod_mod, ← Nat.add_mod, Nat.add_assoc]) st' h
    have := hP.2
    omega

theorem foldlM_range_all_error {σ : Type} (f : σ → Nat → Except Fault σ) (s0 : σ) (n : Nat)
    (hn : 0 < n) (e0 : Fault) (hf : ∀ s p, f s p = .error e0) :
    (List.range n).foldlM f s0 = .error e0 := by
  cases h : (List.range n).foldlM f s0 with
  | error e =>
    obtain ⟨k, s, _, hs⟩ := foldlM_range_error f s0 n e h
    rw [hf] at hs
    cases hs
    rfl
  | ok s' =>
    exfalso
    have hP := foldlM_range_invariant f (fun k (_ : σ) => k = 0) s0 rfl n
      (fun k s s' _ _ hs => by
        rw [hf] at hs
        cases hs) s' h
    simp only at hP
    omega

theorem wavefront_aborts (I O sq pri : Nat) (hO : O < sq) (hI : sq ≤ I)
    (req : Nat → Nat → Int) (st : (Nat → Int) × (Nat → Int)) :
    wavefront I O sq pri req st = .error .abort := by
  unfold wavefront
  apply foldlM_range_all_error _ st sq (by omega) .abort
  intro s p
  rw [diagonal_loop_aborts I O sq hO hI req s.1 s.2 (pri + p)]

theorem request_step_error (a : arbiter_t) (st : (Nat → Int) × (Nat → Nat → Int)) (k : Nat)
    (e : Fault)
    (hv : ∀ op rest, a.m_queue k = op :: rest → op.m_oc_id < a.m_num_collectors)
    (h : request_step a st k = .error e) : e = .undefined := by
  unfold request_step at h
  simp only at h
  cases hq : a.m_queue k with
  | nil =>
    rw [hq] at h
    cases h
  | cons op rest =>
    rw [hq] at h
    simp only at h
    have h1 : op.oc_id < (a.m_num_collectors : Int) := by
      have := hv op rest hq
      unfold op_t.oc_id
      split <;> omega
    rw [if_neg (not_not.mpr h1)] at h
    by_cases h2 : op.oc_id < 0
    · rw [if_pos h2] at h
      cases h
      rfl
    · rw [if_neg h2] at h
      cases h

theorem allocate_reads_of_requests_error (a : arbiter_t) (e : Fault)
    (hsq : 0 < (if a.m_num_banks > a.m_num_collectors then a.m_num_banks
      else a.m_num_collectors))
    (h : (List.range a.m_num_banks).foldlM (request_step a)
      (clear_matching a.m_num_banks a._inmatch, a._request) = .error e) :
    a.allocate_reads = .error e := by
  unfold arbiter_t.allocate_reads
  simp only
  rw [if_neg (not_not.mpr hsq), h]

theorem allocate_reads_of_wavefront_error (a : arbiter_t) (e : Fault)
    (st1 : (Nat → Int) × (Nat → Nat → Int))
    (hsq : 0 < (if a.m_num_banks > a.m_num_collectors then a.m_num_banks
      else a.m_num_collectors))
    (h : (List.range a.m_num_banks).foldlM (request_step a)
      (clear_matching a.m_num_banks a._inmatch, a._request) = .ok st1)
    (hw : wavefront a.m_num_banks a.m_num_collectors
      (if a.m_num_banks > a.m_num_collectors then a.m_num_banks else a.m_num_collectors)
      a.m_last_cu st1.2 (st1.1, clear_matching a.m_num_collectors a._outmatch) = .error e) :
    a.allocate_reads = .error e := by
  unfold arbiter_t.allocate_reads
  simp only
  rw [if_neg (not_not.mpr hsq), h]
  simp only
  rw [hw]

theorem example_arbiter_heads (i : Nat) (op : op_t) (rest : List op_t)
    (hq : example_arbiter.m_queue i = op :: rest) : op.m_oc_id < 4 := by
  simp only [example_arbiter] at hq
  split at hq
  · cases hq
    decide
  · split at hq
    · cases hq
      decide
    · split at hq
      · cases hq
        decide
      · cases hq

theorem example_wide_arbiter_heads (i : Nat) (op : op_t) (rest : List op_t)
    (hq : example_wide_arbiter.m_queue i = op :: rest) :
    0 ≤ op.oc_id ∧ op.oc_id < (1 : Int) := by
  simp only [example_wide_arbiter] at hq
  split at hq
  · cases hq
    decide
  · cases hq

/-- C37: the assertions of `arbiter_t::allocate_reads`.  With at least one bank, no
more banks than collector units, the priority pointer below the number of collector
units and every head operand naming a collector id below that number, no assertion
fails; if in addition the number of collector units fits in the `int` that holds it,
the call returns.  With more banks than collector units no call returns: once the
loop over the requests is passed, the wavefront loop aborts at the assertion
`output < _outputs`, whatever the requests are, and so does the call; the loop over
the requests is passed whenever every head operand names a collector unit. -/
theorem allocate_reads_assertions (a : arbiter_t) :
    (1 ≤ a.m_num_banks → a.m_num_banks ≤ a.m_num_collectors →
      a.m_last_cu < a.m_num_collectors →
      (∀ i, i < a.m_num_banks → ∀ op rest, a.m_queue i = op :: rest →
        op.m_oc_id < a.m_num_collectors) →
      a.allocate_reads ≠ .error .abort ∧
        (a.m_num_collectors ≤ 2 ^ 31 → ∃ r, a.allocate_reads = .ok r)) ∧
    (a.m_num_banks > a.m_num_collectors →
      (∀ r, a.allocate_reads ≠ .ok r) ∧
      (∀ st1, (List.range a.m_num_banks).foldlM (request_step a)
          (clear_matching a.m_num_banks a._inmatch, a._request) = .ok st1 →
        wavefront a.m_num_banks a.m_num_collectors a.m_num_banks a.m_last_cu st1.2
            (st1.1, clear_matching a.m_num_collectors a._outmatch) = .error .abort ∧
          a.allocate_reads = .error .abort) ∧
      ((∀ i, i < a.m_num_banks → ∀ op rest, a.m_queue i = op :: rest →
          0 ≤ op.oc_id ∧ op.oc_id < (a.m_num_collectors : Int)) →
        a.allocate_reads = .error .abort)) := by
  constructor
  · intro h1 hle _ hv
    have hsq : 0 < (if a.m_num_banks > a.m_num_collectors then a.m_num_banks
        else a.m_num_collectors) := by
      rw [if_neg (by omega)]
      omega
    constructor
    · cases hr : (List.range a.m_num_banks).foldlM (request_step a)
          (clear_matching a.m_num_banks a._inmatch, a._request) with
      | error e =>
        obtain ⟨k, s, hk, hs⟩ := foldlM_range_error _ _ _ _ hr
        have he := request_step_error a s k e (hv k hk) hs
        rw [allocate_reads_of_requests_error a e hsq hr, he]
        intro hc
        cases hc
      | ok st1 =>
        obtain ⟨r, hok⟩ := allocate_reads_total a h1 hle (requests_heads a _ st1 hr)
        rw [hok]
        intro hc
        cases hc
    · intro hint
      apply allocate_reads_total a h1 hle
      intro i hi op rest hq
      have := hv i hi op rest hq
      unfold op_t.oc_id
      rw [if_pos (by omega)]
      omega
  · intro hgt
    have hsq : (if a.m_num_banks > a.m_num_collectors then a.m_num_banks
        else a.m_num_collectors) = a.m_num_banks := if_pos hgt
    have hpos : 0 < (if a.m_num_banks > a.m_num_collectors then a.m_num_banks
        else a.m_num_collectors) := by
      rw [hsq]
      omega
    have hab : ∀ st1, (List.range a.m_num_banks).foldlM (request_step a)
          (clear_matching a.m_num_banks a._inmatch, a._request) = .ok st1 →
        wavefront a.m_num_banks a.m_num_collectors a.m_num_banks a.m_last_cu st1.2
            (st1.1, clear_matching a.m_num_collectors a._outmatch) = .error .abort ∧
          a.allocate_reads = .error .abort := by
      intro st1 hr
      have hw := wavefront_aborts a.m_num_banks a.m_num_collectors a.m_num_banks a.m_last_cu
        hgt (Nat.le_refl _) st1.2 (st1.1, clear_matching a.m_num_collectors a._outmatch)
      refine ⟨hw, allocate_reads_of_wavefront_error a .abort st1 hpos hr ?_⟩
      rw [hsq]
      exact hw
    refine ⟨?_, hab, ?_⟩
    · intro r hc
      cases hr : (List.range a.m_num_banks).foldlM (request_step a)
          (clear_matching a.m_num_banks a._inmatch, a._request) with
      | error e =>
        rw [allocate_reads_of_requests_error a e hpos hr] at hc
        cases hc
      | ok st1 =>
        rw [(hab st1 hr).2] at hc
        cases hc
    · intro hv
      obtain ⟨st1, hr⟩ := requests_total a
        (clear_matching a.m_num_banks a._inmatch, a._request) hv
      exact (hab st1 hr).2

/-- Witness for `allocate_reads_assertions`: the call returns for `example_arbiter`,
which has four banks and four collector units, and aborts for
`example_wide_arbiter`, which has two banks and one collector unit. -/
theorem allocate_reads_assertions_witness :
    (example_arbiter.allocate_reads ≠ .error .abort ∧
      ∃ r, example_arbiter.allocate_reads = .ok r) ∧
    example_wide_arbiter.allocate_reads = .error .abort :=
  ⟨⟨((allocate_reads_assertions example_arbiter).1 (by decide) (by decide) (by decide)
        (fun i _ op rest hq => example_arbiter_heads i op rest hq)).1,
      ((allocate_reads_assertions example_arbiter).1 (by decide) (by decide) (by decide)
        (fun i _ op rest hq => example_arbiter_heads i op rest hq)).2 (by decide)⟩,
    ((allocate_reads_assertions example_wide_arbiter).2 (by decide)).2.2
      (fun i _ op rest hq => example_wide_arbiter_heads i op rest hq)⟩

/-! ## Translation of local-memory addresses -/

theorem select_flag_length {α : Type} :
    ∀ (l : List α) (bs : List Bool), bs.length = l.length →
      (select_flag false l bs).length + (select_flag true l bs).length = l.length := by
  intro l
  induction l with
  | nil =>
    intro bs _
    cases bs <;> rfl
  | cons x xs ih =>
    intro bs h
    cases bs with
    | nil => cases h
    | cons f fs =>
      have := ih fs (by simpa using h)
      cases f <;> simp [select_flag] <;> omega

theorem select_flag_perm {α : Type} :
    ∀ (l : List α) (bs : List Bool), bs.length = l.length →
      (select_flag false l bs ++ select_flag true l bs).Perm l := by
  intro l
  induction l with
  | nil =>
    intro bs _
    cases bs <;> exact List.Perm.refl _
  | cons x xs ih =>
    intro bs h
    cases bs with
    | nil => cases h
    | cons f fs =>
      have := ih fs (by simpa using h)
      cases f
      · simp only [select_flag, if_true, Bool.false_eq_true, if_false, List.cons_append]
        exact List.Perm.cons x this
      · simp only [select_flag, if_true, Bool.true_eq_false, if_false]
        exact List.perm_middle.trans (List.Perm.cons x this)

theorem demote_flags_length {σ : Type} (env : two_level_env σ) (sb : Scoreboard) :
    ∀ (l : List (Option Nat)) (core : σ) (bs : List Bool),
      demote_flags env sb l core = .ok bs → bs.length = l.length := by
  intro l
  induction l with
  | nil =>
    intro core bs h
    unfold demote_flags at h
    cases h
    rfl
  | cons p rest ih =>
    intro core bs h
    rw [demote_flags] at h
    split at h
    · cases h
    · split at h
      · cases h
      · next bs' h2 =>
        cases h
        simp [ih _ _ h2]

theorem demote_loop_spec {σ : Type} (env : two_level_env σ) (sb : Scoreboard) :
    ∀ (l : List (Option Nat)) (core : σ) (kept pending : List (Option Nat)) (n : Nat)
      (bs : List Bool), n + l.length < 4294967296 → demote_flags env sb l core = .ok bs →
      ∃ core', demote_loop env sb l core kept pending n =
        .ok (core', kept ++ select_flag false l bs, pending ++ select_flag true l bs,
          n + (select_flag true l bs).length) := by
  intro l
  induction l with
  | nil =>
    intro core kept pending n bs _ h
    unfold demote_flags at h
    cases h
    exact ⟨core, by simp [demote_loop, select_flag]⟩
  | cons p rest ih =>
    intro core kept pending n bs hn h
    rw [List.length_cons] at hn
    rw [demote_flags] at h
    rw [demote_loop]
    cases ht : demote_test env sb core p with
    | error e =>
      rw [ht] at h
      cases h
    | ok r =>
      obtain ⟨b, core1⟩ := r
      rw [ht] at h
      simp only at h
      cases hf : demote_flags env sb rest core1 with
      | error e =>
        rw [hf] at h
        cases h
      | ok bs' =>
        rw [hf] at h
        cases h
        cases b with
        | true =>
          simp only
          rw [Nat.mod_eq_of_lt (by omega)]
          obtain ⟨core', hc⟩ := ih core1 kept (pending ++ [p]) (n + 1) bs' (by omega) hf
          refine ⟨core', ?_⟩
          rw [hc]
          simp [select_flag]
          omega
        | false =>
          simp only
          obtain ⟨core', hc⟩ := ih core1 (kept ++ [p]) pending n bs' (by omega) hf
          refine ⟨core', ?_⟩
          rw [hc]
          simp [select_flag]

theorem promote_loop_spec (max : Nat) :
    ∀ (fuel : Nat) (a p : List (Option Nat)) (n : Nat), a.length + fuel = max →
      fuel ≤ p.length → n + fuel < 4294967296 →
      promote_loop max fuel a p n = .ok (a ++ p.take fuel, p.drop fuel, n + fuel) := by
  intro fuel
  induction fuel with
  | zero =>
    intro a p n _ _ _
    simp [promote_loop]
  | succ fuel ih =>
    intro a p n ha hp hn
    unfold promote_loop
    rw [if_pos (by omega)]
    cases p with
    | nil => simp at hp
    | cons x rest =>
      simp only
      rw [Nat.mod_eq_of_lt (by omega),
        ih (a ++ [x]) rest (n + 1) (by rw [List.length_append, List.length_singleton]; omega)
          (by simpa using hp) (by omega)]
      simp
      omega

theorem longop_step_spec {σ : Type} (env : two_level_env σ) (sb : Scoreboard) (core : σ)
    (w : Nat) (b0 b1 : Bool) (i : Fin 4) (h : longop_step env sb core w b0 i = .ok b1) :
    b1 = true ↔ b0 = true ∨ ∃ inst, env.ibuffer_next_inst core w = some inst ∧
      0 < inst.in_ i ∧ sb.islongop (env.get_warp_id core w) (inst.in_ i) = .ok true := by
  unfold longop_step at h
  cases hi : env.ibuffer_next_inst core w with
  | none =>
    rw [hi] at h
    cases h
    simp
  | some inst =>
    rw [hi] at h
    simp only at h
    by_cases hpos : inst.in_ i > 0
    · rw [if_pos hpos] at h
      cases hl : sb.islongop (env.get_warp_id core w) (inst.in_ i) with
      | error e =>
        rw [hl] at h
        cases h
      | ok b =>
        rw [hl] at h
        cases h
        constructor
        · intro hb
          rcases Bool.or_eq_true_iff.mp hb with hb | hb
          · exact Or.inl hb
          · exact Or.inr ⟨inst, rfl, hpos, by rw [hl, hb]⟩
        · rintro (hb | ⟨inst', he, _, hl'⟩)
          · simp [hb]
          · cases he
            rw [hl] at hl'
            cases hl'
            simp
    · rw [if_neg hpos] at h
      cases h
      constructor
      · exact Or.inl
      · rintro (hb | ⟨inst', he, hp', _⟩)
        · exact hb
        · cases he
          exact absurd hp' hpos

theorem longop_fold_spec {σ : Type} (env : two_level_env σ) (sb : Scoreboard) (core : σ)
    (w : Nat) :
    ∀ (l : List (Fin 4)) (b0 b : Bool), l.foldlM (longop_step env sb core w) b0 = .ok b →
      (b = true ↔ b0 = true ∨ ∃ i ∈ l, ∃ inst, env.ibuffer_next_inst core w = some inst ∧
        0 < inst.in_ i ∧ sb.islongop (env.get_warp_id core w) (inst.in_ i) = .ok true) := by
  intro l
  induction l with
  | nil =>
    intro b0 b h
    have : b0 = b := by simpa [pure, Except.pure] using h
    subst this
    simp
  | cons i l ih =>
    intro b0 b h
    rw [List.foldlM_cons] at h
    cases hs : longop_step env sb core w b0 i with
    | error e =>
      rw [hs] at h
      cases h
    | ok b1 =>
      rw [hs] at h
      have h1 := longop_step_spec env sb core w b0 b1 i hs
      have h2 := ih b1 b h
      rw [h2, h1]
      constructor
      · rintro ((hb | hx) | ⟨j, hj, hx⟩)
        · exact Or.inl hb
        · exact Or.inr ⟨i, List.mem_cons_self _ _, hx⟩
        · exact Or.inr ⟨j, List.mem_cons_of_mem _ hj, hx⟩
      · rintro (hb | ⟨j, hj, hx⟩)
        · exact Or.inl (Or.inl hb)
        · rcases List.mem_cons.mp hj with hj | hj
          · subst hj
            exact Or.inl (Or.inr hx)
          · exact Or.inr ⟨j, hj, hx⟩

theorem demote_test_spec {σ : Type} (env : two_level_env σ) (sb : Scoreboard) (core core' : σ)
    (w : Nat) (b : Bool) (h : demote_test env sb core (some w) = .ok (b, core')) :
    core' = (env.waiting core w).2 ∧
      (b = true ↔ (env.waiting core w).1 = true ∨
        ∃ (inst : inst_t) (i : Fin 4), env.ibuffer_next_inst core' w = some inst ∧
          0 < inst.in_ i ∧ sb.islongop (env.get_warp_id core' w) (inst.in_ i) = .ok true) := by
  unfold demote_test at h
  simp only at h
  split at h
  · cases h
  · next waiting hf =>
    cases h
    refine ⟨rfl, ?_⟩
    rw [longop_fold_spec env sb _ w _ _ _ hf]
    constructor
    · rintro (hb | ⟨i, _, inst, hx⟩)
      · exact Or.inl hb
      · exact Or.inr ⟨inst, i, hx⟩
    · rintro (hb | ⟨inst, i, hx⟩)
      · exact Or.inl hb
      · exact Or.inr ⟨i, List.mem_finRange i, inst, hx⟩

/-- C40: conservation in `two_level_active_scheduler::order_warps` with the outer
prioritization `SCHEDULER_PRIORITIZATION_SRR`.  If the active list holds exactly
`m_max_active_warps` warps on entry and the demotion tests run without a fault, with
the results `flags`, then the call returns: no element is taken from an empty pending
queue and the final assertion `num_promoted == num_demoted` holds.  Afterwards the
active list is the warps that were not demoted followed by as many warps from the
front of the pending queue (extended by the demoted warps) as were demoted, it holds
exactly `m_max_active_warps` warps again, and the active list followed by the pending
queue is a permutation of what it was before.  The test demotes a warp exactly when
it is waiting or when, for one of the four inputs of its next instruction, the
register is positive and a long operation of the warp is pending on it. -/
theorem two_level_conservation {σ : Type} (env : two_level_env σ) (sb : Scoreboard)
    (m_max_active_warps : Nat) (core : σ) (active pending : List (Option Nat))
    (flags : List Bool)
    (hlen : active.length = m_max_active_warps) (hmax : m_max_active_warps < 4294967296)
    (hflags : demote_flags env sb active core = .ok flags) :
    (∃ core', two_level_order_warps env sb .SCHEDULER_PRIORITIZATION_SRR m_max_active_warps
        core active pending =
      .ok (core',
        select_flag false active flags ++
          (pending ++ select_flag true active flags).take (select_flag true active flags).length,
        (pending ++ select_flag true active flags).drop
          (select_flag true active flags).length)) ∧
    (select_flag false active flags ++
      (pending ++ select_flag true active flags).take
        (select_flag true active flags).length).length = m_max_active_warps ∧
    ((select_flag false active flags ++
        (pending ++ select_flag true active flags).take
          (select_flag true active flags).length) ++
      (pending ++ select_flag true active flags).drop
        (select_flag true active flags).length).Perm (active ++ pending) ∧
    ∀ (c c' : σ) (w : Nat) (b : Bool), demote_test env sb c (some w) = .ok (b, c') →
      (b = true ↔ (env.waiting c w).1 = true ∨
        ∃ (inst : inst_t) (i : Fin 4), env.ibuffer_next_inst c' w = some inst ∧
          0 < inst.in_ i ∧ sb.islongop (env.get_warp_id c' w) (inst.in_ i) = .ok true) := by
  have hl := demote_flags_length env sb active core flags hflags
  have hsum := select_flag_length active flags hl
  obtain ⟨core', hd⟩ := demote_loop_spec env sb active core [] pending 0 flags (by omega) hflags
  rw [List.nil_append, Nat.zero_add] at hd
  have hp := promote_loop_spec m_max_active_warps (select_flag true active flags).length
    (select_flag false active flags) (pending ++ select_flag true active flags) 0
    (by omega) (by rw [List.length_append]; omega) (by omega)
  rw [Nat.zero_add] at hp
  have hfuel : m_max_active_warps - (select_flag false active flags).length =
      (select_flag true active flags).length := by omega
  refine ⟨⟨core', ?_⟩, ?_, ?_, ?_⟩
  · unfold two_level_order_warps
    rw [hd]
    simp only
    rw [if_pos trivial, hfuel, hp]
    simp
  · rw [List.length_append, List.length_take, List.length_append]
    omega
  · rw [List.append_assoc, List.take_append_drop]
    refine (List.Perm.append_left _ List.perm_append_comm).trans ?_
    rw [← List.append_assoc]
    exact List.Perm.append_right _ (select_flag_perm active flags hl)
  · intro c c' w b h
    exact (demote_test_spec env sb c c' w b h).2

/-- Witness for `two_level_conservation`: of the active warps 0, 1 and 2, warp 1 is
waiting and warp 2 reads register 5, on which a long operation is pending; they are
demoted, and warp 3 and warp 1 are promoted from the pending queue. -/
theorem two_level_conservation_witness :
    (∃ core', two_level_order_warps example_two_level_env
        (Scoreboard.mk [[], [], []] [[], [], [5]]) .SCHEDULER_PRIORITIZATION_SRR 3 ()
        [some 0, some 1, some 2] [some 3] =
      .ok (core', [some 0, some 3, some 1], [some 2])) ∧
    [some 0, some 3, some 1].length = 3 ∧
    ([some 0, some 3, some 1] ++ [some 2]).Perm ([some 0, some 1, some 2] ++ [some 3]) :=
  have h := two_level_conservation example_two_level_env
    (Scoreboard.mk [[], [], []] [[], [], [5]]) 3 () [some 0, some 1, some 2] [some 3]
    [false, true, true] rfl (by decide) (by decide)
  ⟨h.1, h.2.1, h.2.2.1⟩

end GpgpuSim
